import Mathlib

/-!
# QuickRank: NDCG and RMSE scorers, regression tree fitter, line-search ranker

A shallow embedding of

* `src/metric/ndcgscorer.hpp` (`compute_dcg`, `compute_idcg`, `ndcgscorer`),
* `src/metric/ir/rmse.cc` (`Rmse`),
* `src/learning/tree/rt.cc` (`DevianceMaxHeap`, `RegressionTree`),
* `src/learning/linear/line_search.cc` (`LineSearch`),

followed by the properties proved about it.

Conventions of the embedding.

* `double` and `float` values are read as exact numbers.  The NDCG and RMSE definitions are
  generic in a linearly ordered field `α` and take the logarithm or the square root as an
  argument (instantiated at `ℝ` with the real `log2` and `sqrt`); the tree fitter and the line
  search compute over `ℚ`.  Rounding, infinities and NaN are outside the embedding, with one
  exception: the scan of `split` compares computed scores to choose a candidate, so it is also
  embedded with the rounding of every `double` operation as a parameter (`scan_threshold_fl`,
  `best_split_fl`, `split_choice`); `scan_threshold` and `best_split` are the instances
  without rounding.
* `unsigned int` values are natural numbers; a subtraction that can wrap is written with
  an explicit `% 2 ^ 32`.
* Pointers to tree nodes are indices into an arena of nodes.
* Loops are folds over `List.range` or recursive functions that follow the loop.
-/

set_option linter.unusedVariables false

/-! ## Part I. Definitions -/

/-! ### `src/metric/ndcgscorer.hpp` -/

/-- Value of a 32-bit two's complement `int` holding the bit pattern `n % 2 ^ 32`. -/
def toInt32 (n : Nat) : Int :=
  if n % 2 ^ 32 < 2 ^ 31 then ((n % 2 ^ 32 : Nat) : Int) else ((n % 2 ^ 32 : Nat) : Int) - 2 ^ 32

/-- The source's `#define POWEROFTWO(p) ((double)(1<<((int)(p))))`: a left shift of the `int`
constant one, converted to `double`.  Labels are integers stored in `double`s, so the
conversion `(int)(p)` is the identity on them. -/
def POWEROFTWO {α : Type} [LinearOrderedField α] (p : Nat) : α :=
  ((toInt32 (1 <<< p) : Int) : α)

/-- The source's `compute_dcg(labels, nlabels, k)`.  `log2` is the library function of
`<cmath>`, a parameter of the embedding. -/
def compute_dcg {α : Type} [LinearOrderedField α] (log2 : α → α)
    (labels : List Nat) (nlabels k : Nat) : α :=
  let size := if k = 0 ∨ k > nlabels then nlabels else k
  (List.range size).foldl
    (fun dcg i => dcg + (POWEROFTWO (labels.getD i 0) - 1) / log2 ((i : α) + 2)) 0

/-- Modelled from the spec: `double_qsort` of `utils/qsort.hpp` is not among the sources; the
spec says the ideal DCG is the DCG of the labels "sorted descending".  The model is insertion
sort into non-increasing order. -/
def double_qsort (labels : List Nat) : List Nat :=
  labels.insertionSort (fun a b => b ≤ a)

/-- The source's `compute_idcg(labels, nlabels, k)`: sort a copy, then `compute_dcg`. -/
def compute_idcg {α : Type} [LinearOrderedField α] (log2 : α → α)
    (labels : List Nat) (nlabels k : Nat) : α :=
  let copyoflabels := double_qsort (labels.take nlabels)
  compute_dcg log2 copyoflabels nlabels k

namespace ndcgscorer

/-- The source's `ndcgscorer::compute_score(ql)` for a scorer constructed with cutoff `k`;
the query list `ql` is given by its labels in rank order (`ql.size = labels.length`). -/
def compute_score {α : Type} [LinearOrderedField α] (log2 : α → α) (k : Nat)
    (labels : List Nat) : α :=
  if labels.length = 0 then -1
  else
    let size := if k < labels.length then k else labels.length
    let idcg := compute_idcg log2 labels labels.length size
    if idcg > 0 then compute_dcg log2 labels labels.length size / idcg else 0

end ndcgscorer

/-- The formula of the specification for DCG at an effective cutoff `k'`:
the sum over `i < k'` of `(2 ^ y[i] - 1) / log2 (i + 2)`. -/
def dcgFormula {α : Type} [LinearOrderedField α] (log2 : α → α) (y : List Nat) (k' : Nat) : α :=
  ∑ i in Finset.range k', ((2 : α) ^ (y.getD i 0) - 1) / log2 ((i : α) + 2)

/-- The per-query score of the specification at an effective cutoff `k'`:
`DCG / IDCG` when `IDCG > 0` and `0` otherwise, `IDCG` being the DCG formula on the labels
sorted in descending order. -/
def ndcgFormula {α : Type} [LinearOrderedField α] (log2 : α → α) (y : List Nat) (k' : Nat) : α :=
  if 0 < dcgFormula log2 (double_qsort y) k' then
    dcgFormula log2 y k' / dcgFormula log2 (double_qsort y) k'
  else 0

namespace ndcgscorer

/-- Modelled from the spec: `fsymmatrix` (the symmetric matrix class) is not among the sources;
the spec says the swap matrix is symmetric with the "upper triangle stored".  A matrix of size
`n` is the list of its rows `i < n`, row `i` holding the entries `(i, i+1) .. (i, n-1)`; a new
matrix holds zeros, and `vectat(i, i+1)` addresses the start of row `i`.  `entry m i j` reads
the stored entry for `i < j`. -/
def entry {α : Type} [LinearOrderedField α] (m : List (List α)) (i j : Nat) : α :=
  (m.getD i []).getD (j - (i + 1)) 0

/-- The source's `ndcgscorer::swap_change(ql)` for a scorer constructed with cutoff `k`: rows
`i < size` receive, for every `j` from `i + 1` to `ql.size - 1`, the value
`(1/log2(i+2) - 1/log2(j+2)) * (pow(2, y[i]) - pow(2, y[j])) / idcg`; they are written only
when `idcg > 0`, every other entry keeps its initial zero. -/
def swap_change {α : Type} [LinearOrderedField α] (log2 : α → α) (k : Nat)
    (labels : List Nat) : List (List α) :=
  let size := if k < labels.length then k else labels.length
  let idcg := compute_idcg log2 labels labels.length size
  (List.range labels.length).map (fun i =>
    (List.range (labels.length - (i + 1))).map (fun d =>
      if idcg > 0 ∧ i < size then
        (1 / log2 ((i + 2 : Nat) : α) - 1 / log2 ((i + 1 + d + 2 : Nat) : α)) *
          ((2 : α) ^ (labels.getD i 0) - (2 : α) ^ (labels.getD (i + 1 + d) 0)) / idcg
      else 0))

end ndcgscorer

namespace LineSearch

/-- Modelled from the spec: the class `data::Dataset` is not among the sources; the spec
describes a row-major ("horizontal") feature matrix, so `at(s, f)` addresses
`data[s * num_features + f]`.  Labels and query boundaries are read only by the metric and are
part of the scorer parameter. -/
structure Dataset where
  num_features : Nat
  num_instances : Nat
  data : List ℚ

/-- The value `dataset->at(s, f)[0]`. -/
def Dataset.feature_at (d : Dataset) (s f : Nat) : ℚ :=
  d.data.getD (s * d.num_features + f) 0

/-- The type of `scorer->evaluate_dataset(dataset, scores)`: the metric of a dataset for a
vector of scores, larger is better.  The metric is a parameter of `learn`. -/
abbrev Metric := Dataset → List ℚ → ℚ

/-- The data members of `LineSearch` set by its constructor. -/
structure Config where
  num_points_ : Nat
  window_size_ : ℚ
  reduction_factor_ : ℚ
  max_iterations_ : Nat
  max_failed_vali_ : Nat
  adaptive_ : Bool

/-- The local variables of `LineSearch::learn` that live across iterations, together with the
member `best_weights_`. -/
structure State where
  weights : List ℚ
  weights_prev : List ℚ
  best_weights_ : List ℚ
  best_metric_on_training : ℚ
  best_metric_on_validation : ℚ
  metric_scores : List ℚ
  validation_score : List ℚ
  window_size : ℚ
  count_failed_vali : Nat
  gain_on_training : ℚ
  cur_reduction_factor : ℚ
  metric_on_validation : ℚ

/-- How an iteration of the main loop of `learn` ends: it falls through to the next one, or
leaves the loop through the `break` of the validation check or the `break` of the window
check. -/
inductive Exit where
  | next
  | break_validation
  | break_window
  deriving DecidableEq, Repr

/-- The source's `LineSearch::score`: `scores[s]` is the inner product of the weights with
row `s` of the flat row-major array. -/
def score (dataset : List ℚ) (num_samples num_features : Nat) (weights : List ℚ) : List ℚ :=
  (List.range num_samples).map (fun s =>
    (List.range num_features).foldl
      (fun acc f => acc + weights.getD f 0 * dataset.getD (s * num_features + f) 0) 0)

/-- The source's `LineSearch::preCompute`, its result `pre_sum`: the full inner product minus
the term of the excluded feature.  (The routine also leaves the full inner products in the
first column of `training_score`; every column is rewritten before it is read.) -/
def preCompute (dataset : List ℚ) (num_samples num_features : Nat) (weights : List ℚ)
    (feature_exclude : Nat) : List ℚ :=
  (List.range num_samples).map (fun s =>
    (List.range num_features).foldl
      (fun acc f => acc + weights.getD f 0 * dataset.getD (s * num_features + f) 0) 0
    - weights.getD feature_exclude 0 * dataset.getD (s * num_features + feature_exclude) 0)

/-- The loop `for (point = ...; point <= hi; point += step1) if (point >= 0) push_back(point)`
from a current value of `point`, for a positive step. -/
def pointsFrom (hi step : ℚ) (hstep : 0 < step) (point : ℚ) : List ℚ :=
  if h : point ≤ hi then
    (if 0 ≤ point then [point] else []) ++ pointsFrom hi step hstep (point + step)
  else []
termination_by (⌊(hi - point) / step⌋ + 1).toNat
decreasing_by
  have h1 : (hi - (point + step)) / step = (hi - point) / step - 1 := by
    field_simp; ring
  have h2 : 0 ≤ (hi - point) / step := div_nonneg (by linarith) hstep.le
  have h3 : 0 ≤ ⌊(hi - point) / step⌋ := Int.floor_nonneg.mpr h2
  rw [h1, Int.floor_sub_one]
  omega

/-- The candidate list `points` built for one feature in Step 1, from
`weights_prev[f] - window_size` up to `weights_prev[f] + window_size` in steps of `step1`.
With a step that is not positive the source loop never leaves a non-empty range: `none`. -/
def points (weight_prev window_size step1 : ℚ) : Option (List ℚ) :=
  if h : 0 < step1 then
    some (pointsFrom (weight_prev + window_size) step1 h (weight_prev - window_size))
  else if weight_prev - window_size ≤ weight_prev + window_size then none
  else some []

/-- The algorithm of `std::max_element` on the first `len` entries of `xs`: the index of the
first largest entry (index `0` for an empty range). -/
def max_element (xs : List ℚ) (len : Nat) : Nat :=
  (List.range' 1 (len - 1)).foldl
    (fun largest i => if xs.getD largest 0 < xs.getD i 0 then i else largest) 0

/-- Step 1 of an iteration for one feature `f`: score every candidate point, store the
metrics in `metric_scores[0 .. points.size())`, and move `weights[f]` to the best point when
its metric exceeds `best_metric_on_training`. -/
def step1_feature (training_dataset : Dataset) (scorer : Metric) (step1 : ℚ)
    (st : State) (f : Nat) : Option State :=
  let num_features := training_dataset.num_features
  let num_train_instances := training_dataset.num_instances
  let pre_sum := preCompute training_dataset.data num_train_instances num_features
    st.weights_prev f
  match points (st.weights_prev.getD f 0) st.window_size step1 with
  | none => none
  | some pts =>
    let metric_scores := (List.range pts.length).foldl
      (fun ms p => ms.set p (scorer training_dataset
        ((List.range num_train_instances).map (fun s =>
          pts.getD p 0 * training_dataset.feature_at s f + pre_sum.getD s 0))))
      st.metric_scores
    let p := max_element metric_scores pts.length
    if metric_scores.getD p 0 > st.best_metric_on_training then
      some { st with metric_scores := metric_scores, weights := st.weights.set f (pts.getD p 0) }
    else
      some { st with metric_scores := metric_scores }

/-- Step 1 of an iteration: the loop over the features `f = 0 .. num_features - 1`.  With
`num_points = 0` the source divides by zero (`step1 = 2 * window_size / num_points`, then
`step2`), which gives an infinite or undefined `double`; the exact-arithmetic embedding does
not represent these values and stops with `none`. -/
def step1 (training_dataset : Dataset) (scorer : Metric) (num_points : Nat)
    (st : State) : Option State :=
  if num_points = 0 then none
  else
    let step1 := 2 * st.window_size / (num_points : ℚ)
    (List.range training_dataset.num_features).foldl
      (fun acc f => acc.bind (fun s => step1_feature training_dataset scorer step1 s f))
      (some st)

/-- The vector `step2` of Step 2: `(weights[f] - weights_prev[f]) / num_points`. -/
def step2_vector (num_points : Nat) (weights weights_prev : List ℚ) : List ℚ :=
  List.zipWith (fun curr prev => (curr - prev) / (num_points : ℚ)) weights weights_prev

/-- The score column of point `p` in Step 2: for every training instance the inner product of
`weights_prev + p * step2` with its features. -/
def step2_column (training_dataset : Dataset) (weights_prev step2 : List ℚ) (p : Nat) : List ℚ :=
  (List.range training_dataset.num_instances).map (fun s =>
    (List.range training_dataset.num_features).foldl
      (fun score f => score +
        (weights_prev.getD f 0 + step2.getD f 0 * (p : ℚ)) * training_dataset.feature_at s f) 0)

/-- Step 2 of an iteration: the joint search between `weights_prev` and `weights`. -/
def step2 (training_dataset : Dataset) (scorer : Metric) (num_points : Nat)
    (st : State) : State :=
  let step2 := step2_vector num_points st.weights st.weights_prev
  let zeros := step2.all (fun s => decide (s = 0))
  if zeros then { st with gain_on_training := 0 }
  else
    let metric_scores := (List.range (num_points + 1)).foldl
      (fun ms p => ms.set p (scorer training_dataset
        (step2_column training_dataset st.weights_prev step2 p)))
      st.metric_scores
    let p := max_element metric_scores metric_scores.length
    if metric_scores.getD p 0 > st.best_metric_on_training then
      let weights := (List.range training_dataset.num_features).foldl
        (fun w f => w.set f (st.weights_prev.getD f 0 + step2.getD f 0 * (p : ℚ))) st.weights
      { st with
        metric_scores := metric_scores
        weights := weights
        gain_on_training := metric_scores.getD p 0 - st.best_metric_on_training
        best_metric_on_training := metric_scores.getD p 0
        weights_prev := weights }
    else { st with metric_scores := metric_scores, gain_on_training := 0 }

/-- The reduction factor of the iteration (`cur_reduction_factor`). -/
def reduction (cfg : Config) (gain_on_training : ℚ) : ℚ :=
  if cfg.adaptive_ then
    let max_gain : ℚ := 5 / 1000
    let relative_gain := min ((gain_on_training - max_gain) / max_gain) 1
    cfg.reduction_factor_ * (1 + max relative_gain (-1 / 2))
  else cfg.reduction_factor_

/-- The validation scores of an iteration: `validation_score[s]` receives the inner product
of `weights` with row `s` of the validation set for every `s` below its number of
instances; the buffer keeps the size it was given. -/
def validation_scores (validation_dataset : Dataset) (weights : List ℚ)
    (validation_score : List ℚ) : List ℚ :=
  (List.range validation_dataset.num_instances).foldl
    (fun buf s => buf.set s
      ((List.range weights.length).foldl
        (fun acc f => acc + weights.getD f 0 * validation_dataset.feature_at s f) 0))
    validation_score

/-- The part of an iteration after Step 2: the reduction factor, the validation check with its
`break`, the window update and the window `break`. -/
def finish (cfg : Config) (validation_dataset : Option Dataset) (scorer : Metric)
    (st : State) : State × Exit :=
  let st := { st with cur_reduction_factor := reduction cfg st.gain_on_training }
  let shrink : State → State × Exit := fun s =>
    let s := { s with window_size := s.window_size * s.cur_reduction_factor }
    if cfg.adaptive_ ∧ s.window_size < 1 / 100 then (s, Exit.break_window) else (s, Exit.next)
  match validation_dataset with
  | none => shrink st
  | some vd =>
    let validation_score := validation_scores vd st.weights st.validation_score
    let metric_on_validation := scorer vd validation_score
    let st := { st with validation_score := validation_score
                        metric_on_validation := metric_on_validation }
    if metric_on_validation > st.best_metric_on_validation then
      shrink { st with count_failed_vali := 0
                       best_metric_on_validation := metric_on_validation
                       best_weights_ := st.weights }
    else
      let st := { st with count_failed_vali := st.count_failed_vali + 1 }
      if st.count_failed_vali ≥ cfg.max_failed_vali_ then (st, Exit.break_validation)
      else shrink st

/-- The value of the local `num_points`: `num_points_`, decremented when odd. -/
def even_points (cfg : Config) : Nat :=
  if cfg.num_points_ % 2 > 0 then cfg.num_points_ - 1 else cfg.num_points_

/-- One iteration of the main loop of `learn`: Step 1, Step 2, then the validation and window
bookkeeping.  `none` when the iteration leaves the embedding: a division by `num_points = 0`,
or a candidate loop of Step 1 that does not terminate. -/
def iteration (cfg : Config) (training_dataset : Dataset) (validation_dataset : Option Dataset)
    (scorer : Metric) (st : State) : Option (State × Exit) :=
  match step1 training_dataset scorer (even_points cfg) st with
  | none => none
  | some s1 =>
    some (finish cfg validation_dataset scorer
      (step2 training_dataset scorer (even_points cfg) s1))

/-- The main loop `for (i = 0; i < max_iterations_; i++)` with `n` iterations still to go:
the list of the states reached at the end of each executed iteration, each with the way the
iteration ended.  The loop stops after an iteration that ends in a `break`. -/
def iterations (cfg : Config) (training_dataset : Dataset) (validation_dataset : Option Dataset)
    (scorer : Metric) : Nat → State → Option (List (State × Exit))
  | 0, _ => some []
  | n + 1, st =>
    match iteration cfg training_dataset validation_dataset scorer st with
    | none => none
    | some (s, Exit.next) =>
      (iterations cfg training_dataset validation_dataset scorer n s).map (fun l => (s, Exit.next) :: l)
    | some (s, e) => some [(s, e)]

/-- The state of `learn` when the main loop is entered: weights all one, the metrics of the
starting weights, the window of the configuration. -/
def initial (cfg : Config) (training_dataset : Dataset) (validation_dataset : Option Dataset)
    (scorer : Metric) : State :=
  let num_features := training_dataset.num_features
  let num_train_instances := training_dataset.num_instances
  let weights := List.replicate num_features (1 : ℚ)
  let training_score := score training_dataset.data num_train_instances num_features weights
  let validation_score : List ℚ :=
    match validation_dataset with
    | none => []
    | some vd =>
      (List.range vd.num_instances).foldl
        (fun buf s => buf.set s
          ((score vd.data vd.num_instances num_features weights).getD s 0))
        (List.replicate num_train_instances 0)
  { weights := weights
    weights_prev := weights
    best_weights_ := weights
    best_metric_on_training := scorer training_dataset training_score
    best_metric_on_validation :=
      match validation_dataset with
      | none => 0
      | some vd => scorer vd validation_score
    metric_scores := List.replicate (even_points cfg + 1) 0
    validation_score := validation_score
    window_size := cfg.window_size_
    count_failed_vali := 0
    gain_on_training := 0
    cur_reduction_factor := cfg.reduction_factor_
    metric_on_validation := 0 }

/-- The state in which the main loop of `learn` is left: the state of the last executed
iteration, or the entry state when no iteration ran. -/
def last_state (st : State) (trace : List (State × Exit)) : State :=
  match trace.getLast? with
  | none => st
  | some (s, _) => s

/-- The source's `LineSearch::learn`: the final state, whose `best_weights_` is the learned
model.  Without a validation set `best_weights_` is overwritten by the final `weights`. -/
def learn (cfg : Config) (training_dataset : Dataset) (validation_dataset : Option Dataset)
    (scorer : Metric) : Option State :=
  let st := initial cfg training_dataset validation_dataset scorer
  match iterations cfg training_dataset validation_dataset scorer cfg.max_iterations_ st with
  | none => none
  | some trace =>
    let s := last_state st trace
    match validation_dataset with
    | none => some { s with best_weights_ := s.weights }
    | some _ => some s

end LineSearch

namespace LineSearch

/-- The relation between the state `before` an iteration and the state `after` it that C3
claims: `best_metric_on_training` does not decrease, Step 1 leaves it alone, the value after
the iteration is the one Step 2 produced, and when it changed it grew strictly. -/
def Advance (cfg : Config) (training_dataset : Dataset) (scorer : Metric)
    (before after : State) : Prop :=
  before.best_metric_on_training ≤ after.best_metric_on_training ∧
  ∃ s1, step1 training_dataset scorer (even_points cfg) before = some s1 ∧
    s1.best_metric_on_training = before.best_metric_on_training ∧
    after.best_metric_on_training =
      (step2 training_dataset scorer (even_points cfg) s1).best_metric_on_training ∧
    (after.best_metric_on_training ≠ before.best_metric_on_training →
      before.best_metric_on_training < after.best_metric_on_training)

/-- A one-feature, one-instance training set whose only feature value is `1`. -/
def sample_train : Dataset := { num_features := 1, num_instances := 1, data := [1] }

/-- A metric with its optimum at score `2`: minus the squared distance of the first score
from `2`. -/
def sample_scorer : Metric := fun _ scores => -((scores.getD 0 0 - 2) ^ 2)

/-- A configuration with two points, window `1`, reduction factor `1/2`, two iterations. -/
def sample_cfg : Config :=
  { num_points_ := 2, window_size_ := 1, reduction_factor_ := 1 / 2, max_iterations_ := 2,
    max_failed_vali_ := 0, adaptive_ := false }

/-- A state in the middle of an iteration, after Step 1 moved the single weight from `1` to
`2`. -/
def sample_state : State :=
  { weights := [2], weights_prev := [1], best_weights_ := [1],
    best_metric_on_training := -1, best_metric_on_validation := -1,
    metric_scores := [-4, -1, 0], validation_score := [1], window_size := 1,
    count_failed_vali := 0, gain_on_training := 0, cur_reduction_factor := 1 / 2,
    metric_on_validation := 0 }

end LineSearch

namespace LineSearch

/-- Iteration `t` (counted from `0`) strictly improved on the best validation metric so far:
its metric `ms[t]` exceeds the metric `m0` of the starting weights and the metric of every
earlier iteration. -/
def Improved (m0 : ℚ) (ms : List ℚ) (t : Nat) : Prop :=
  m0 < ms.getD t 0 ∧ ∀ r, r < t → ms.getD r 0 < ms.getD t 0

/-- At iteration `t` the count of consecutive iterations that did not improve has reached
`V`: the `V` most recent iterations `t + 1 - V .. t` exist and none of them improved. -/
def StreakReached (V : Nat) (m0 : ℚ) (ms : List ℚ) (t : Nat) : Prop :=
  V ≤ t + 1 ∧ ∀ s, t + 1 - V ≤ s → s ≤ t → ¬ Improved m0 ms s

/-- A configuration like `sample_cfg` that tolerates one failed validation. -/
def sample_cfg_one : Config :=
  { num_points_ := 2, window_size_ := 1, reduction_factor_ := 1 / 2, max_iterations_ := 3,
    max_failed_vali_ := 1, adaptive_ := false }

/-- The state after the first iteration of the sample run with validation. -/
def sample_after_first : State :=
  { weights := [2], weights_prev := [2], best_weights_ := [2],
    best_metric_on_training := 0, best_metric_on_validation := 0,
    metric_scores := [-1, -1 / 4, 0], validation_score := [2], window_size := 1 / 2,
    count_failed_vali := 0, gain_on_training := 1, cur_reduction_factor := 1 / 2,
    metric_on_validation := 0 }

/-- The state after the second iteration of the sample run with validation. -/
def sample_after_second : State :=
  { weights := [2], weights_prev := [2], best_weights_ := [2],
    best_metric_on_training := 0, best_metric_on_validation := 0,
    metric_scores := [-1 / 4, 0, -1 / 4], validation_score := [2], window_size := 1 / 2,
    count_failed_vali := 1, gain_on_training := 0, cur_reduction_factor := 1 / 2,
    metric_on_validation := 0 }

end LineSearch

namespace LineSearch

/-- What one iteration with a validation set does to the validation bookkeeping, from the
state `before` to the state `after` with exit `e`: on a strict improvement of the validation
metric the counter is reset, the best metric and `best_weights_` are replaced and the
validation `break` is not taken; otherwise the counter is incremented, the rest is kept, and the
validation `break` is taken exactly when the counter has reached `max_failed_vali_`. -/
def ValiStep (cfg : Config) (before after : State) (e : Exit) : Prop :=
  (before.best_metric_on_validation < after.metric_on_validation →
    after.count_failed_vali = 0 ∧
    after.best_metric_on_validation = after.metric_on_validation ∧
    after.best_weights_ = after.weights ∧ e ≠ Exit.break_validation) ∧
  (¬ before.best_metric_on_validation < after.metric_on_validation →
    after.count_failed_vali = before.count_failed_vali + 1 ∧
    after.best_metric_on_validation = before.best_metric_on_validation ∧
    after.best_weights_ = before.best_weights_ ∧
    (e = Exit.break_validation ↔ cfg.max_failed_vali_ ≤ before.count_failed_vali + 1))

end LineSearch

/-! ### `src/learning/tree/rt.cc` -/

namespace RegressionTree

/-- The constant `uint_max`, the largest `unsigned int`. -/
def uint_max : Nat := 2 ^ 32 - 1

/-- Subtraction of `unsigned int` values, which wraps around modulo `2 ^ 32`. -/
def usub (a b : Nat) : Nat := (a % 2 ^ 32 + 2 ^ 32 - b % 2 ^ 32) % 2 ^ 32

/-- The constant `DBL_MAX` of `<cfloat>`. -/
def DBL_MAX : ℚ := 2 ^ 1024 - 2 ^ 971

/-- The constant `DBL_EPSILON` of `<cfloat>`. -/
def DBL_EPSILON : ℚ := 1 / 2 ^ 52

/-- Modelled from the spec: the dataset class is not among the sources.  The tree fitter reads
a feature column through `at(0, f)`, so the model stores the matrix by columns:
`feature f k` is the value of feature `f` for sample `k`. -/
structure Dataset where
  num_features : Nat
  num_instances : Nat
  columns : List (List ℚ)

/-- The value `training_dataset->at(0, f)[k]`. -/
def Dataset.feature (d : Dataset) (f k : Nat) : ℚ := (d.columns.getD f []).getD k 0

/-- Modelled from the spec: the class `RTNodeHistogram` of `rt.h` is not among the sources.
The spec gives, for each feature `f`, a sorted vector of thresholds with parallel vectors of
cumulative `count`, label sum and squared label sum over the samples whose feature value is at
most the threshold. -/
structure RTNodeHistogram where
  thresholds : List (List ℚ)
  thresholds_size : List Nat
  sumlbl : List (List ℚ)
  sqsumlbl : List (List ℚ)
  count : List (List Nat)

/-- Modelled from the spec: the constructor `RTNodeHistogram(parent, samples, nsamples,
labels)`, "a freshly sliced histogram": the thresholds of the parent with the cumulative
statistics of the given samples. -/
def RTNodeHistogram.of_samples (d : Dataset) (parent : RTNodeHistogram) (samples : List Nat)
    (labels : List ℚ) : RTNodeHistogram :=
  let below := fun (f : Nat) (th : ℚ) => samples.filter (fun k => decide (d.feature f k ≤ th))
  { thresholds := parent.thresholds
    thresholds_size := parent.thresholds_size
    sumlbl := (List.range parent.thresholds.length).map (fun f =>
      (parent.thresholds.getD f []).map (fun th =>
        ((below f th).map (fun k => labels.getD k 0)).sum))
    sqsumlbl := (List.range parent.thresholds.length).map (fun f =>
      (parent.thresholds.getD f []).map (fun th =>
        ((below f th).map (fun k => labels.getD k 0 * labels.getD k 0)).sum))
    count := (List.range parent.thresholds.length).map (fun f =>
      (parent.thresholds.getD f []).map (fun th => (below f th).length)) }

/-- Modelled from the spec: the constructor `RTNodeHistogram(parent, left)` and the method
`transform_intorightchild(left)`, the parent histogram "transformed by subtracting" the left
one, entry by entry. -/
def RTNodeHistogram.minus (parent left : RTNodeHistogram) : RTNodeHistogram :=
  { thresholds := parent.thresholds
    thresholds_size := parent.thresholds_size
    sumlbl := List.zipWith (List.zipWith (fun a b => a - b)) parent.sumlbl left.sumlbl
    sqsumlbl := List.zipWith (List.zipWith (fun a b => a - b)) parent.sqsumlbl left.sqsumlbl
    count := List.zipWith (List.zipWith usub) parent.count left.count }

/-- A histogram without features, read where the source would follow a null `hist` pointer. -/
def RTNodeHistogram.null : RTNodeHistogram :=
  { thresholds := [], thresholds_size := [], sumlbl := [], sqsumlbl := [], count := [] }

/-- Modelled from the spec: the class `RTNode` of `rt.h` is not among the sources.  A node
holds its sample ids, histogram and deviance during growth, a feature and threshold and two
children when internal, an average label when a leaf.  Pointers to nodes are indices into the
arena of all nodes; `featureidx = uint_max` marks a leaf. -/
structure RTNode where
  sampleids : List Nat
  nsampleids : Nat
  threshold : ℚ
  deviance : ℚ
  avglabel : ℚ
  left : Option Nat
  right : Option Nat
  hist : Option RTNodeHistogram
  featureidx : Nat
  featureid : Nat

/-- Modelled from the spec: the constructor `RTNode(sampleids, nsampleids, deviance, sumlabel,
hist)`; the new node is a leaf whose average label is the mean of the labels. -/
def RTNode.create (sampleids : List Nat) (nsampleids : Nat) (deviance sumlabel : ℚ)
    (hist : Option RTNodeHistogram) : RTNode :=
  { sampleids := sampleids, nsampleids := nsampleids, threshold := 0, deviance := deviance,
    avglabel := if nsampleids = 0 then 0 else sumlabel / (nsampleids : ℚ),
    left := none, right := none, hist := hist, featureidx := uint_max, featureid := uint_max }

/-- The data members of `RegressionTree` that `fit` and `split` read. -/
structure Params where
  nrequiredleaves : Nat
  minls : Nat
  training_dataset : Dataset
  training_labels : List ℚ

/-- A thread's best candidate: `thread_best_score`, `thread_best_featureidx`,
`thread_best_thresholdid`. -/
structure Best where
  score : ℚ
  featureidx : Nat
  thresholdid : Nat
  deriving DecidableEq

/-- The initial value of a thread's best candidate: score `initvar = -1`, indices `uint_max`. -/
def Best.init : Best := { score := -1, featureidx := uint_max, thresholdid := uint_max }

/-- The feature sub-sampling loop of `split`:
`while (n > reduced && n > 1) { i = rand() % n; featuresamples[i] = featuresamples[--n]; }`,
with `rand k` the value of the `k`-th call of `rand()`. -/
def subsample (reduced : Nat) (rand : Nat → Nat) :
    Nat → Nat → List Nat → List Nat × Nat
  | 0, _, fs => (fs, 0)
  | n + 1, calls, fs =>
    if n + 1 > reduced ∧ n + 1 > 1 then
      subsample reduced rand n (calls + 1) (fs.set (rand calls % (n + 1)) (fs.getD n 0))
    else (fs, n + 1)

/-- The features scanned by `split`, in scan order: all features `0 .. num_features - 1` when
`featuresamplingrate >= 1`, else the first entries of the sub-sampled array. -/
def scanned_features (num_features : Nat) (featuresamplingrate : ℚ) (rand : Nat → Nat) :
    List Nat :=
  if featuresamplingrate < 1 then
    let r := subsample ⌊featuresamplingrate * (num_features : ℚ)⌋₊ rand num_features 0
      (List.range num_features)
    r.1.take r.2
  else List.range num_features

/-- The body of the threshold loop of `split` for feature `f` and threshold index `t`, with
`s` and `c` the totals of the feature, updating the best candidate `b` of the running
thread.  The score is the exact value of the expression; `scan_threshold_fl` is the same body
with the rounding of the `double` operations. -/
def scan_threshold (h : RTNodeHistogram) (minls : Nat) (f : Nat) (s : ℚ) (c : Nat)
    (b : Best) (t : Nat) : Best :=
  let lcount := (h.count.getD f []).getD t 0
  let rcount := usub c lcount
  if lcount ≥ minls ∧ rcount ≥ minls then
    let lsum := (h.sumlbl.getD f []).getD t 0
    let rsum := s - lsum
    let score := lsum * lsum / (lcount : ℚ) + rsum * rsum / (rcount : ℚ)
    if score > b.score then { score := score, featureidx := f, thresholdid := t } else b
  else b

/-- The threshold loop of `split` for feature `f`: `t = 0 .. threshold_size - 1`. -/
def scan_feature (h : RTNodeHistogram) (minls : Nat) (b : Best) (f : Nat) : Best :=
  let threshold_size := h.thresholds_size.getD f 0
  let s := (h.sumlbl.getD f []).getD (usub threshold_size 1) 0
  let c := (h.count.getD f []).getD (usub threshold_size 1) 0
  (List.range threshold_size).foldl (scan_threshold h minls f s c) b

/-- The search of `split` for the best candidate under sequential execution: every feature
is scanned by thread `0`, the other `nth - 1` thread slots keep their initial value, and the
final loop over the slots `1 .. nth - 1` takes a slot only when its score is strictly
larger. -/
def best_split (h : RTNodeHistogram) (minls : Nat) (features : List Nat) (nth : Nat) : Best :=
  let thread_best := (List.replicate nth Best.init).set 0
    (features.foldl (scan_feature h minls) ((List.replicate nth Best.init).getD 0 Best.init))
  (List.range' 1 (nth - 1)).foldl
    (fun best i =>
      if (thread_best.getD i Best.init).score > best.score then thread_best.getD i Best.init
      else best)
    (thread_best.getD 0 Best.init)

/-- The source's `RegressionTree::split(node, featuresamplingrate, require_devianceltparent)`
on the arena `nodes`, for the node at index `node`; `root` is the index of the root.  The
result is the returned `bool` with the arena after the call: unchanged when the call returns
`false`; after `true` the node has become internal and its two children are appended. -/
def split (p : Params) (nodes : List RTNode) (root node : Nat) (featuresamplingrate : ℚ)
    (rand : Nat → Nat) (nth : Nat) : Bool × List RTNode :=
  match nodes[node]? with
  | none => (false, nodes)
  | some nd =>
    if nd.deviance > 0 then
      let h := nd.hist.getD RTNodeHistogram.null
      let best := best_split h p.minls
        (scanned_features p.training_dataset.num_features featuresamplingrate rand) nth
      if best.score = -1 then (false, nodes)
      else
        let best_featureidx := best.featureidx
        let best_thresholdid := best.thresholdid
        let last_thresholdidx := usub (h.thresholds_size.getD best_featureidx 0) 1
        let best_threshold := (h.thresholds.getD best_featureidx []).getD best_thresholdid 0
        let count := (h.count.getD best_featureidx []).getD last_thresholdidx 0
        let sum := (h.sumlbl.getD best_featureidx []).getD last_thresholdidx 0
        let sqsum := (h.sqsumlbl.getD best_featureidx []).getD last_thresholdidx 0
        let lcount := (h.count.getD best_featureidx []).getD best_thresholdid 0
        let lsum := (h.sumlbl.getD best_featureidx []).getD best_thresholdid 0
        let lsqsum := (h.sqsumlbl.getD best_featureidx []).getD best_thresholdid 0
        let rcount := usub count lcount
        let rsum := sum - lsum
        let rsqsum := sqsum - lsqsum
        let ids := (List.range nd.nsampleids).map (fun i => nd.sampleids.getD i 0)
        let lsamples := ids.filter
          (fun k => decide (p.training_dataset.feature best_featureidx k ≤ best_threshold))
        let rsamples := ids.filter
          (fun k => ¬ decide (p.training_dataset.feature best_featureidx k ≤ best_threshold))
        let lhist := RTNodeHistogram.of_samples p.training_dataset h lsamples p.training_labels
        let rhist := RTNodeHistogram.minus h lhist
        let deviance := sqsum - sum * sum / (count : ℚ)
        let ldeviance := lsqsum - lsum * lsum / (lcount : ℚ)
        let rdeviance := rsqsum - rsum * rsum / (rcount : ℚ)
        let nd' : RTNode :=
          { nd with
            hist := if node = root then nd.hist else none
            featureidx := best_featureidx
            featureid := best_featureidx + 1
            threshold := best_threshold
            deviance := deviance
            left := some nodes.length
            right := some (nodes.length + 1) }
        (true, nodes.set node nd' ++
          [RTNode.create lsamples lsamples.length ldeviance lsum (some lhist),
           RTNode.create rsamples rsamples.length rdeviance rsum (some rhist)])
    else (false, nodes)

/-- Modelled from the spec: the base class `rt_maxheap` is not among the sources; the spec
asks for "a max-heap keyed by node deviance".  The heap is the list of its (key, node) entries
in insertion order, and `top` is the first entry of largest key: its position. -/
def top_position (heap : List (ℚ × Nat)) : Nat :=
  (List.range' 1 (heap.length - 1)).foldl
    (fun largest i =>
      if (heap.getD largest (0, 0)).1 < (heap.getD i (0, 0)).1 then i else largest) 0

/-- The node at the top of the heap (`heap.top()`). -/
def top (heap : List (ℚ × Nat)) : Nat := (heap.getD (top_position heap) (0, 0)).2

/-- The source's `DevianceMaxHeap::push_chidrenof(parent)`. -/
def push_chidrenof (nodes : List RTNode) (heap : List (ℚ × Nat)) (parent : Nat) :
    List (ℚ × Nat) :=
  match nodes[parent]? with
  | none => heap
  | some nd =>
    match nd.left, nd.right with
    | some l, some r =>
      heap ++ [((nodes.getD l (RTNode.create [] 0 0 0 none)).deviance, l),
               ((nodes.getD r (RTNode.create [] 0 0 0 none)).deviance, r)]
    | _, _ => heap

/-- The source's `DevianceMaxHeap::pop()`: the node at the top loses its sample ids and its
histogram, then the top entry is removed from the heap. -/
def pop (nodes : List RTNode) (heap : List (ℚ × Nat)) : List RTNode × List (ℚ × Nat) :=
  let node := top heap
  let nodes' :=
    match nodes[node]? with
    | none => nodes
    | some nd => nodes.set node { nd with sampleids := [], nsampleids := 0, hist := none }
  (nodes', heap.eraseIdx (top_position heap))

/-- The variables of the growth loop of `fit`: the arena of nodes, the heap and `taken`. -/
structure Growth where
  nodes : List RTNode
  heap : List (ℚ × Nat)
  taken : Nat

/-- The condition of the `while` loop of `fit`. -/
def growing (p : Params) (g : Growth) : Prop :=
  g.heap ≠ [] ∧ (p.nrequiredleaves = 0 ∨ g.taken + g.heap.length < p.nrequiredleaves)

instance (p : Params) (g : Growth) : Decidable (growing p g) := by
  unfold growing; infer_instance

/-- The body of the `while` loop of `fit`: split the node at the top of the heap, push its
children or count it as taken, then pop the heap. -/
def grow (p : Params) (rand : Nat → Nat) (nth : Nat) (g : Growth) : Growth :=
  let node := top g.heap
  let s := split p g.nodes 0 node 1 rand nth
  if s.1 then
    let r := pop s.2 (push_chidrenof s.2 g.heap node)
    { nodes := r.1, heap := r.2, taken := g.taken }
  else
    let r := pop s.2 g.heap
    { nodes := r.1, heap := r.2, taken := g.taken + 1 }

/-- The `while` loop of `fit`, run for at most `fuel` iterations: `none` when the loop is
still running after them. -/
def grow_loop (p : Params) (rand : Nat → Nat) (nth : Nat) : Nat → Growth → Option Growth
  | 0, g => if growing p g then none else some g
  | fuel + 1, g => if growing p g then grow_loop p rand nth fuel (grow p rand nth g) else some g

/-- Modelled from the spec: `RTNode::save_leaves` of `rt.h` is not among the sources; the
spec says the tree is traversed "collecting leaves into a densely packed table".  The
traversal starts at node `i`, takes a leaf (`featureidx = uint_max`) and otherwise visits the
left and then the right child; `fuel` bounds the depth. -/
def save_leaves (nodes : List RTNode) : Nat → Nat → List Nat
  | 0, _ => []
  | fuel + 1, i =>
    match nodes[i]? with
    | none => []
    | some nd =>
      if nd.featureidx = uint_max then [i]
      else
        match nd.left, nd.right with
        | some l, some r => save_leaves nodes fuel l ++ save_leaves nodes fuel r
        | _, _ => []

/-- The tree that `fit` leaves behind: the arena of nodes (the root is node `0`) and the
table `leaves` with its length `nleaves`. -/
structure Fitted where
  nodes : List RTNode
  leaves : List Nat
  nleaves : Nat

/-- The source's `RegressionTree::fit(hist)`, its loop run for at most `fuel` iterations. -/
def fit (p : Params) (hist : RTNodeHistogram) (rand : Nat → Nat) (nth : Nat) (fuel : Nat) :
    Option Fitted :=
  let nsampleids := p.training_dataset.num_instances
  let sampleids := List.range nsampleids
  let root := RTNode.create sampleids nsampleids DBL_MAX 0 (some hist)
  let s := split p [root] 0 0 1 rand nth
  let start : Growth :=
    if s.1 then { nodes := s.2, heap := push_chidrenof s.2 [] 0, taken := 0 }
    else { nodes := s.2, heap := [], taken := 0 }
  match grow_loop p rand nth fuel start with
  | none => none
  | some g =>
    let leaves := save_leaves g.nodes g.nodes.length 0
    some { nodes := g.nodes, leaves := leaves, nleaves := leaves.length }

/-- The source's `RegressionTree::update_output(pseudoresponses, cachedweights)`: the new
average label of every leaf of the table, written into the arena, and the returned maximum. -/
def update_output (t : Fitted) (pseudoresponses cachedweights : List ℚ) : ℚ × List RTNode :=
  (List.range t.nleaves).foldl
    (fun (acc : ℚ × List RTNode) i =>
      let leaf := t.leaves.getD i 0
      let nd := acc.2.getD leaf (RTNode.create [] 0 0 0 none)
      let s := (List.range nd.nsampleids).foldl
        (fun (s : ℚ × ℚ) j =>
          let k := nd.sampleids.getD j 0
          (s.1 + pseudoresponses.getD k 0, s.2 + cachedweights.getD k 0)) (0, 0)
      let avglabel := if s.2 ≥ DBL_EPSILON then s.1 / s.2 else 0
      (if avglabel > acc.1 then avglabel else acc.1,
        acc.2.set leaf { nd with avglabel := avglabel }))
    (-DBL_MAX, t.nodes)

/-- The total count `c_total` the scan of `split` reads for feature `f`: the last bin. -/
def c_total (h : RTNodeHistogram) (f : Nat) : Nat :=
  (h.count.getD f []).getD (usub (h.thresholds_size.getD f 0) 1) 0

/-- The total label sum `s_total` the scan of `split` reads for feature `f`: the last bin. -/
def s_total (h : RTNodeHistogram) (f : Nat) : ℚ :=
  (h.sumlbl.getD f []).getD (usub (h.thresholds_size.getD f 0) 1) 0

/-- The left count `c_L = count[f][t]` of a candidate. -/
def c_L (h : RTNodeHistogram) (f t : Nat) : Nat := (h.count.getD f []).getD t 0

/-- The left label sum `s_L = sumlbl[f][t]` of a candidate. -/
def s_L (h : RTNodeHistogram) (f t : Nat) : ℚ := (h.sumlbl.getD f []).getD t 0

/-- The right count `c_R = c_total - c_L` of a candidate, in `unsigned int` arithmetic. -/
def c_R (h : RTNodeHistogram) (f t : Nat) : Nat := usub (c_total h f) (c_L h f t)

/-- The right label sum `s_R = s_total - s_L` of a candidate. -/
def s_R (h : RTNodeHistogram) (f t : Nat) : ℚ := s_total h f - s_L h f t

/-- The score `s_L² / c_L + s_R² / c_R` of a candidate. -/
def split_score (h : RTNodeHistogram) (f t : Nat) : ℚ :=
  s_L h f t ^ 2 / (c_L h f t : ℚ) + s_R h f t ^ 2 / (c_R h f t : ℚ)

/-- A candidate `(f, t)` of the histogram (feature `f` below `num_features`, threshold index
`t` below the number of thresholds of `f`) is admissible: `c_L ≥ minls` and `c_R ≥ minls`. -/
def Admissible (h : RTNodeHistogram) (minls num_features f t : Nat) : Prop :=
  f < num_features ∧ t < h.thresholds_size.getD f 0 ∧ minls ≤ c_L h f t ∧ minls ≤ c_R h f t

/-- Candidate `(f', t')` is seen before the scan reaches `(f, t)`: smaller feature index, or
the same feature and a smaller threshold index. -/
def Before (f t f' t' : Nat) : Prop := f' < f ∨ (f' = f ∧ t' < t)

/-- The invariant of the scan of `split` when it is about to look at `(f, t)`: the running
best `b` is still the initial one and no admissible candidate was seen, or `b` is an admissible
candidate seen before, of maximal score among those seen, and the first of that score. -/
def BestAmong (h : RTNodeHistogram) (minls num_features f t : Nat) (b : Best) : Prop :=
  (b = Best.init ∧ ∀ f' t', Admissible h minls num_features f' t' → ¬ Before f t f' t') ∨
  (Admissible h minls num_features b.featureidx b.thresholdid ∧
    Before f t b.featureidx b.thresholdid ∧
    b.score = split_score h b.featureidx b.thresholdid ∧
    ∀ f' t', Admissible h minls num_features f' t' → Before f t f' t' →
      split_score h f' t' ≤ b.score ∧
      (split_score h f' t' = b.score → ¬ Before b.featureidx b.thresholdid f' t'))

end RegressionTree

namespace RegressionTree

/-- A training set of three samples and two features: feature `0` takes the values `1, 1, 2`
and feature `1` the values `1, 2, 2`. -/
def sample_dataset : Dataset :=
  { num_features := 2, num_instances := 3, columns := [[1, 1, 2], [1, 2, 2]] }

/-- The labels `0, 0, 3` of the three samples. -/
def sample_labels : List ℚ := [0, 0, 3]

/-- The histogram of `sample_dataset` with `sample_labels`: thresholds `1, 2` for both
features, with the cumulative counts, label sums and squared label sums. -/
def sample_hist : RTNodeHistogram :=
  { thresholds := [[1, 2], [1, 2]], thresholds_size := [2, 2],
    sumlbl := [[0, 3], [0, 3]], sqsumlbl := [[0, 9], [0, 9]], count := [[2, 3], [1, 3]] }

/-- A tree configuration on `sample_dataset`: at most four leaves, `minls = 1`. -/
def sample_params : Params :=
  { nrequiredleaves := 4, minls := 1, training_dataset := sample_dataset,
    training_labels := sample_labels }

/-- The root node `fit` creates for `sample_dataset`. -/
def sample_root : RTNode := RTNode.create [0, 1, 2] 3 DBL_MAX 0 (some sample_hist)

/-- A variant of `sample_dataset` whose feature `1` is constant. -/
def flat_dataset : Dataset :=
  { num_features := 2, num_instances := 3, columns := [[1, 1, 2], [1, 1, 1]] }

/-- The histogram of `flat_dataset` with `sample_labels`: feature `1` has the single
threshold `1` holding the totals. -/
def flat_hist : RTNodeHistogram :=
  { thresholds := [[1, 2], [1]], thresholds_size := [2, 1],
    sumlbl := [[0, 3], [3]], sqsumlbl := [[0, 9], [9]], count := [[2, 3], [3]] }

/-- The tree configuration on `flat_dataset`. -/
def flat_params : Params :=
  { nrequiredleaves := 4, minls := 1, training_dataset := flat_dataset,
    training_labels := sample_labels }

/-- The root node `fit` creates for `flat_dataset`. -/
def flat_root : RTNode := RTNode.create [0, 1, 2] 3 DBL_MAX 0 (some flat_hist)

end RegressionTree

namespace RegressionTree

/-- The leaf a sample `k` is routed to by the tree in the arena `nodes`, starting at node `i`:
at an internal node the sample goes left when its value of the node's feature is at most the
node's threshold, right otherwise; `fuel` bounds the depth. -/
def route (d : Dataset) (nodes : List RTNode) (k : Nat) : Nat → Nat → Option Nat
  | 0, _ => none
  | fuel + 1, i =>
    match nodes[i]? with
    | none => none
    | some nd =>
      if nd.featureidx = uint_max then some i
      else
        match nd.left, nd.right with
        | some l, some r =>
          if d.feature nd.featureidx k ≤ nd.threshold then route d nodes k fuel l
          else route d nodes k fuel r
        | _, _ => none

/-- The set `S_i` of the training samples routed to the leaf `i`, in increasing order. -/
def routed_samples (d : Dataset) (nodes : List RTNode) (i : Nat) : List Nat :=
  (List.range d.num_instances).filter
    (fun k => decide (route d nodes k nodes.length 0 = some i))

/-- The average label C5 claims for a leaf with sample set `S`: the sum of the pseudo-responses
over the sum of the cached weights when the latter is at least `DBL_EPSILON`, else `0`. -/
def claimed_avglabel (S : List Nat) (pseudoresponses cachedweights : List ℚ) : ℚ :=
  if (S.map (fun k => cachedweights.getD k 0)).sum ≥ DBL_EPSILON then
    (S.map (fun k => pseudoresponses.getD k 0)).sum / (S.map (fun k => cachedweights.getD k 0)).sum
  else 0

/-- The root of the tree fitted on `sample_dataset`, split on feature `0` at threshold `1`. -/
def sample_fitted_root : RTNode :=
  { sampleids := [0, 1, 2], nsampleids := 3, threshold := 1, deviance := 6, avglabel := 0,
    left := some 1, right := some 2, hist := some sample_hist, featureidx := 0, featureid := 1 }

/-- The left leaf of the tree fitted on `sample_dataset` with a budget of four leaves: it was
popped from the heap as unsplittable, which emptied its sample ids. -/
def sample_fitted_left : RTNode :=
  { sampleids := [], nsampleids := 0, threshold := 0, deviance := 0, avglabel := 0,
    left := none, right := none, hist := none, featureidx := uint_max, featureid := uint_max }

/-- The right leaf of the tree fitted on `sample_dataset` with a budget of four leaves, also
popped from the heap as unsplittable. -/
def sample_fitted_right : RTNode :=
  { sampleids := [], nsampleids := 0, threshold := 0, deviance := 0, avglabel := 3,
    left := none, right := none, hist := none, featureidx := uint_max, featureid := uint_max }

/-- The left child the split of the root creates: samples `0` and `1`, both with label `0`. -/
def sample_left_child : RTNode :=
  RTNode.create [0, 1] 2 0 0 (some
    { thresholds := [[1, 2], [1, 2]], thresholds_size := [2, 2],
      sumlbl := [[0, 0], [0, 0]], sqsumlbl := [[0, 0], [0, 0]], count := [[2, 2], [1, 2]] })

/-- The right child the split of the root creates: sample `2` with label `3`. -/
def sample_right_child : RTNode :=
  RTNode.create [2] 1 0 3 (some
    { thresholds := [[1, 2], [1, 2]], thresholds_size := [2, 2],
      sumlbl := [[0, 3], [0, 3]], sqsumlbl := [[0, 9], [0, 9]], count := [[0, 1], [0, 1]] })

/-- The tree `fit` produces on `sample_dataset` with a budget of a single leaf: the root was
split all the same, and the two children are the leaves. -/
def single_leaf_fitted : Fitted :=
  { nodes := [sample_fitted_root, sample_left_child, sample_right_child],
    leaves := [1, 2], nleaves := 2 }

/-- The tree `fit` produces on `sample_dataset` with a budget of four leaves. -/
def sample_fitted : Fitted :=
  { nodes := [sample_fitted_root, sample_fitted_left, sample_fitted_right],
    leaves := [1, 2], nleaves := 2 }

/-- The loop variables of `fit` on the sample training set when the loop is entered. -/
def sample_growth_start : Growth :=
  { nodes := [sample_fitted_root, sample_left_child, sample_right_child],
    heap := [(0, 1), (0, 2)], taken := 0 }

/-- The loop variables of `fit` on the sample training set after one iteration. -/
def sample_growth_middle : Growth :=
  { nodes := [sample_fitted_root, sample_fitted_left, sample_right_child],
    heap := [(0, 2)], taken := 1 }

/-- The loop variables of `fit` on the sample training set after two iterations. -/
def sample_growth_end : Growth :=
  { nodes := [sample_fitted_root, sample_fitted_left, sample_fitted_right],
    heap := [], taken := 2 }

/-- The configuration of `sample_params` with a budget of a single leaf. -/
def single_leaf_params : Params :=
  { nrequiredleaves := 1, minls := 1, training_dataset := sample_dataset,
    training_labels := sample_labels }

end RegressionTree

/-! ### `src/metric/ir/rmse.cc` -/

namespace Rmse

/-- Modelled from the spec: the classes `data::Dataset` and `data::QueryResults` are not among
the sources.  The spec says a dataset "holds N instances grouped into Q queries", each query a
contiguous block of instances.  A dataset is the list of its queries, each query the list of
the labels of its results (`num_results` is its length), together with the number
`num_instances` the dataset reports. -/
structure Dataset (α : Type) where
  queries : List (List α)
  num_instances : Nat

/-- The source's `Rmse::evaluate_result_list(rl, scores)` for a metric with cutoff `cutoff`:
the sum of the squared differences of score and label over the first
`min(cutoff, num_results)` results.  The pointer `scores` addresses entry `offset` of the score
vector. -/
def evaluate_result_list {α : Type} [LinearOrderedField α] (cutoff : Nat) (labels : List α)
    (scores : List α) (offset : Nat) : α :=
  let size := min cutoff labels.length
  if size = 0 then 0
  else
    (List.range size).foldl
      (fun sse i => sse + (scores.getD (offset + i) 0 - labels.getD i 0) ^ 2) 0

/-- The source's `Rmse::evaluate_dataset(dataset, scores)`: `0` when
`min(cutoff, num_queries)` is `0`; otherwise the per-query sums are added up, the score
pointer advancing by `num_results` after each query, and the result is
`-sqrt(sse / num_instances)`.  `sqrt` is the library function of `<cmath>`, a parameter of the
embedding. -/
def evaluate_dataset {α : Type} [LinearOrderedField α] (sqrt : α → α) (cutoff : Nat)
    (dataset : Dataset α) (scores : List α) : α :=
  let size := min cutoff dataset.queries.length
  if size = 0 then 0
  else
    let r := (List.range dataset.queries.length).foldl
      (fun (acc : α × Nat) q =>
        let rl := dataset.queries.getD q []
        (acc.1 + evaluate_result_list cutoff rl scores acc.2, acc.2 + rl.length)) (0, 0);
    -sqrt (r.1 / (dataset.num_instances : α))

/-- The sum `S` of the specification: over the queries `q`, the sum over the first
`min(cutoff, query size)` results `i` of `(score - label)²`, the score of result `i` of query
`q` being the entry of the score vector at the total length of the earlier queries plus `i`. -/
def sseFormula {α : Type} [LinearOrderedField α] (cutoff : Nat) (queries : List (List α))
    (scores : List α) : α :=
  ∑ q in Finset.range queries.length,
    ∑ i in Finset.range (min cutoff (queries.getD q []).length),
      (scores.getD (((queries.take q).map List.length).sum + i) 0 -
        (queries.getD q []).getD i 0) ^ 2

/-- The dataset of the example of the specification: one query with labels `1, 2, 3`,
`N = 3`. -/
def sample_dataset : Dataset ℝ := { queries := [[1, 2, 3]], num_instances := 3 }

end Rmse

namespace LineSearch

/-- Modelled from the spec: `boost::property_tree::ptree` is not among the sources.  The spec
describes the model as an `<ensemble>` block of `<tree>` elements with a 1-based `<index>` and
a `<weight>`.  A child of `model_ptree` is its key `first` together with the values of its
fields `index` and `weight`. -/
structure Child where
  first : String
  index : Nat
  weight : ℚ

/-- The first loop of the constructor `LineSearch(info_ptree, model_ptree)`: the largest
`index` among the `<tree>` children, read as `unsigned int`, starting from `0`. -/
def max_feature (model_ptree : List Child) : Nat :=
  model_ptree.foldl
    (fun max_feature tree =>
      if tree.first = "tree" then
        (if tree.index > max_feature then tree.index else max_feature)
      else max_feature) 0

/-- The second loop of the constructor `LineSearch(info_ptree, model_ptree)`:
`best_weights_` starts as `max_feature` zeros and every `<tree>` child stores its weight at
position `feature - 1`, `feature` being its index read as `int`.  A store outside the vector
leaves the embedding: `none`. -/
def load (model_ptree : List Child) : Option (List ℚ) :=
  model_ptree.foldl
    (fun acc tree =>
      acc.bind (fun best_weights_ =>
        if tree.first = "tree" then
          let feature : Int := (tree.index : Int)
          if 0 ≤ feature - 1 ∧ feature - 1 < (best_weights_.length : Int) then
            some (best_weights_.set (feature - 1).toNat tree.weight)
          else none
        else some best_weights_))
    (some (List.replicate (max_feature model_ptree) 0))

/-- The source's `LineSearch::score_document(d, next_fx_offset)`: the sum of
`best_weights_[k] * d[k]` over the positions of `best_weights_`. -/
def score_document (best_weights_ : List ℚ) (d : List ℚ) : ℚ :=
  (List.range best_weights_.length).foldl
    (fun score k => score + best_weights_.getD k 0 * d.getD k 0) 0

/-- The weight the specification assigns to the 1-based index `i`: the weight of the last
`<tree>` entry with index `i`, and `0` when there is none. -/
def loaded_weight (model_ptree : List Child) (i : Nat) : ℚ :=
  match (model_ptree.filter
    (fun t => decide (t.first = "tree" ∧ t.index = i))).getLast? with
  | some t => t.weight
  | none => 0

/-- A model with a child that is not a `<tree>`, a gap at index `2` and two entries for
index `1`. -/
def sample_model : List Child :=
  [{ first := "tree", index := 1, weight := 1 / 2 },
   { first := "comment", index := 0, weight := 0 },
   { first := "tree", index := 3, weight := 2 },
   { first := "tree", index := 1, weight := 3 / 4 }]

end LineSearch

namespace LineSearch

/-- A configuration with `num_points = 1`, which `learn` decrements to `0`. -/
def sample_cfg_odd : Config :=
  { num_points_ := 1, window_size_ := 1, reduction_factor_ := 1 / 2, max_iterations_ := 2,
    max_failed_vali_ := 0, adaptive_ := false }

/-- A configuration with a negative reduction factor and a single iteration. -/
def sample_cfg_negative : Config :=
  { num_points_ := 2, window_size_ := 1, reduction_factor_ := -1 / 2, max_iterations_ := 1,
    max_failed_vali_ := 0, adaptive_ := false }

/-- The state after the single iteration of the run with `sample_cfg_negative` and no
validation set: the weight has moved from `1` to `2` and the window is negative. -/
def sample_after_negative : State :=
  { weights := [2], weights_prev := [2], best_weights_ := [1],
    best_metric_on_training := 0, best_metric_on_validation := 0,
    metric_scores := [-1, -1 / 4, 0], validation_score := [], window_size := -1 / 2,
    count_failed_vali := 0, gain_on_training := 1, cur_reduction_factor := -1 / 2,
    metric_on_validation := 0 }

end LineSearch

namespace RegressionTree

/-- The sample ids a node holds: the first `nsampleids` entries of its `sampleids` buffer, in
the order `split` reads them. -/
def RTNode.ids (nd : RTNode) : List Nat :=
  (List.range nd.nsampleids).map (fun i => nd.sampleids.getD i 0)

/-- The histogram invariant of C18 for a node with sample ids `ids`: for every feature `f` and
threshold index `t`, `count[f][t]` and `sumlbl[f][t]` are the number and the label sum of the
node's samples whose value of feature `f` is at most `thresholds[f][t]`, and the last bin of
every feature holds the totals of the node. -/
def HistInvariant (d : Dataset) (labels : List ℚ) (ids : List Nat) (h : RTNodeHistogram) :
    Prop :=
  ∀ f, f < d.num_features →
    (∀ t, t < h.thresholds_size.getD f 0 →
      c_L h f t = (ids.filter
        (fun k => decide (d.feature f k ≤ (h.thresholds.getD f []).getD t 0))).length ∧
      s_L h f t = ((ids.filter
        (fun k => decide (d.feature f k ≤ (h.thresholds.getD f []).getD t 0))).map
          (fun k => labels.getD k 0)).sum) ∧
    c_total h f = ids.length ∧
    s_total h f = (ids.map (fun k => labels.getD k 0)).sum

/-- The candidate `split` chooses for the node `nd`: the result of its search. -/
def chosen (p : Params) (nd : RTNode) (featuresamplingrate : ℚ) (rand : Nat → Nat)
    (nth : Nat) : Best :=
  best_split (nd.hist.getD RTNodeHistogram.null) p.minls
    (scanned_features p.training_dataset.num_features featuresamplingrate rand) nth

/-- What the scan of `split` over the features `features` maintains about its running best
`b`: it is still the initial one, or it is a candidate of a scanned feature, inside the
thresholds of that feature, with both child counts at least `minls` and with its own score. -/
def Chosen (h : RTNodeHistogram) (minls : Nat) (features : List Nat) (b : Best) : Prop :=
  b = Best.init ∨
  (b.featureidx ∈ features ∧ b.thresholdid < h.thresholds_size.getD b.featureidx 0 ∧
    minls ≤ c_L h b.featureidx b.thresholdid ∧ minls ≤ c_R h b.featureidx b.thresholdid ∧
    b.score = split_score h b.featureidx b.thresholdid)

/-- The left squared label sum `sqsumlbl[f][t]` of a candidate. -/
def sq_L (h : RTNodeHistogram) (f t : Nat) : ℚ := (h.sqsumlbl.getD f []).getD t 0

/-- The total squared label sum `split` reads for feature `f`: the last bin. -/
def sq_total (h : RTNodeHistogram) (f : Nat) : ℚ :=
  (h.sqsumlbl.getD f []).getD (usub (h.thresholds_size.getD f 0) 1) 0

end RegressionTree

namespace RegressionTree

/-- A training set of two samples and one feature with the values `1, 2`. -/
def pair_dataset : Dataset := { num_features := 1, num_instances := 2, columns := [[1, 2]] }

/-- The labels `0, 1` of the two samples. -/
def pair_labels : List ℚ := [0, 1]

/-- The histogram of `pair_dataset` with `pair_labels`: thresholds `1, 2`. -/
def pair_hist : RTNodeHistogram :=
  { thresholds := [[1, 2]], thresholds_size := [2], sumlbl := [[0, 1]], sqsumlbl := [[0, 1]],
    count := [[1, 2]] }

/-- A tree configuration on `pair_dataset` with `minls = 2`. -/
def pair_params : Params :=
  { nrequiredleaves := 4, minls := 2, training_dataset := pair_dataset,
    training_labels := pair_labels }

end RegressionTree

namespace RegressionTree

/-- The part of the histogram invariant that concerns `sqsumlbl`: `sqsumlbl[f][t]` is the sum
of the squared labels of the node's samples whose value of feature `f` is at most
`thresholds[f][t]`, and the last bin of every feature holds the total of the node. -/
def SqsumInvariant (d : Dataset) (labels : List ℚ) (ids : List Nat) (h : RTNodeHistogram) :
    Prop :=
  ∀ f, f < d.num_features →
    (∀ t, t < h.thresholds_size.getD f 0 →
      sq_L h f t = ((ids.filter
        (fun k => decide (d.feature f k ≤ (h.thresholds.getD f []).getD t 0))).map
          (fun k => labels.getD k 0 * labels.getD k 0)).sum) ∧
    sq_total h f = (ids.map (fun k => labels.getD k 0 * labels.getD k 0)).sum

/-- A training set of two samples with the same value `1` of the single feature. -/
def twin_dataset : Dataset := { num_features := 1, num_instances := 2, columns := [[1, 1]] }

/-- The histogram of `twin_dataset` with the labels `0, 1`: the single threshold `1` holds
the totals. -/
def twin_hist : RTNodeHistogram :=
  { thresholds := [[1]], thresholds_size := [1], sumlbl := [[1]], sqsumlbl := [[1]],
    count := [[2]] }

/-- A tree configuration on `twin_dataset` with the labels `0, 1` and `minls = 1`. -/
def twin_params : Params :=
  { nrequiredleaves := 4, minls := 1, training_dataset := twin_dataset,
    training_labels := pair_labels }

/-- The node holding the two samples of `twin_dataset`, as `fit` creates the root. -/
def twin_root : RTNode := RTNode.create [0, 1] 2 DBL_MAX 0 (some twin_hist)

/-- The tree configuration on `pair_dataset` with `minls = 1`. -/
def pair_params_one : Params :=
  { nrequiredleaves := 4, minls := 1, training_dataset := pair_dataset,
    training_labels := pair_labels }

/-- The node holding the two samples of `pair_dataset`, as `fit` creates the root. -/
def pair_root : RTNode := RTNode.create [0, 1] 2 DBL_MAX 0 (some pair_hist)

end RegressionTree

namespace RegressionTree

/-- The deviance `split` computes for the node itself from the totals of the chosen feature:
`deviance = sqsum - sum*sum/(double)count`. -/
def deviance (h : RTNodeHistogram) (f : Nat) : ℚ :=
  sq_total h f - s_total h f * s_total h f / (c_total h f : ℚ)

/-- The deviance `split` computes for the left child:
`ldeviance = lsqsum - lsum*lsum/(double)lcount`. -/
def ldeviance (h : RTNodeHistogram) (f t : Nat) : ℚ :=
  sq_L h f t - s_L h f t * s_L h f t / (c_L h f t : ℚ)

/-- The deviance `split` computes for the right child:
`rdeviance = rsqsum - rsum*rsum/(double)rcount` with `rsqsum = sqsum - lsqsum`. -/
def rdeviance (h : RTNodeHistogram) (f t : Nat) : ℚ :=
  (sq_total h f - sq_L h f t) - s_R h f t * s_R h f t / (c_R h f t : ℚ)

end RegressionTree

namespace LineSearch

/-- The clamp of the specification: `x` limited to the interval from `lo` to `hi`. -/
def clamp (x lo hi : ℚ) : ℚ := max lo (min x hi)

end LineSearch

/-- The sum of the gains of a list of labels against the weights `w (o + i)` of the ranks
`o, o + 1, ...`: the DCG of the list placed at the ranks from `o` on, for a weight `w` that is
the discount inside the cutoff and zero beyond it. -/
def weightedGain {α : Type} [LinearOrderedField α] (w : Nat → α) : List Nat → Nat → α
  | [], _ => 0
  | a :: t, o => ((2 : α) ^ a - 1) * w o + weightedGain w t (o + 1)

namespace LineSearch

/-- Every component of `weights`, `weights_prev` and `best_weights_` is non-negative. -/
def NonNeg (st : State) : Prop :=
  (∀ x ∈ st.weights, 0 ≤ x) ∧ (∀ x ∈ st.weights_prev, 0 ≤ x) ∧ (∀ x ∈ st.best_weights_, 0 ≤ x)

/-- The vectors of the state have the sizes `learn` allocates: `num_points + 1` metric scores
and one weight per feature in `weights` and `weights_prev`. -/
def Sized (cfg : Config) (training_dataset : Dataset) (st : State) : Prop :=
  st.metric_scores.length = even_points cfg + 1 ∧
  st.weights.length = training_dataset.num_features ∧
  st.weights_prev.length = training_dataset.num_features

/-- The score column of Step 1 for feature `f` and candidate weight `x`:
`x * x[s][f] + pre_sum[s]` for every training instance `s`, with `pre_sum` computed by
`preCompute` from `weights_prev`. -/
def step1_column (training_dataset : Dataset) (weights_prev : List ℚ) (f : Nat) (x : ℚ) :
    List ℚ :=
  (List.range training_dataset.num_instances).map (fun s =>
    x * training_dataset.feature_at s f +
      (preCompute training_dataset.data training_dataset.num_instances
        training_dataset.num_features weights_prev f).getD s 0)

end LineSearch

namespace LineSearch

/-- The invariant of C27: `best_metric_on_training` is the scorer's value on the training set
for the scores that `weights_prev` produces. -/
def TrainInv (training_dataset : Dataset) (scorer : Metric) (st : State) : Prop :=
  st.best_metric_on_training =
    scorer training_dataset
      (score training_dataset.data training_dataset.num_instances
        training_dataset.num_features st.weights_prev)

end LineSearch

namespace LineSearch

end LineSearch

namespace LineSearch

/-- The stagnation hypothesis of C21 for a window `W`: no Step 1 candidate of any feature,
scored with `pre_sum` of `weights_prev`, has a metric strictly greater than `best`. -/
def StagnantAt (cfg : Config) (training_dataset : Dataset) (scorer : Metric)
    (weights_prev : List ℚ) (best W : ℚ) : Prop :=
  ∀ f, f < training_dataset.num_features → ∀ pts,
    points (weights_prev.getD f 0) W (2 * W / (even_points cfg : ℚ)) = some pts →
    ∀ x ∈ pts, ¬ best < scorer training_dataset (step1_column training_dataset weights_prev f x)

/-- A metric of the one-instance sample whose unique optimum is the score `1`. -/
def unit_scorer : Metric := fun _ scores => -((scores.getD 0 0 - 1) ^ 2)

/-- An adaptive configuration with two points, window `1` and reduction factor `1`; the
validation streak limit is `1`. -/
def unit_cfg : Config :=
  { num_points_ := 2, window_size_ := 1, reduction_factor_ := 1, max_iterations_ := 10,
    max_failed_vali_ := 1, adaptive_ := true }

end LineSearch

namespace LineSearch

/-- The state in which the run of `unit_cfg` on the one-instance sample, used as training and
as validation set, leaves its first iteration. -/
def unit_after_break : State :=
  { weights := [1], weights_prev := [1], best_weights_ := [1],
    best_metric_on_training := 0, best_metric_on_validation := 0,
    metric_scores := [-1, 0, -1], validation_score := [1], window_size := 1,
    count_failed_vali := 1, gain_on_training := 0, cur_reduction_factor := 1 / 2,
    metric_on_validation := 0 }

end LineSearch

namespace RegressionTree

/-- The shape of a histogram that the scan of `split` relies on: for every feature the number
of thresholds is an `unsigned int` and the threshold vector has that many entries. -/
def Shaped (d : Dataset) (h : RTNodeHistogram) : Prop :=
  ∀ f, f < d.num_features →
    h.thresholds_size.getD f 0 < 2 ^ 32 ∧
    h.thresholds_size.getD f 0 ≤ (h.thresholds.getD f []).length

/-- The count part of the histogram invariant for a node with sample ids `ids`: for every
candidate `(f, t)`, `count[f][t]` is the number of the node's samples whose value of feature
`f` is at most `thresholds[f][t]`, and the last bin of the feature holds the node's size. -/
def CountInvariant (d : Dataset) (ids : List Nat) (h : RTNodeHistogram) : Prop :=
  ∀ f, f < d.num_features → ∀ t, t < h.thresholds_size.getD f 0 →
    c_L h f t = (ids.filter
      (fun k => decide (d.feature f k ≤ (h.thresholds.getD f []).getD t 0))).length ∧
    c_total h f = ids.length

/-- A node that still holds its samples and a histogram describing them. -/
def Fresh (p : Params) (nd : RTNode) : Prop :=
  ∃ h, nd.hist = some h ∧ CountInvariant p.training_dataset nd.ids h ∧
    Shaped p.training_dataset h ∧ nd.nsampleids < 2 ^ 32

/-- What the growth loop of `fit` maintains about a node of the heap: its histogram was
released, or it is fresh and holds at least one sample. -/
def Settled (p : Params) (nd : RTNode) : Prop :=
  nd.hist = none ∨ (Fresh p nd ∧ 1 ≤ nd.nsampleids)

/-- The weight of a heap node in the termination measure of the growth loop: `2 n - 1` for a
node with a histogram and `n` samples, `1` for a node without. -/
def weight (nd : RTNode) : Nat := if nd.hist.isSome then 2 * nd.nsampleids - 1 else 1

/-- The termination measure of the growth loop: the sum of the weights of the heap's nodes. -/
def potential (nodes : List RTNode) (heap : List (ℚ × Nat)) : Nat :=
  (heap.map (fun e => weight (nodes.getD e.2 (RTNode.create [] 0 0 0 none)))).sum

/-- The invariant of the growth loop: every heap entry points to a settled node of the arena
other than the root. -/
def HeapInvariant (p : Params) (nodes : List RTNode) (heap : List (ℚ × Nat)) : Prop :=
  ∀ e ∈ heap, 1 ≤ e.2 ∧ ∃ nd, nodes[e.2]? = some nd ∧ Settled p nd

/-- The number of successful splits that produced an arena: the arena starts with the root
alone and every successful `split` appends two nodes. -/
def splits (nodes : List RTNode) : Nat := (nodes.length - 1) / 2

end RegressionTree

namespace RegressionTree

/-- The body of the threshold loop of `split` (lines 139 to 150 of `rt.cc`) as the machine
evaluates it: `lsum`, `rsum` and `score` are `double`s, and every operation of
`rsum = s - lsum` and `score = lsum*lsum/(double)lcount + rsum*rsum/(double)rcount` rounds its
exact result to a `double`.  The rounding is the parameter `fl`; the conversion of a count to
`double` is exact.  `scan_threshold` is the instance without rounding. -/
def scan_threshold_fl (fl : ℚ → ℚ) (h : RTNodeHistogram) (minls : Nat) (f : Nat) (s : ℚ)
    (c : Nat) (b : Best) (t : Nat) : Best :=
  let lcount := (h.count.getD f []).getD t 0
  let rcount := usub c lcount
  if lcount ≥ minls ∧ rcount ≥ minls then
    let lsum := (h.sumlbl.getD f []).getD t 0
    let rsum := fl (s - lsum)
    let score := fl (fl (fl (lsum * lsum) / (lcount : ℚ)) + fl (fl (rsum * rsum) / (rcount : ℚ)))
    if score > b.score then { score := score, featureidx := f, thresholdid := t } else b
  else b

/-- The threshold loop of `split` for feature `f` with rounded scores. -/
def scan_feature_fl (fl : ℚ → ℚ) (h : RTNodeHistogram) (minls : Nat) (b : Best) (f : Nat) :
    Best :=
  let threshold_size := h.thresholds_size.getD f 0
  let s := (h.sumlbl.getD f []).getD (usub threshold_size 1) 0
  let c := (h.count.getD f []).getD (usub threshold_size 1) 0
  (List.range threshold_size).foldl (scan_threshold_fl fl h minls f s c) b

/-- The search of `split` for the best candidate under sequential execution with rounded
scores: the scan by thread `0` and the final loop over the thread slots, as in `best_split`. -/
def best_split_fl (fl : ℚ → ℚ) (h : RTNodeHistogram) (minls : Nat) (features : List Nat)
    (nth : Nat) : Best :=
  let thread_best := (List.replicate nth Best.init).set 0
    (features.foldl (scan_feature_fl fl h minls)
      ((List.replicate nth Best.init).getD 0 Best.init))
  (List.range' 1 (nth - 1)).foldl
    (fun best i =>
      if (thread_best.getD i Best.init).score > best.score then thread_best.getD i Best.init
      else best)
    (thread_best.getD 0 Best.init)

/-- The decision of `split` for the node `nd` (lines 88 to 175 of `rt.cc`) with rounded
scores: `none` when `split` returns `false`, because the deviance is not positive or the best
score is still the initial `-1`; otherwise the (feature index, threshold index) it commits
to. -/
def split_choice (fl : ℚ → ℚ) (p : Params) (nd : RTNode) (featuresamplingrate : ℚ)
    (rand : Nat → Nat) (nth : Nat) : Option (Nat × Nat) :=
  if nd.deviance > 0 then
    let h := nd.hist.getD RTNodeHistogram.null
    let best := best_split_fl fl h p.minls
      (scanned_features p.training_dataset.num_features featuresamplingrate rand) nth
    if best.score = -1 then none else some (best.featureidx, best.thresholdid)
  else none

/-- The score of the candidate `(f, t)` as the scan computes it with the rounding `fl`. -/
def computed_score (fl : ℚ → ℚ) (h : RTNodeHistogram) (f t : Nat) : ℚ :=
  fl (fl (fl (s_L h f t * s_L h f t) / (c_L h f t : ℚ)) +
    fl (fl (fl (s_total h f - s_L h f t) * fl (s_total h f - s_L h f t)) / (c_R h f t : ℚ)))

/-- The invariant of the rounded scan when it is about to look at `(f, t)`: the running best
`b` is still the initial one and no admissible candidate seen had a computed score above `-1`,
or `b` is an admissible candidate seen before, with its computed score, which is maximal among
the computed scores of those seen, and `b` is the first of that computed score. -/
def FirstBest (fl : ℚ → ℚ) (h : RTNodeHistogram) (minls num_features f t : Nat) (b : Best) :
    Prop :=
  (b = Best.init ∧ ∀ f' t', Admissible h minls num_features f' t' → Before f t f' t' →
    computed_score fl h f' t' ≤ -1) ∨
  (Admissible h minls num_features b.featureidx b.thresholdid ∧
    Before f t b.featureidx b.thresholdid ∧
    b.score = computed_score fl h b.featureidx b.thresholdid ∧ -1 < b.score ∧
    ∀ f' t', Admissible h minls num_features f' t' → Before f t f' t' →
      computed_score fl h f' t' ≤ b.score ∧
      (computed_score fl h f' t' = b.score → ¬ Before b.featureidx b.thresholdid f' t'))

/-- Rounding of a rational to the nearest integer, ties to the even one. -/
def round_even (x : ℚ) : Int :=
  if x - (⌊x⌋ : ℚ) < 1 / 2 then ⌊x⌋
  else if 1 / 2 < x - (⌊x⌋ : ℚ) then ⌊x⌋ + 1
  else if ⌊x⌋ % 2 = 0 then ⌊x⌋ else ⌊x⌋ + 1

/-- The rounding of IEEE 754 `double` arithmetic in its default mode (to nearest, ties to
even) on the range of the normal numbers: a value with binary exponent `e` is rounded to a
multiple of `2 ^ (e - 52)`.  Overflow and subnormal numbers are not represented. -/
def round_double (x : ℚ) : ℚ :=
  if x = 0 then 0
  else (round_even (x / (2 : ℚ) ^ (Int.log 2 |x| - 52)) : ℚ) * (2 : ℚ) ^ (Int.log 2 |x| - 52)

/-- A training set of four samples and one feature with the values `1, 2, 2, 3`. -/
def tie_dataset : Dataset := { num_features := 1, num_instances := 4, columns := [[1, 2, 2, 3]] }

/-- The labels `2, 1, 2, 1` of the four samples. -/
def tie_labels : List ℚ := [2, 1, 2, 1]

/-- The histogram of `tie_dataset` with `tie_labels`: thresholds `1, 2, 3` with the cumulative
counts `1, 3, 4`, label sums `2, 5, 6` and squared label sums `4, 9, 10`.  The candidates of
the thresholds `1` and `2` have the same exact score `28/3`. -/
def tie_hist : RTNodeHistogram :=
  { thresholds := [[1, 2, 3]], thresholds_size := [3], sumlbl := [[2, 5, 6]],
    sqsumlbl := [[4, 9, 10]], count := [[1, 3, 4]] }

/-- A tree configuration on `tie_dataset` with `minls = 1`. -/
def tie_params : Params :=
  { nrequiredleaves := 0, minls := 1, training_dataset := tie_dataset,
    training_labels := tie_labels }

/-- The node holding the four samples of `tie_dataset`, as `fit` creates the root. -/
def tie_root : RTNode := RTNode.create [0, 1, 2, 3] 4 DBL_MAX 0 (some tie_hist)

end RegressionTree

/-! ## Part II. Theorems -/

/-! ### NDCG -/

theorem toInt32_of_lt {n : Nat} (h : n < 2 ^ 31) : toInt32 n = (n : Int) := by
  have h32 : n % 2 ^ 32 = n := Nat.mod_eq_of_lt (by omega)
  unfold toInt32
  rw [h32, if_pos h]

theorem POWEROFTWO_eq {α : Type} [LinearOrderedField α] {p : Nat} (hp : p < 31) :
    (POWEROFTWO p : α) = 2 ^ p := by
  have h1 : (1 <<< p : Nat) = 2 ^ p := by simp [Nat.shiftLeft_eq]
  have h2 : (2 : Nat) ^ p < 2 ^ 31 := Nat.pow_lt_pow_right (by norm_num) hp
  simp [POWEROFTWO, h1, toInt32_of_lt h2]

theorem foldl_range_add {α : Type} [LinearOrderedField α] (f : Nat → α) (n : Nat) :
    (List.range n).foldl (fun acc i => acc + f i) 0 = ∑ i in Finset.range n, f i := by
  induction n with
  | zero => simp
  | succ n ih => simp [List.range_succ, List.foldl_append, ih, Finset.sum_range_succ]

theorem compute_dcg_eq {α : Type} [LinearOrderedField α] (log2 : α → α)
    (labels : List Nat) (k : Nat) (hsmall : ∀ y ∈ labels, y < 31) :
    compute_dcg log2 labels labels.length k =
      dcgFormula log2 labels (if k = 0 ∨ k > labels.length then labels.length else k) := by
  unfold compute_dcg dcgFormula
  simp only []
  rw [foldl_range_add (fun i => (POWEROFTWO (labels.getD i 0) - 1) / log2 ((i : α) + 2))]
  apply Finset.sum_congr rfl
  intro i hi
  have hi' : i < labels.length := by
    have := Finset.mem_range.mp hi
    split_ifs at this <;> omega
  have hy : labels.getD i 0 < 31 := by
    rw [List.getD_eq_getElem _ _ hi']
    exact hsmall _ (List.getElem_mem _)
  rw [POWEROFTWO_eq hy]

theorem double_qsort_perm (labels : List Nat) : (double_qsort labels).Perm labels :=
  List.perm_insertionSort _ labels

theorem double_qsort_length (labels : List Nat) : (double_qsort labels).length = labels.length :=
  (double_qsort_perm labels).length_eq

theorem double_qsort_small {labels : List Nat} (hsmall : ∀ y ∈ labels, y < 31) :
    ∀ y ∈ double_qsort labels, y < 31 :=
  fun y hy => hsmall y ((double_qsort_perm labels).mem_iff.mp hy)

theorem compute_idcg_eq {α : Type} [LinearOrderedField α] (log2 : α → α)
    (labels : List Nat) (k : Nat) (hsmall : ∀ y ∈ labels, y < 31) :
    compute_idcg log2 labels labels.length k =
      dcgFormula log2 (double_qsort labels)
        (if k = 0 ∨ k > labels.length then labels.length else k) := by
  unfold compute_idcg
  simp only [List.take_length]
  have h := compute_dcg_eq log2 (double_qsort labels) k (double_qsort_small hsmall)
  rw [double_qsort_length] at h
  exact h

theorem logb_two_two : Real.logb 2 ((0 : ℝ) + 2) = 1 := by
  rw [zero_add]; exact Real.logb_self_eq_one (by norm_num)

theorem logb_two_four : Real.logb 2 ((2 : ℝ) + 2) = 2 := by
  have h : ((2 : ℝ) + 2) = 2 ^ (2 : ℝ) := by norm_num
  rw [h, Real.logb_rpow (by norm_num) (by norm_num)]

/-- C1 (as amended).  For every non-empty query whose labels are small non-negative integers
(below 31, so that the shift of `POWEROFTWO` stays inside `int`) and every cutoff `k`,
`compute_score` returns `DCG / IDCG` when `IDCG > 0` and `0` otherwise, where
`DCG` is the sum over `i < k'` of `(2 ^ y[i] - 1) / log2 (i + 2)`, `IDCG` is the same sum over
the labels sorted in descending order, and the effective cutoff is `k' = min k n` for `k ≥ 1`
and `k' = n` for `k = 0`. -/
theorem compute_score_eq_ndcgFormula {α : Type} [LinearOrderedField α] (log2 : α → α)
    (k : Nat) (labels : List Nat) (hne : labels ≠ [])
    (hsmall : ∀ y ∈ labels, y < 31) :
    ndcgscorer.compute_score log2 k labels =
      ndcgFormula log2 labels (if k = 0 then labels.length else min k labels.length) := by
  have hlen : labels.length ≠ 0 := by
    intro h; exact hne (List.length_eq_zero.mp h)
  have hsize : (if (if k < labels.length then k else labels.length) = 0 ∨
        (if k < labels.length then k else labels.length) > labels.length
      then labels.length else (if k < labels.length then k else labels.length)) =
      (if k = 0 then labels.length else min k labels.length) := by
    split_ifs <;> first | rfl | omega
  unfold ndcgscorer.compute_score ndcgFormula
  rw [if_neg hlen]
  simp only []
  rw [compute_idcg_eq log2 labels _ hsmall, compute_dcg_eq log2 labels _ hsmall, hsize]

/-- C1, the example of the specification: labels `[3,2,3,0,1,2]` at cutoff `3` over the reals
with the true binary logarithm give `DCG = 7 + 3/log2 3 + 7/2` and
`IDCG = 7 + 7/log2 3 + 3/2`, and `compute_score` is their quotient formula. -/
theorem compute_score_eq_ndcgFormula_witness :
    ([3, 2, 3, 0, 1, 2] : List Nat) ≠ [] ∧ (∀ y ∈ ([3, 2, 3, 0, 1, 2] : List Nat), y < 31) ∧
    ndcgscorer.compute_score (fun x : ℝ => Real.logb 2 x) 3 [3, 2, 3, 0, 1, 2] =
      ndcgFormula (fun x : ℝ => Real.logb 2 x) [3, 2, 3, 0, 1, 2] 3 ∧
    dcgFormula (fun x : ℝ => Real.logb 2 x) [3, 2, 3, 0, 1, 2] 3 =
      7 + 3 / Real.logb 2 3 + 7 / 2 ∧
    dcgFormula (fun x : ℝ => Real.logb 2 x) (double_qsort [3, 2, 3, 0, 1, 2]) 3 =
      7 + 7 / Real.logb 2 3 + 3 / 2 := by
  refine ⟨by decide, by decide, ?_, ?_, ?_⟩
  · exact compute_score_eq_ndcgFormula (fun x : ℝ => Real.logb 2 x) 3 [3, 2, 3, 0, 1, 2]
      (by decide) (by decide)
  · have h3 : ((1 : ℝ) + 2) = 3 := by norm_num
    simp only [dcgFormula, Finset.sum_range_succ, Finset.sum_range_zero, List.getD_cons_zero,
      List.getD_cons_succ, Nat.cast_zero, Nat.cast_one, Nat.cast_ofNat, logb_two_two,
      logb_two_four, h3]
    norm_num
  · have h3 : ((1 : ℝ) + 2) = 3 := by norm_num
    have hs : double_qsort [3, 2, 3, 0, 1, 2] = [3, 3, 2, 2, 1, 0] := by decide
    simp only [hs, dcgFormula, Finset.sum_range_succ, Finset.sum_range_zero, List.getD_cons_zero,
      List.getD_cons_succ, Nat.cast_zero, Nat.cast_one, Nat.cast_ofNat, logb_two_two,
      logb_two_four, h3]
    norm_num

/-- C1 as stated fails at cutoff `k = 0`: for the one-label query `[1]` the claim's effective
cutoff `min 0 1 = 0` gives an empty sum and score `0`, while `compute_score` hands `0` to
`compute_dcg`, which then uses all labels, and returns `1`. -/
theorem compute_score_cutoff_zero_counterexample :
    ndcgscorer.compute_score (fun x : ℝ => Real.logb 2 x) 0 [1] = 1 ∧
    ndcgFormula (fun x : ℝ => Real.logb 2 x) [1] (min 0 ([1] : List Nat).length) = 0 := by
  constructor
  · have hs : double_qsort [1] = [1] := by decide
    have hp : (POWEROFTWO 1 : ℝ) = 2 := by rw [POWEROFTWO_eq (by decide)]; norm_num
    simp [ndcgscorer.compute_score, compute_idcg, compute_dcg, hs, hp, List.range_succ,
      logb_two_two]
    norm_num
  · simp [ndcgFormula, dcgFormula]

/-! ### Swap matrix -/

theorem getD_map_range {β : Type} (f : Nat → β) (d : β) {n i : Nat} (h : i < n) :
    ((List.range n).map f).getD i d = f i := by
  rw [List.getD_eq_getElem _ _ (by simpa using h)]
  simp

theorem entry_swap_change {α : Type} [LinearOrderedField α] (log2 : α → α) (k : Nat)
    (labels : List Nat) {i j : Nat} (hij : i < j) (hj : j < labels.length) :
    ndcgscorer.entry (ndcgscorer.swap_change log2 k labels) i j =
      if compute_idcg log2 labels labels.length
            (if k < labels.length then k else labels.length) > 0 ∧
          i < (if k < labels.length then k else labels.length) then
        (1 / log2 ((i : α) + 2) - 1 / log2 ((j : α) + 2)) *
          ((2 : α) ^ (labels.getD i 0) - (2 : α) ^ (labels.getD j 0)) /
          compute_idcg log2 labels labels.length (if k < labels.length then k else labels.length)
      else 0 := by
  unfold ndcgscorer.entry ndcgscorer.swap_change
  simp only []
  rw [getD_map_range _ _ (by omega : i < labels.length),
    getD_map_range _ _ (by omega : j - (i + 1) < labels.length - (i + 1))]
  have hidx : i + 1 + (j - (i + 1)) = j := by omega
  rw [hidx]
  push_cast
  rfl

theorem one_lt_logb_two_three : 1 < Real.logb 2 ((1 : ℝ) + 2) := by
  rw [Real.lt_logb_iff_rpow_lt (by norm_num) (by norm_num)]
  norm_num

theorem pointsFrom_eq (hi step : ℚ) (hstep : 0 < step) :
    ∀ (n : Nat) (lo : ℚ), lo + n * step ≤ hi → hi < lo + (n + 1) * step →
      LineSearch.pointsFrom hi step hstep lo =
        ((List.range (n + 1)).map (fun i : Nat => lo + i * step)).filter (fun x => decide (0 ≤ x)) := by
  intro n
  induction n with
  | zero =>
    intro lo h1 h2
    rw [LineSearch.pointsFrom]
    have hlo : lo ≤ hi := by simpa using h1
    rw [dif_pos hlo, LineSearch.pointsFrom]
    have hnext : ¬ (lo + step ≤ hi) := by
      have : hi < lo + step := by simpa using h2
      linarith
    rw [dif_neg hnext]
    by_cases h0 : 0 ≤ lo <;> simp [h0, List.filter]
  | succ n ih =>
    intro lo h1 h2
    have hn : (0 : ℚ) ≤ (n : ℚ) := Nat.cast_nonneg n
    have hlo : lo ≤ hi := by
      push_cast at h1
      nlinarith
    rw [LineSearch.pointsFrom, dif_pos hlo]
    rw [ih (lo + step) (by push_cast at h1; linarith) (by push_cast at h2 ⊢; linarith)]
    rw [List.range_succ_eq_map (n + 1), List.map_cons, List.map_map, List.filter_cons]
    have hfun : ((fun i : Nat => lo + (i : ℚ) * step) ∘ Nat.succ) =
        (fun i : Nat => lo + step + (i : ℚ) * step) := by
      funext i
      simp only [Function.comp, Nat.succ_eq_add_one]
      push_cast
      ring
    rw [hfun]
    by_cases h0 : 0 ≤ lo <;> simp [h0]

/-- C8.  In Step 1 of `learn`, in exact arithmetic with a window `W > 0` and an even number of
points `P ≥ 2`, the candidate list built around `w = weights_prev[f]` with the step `2W/P` is
exactly the list of the points `w + j * (2W/P)` for `j = -P/2 .. P/2` that are non-negative,
in increasing order.  Hence every candidate is non-negative, there are at most `P + 1`
candidates, and the centre `w` is a candidate whenever `w ≥ 0`. -/
theorem points_eq_window (w W : ℚ) (P : Nat) (hW : 0 < W) (hP : 2 ≤ P) (heven : P % 2 = 0) :
    LineSearch.points w W (2 * W / (P : ℚ)) =
        some (((List.range (P + 1)).map
          (fun i : Nat => w + ((i : ℚ) - ((P / 2 : Nat) : ℚ)) * (2 * W / (P : ℚ)))).filter
            (fun x => decide (0 ≤ x))) ∧
    ∀ pts, LineSearch.points w W (2 * W / (P : ℚ)) = some pts →
      (∀ x ∈ pts, 0 ≤ x) ∧ pts.length ≤ P + 1 ∧ pts.Sorted (fun a b => a < b) ∧
      (0 ≤ w → w ∈ pts) := by
  have hPpos : (0 : ℚ) < (P : ℚ) := by exact_mod_cast (by omega : 0 < P)
  have hstep : 0 < 2 * W / (P : ℚ) := by positivity
  have hhalf : ((P / 2 : Nat) : ℚ) = (P : ℚ) / 2 := by
    obtain ⟨m, hm⟩ : ∃ m, P = 2 * m := ⟨P / 2, by omega⟩
    subst hm
    have : 2 * m / 2 = m := by omega
    rw [this]; push_cast; ring
  have hmul : (P : ℚ) * (2 * W / (P : ℚ)) = 2 * W := by field_simp
  have hclosed : LineSearch.points w W (2 * W / (P : ℚ)) =
      some (((List.range (P + 1)).map
        (fun i : Nat => w + ((i : ℚ) - ((P / 2 : Nat) : ℚ)) * (2 * W / (P : ℚ)))).filter
          (fun x => decide (0 ≤ x))) := by
    unfold LineSearch.points
    rw [dif_pos hstep]
    rw [pointsFrom_eq (w + W) (2 * W / (P : ℚ)) hstep P (w - W) (by rw [hmul]; linarith)
      (by rw [add_mul, hmul]; linarith)]
    have hfun : (fun i : Nat => w - W + (i : ℚ) * (2 * W / (P : ℚ))) =
        (fun i : Nat => w + ((i : ℚ) - ((P / 2 : Nat) : ℚ)) * (2 * W / (P : ℚ))) := by
      funext i
      rw [hhalf, sub_mul]
      have : (P : ℚ) / 2 * (2 * W / (P : ℚ)) = W := by field_simp; ring
      rw [this]; ring
    rw [hfun]
  refine ⟨hclosed, ?_⟩
  intro pts hpts
  rw [hclosed] at hpts
  have hpts' := Option.some.inj hpts
  subst hpts'
  refine ⟨?_, ?_, ?_, ?_⟩
  · intro x hx
    have := (List.mem_filter.mp hx).2
    simpa using this
  · calc (List.filter _ _).length ≤ (List.map _ (List.range (P + 1))).length :=
          List.length_filter_le _ _
      _ = P + 1 := by simp
  · apply List.Pairwise.filter
    rw [List.pairwise_map]
    refine (List.pairwise_lt_range (P + 1)).imp ?_
    intro a b hab
    have : (a : ℚ) < (b : ℚ) := by exact_mod_cast hab
    have := mul_lt_mul_of_pos_right (sub_lt_sub_right this ((P / 2 : Nat) : ℚ)) hstep
    linarith
  · intro hw
    rw [List.mem_filter]
    refine ⟨List.mem_map.mpr ⟨P / 2, List.mem_range.mpr (by omega), by simp⟩, by simpa using hw⟩

/-- C8, the example of the specification: with `weights_prev[f] = 0.3`, window `1.0` and two
points the candidates are `0.3` and `1.3`; the point `-0.7` is dropped. -/
theorem points_eq_window_witness :
    LineSearch.points (3 / 10) 1 (2 * 1 / ((2 : Nat) : ℚ)) = some [3 / 10, 13 / 10] ∧
    ∀ x ∈ ([3 / 10, 13 / 10] : List ℚ), 0 ≤ x := by
  have h := points_eq_window (3 / 10) 1 2 (by norm_num) (by norm_num) (by norm_num)
  have hv : LineSearch.points (3 / 10) 1 (2 * 1 / ((2 : Nat) : ℚ)) = some [3 / 10, 13 / 10] := by
    rw [h.1]
    simp [List.range_succ, List.filter]
    norm_num
  exact ⟨hv, (h.2 _ hv).1⟩

/-! ### Line search: auxiliary facts on buffers and `max_element` -/

theorem foldl_set_length (g : Nat → ℚ) (n : Nat) (l : List ℚ) :
    ((List.range n).foldl (fun ms p => ms.set p (g p)) l).length = l.length := by
  induction n with
  | zero => simp
  | succ n ih => simp [List.range_succ, List.foldl_append, ih]

theorem foldl_set_getD (g : Nat → ℚ) (n : Nat) (l : List ℚ) (q : Nat) :
    ((List.range n).foldl (fun ms p => ms.set p (g p)) l).getD q 0 =
      if q < n ∧ q < l.length then g q else l.getD q 0 := by
  induction n with
  | zero => simp
  | succ n ih =>
    rw [List.range_succ, List.foldl_append]
    simp only [List.foldl_cons, List.foldl_nil]
    rw [List.getD_eq_getElem?_getD, List.getElem?_set, foldl_set_length]
    by_cases hq : n = q
    · subst hq
      by_cases hl : n < l.length
      · simp [hl]
      · have h1 : ¬ (n < n + 1 ∧ n < l.length) := fun h => hl h.2
        rw [if_pos rfl, if_neg hl, if_neg h1]
        rw [List.getD_eq_default _ _ (by omega)]
        rfl
    · rw [if_neg hq, ← List.getD_eq_getElem?_getD, ih]
      by_cases hc : q < n ∧ q < l.length
      · rw [if_pos hc, if_pos ⟨by omega, hc.2⟩]
      · rw [if_neg hc, if_neg]
        intro h
        exact hc ⟨by omega, h.2⟩

theorem max_element_aux (xs : List ℚ) (k : Nat) :
    let m := (List.range' 1 k).foldl
      (fun largest i => if xs.getD largest 0 < xs.getD i 0 then i else largest) 0
    m < k + 1 ∧ (∀ i, i < k + 1 → xs.getD i 0 ≤ xs.getD m 0) ∧
      (∀ i, i < m → xs.getD i 0 < xs.getD m 0) := by
  induction k with
  | zero =>
    refine ⟨by simp, ?_, ?_⟩
    · intro i hi
      have : i = 0 := by omega
      subst this; simp
    · intro i hi
      simp at hi
  | succ k ih =>
    simp only [List.range'_concat, List.foldl_append, List.foldl_cons, List.foldl_nil]
    obtain ⟨h1, h2, h3⟩ := ih
    generalize (List.range' 1 k).foldl
      (fun largest i => if xs.getD largest 0 < xs.getD i 0 then i else largest) 0 = m at h1 h2 h3
    have hk : 1 + 1 * k = k + 1 := by omega
    rw [hk]
    by_cases hlt : xs.getD m 0 < xs.getD (k + 1) 0
    · rw [if_pos hlt]
      refine ⟨by omega, ?_, ?_⟩
      · intro i hi
        by_cases hik : i = k + 1
        · subst hik; exact le_refl _
        · exact le_trans (h2 i (by omega)) hlt.le
      · intro i hi
        exact lt_of_le_of_lt (h2 i hi) hlt
    · rw [if_neg hlt]
      refine ⟨by omega, ?_, h3⟩
      intro i hi
      by_cases hik : i = k + 1
      · subst hik; exact not_lt.mp hlt
      · exact h2 i (by omega)

theorem max_element_spec (xs : List ℚ) (len : Nat) (hlen : 0 < len) :
    LineSearch.max_element xs len < len ∧
    (∀ i, i < len → xs.getD i 0 ≤ xs.getD (LineSearch.max_element xs len) 0) ∧
    (∀ i, i < LineSearch.max_element xs len →
      xs.getD i 0 < xs.getD (LineSearch.max_element xs len) 0) := by
  have h := max_element_aux xs (len - 1)
  have hl : len - 1 + 1 = len := by omega
  simp only [hl] at h
  exact h

/-! ### Line search: Step 2 -/

theorem step2_vector_getD (P : Nat) (w wp : List ℚ) (f : Nat) (h1 : f < w.length)
    (h2 : f < wp.length) :
    (LineSearch.step2_vector P w wp).getD f 0 = (w.getD f 0 - wp.getD f 0) / (P : ℚ) := by
  unfold LineSearch.step2_vector
  rw [List.getD_eq_getElem _ _ (by simp [h1, h2]), List.getElem_zipWith,
    List.getD_eq_getElem _ _ h1, List.getD_eq_getElem _ _ h2]

/-- C9.  Step 2 of `learn` from a state whose `metric_scores` has its `P + 1` entries and
whose weight vectors have one entry per feature, with `delta = step2` (so
`delta[f] = (w[f] - w_prev[f]) / P`) and `m p` the metric of point `p`.  If `delta` is the zero
vector, or no point `p ≤ P` has `m p` above `best_metric_on_training`, then the gain is `0` and
`weights_prev`, `best_metric_on_training` and `weights` are unchanged.  Otherwise, for the
first point `p` of maximal metric, `weights[f]` becomes `w_prev[f] + delta[f] * p` for every
feature, the gain is `m p - best > 0`, `best_metric_on_training` becomes `m p`, and
`weights_prev` becomes equal to `weights`. -/
theorem step2_spec (train : LineSearch.Dataset) (scorer : LineSearch.Metric) (P : Nat)
    (st : LineSearch.State)
    (hms : st.metric_scores.length = P + 1)
    (hw : st.weights.length = train.num_features)
    (hwp : st.weights_prev.length = train.num_features) :
    (∀ f, f < train.num_features →
      (LineSearch.step2_vector P st.weights st.weights_prev).getD f 0 =
        (st.weights.getD f 0 - st.weights_prev.getD f 0) / (P : ℚ)) ∧
    (((∀ d ∈ LineSearch.step2_vector P st.weights st.weights_prev, d = 0) ∨
      (∀ p, p ≤ P → scorer train (LineSearch.step2_column train st.weights_prev
          (LineSearch.step2_vector P st.weights st.weights_prev) p) ≤
            st.best_metric_on_training)) →
        (LineSearch.step2 train scorer P st).gain_on_training = 0 ∧
        (LineSearch.step2 train scorer P st).weights_prev = st.weights_prev ∧
        (LineSearch.step2 train scorer P st).best_metric_on_training =
          st.best_metric_on_training ∧
        (LineSearch.step2 train scorer P st).weights = st.weights) ∧
    (¬ (∀ d ∈ LineSearch.step2_vector P st.weights st.weights_prev, d = 0) →
      (∃ p, p ≤ P ∧ st.best_metric_on_training <
        scorer train (LineSearch.step2_column train st.weights_prev
          (LineSearch.step2_vector P st.weights st.weights_prev) p)) →
      ∃ p, p ≤ P ∧
        (∀ q, q ≤ P → scorer train (LineSearch.step2_column train st.weights_prev
            (LineSearch.step2_vector P st.weights st.weights_prev) q) ≤
          scorer train (LineSearch.step2_column train st.weights_prev
            (LineSearch.step2_vector P st.weights st.weights_prev) p)) ∧
        (∀ q, q < p → scorer train (LineSearch.step2_column train st.weights_prev
            (LineSearch.step2_vector P st.weights st.weights_prev) q) <
          scorer train (LineSearch.step2_column train st.weights_prev
            (LineSearch.step2_vector P st.weights st.weights_prev) p)) ∧
        (LineSearch.step2 train scorer P st).weights.length = train.num_features ∧
        (∀ f, f < train.num_features →
          (LineSearch.step2 train scorer P st).weights.getD f 0 =
            st.weights_prev.getD f 0 +
              (LineSearch.step2_vector P st.weights st.weights_prev).getD f 0 * (p : ℚ)) ∧
        (LineSearch.step2 train scorer P st).gain_on_training =
          scorer train (LineSearch.step2_column train st.weights_prev
            (LineSearch.step2_vector P st.weights st.weights_prev) p) -
            st.best_metric_on_training ∧
        0 < (LineSearch.step2 train scorer P st).gain_on_training ∧
        (LineSearch.step2 train scorer P st).best_metric_on_training =
          scorer train (LineSearch.step2_column train st.weights_prev
            (LineSearch.step2_vector P st.weights st.weights_prev) p) ∧
        (LineSearch.step2 train scorer P st).weights_prev =
          (LineSearch.step2 train scorer P st).weights) := by
  refine ⟨fun f hf => step2_vector_getD P _ _ f (by omega) (by omega), ?_⟩
  generalize hdelta : LineSearch.step2_vector P st.weights st.weights_prev = delta
  generalize hm : (fun p => scorer train
    (LineSearch.step2_column train st.weights_prev delta p)) = m
  have hmp : ∀ p, scorer train (LineSearch.step2_column train st.weights_prev delta p) = m p :=
    fun p => by rw [← hm]
  simp only [hmp]
  have hzero : (delta.all (fun s => decide (s = 0)) = true) ↔ ∀ d ∈ delta, d = 0 := by
    simp [List.all_eq_true]
  by_cases hz : ∀ d ∈ delta, d = 0
  · have hs : LineSearch.step2 train scorer P st = { st with gain_on_training := 0 } := by
      unfold LineSearch.step2
      simp only [hdelta]
      rw [if_pos (hzero.mpr hz)]
    rw [hs]
    exact ⟨fun _ => ⟨rfl, rfl, rfl, rfl⟩, fun h => absurd hz h⟩
  · have hzb : ¬ (delta.all (fun s => decide (s = 0)) = true) := fun h => hz (hzero.mp h)
    generalize hbuf : (List.range (P + 1)).foldl (fun ms p => ms.set p (m p))
      st.metric_scores = buf
    have hbl : buf.length = P + 1 := by rw [← hbuf, foldl_set_length, hms]
    have hbg : ∀ q, q ≤ P → buf.getD q 0 = m q := by
      intro q hq
      rw [← hbuf, foldl_set_getD, if_pos ⟨by omega, by omega⟩]
    obtain ⟨hp1, hp2, hp3⟩ := max_element_spec buf buf.length (by omega)
    generalize hpmax : LineSearch.max_element buf buf.length = pm at hp1 hp2 hp3
    have hpm : pm ≤ P := by omega
    by_cases hgt : buf.getD pm 0 > st.best_metric_on_training
    · have hs : LineSearch.step2 train scorer P st =
          { st with
            metric_scores := buf
            weights := (List.range train.num_features).foldl
              (fun w f => w.set f (st.weights_prev.getD f 0 + delta.getD f 0 * (pm : ℚ)))
              st.weights
            gain_on_training := buf.getD pm 0 - st.best_metric_on_training
            best_metric_on_training := buf.getD pm 0
            weights_prev := (List.range train.num_features).foldl
              (fun w f => w.set f (st.weights_prev.getD f 0 + delta.getD f 0 * (pm : ℚ)))
              st.weights } := by
        unfold LineSearch.step2
        simp only [hdelta, hmp]
        rw [if_neg hzb]
        simp only [hbuf, hpmax]
        rw [if_pos hgt]
      rw [hs]
      constructor
      · intro h
        rcases h with h | h
        · exact absurd h hz
        · have := h pm hpm
          rw [hbg pm hpm] at hgt
          exact absurd hgt (not_lt.mpr this)
      · intro _ _
        refine ⟨pm, hpm, ?_, ?_, ?_, ?_, ?_, ?_, ?_, rfl⟩
        · intro q hq
          have := hp2 q (by omega)
          rwa [hbg q hq, hbg pm hpm] at this
        · intro q hq
          have := hp3 q hq
          rwa [hbg q (by omega), hbg pm hpm] at this
        · simp only []
          rw [foldl_set_length, hw]
        · intro f hf
          simp only []
          rw [foldl_set_getD, if_pos ⟨hf, by omega⟩]
        · simp only []
          rw [hbg pm hpm]
        · simp only []
          rw [hbg pm hpm] at hgt ⊢
          linarith
        · simp only []
          rw [hbg pm hpm]
    · have hs : LineSearch.step2 train scorer P st =
          { st with metric_scores := buf, gain_on_training := 0 } := by
        unfold LineSearch.step2
        simp only [hdelta, hmp]
        rw [if_neg hzb]
        simp only [hbuf, hpmax]
        rw [if_neg hgt]
      rw [hs]
      refine ⟨fun _ => ⟨rfl, rfl, rfl, rfl⟩, ?_⟩
      intro _ h
      obtain ⟨p, hp, hlt⟩ := h
      exfalso
      have h1 := hp2 p (by omega)
      rw [hbg p hp] at h1
      exact hgt (lt_of_lt_of_le hlt h1)

/-- C9, a concrete instance: one feature with value `1`, `weights_prev = [1]`, `weights = [2]`,
two points, best training metric `-1`; the joint step is not zero, point `2` improves the
metric, so Step 2 commits with a positive gain. -/
theorem step2_spec_witness :
    LineSearch.sample_state.metric_scores.length = 2 + 1 ∧
    LineSearch.sample_state.weights.length = LineSearch.sample_train.num_features ∧
    LineSearch.sample_state.weights_prev.length = LineSearch.sample_train.num_features ∧
    (∃ p : Nat, p ≤ 2 ∧
      0 < (LineSearch.step2 LineSearch.sample_train LineSearch.sample_scorer 2
        LineSearch.sample_state).gain_on_training ∧
      (LineSearch.step2 LineSearch.sample_train LineSearch.sample_scorer 2
        LineSearch.sample_state).weights.getD 0 0 =
          LineSearch.sample_state.weights_prev.getD 0 0 +
            (LineSearch.step2_vector 2 LineSearch.sample_state.weights
              LineSearch.sample_state.weights_prev).getD 0 0 * (p : ℚ)) := by
  have h := step2_spec LineSearch.sample_train LineSearch.sample_scorer 2
    LineSearch.sample_state rfl rfl rfl
  have hnz : ¬ (∀ d ∈ LineSearch.step2_vector 2 LineSearch.sample_state.weights
      LineSearch.sample_state.weights_prev, d = 0) := by
    simp [LineSearch.step2_vector, LineSearch.sample_state]
    norm_num
  have hex : ∃ p, p ≤ 2 ∧ LineSearch.sample_state.best_metric_on_training <
      LineSearch.sample_scorer LineSearch.sample_train
        (LineSearch.step2_column LineSearch.sample_train LineSearch.sample_state.weights_prev
          (LineSearch.step2_vector 2 LineSearch.sample_state.weights
            LineSearch.sample_state.weights_prev) p) := by
    refine ⟨2, le_refl _, ?_⟩
    simp [LineSearch.step2_vector, LineSearch.sample_state, LineSearch.sample_scorer,
      LineSearch.step2_column, LineSearch.sample_train, LineSearch.Dataset.feature_at,
      List.range_succ]
  obtain ⟨p, hp, _, _, _, hwf, _, hgain, _, _⟩ := h.2.2 hnz hex
  exact ⟨rfl, rfl, rfl, p, hp, hgain, hwf 0 (by decide)⟩

/-! ### Line search: the best training metric -/

theorem step1_feature_best (train : LineSearch.Dataset) (scorer : LineSearch.Metric)
    (step : ℚ) (st s : LineSearch.State) (f : Nat)
    (h : LineSearch.step1_feature train scorer step st f = some s) :
    s.best_metric_on_training = st.best_metric_on_training := by
  unfold LineSearch.step1_feature at h
  simp only [] at h
  split at h
  · exact absurd h (by simp)
  · split_ifs at h <;>
    · have hs := Option.some.inj h
      subst hs
      rfl

theorem step1_fold_best (train : LineSearch.Dataset) (scorer : LineSearch.Metric) (step : ℚ) :
    ∀ (l : List Nat) (st s : LineSearch.State),
      l.foldl (fun acc f => acc.bind
        (fun s => LineSearch.step1_feature train scorer step s f)) (some st) = some s →
      s.best_metric_on_training = st.best_metric_on_training := by
  intro l
  induction l with
  | nil => intro st s h; simp at h; rw [h]
  | cons f l ih =>
    intro st s h
    rw [List.foldl_cons, Option.some_bind] at h
    cases hf : LineSearch.step1_feature train scorer step st f with
    | none =>
      rw [hf] at h
      have hnone : ∀ (l : List Nat), l.foldl (fun acc f => acc.bind
          (fun s => LineSearch.step1_feature train scorer step s f)) none = none := by
        intro l
        induction l with
        | nil => rfl
        | cons _ _ ih2 => simpa using ih2
      rw [hnone] at h
      exact absurd h (by simp)
    | some s1 =>
      rw [hf] at h
      rw [ih s1 s h, step1_feature_best train scorer step st s1 f hf]

theorem step1_eq_fold (train : LineSearch.Dataset) (scorer : LineSearch.Metric) (P : Nat)
    (st s : LineSearch.State) (h : LineSearch.step1 train scorer P st = some s) :
    (List.range train.num_features).foldl
      (fun acc f => acc.bind (fun s => LineSearch.step1_feature train scorer
        (2 * st.window_size / (P : ℚ)) s f)) (some st) = some s := by
  unfold LineSearch.step1 at h
  by_cases hP : P = 0
  · rw [if_pos hP] at h
    exact absurd h (by simp)
  · rw [if_neg hP] at h
    exact h

theorem step1_best (train : LineSearch.Dataset) (scorer : LineSearch.Metric) (P : Nat)
    (st s : LineSearch.State) (h : LineSearch.step1 train scorer P st = some s) :
    s.best_metric_on_training = st.best_metric_on_training :=
  step1_fold_best train scorer _ _ st s (step1_eq_fold train scorer P st s h)

theorem step2_best (train : LineSearch.Dataset) (scorer : LineSearch.Metric) (P : Nat)
    (st : LineSearch.State) :
    (LineSearch.step2 train scorer P st).best_metric_on_training =
        st.best_metric_on_training ∨
    st.best_metric_on_training <
      (LineSearch.step2 train scorer P st).best_metric_on_training := by
  unfold LineSearch.step2
  simp only []
  split_ifs with h1 h2
  · exact Or.inl rfl
  · exact Or.inr h2
  · exact Or.inl rfl

theorem finish_best (cfg : LineSearch.Config) (vali : Option LineSearch.Dataset)
    (scorer : LineSearch.Metric) (st : LineSearch.State) :
    (LineSearch.finish cfg vali scorer st).1.best_metric_on_training =
      st.best_metric_on_training := by
  unfold LineSearch.finish
  simp only []
  cases vali with
  | none => simp only []; split_ifs <;> rfl
  | some vd => simp only []; split_ifs <;> rfl

theorem iteration_advance (cfg : LineSearch.Config) (train : LineSearch.Dataset)
    (vali : Option LineSearch.Dataset) (scorer : LineSearch.Metric)
    (st s : LineSearch.State) (e : LineSearch.Exit)
    (h : LineSearch.iteration cfg train vali scorer st = some (s, e)) :
    LineSearch.Advance cfg train scorer st s := by
  unfold LineSearch.iteration at h
  cases h1 : LineSearch.step1 train scorer (LineSearch.even_points cfg) st with
  | none => rw [h1] at h; exact absurd h (by simp)
  | some s1 =>
    rw [h1] at h
    simp only [Option.some.injEq] at h
    have hs : s = (LineSearch.finish cfg vali scorer
        (LineSearch.step2 train scorer (LineSearch.even_points cfg) s1)).1 := by rw [h]
    have hb1 := step1_best train scorer _ st s1 h1
    have hb : s.best_metric_on_training =
        (LineSearch.step2 train scorer (LineSearch.even_points cfg) s1).best_metric_on_training := by
      rw [hs, finish_best]
    have h2 := step2_best train scorer (LineSearch.even_points cfg) s1
    rw [← hb, hb1] at h2
    refine ⟨?_, s1, h1, hb1, hb, ?_⟩
    · rcases h2 with h2 | h2
      · exact h2.ge
      · exact h2.le
    · intro hne
      rcases h2 with h2 | h2
      · exact absurd h2 hne
      · exact h2

/-- C3.  Along every run of the main loop of `learn` (any dataset, scorer, configuration and
start state), every iteration takes the state before it to a state after it with
`best_metric_on_training` at least as large; Step 1 leaves the value alone, the value after
the iteration is the one Step 2 produced, and when it changed it is strictly larger. -/
theorem best_metric_on_training_monotone (cfg : LineSearch.Config)
    (train : LineSearch.Dataset) (vali : Option LineSearch.Dataset)
    (scorer : LineSearch.Metric) (n : Nat) (st : LineSearch.State)
    (trace : List (LineSearch.State × LineSearch.Exit))
    (h : LineSearch.iterations cfg train vali scorer n st = some trace) :
    List.Chain (LineSearch.Advance cfg train scorer) st (trace.map Prod.fst) := by
  induction n generalizing st trace with
  | zero =>
    simp only [LineSearch.iterations, Option.some.injEq] at h
    subst h
    exact List.Chain.nil
  | succ n ih =>
    unfold LineSearch.iterations at h
    cases hi : LineSearch.iteration cfg train vali scorer st with
    | none => rw [hi] at h; exact absurd h (by simp)
    | some r =>
      obtain ⟨s, e⟩ := r
      have hadv := iteration_advance cfg train vali scorer st s e hi
      rw [hi] at h
      cases e with
      | next =>
        simp only [Option.map_eq_some'] at h
        obtain ⟨l, hl, rfl⟩ := h
        exact List.Chain.cons hadv (ih s l hl)
      | break_validation =>
        simp only [Option.some.injEq] at h
        subst h
        exact List.Chain.cons hadv List.Chain.nil
      | break_window =>
        simp only [Option.some.injEq] at h
        subst h
        exact List.Chain.cons hadv List.Chain.nil

/-! ### Line search: validation and early stopping -/

/-- The bookkeeping of the validation check seen as sequences indexed by the iteration: from
the one-step behaviour (`hstep`) follow the characterisations of the running best metric, of the
failure counter and of the remembered weights that do not mention the loop any more. -/
theorem validation_bookkeeping (V len : Nat) (bestv : Nat → ℚ) (cnt : Nat → Nat)
    (bw wt : Nat → List ℚ) (m : Nat → ℚ) (brk : Nat → Prop)
    (h0 : cnt 0 = 0)
    (hstep : ∀ t, t < len →
      (bestv t < m t → cnt (t + 1) = 0 ∧ bestv (t + 1) = m t ∧ bw (t + 1) = wt t ∧ ¬ brk t) ∧
      (¬ bestv t < m t → cnt (t + 1) = cnt t + 1 ∧ bestv (t + 1) = bestv t ∧
        bw (t + 1) = bw t ∧ (brk t ↔ V ≤ cnt t + 1))) :
    ∀ t, t ≤ len →
      ((bestv 0 ≤ bestv t ∧ (∀ s, s < t → m s ≤ bestv t) ∧
          (bestv t = bestv 0 ∨ ∃ s, s < t ∧ bestv t = m s)) ∧
        (cnt t ≤ t ∧
          (∀ s, t - cnt t ≤ s → s < t → ¬ (bestv 0 < m s ∧ ∀ r, r < s → m r < m s)) ∧
          (cnt t < t → (bestv 0 < m (t - cnt t - 1) ∧
            ∀ r, r < t - cnt t - 1 → m r < m (t - cnt t - 1)))) ∧
        ((∀ s, s < t → ¬ (bestv 0 < m s ∧ ∀ r, r < s → m r < m s)) → bw t = bw 0) ∧
        (∀ s, s < t → (bestv 0 < m s ∧ ∀ r, r < s → m r < m s) →
          (∀ r, s < r → r < t → ¬ (bestv 0 < m r ∧ ∀ q, q < r → m q < m r)) →
          bw t = wt s)) := by
  intro t
  induction t with
  | zero =>
    intro _
    refine ⟨⟨le_refl _, fun s hs => absurd hs (Nat.not_lt_zero s), Or.inl rfl⟩,
      ⟨by omega, fun s _ hs => absurd hs (Nat.not_lt_zero s), fun h => by omega⟩,
      fun _ => rfl, fun s hs => absurd hs (Nat.not_lt_zero s)⟩
  | succ t ih =>
    intro ht
    obtain ⟨⟨b1, b2, b3⟩, ⟨c1, c2, c3⟩, w1, w2⟩ := ih (by omega)
    have himp : bestv t < m t ↔ (bestv 0 < m t ∧ ∀ r, r < t → m r < m t) := by
      constructor
      · intro h
        exact ⟨lt_of_le_of_lt b1 h, fun r hr => lt_of_le_of_lt (b2 r hr) h⟩
      · intro h
        rcases b3 with b3 | ⟨s, hs, b3⟩
        · rw [b3]; exact h.1
        · rw [b3]; exact h.2 s hs
    obtain ⟨hyes, hno⟩ := hstep t (by omega)
    by_cases hlt : bestv t < m t
    · obtain ⟨e1, e2, e3, _⟩ := hyes hlt
      have hI := himp.mp hlt
      refine ⟨⟨?_, ?_, ?_⟩, ⟨?_, ?_, ?_⟩, ?_, ?_⟩
      · rw [e2]; exact le_of_lt hI.1
      · intro s hs
        rw [e2]
        by_cases hst : s = t
        · rw [hst]
        · exact le_of_lt (hI.2 s (by omega))
      · exact Or.inr ⟨t, by omega, e2⟩
      · omega
      · intro s h1 h2
        rw [e1] at h1
        omega
      · intro _
        rw [e1]
        have : t + 1 - 0 - 1 = t := by omega
        rw [this]
        exact hI
      · intro h
        exact absurd hI (h t (by omega))
      · intro s hs hIs hafter
        by_cases hst : s = t
        · rw [hst, e3]
        · exact absurd hI (hafter t (by omega) (by omega))
    · obtain ⟨e1, e2, e3, _⟩ := hno hlt
      have hI : ¬ (bestv 0 < m t ∧ ∀ r, r < t → m r < m t) := fun h => hlt (himp.mpr h)
      refine ⟨⟨?_, ?_, ?_⟩, ⟨?_, ?_, ?_⟩, ?_, ?_⟩
      · rw [e2]; exact b1
      · intro s hs
        rw [e2]
        by_cases hst : s = t
        · rw [hst]; exact not_lt.mp hlt
        · exact b2 s (by omega)
      · rcases b3 with b3 | ⟨s, hs, b3⟩
        · exact Or.inl (by rw [e2, b3])
        · exact Or.inr ⟨s, by omega, by rw [e2, b3]⟩
      · omega
      · intro s h1 h2
        rw [e1] at h1
        by_cases hst : s = t
        · rw [hst]; exact hI
        · exact c2 s (by omega) (by omega)
      · intro h
        rw [e1] at h ⊢
        have : t + 1 - (cnt t + 1) - 1 = t - cnt t - 1 := by omega
        rw [this]
        exact c3 (by omega)
      · intro h
        rw [e3]
        exact w1 (fun s hs => h s (by omega))
      · intro s hs hIs hafter
        have hst : s ≠ t := fun h => hI (h ▸ hIs)
        rw [e3]
        exact w2 s (by omega) hIs (fun r h1 h2 => hafter r h1 (by omega))

theorem step1_fold_invariant (train : LineSearch.Dataset) (scorer : LineSearch.Metric)
    (step : ℚ) (Q : LineSearch.State → Prop)
    (hQ : ∀ st s f, LineSearch.step1_feature train scorer step st f = some s → Q st → Q s) :
    ∀ (l : List Nat) (st s : LineSearch.State),
      l.foldl (fun acc f => acc.bind
        (fun s => LineSearch.step1_feature train scorer step s f)) (some st) = some s →
      Q st → Q s := by
  intro l
  induction l with
  | nil => intro st s h hq; simp at h; rw [← h]; exact hq
  | cons f l ih =>
    intro st s h hq
    rw [List.foldl_cons, Option.some_bind] at h
    cases hf : LineSearch.step1_feature train scorer step st f with
    | none =>
      rw [hf] at h
      have hnone : ∀ (l : List Nat), l.foldl (fun acc f => acc.bind
          (fun s => LineSearch.step1_feature train scorer step s f)) none = none := by
        intro l
        induction l with
        | nil => rfl
        | cons _ _ ih2 => simpa using ih2
      rw [hnone] at h
      exact absurd h (by simp)
    | some s1 =>
      rw [hf] at h
      exact ih s1 s h (hQ st s1 f hf hq)

theorem step1_feature_validation_frame (train : LineSearch.Dataset)
    (scorer : LineSearch.Metric) (step : ℚ) (st s : LineSearch.State) (f : Nat)
    (h : LineSearch.step1_feature train scorer step st f = some s) :
    s.best_metric_on_validation = st.best_metric_on_validation ∧
    s.count_failed_vali = st.count_failed_vali ∧ s.best_weights_ = st.best_weights_ := by
  unfold LineSearch.step1_feature at h
  simp only [] at h
  split at h
  · exact absurd h (by simp)
  · split_ifs at h <;>
    · have hs := Option.some.inj h
      subst hs
      exact ⟨rfl, rfl, rfl⟩

theorem step1_validation_frame (train : LineSearch.Dataset) (scorer : LineSearch.Metric)
    (P : Nat) (st s : LineSearch.State) (h : LineSearch.step1 train scorer P st = some s) :
    s.best_metric_on_validation = st.best_metric_on_validation ∧
    s.count_failed_vali = st.count_failed_vali ∧ s.best_weights_ = st.best_weights_ := by
  refine step1_fold_invariant train scorer _
    (fun x => x.best_metric_on_validation = st.best_metric_on_validation ∧
      x.count_failed_vali = st.count_failed_vali ∧ x.best_weights_ = st.best_weights_)
    ?_ _ st s (step1_eq_fold train scorer P st s h) ⟨rfl, rfl, rfl⟩
  intro a b f hab ha
  obtain ⟨h1, h2, h3⟩ := step1_feature_validation_frame train scorer _ a b f hab
  exact ⟨h1.trans ha.1, h2.trans ha.2.1, h3.trans ha.2.2⟩

theorem step2_validation_frame (train : LineSearch.Dataset) (scorer : LineSearch.Metric)
    (P : Nat) (st : LineSearch.State) :
    (LineSearch.step2 train scorer P st).best_metric_on_validation =
        st.best_metric_on_validation ∧
    (LineSearch.step2 train scorer P st).count_failed_vali = st.count_failed_vali ∧
    (LineSearch.step2 train scorer P st).best_weights_ = st.best_weights_ := by
  unfold LineSearch.step2
  simp only []
  split_ifs <;> exact ⟨rfl, rfl, rfl⟩

theorem finish_validation (cfg : LineSearch.Config) (vd : LineSearch.Dataset)
    (scorer : LineSearch.Metric) (st : LineSearch.State) :
    (st.best_metric_on_validation <
        (LineSearch.finish cfg (some vd) scorer st).1.metric_on_validation →
      (LineSearch.finish cfg (some vd) scorer st).1.count_failed_vali = 0 ∧
      (LineSearch.finish cfg (some vd) scorer st).1.best_metric_on_validation =
        (LineSearch.finish cfg (some vd) scorer st).1.metric_on_validation ∧
      (LineSearch.finish cfg (some vd) scorer st).1.best_weights_ =
        (LineSearch.finish cfg (some vd) scorer st).1.weights ∧
      (LineSearch.finish cfg (some vd) scorer st).2 ≠ LineSearch.Exit.break_validation) ∧
    (¬ st.best_metric_on_validation <
        (LineSearch.finish cfg (some vd) scorer st).1.metric_on_validation →
      (LineSearch.finish cfg (some vd) scorer st).1.count_failed_vali =
        st.count_failed_vali + 1 ∧
      (LineSearch.finish cfg (some vd) scorer st).1.best_metric_on_validation =
        st.best_metric_on_validation ∧
      (LineSearch.finish cfg (some vd) scorer st).1.best_weights_ = st.best_weights_ ∧
      ((LineSearch.finish cfg (some vd) scorer st).2 = LineSearch.Exit.break_validation ↔
        cfg.max_failed_vali_ ≤ st.count_failed_vali + 1)) := by
  unfold LineSearch.finish
  simp only []
  by_cases himp : scorer vd (LineSearch.validation_scores vd st.weights st.validation_score) >
      st.best_metric_on_validation
  · rw [if_pos himp]
    constructor
    · intro _
      split_ifs <;> exact ⟨rfl, rfl, rfl, by simp⟩
    · intro h
      exfalso
      apply h
      split_ifs <;> exact himp
  · rw [if_neg himp]
    by_cases hV : st.count_failed_vali + 1 ≥ cfg.max_failed_vali_
    · rw [if_pos hV]
      refine ⟨fun h => absurd h himp, fun _ => ⟨rfl, rfl, rfl, ?_⟩⟩
      exact ⟨fun _ => hV, fun _ => rfl⟩
    · rw [if_neg hV]
      constructor
      · intro h
        exfalso
        apply himp
        split_ifs at h <;> exact h
      · intro _
        split_ifs <;> exact ⟨rfl, rfl, rfl, ⟨fun h => by simp at h, fun h => absurd h hV⟩⟩

theorem finish_weights (cfg : LineSearch.Config) (vali : Option LineSearch.Dataset)
    (scorer : LineSearch.Metric) (st : LineSearch.State) :
    (LineSearch.finish cfg vali scorer st).1.weights = st.weights := by
  unfold LineSearch.finish
  simp only []
  cases vali with
  | none => simp only []; split_ifs <;> rfl
  | some vd => simp only []; split_ifs <;> rfl

theorem iteration_validation (cfg : LineSearch.Config) (train vd : LineSearch.Dataset)
    (scorer : LineSearch.Metric) (st s : LineSearch.State) (e : LineSearch.Exit)
    (h : LineSearch.iteration cfg train (some vd) scorer st = some (s, e)) :
    LineSearch.ValiStep cfg st s e := by
  unfold LineSearch.iteration at h
  cases h1 : LineSearch.step1 train scorer (LineSearch.even_points cfg) st with
  | none => rw [h1] at h; exact absurd h (by simp)
  | some s1 =>
    rw [h1] at h
    simp only [Option.some.injEq] at h
    obtain ⟨f1, f2, f3⟩ := step1_validation_frame train scorer _ st s1 h1
    obtain ⟨g1, g2, g3⟩ := step2_validation_frame train scorer (LineSearch.even_points cfg) s1
    have hfin := finish_validation cfg vd scorer
      (LineSearch.step2 train scorer (LineSearch.even_points cfg) s1)
    rw [h] at hfin
    simp only [g1, g2, g3, f1, f2, f3] at hfin
    exact hfin

theorem iterations_chain (cfg : LineSearch.Config) (train vd : LineSearch.Dataset)
    (scorer : LineSearch.Metric) (n : Nat) (st : LineSearch.State)
    (trace : List (LineSearch.State × LineSearch.Exit))
    (h : LineSearch.iterations cfg train (some vd) scorer n st = some trace) :
    List.Chain (fun a b => LineSearch.ValiStep cfg a.1 b.1 b.2 ∧ a.2 = LineSearch.Exit.next)
      (st, LineSearch.Exit.next) trace := by
  induction n generalizing st trace with
  | zero =>
    simp only [LineSearch.iterations, Option.some.injEq] at h
    subst h
    exact List.Chain.nil
  | succ n ih =>
    unfold LineSearch.iterations at h
    cases hi : LineSearch.iteration cfg train (some vd) scorer st with
    | none => rw [hi] at h; exact absurd h (by simp)
    | some r =>
      obtain ⟨s, e⟩ := r
      have hstep := iteration_validation cfg train vd scorer st s e hi
      rw [hi] at h
      cases e with
      | next =>
        simp only [Option.map_eq_some'] at h
        obtain ⟨l, hl, rfl⟩ := h
        exact List.Chain.cons ⟨hstep, rfl⟩ (ih s l hl)
      | break_validation =>
        simp only [Option.some.injEq] at h
        subst h
        exact List.Chain.cons ⟨hstep, rfl⟩ List.Chain.nil
      | break_window =>
        simp only [Option.some.injEq] at h
        subst h
        exact List.Chain.cons ⟨hstep, rfl⟩ List.Chain.nil

theorem chain_getD {β : Type} (R : β → β → Prop) (a : β) (l : List β)
    (h : List.Chain R a l) (t : Nat) (ht : t < l.length) :
    R ((a :: l).getD t a) ((a :: l).getD (t + 1) a) := by
  have h' := (List.chain_iff_get.mp h)
  rw [List.getD_eq_getElem _ _ (by simp; omega), List.getD_eq_getElem _ _ (by simp; omega)]
  cases t with
  | zero =>
    have := h'.1 ht
    simpa using this
  | succ t =>
    have := h'.2 t (by omega)
    simpa using this

theorem last_state_eq_getD (st : LineSearch.State)
    (trace : List (LineSearch.State × LineSearch.Exit)) :
    LineSearch.last_state st trace =
      (((st, LineSearch.Exit.next) :: trace).getD trace.length (st, LineSearch.Exit.next)).1 := by
  unfold LineSearch.last_state
  rw [List.getD_eq_getElem _ _ (by simp)]
  cases trace using List.reverseRecOn with
  | nil => simp
  | append_singleton l a =>
    obtain ⟨s, e⟩ := a
    simp [List.getLast?_append]

theorem iterations_validation (cfg : LineSearch.Config) (train vd : LineSearch.Dataset)
    (scorer : LineSearch.Metric) (n : Nat) (st : LineSearch.State)
    (trace : List (LineSearch.State × LineSearch.Exit))
    (hV : 1 ≤ cfg.max_failed_vali_) (hc : st.count_failed_vali = 0)
    (h : LineSearch.iterations cfg train (some vd) scorer n st = some trace) :
    (∀ t, t + 1 < trace.length →
      (trace.map Prod.snd).getD t LineSearch.Exit.next = LineSearch.Exit.next) ∧
    (∀ t, t < trace.length →
      ((trace.map Prod.snd).getD t LineSearch.Exit.next = LineSearch.Exit.break_validation ↔
        LineSearch.StreakReached cfg.max_failed_vali_ st.best_metric_on_validation
          (trace.map (fun x => x.1.metric_on_validation)) t)) ∧
    ((∀ t, t < trace.length → ¬ LineSearch.Improved st.best_metric_on_validation
        (trace.map (fun x => x.1.metric_on_validation)) t) →
      (LineSearch.last_state st trace).best_weights_ = st.best_weights_) ∧
    (∀ t, t < trace.length →
      LineSearch.Improved st.best_metric_on_validation
        (trace.map (fun x => x.1.metric_on_validation)) t →
      (∀ s, t < s → s < trace.length → ¬ LineSearch.Improved st.best_metric_on_validation
        (trace.map (fun x => x.1.metric_on_validation)) s) →
      (LineSearch.last_state st trace).best_weights_ =
        (trace.map (fun x => x.1.weights)).getD t []) := by
  have hchain := iterations_chain cfg train vd scorer n st trace h
  have hget := chain_getD _ _ _ hchain
  generalize hfull : ((st, LineSearch.Exit.next) :: trace) = full at hget
  have hS0 : (full.getD 0 (st, LineSearch.Exit.next)).1 = st := by rw [← hfull]; rfl
  have hsucc : ∀ t, t < trace.length →
      full.getD (t + 1) (st, LineSearch.Exit.next) = trace.getD t (st, LineSearch.Exit.next) := by
    intro t ht
    rw [← hfull]
    simp [List.getD_eq_getElem?_getD]
  have hms : ∀ t, t < trace.length →
      (trace.map (fun x => x.1.metric_on_validation)).getD t 0 =
        (full.getD (t + 1) (st, LineSearch.Exit.next)).1.metric_on_validation := by
    intro t ht
    rw [hsucc t ht, List.getD_eq_getElem _ _ (by simpa using ht), List.getD_eq_getElem _ _ ht]
    simp
  have hex : ∀ t, t < trace.length →
      (trace.map Prod.snd).getD t LineSearch.Exit.next =
        (full.getD (t + 1) (st, LineSearch.Exit.next)).2 := by
    intro t ht
    rw [hsucc t ht, List.getD_eq_getElem _ _ (by simpa using ht), List.getD_eq_getElem _ _ ht]
    simp
  have hwt : ∀ t, t < trace.length →
      (trace.map (fun x => x.1.weights)).getD t [] =
        (full.getD (t + 1) (st, LineSearch.Exit.next)).1.weights := by
    intro t ht
    rw [hsucc t ht, List.getD_eq_getElem _ _ (by simpa using ht), List.getD_eq_getElem _ _ ht]
    simp
  have hlast : LineSearch.last_state st trace =
      (full.getD trace.length (st, LineSearch.Exit.next)).1 := by
    rw [last_state_eq_getD, hfull]
  have hbook := validation_bookkeeping cfg.max_failed_vali_ trace.length
    (fun t => (full.getD t (st, LineSearch.Exit.next)).1.best_metric_on_validation)
    (fun t => (full.getD t (st, LineSearch.Exit.next)).1.count_failed_vali)
    (fun t => (full.getD t (st, LineSearch.Exit.next)).1.best_weights_)
    (fun t => (full.getD (t + 1) (st, LineSearch.Exit.next)).1.weights)
    (fun t => (full.getD (t + 1) (st, LineSearch.Exit.next)).1.metric_on_validation)
    (fun t => (full.getD (t + 1) (st, LineSearch.Exit.next)).2 =
      LineSearch.Exit.break_validation)
    (by simp only [hS0]; exact hc)
    (fun t ht => (hget t ht).1)
  simp only [hS0] at hbook
  have himp : ∀ t, t < trace.length →
      (LineSearch.Improved st.best_metric_on_validation
          (trace.map (fun x => x.1.metric_on_validation)) t ↔
        (st.best_metric_on_validation <
            (full.getD (t + 1) (st, LineSearch.Exit.next)).1.metric_on_validation ∧
          ∀ r, r < t →
            (full.getD (r + 1) (st, LineSearch.Exit.next)).1.metric_on_validation <
              (full.getD (t + 1) (st, LineSearch.Exit.next)).1.metric_on_validation)) := by
    intro t ht
    unfold LineSearch.Improved
    rw [hms t ht]
    constructor
    · intro hI
      exact ⟨hI.1, fun r hr => by have := hI.2 r hr; rwa [hms r (by omega)] at this⟩
    · intro hI
      exact ⟨hI.1, fun r hr => by rw [hms r (by omega)]; exact hI.2 r hr⟩
  refine ⟨?_, ?_, ?_, ?_⟩
  · intro t ht
    rw [hex t (by omega)]
    exact (hget (t + 1) ht).2
  · intro t ht
    obtain ⟨⟨b1, b2, b3⟩, ⟨c1, c2, c3⟩, _, _⟩ := hbook t (by omega)
    have hcode : (st.best_metric_on_validation <
          (full.getD (t + 1) (st, LineSearch.Exit.next)).1.metric_on_validation ∧
        ∀ r, r < t →
          (full.getD (r + 1) (st, LineSearch.Exit.next)).1.metric_on_validation <
            (full.getD (t + 1) (st, LineSearch.Exit.next)).1.metric_on_validation) ↔
        (full.getD t (st, LineSearch.Exit.next)).1.best_metric_on_validation <
          (full.getD (t + 1) (st, LineSearch.Exit.next)).1.metric_on_validation := by
      constructor
      · intro hI
        rcases b3 with b3 | ⟨s, hs, b3⟩
        · rw [b3]; exact hI.1
        · rw [b3]; exact hI.2 s hs
      · intro hlt
        exact ⟨lt_of_le_of_lt b1 hlt, fun r hr => lt_of_le_of_lt (b2 r hr) hlt⟩
    obtain ⟨hyes, hno⟩ := (hget t ht).1
    rw [hex t ht]
    unfold LineSearch.StreakReached
    constructor
    · intro hbrk
      by_cases hlt : (full.getD t (st, LineSearch.Exit.next)).1.best_metric_on_validation <
          (full.getD (t + 1) (st, LineSearch.Exit.next)).1.metric_on_validation
      · exact absurd hbrk (hyes hlt).2.2.2
      · have hVc := (hno hlt).2.2.2.mp hbrk
        refine ⟨by omega, ?_⟩
        intro s h1 h2
        rw [himp s (by omega)]
        by_cases hst : s = t
        · subst hst
          exact fun hI => hlt (hcode.mp hI)
        · exact c2 s (by omega) (by omega)
    · intro hstreak
      obtain ⟨hV1, hall⟩ := hstreak
      have hnot : ¬ (full.getD t (st, LineSearch.Exit.next)).1.best_metric_on_validation <
          (full.getD (t + 1) (st, LineSearch.Exit.next)).1.metric_on_validation := by
        intro hlt
        exact hall t (by omega) (le_refl _) ((himp t ht).mpr (hcode.mpr hlt))
      apply (hno hnot).2.2.2.mpr
      by_contra hcon
      have hsmall : (full.getD t (st, LineSearch.Exit.next)).1.count_failed_vali < t := by omega
      have hI := c3 hsmall
      have hidx : t - (full.getD t (st, LineSearch.Exit.next)).1.count_failed_vali - 1 < t := by
        omega
      exact hall _ (by omega) (by omega) ((himp _ (by omega)).mpr hI)
  · intro hnone
    obtain ⟨_, _, w1, _⟩ := hbook trace.length (le_refl _)
    rw [hlast]
    exact w1 (fun s hs hI => hnone s hs ((himp s hs).mpr hI))
  · intro t ht hI hafter
    obtain ⟨_, _, _, w2⟩ := hbook trace.length (le_refl _)
    rw [hlast, hwt t ht]
    exact w2 t ht ((himp t ht).mp hI)
      (fun r h1 h2 hIr => hafter r h1 h2 ((himp r h2).mpr hIr))

/-- C10 (as amended).  With a validation set and `max_failed_vali = V ≥ 1`, for every run of
`learn` that returns: the main loop runs on while iterations end normally; an executed
iteration `t` ends in the validation `break` exactly when the count of consecutive iterations
whose validation metric did not strictly exceed the best so far has reached `V` at `t`; and the
final `best_weights_` is the weight vector of the last iteration that strictly improved the
validation metric, or the all-ones start when none did. -/
theorem early_stopping_on_validation (cfg : LineSearch.Config)
    (train vd : LineSearch.Dataset) (scorer : LineSearch.Metric) (final : LineSearch.State)
    (hV : 1 ≤ cfg.max_failed_vali_)
    (h : LineSearch.learn cfg train (some vd) scorer = some final) :
    ∃ trace, LineSearch.iterations cfg train (some vd) scorer cfg.max_iterations_
        (LineSearch.initial cfg train (some vd) scorer) = some trace ∧
      final = LineSearch.last_state (LineSearch.initial cfg train (some vd) scorer) trace ∧
      (∀ t, t + 1 < trace.length →
        (trace.map Prod.snd).getD t LineSearch.Exit.next = LineSearch.Exit.next) ∧
      (∀ t, t < trace.length →
        ((trace.map Prod.snd).getD t LineSearch.Exit.next = LineSearch.Exit.break_validation ↔
          LineSearch.StreakReached cfg.max_failed_vali_
            (LineSearch.initial cfg train (some vd) scorer).best_metric_on_validation
            (trace.map (fun x => x.1.metric_on_validation)) t)) ∧
      ((∀ t, t < trace.length → ¬ LineSearch.Improved
          (LineSearch.initial cfg train (some vd) scorer).best_metric_on_validation
          (trace.map (fun x => x.1.metric_on_validation)) t) →
        final.best_weights_ = List.replicate train.num_features 1) ∧
      (∀ t, t < trace.length →
        LineSearch.Improved
          (LineSearch.initial cfg train (some vd) scorer).best_metric_on_validation
          (trace.map (fun x => x.1.metric_on_validation)) t →
        (∀ s, t < s → s < trace.length → ¬ LineSearch.Improved
          (LineSearch.initial cfg train (some vd) scorer).best_metric_on_validation
          (trace.map (fun x => x.1.metric_on_validation)) s) →
        final.best_weights_ = (trace.map (fun x => x.1.weights)).getD t []) := by
  unfold LineSearch.learn at h
  simp only [] at h
  cases hit : LineSearch.iterations cfg train (some vd) scorer cfg.max_iterations_
      (LineSearch.initial cfg train (some vd) scorer) with
  | none => rw [hit] at h; exact absurd h (by simp)
  | some trace =>
    rw [hit] at h
    simp only [Option.some.injEq] at h
    obtain ⟨a1, a2, a3, a4⟩ := iterations_validation cfg train vd scorer cfg.max_iterations_
      (LineSearch.initial cfg train (some vd) scorer) trace hV rfl hit
    refine ⟨trace, rfl, h.symm, a1, a2, ?_, ?_⟩
    · intro hn
      rw [← h, a3 hn]
      rfl
    · intro t ht hI hafter
      rw [← h]
      exact a4 t ht hI hafter

theorem sample_points_first : LineSearch.points 1 1 1 = some [0, 1, 2] := by
  unfold LineSearch.points
  rw [dif_pos (by norm_num)]
  rw [LineSearch.pointsFrom]; norm_num
  rw [LineSearch.pointsFrom]; norm_num
  rw [LineSearch.pointsFrom]; norm_num
  rw [LineSearch.pointsFrom]; norm_num

theorem sample_points_second : LineSearch.points 2 (1 / 2) (1 / 2) = some [3 / 2, 2, 5 / 2] := by
  unfold LineSearch.points
  rw [dif_pos (by norm_num)]
  rw [LineSearch.pointsFrom]; norm_num
  rw [LineSearch.pointsFrom]; norm_num
  rw [LineSearch.pointsFrom]; norm_num
  rw [LineSearch.pointsFrom]; norm_num

set_option maxHeartbeats 1000000 in
theorem sample_run_one :
    LineSearch.iterations LineSearch.sample_cfg_one LineSearch.sample_train
      (some LineSearch.sample_train) LineSearch.sample_scorer 3
      (LineSearch.initial LineSearch.sample_cfg_one LineSearch.sample_train
        (some LineSearch.sample_train) LineSearch.sample_scorer) =
    some [(LineSearch.sample_after_first, LineSearch.Exit.next),
      (LineSearch.sample_after_second, LineSearch.Exit.break_validation)] := by
  simp [LineSearch.iterations, LineSearch.iteration, LineSearch.step1,
    LineSearch.step1_feature, LineSearch.even_points, LineSearch.sample_cfg_one,
    LineSearch.sample_train, LineSearch.initial, LineSearch.sample_scorer, LineSearch.score,
    LineSearch.preCompute, sample_points_first, List.range_succ, LineSearch.max_element,
    LineSearch.Dataset.feature_at, LineSearch.step2, LineSearch.step2_vector,
    LineSearch.step2_column, LineSearch.finish, LineSearch.reduction,
    LineSearch.validation_scores, LineSearch.sample_after_first,
    LineSearch.sample_after_second]
  norm_num [List.range', List.range_succ, sample_points_second, LineSearch.max_element]

set_option maxHeartbeats 1000000 in
theorem sample_run_zero :
    LineSearch.iterations LineSearch.sample_cfg LineSearch.sample_train
      (some LineSearch.sample_train) LineSearch.sample_scorer 2
      (LineSearch.initial LineSearch.sample_cfg LineSearch.sample_train
        (some LineSearch.sample_train) LineSearch.sample_scorer) =
    some [(LineSearch.sample_after_first, LineSearch.Exit.next),
      (LineSearch.sample_after_second, LineSearch.Exit.break_validation)] := by
  simp [LineSearch.iterations, LineSearch.iteration, LineSearch.step1,
    LineSearch.step1_feature, LineSearch.even_points, LineSearch.sample_cfg,
    LineSearch.sample_train, LineSearch.initial, LineSearch.sample_scorer, LineSearch.score,
    LineSearch.preCompute, sample_points_first, List.range_succ, LineSearch.max_element,
    LineSearch.Dataset.feature_at, LineSearch.step2, LineSearch.step2_vector,
    LineSearch.step2_column, LineSearch.finish, LineSearch.reduction,
    LineSearch.validation_scores, LineSearch.sample_after_first,
    LineSearch.sample_after_second]
  norm_num [List.range', List.range_succ, sample_points_second, LineSearch.max_element]

theorem sample_initial_validation_one :
    (LineSearch.initial LineSearch.sample_cfg_one LineSearch.sample_train
      (some LineSearch.sample_train) LineSearch.sample_scorer).best_metric_on_validation = -1 := by
  simp [LineSearch.initial, LineSearch.sample_train, LineSearch.sample_scorer,
    LineSearch.score, List.range_succ]
  norm_num

theorem sample_initial_validation_zero :
    (LineSearch.initial LineSearch.sample_cfg LineSearch.sample_train
      (some LineSearch.sample_train) LineSearch.sample_scorer).best_metric_on_validation = -1 := by
  simp [LineSearch.initial, LineSearch.sample_train, LineSearch.sample_scorer,
    LineSearch.score, List.range_succ]
  norm_num

theorem sample_learn_one :
    LineSearch.learn LineSearch.sample_cfg_one LineSearch.sample_train
      (some LineSearch.sample_train) LineSearch.sample_scorer =
    some LineSearch.sample_after_second := by
  unfold LineSearch.learn
  simp only []
  have h3 : LineSearch.sample_cfg_one.max_iterations_ = 3 := rfl
  rw [h3, sample_run_one]
  rfl

/-- C10, a concrete run: one feature, `V = 1`; the first iteration improves the validation
metric from `-1` to `0`, the second does not, so the run stops in its second iteration through
the validation `break`, and the final `best_weights_` is the weight vector of the first
iteration. -/
theorem early_stopping_on_validation_witness :
    1 ≤ LineSearch.sample_cfg_one.max_failed_vali_ ∧
    LineSearch.learn LineSearch.sample_cfg_one LineSearch.sample_train
      (some LineSearch.sample_train) LineSearch.sample_scorer =
        some LineSearch.sample_after_second ∧
    LineSearch.StreakReached 1 (-1) [0, 0] 1 ∧
    LineSearch.sample_after_second.best_weights_ = LineSearch.sample_after_first.weights := by
  have hV : 1 ≤ LineSearch.sample_cfg_one.max_failed_vali_ := by decide
  obtain ⟨trace, htrace, _, _, hstop, _, hlast⟩ :=
    early_stopping_on_validation LineSearch.sample_cfg_one LineSearch.sample_train
      LineSearch.sample_train LineSearch.sample_scorer LineSearch.sample_after_second hV
      sample_learn_one
  have h3 : LineSearch.sample_cfg_one.max_iterations_ = 3 := rfl
  rw [h3, sample_run_one] at htrace
  have htr := (Option.some.inj htrace).symm
  subst htr
  rw [sample_initial_validation_one] at hstop hlast
  have hms : List.map (fun x : LineSearch.State × LineSearch.Exit => x.1.metric_on_validation)
      [(LineSearch.sample_after_first, LineSearch.Exit.next),
        (LineSearch.sample_after_second, LineSearch.Exit.break_validation)] = [0, 0] := rfl
  rw [hms] at hstop hlast
  refine ⟨hV, sample_learn_one, ?_, ?_⟩
  · exact (hstop 1 (by decide)).mp rfl
  · have hI : LineSearch.Improved (-1) [0, 0] 0 := by
      refine ⟨by norm_num, fun r hr => absurd hr (Nat.not_lt_zero r)⟩
    have hafter : ∀ s, 0 < s → s < 2 → ¬ LineSearch.Improved (-1) [0, 0] s := by
      intro s h1 h2 hI
      have hs : s = 1 := by omega
      subst hs
      have := hI.2 0 (by decide)
      simp at this
    exact hlast 0 (by decide) hI hafter

/-- C10 as stated fails for `max_failed_vali = 0`: in the sample run the first iteration
improves the validation metric, so the count of consecutive failures is `0` and has reached
`V = 0`, yet the loop goes on to a second iteration and only stops there. -/
theorem early_stopping_zero_counterexample :
    LineSearch.sample_cfg.max_failed_vali_ = 0 ∧
    LineSearch.iterations LineSearch.sample_cfg LineSearch.sample_train
      (some LineSearch.sample_train) LineSearch.sample_scorer
      LineSearch.sample_cfg.max_iterations_
      (LineSearch.initial LineSearch.sample_cfg LineSearch.sample_train
        (some LineSearch.sample_train) LineSearch.sample_scorer) =
      some [(LineSearch.sample_after_first, LineSearch.Exit.next),
        (LineSearch.sample_after_second, LineSearch.Exit.break_validation)] ∧
    LineSearch.StreakReached LineSearch.sample_cfg.max_failed_vali_
      (LineSearch.initial LineSearch.sample_cfg LineSearch.sample_train
        (some LineSearch.sample_train) LineSearch.sample_scorer).best_metric_on_validation
      [LineSearch.sample_after_first.metric_on_validation,
        LineSearch.sample_after_second.metric_on_validation] 0 ∧
    ([LineSearch.Exit.next, LineSearch.Exit.break_validation].getD 0 LineSearch.Exit.next ≠
      LineSearch.Exit.break_validation) := by
  refine ⟨rfl, sample_run_zero, ?_, by decide⟩
  refine ⟨by decide, ?_⟩
  intro s h1 h2
  have h0 : LineSearch.sample_cfg.max_failed_vali_ = 0 := rfl
  rw [h0] at h1
  omega

/-- C3, a concrete run: in the sample run the best training metric goes from `-1` to `0` in
the first iteration and stays `0` in the second. -/
theorem best_metric_on_training_monotone_witness :
    LineSearch.iterations LineSearch.sample_cfg_one LineSearch.sample_train
      (some LineSearch.sample_train) LineSearch.sample_scorer 3
      (LineSearch.initial LineSearch.sample_cfg_one LineSearch.sample_train
        (some LineSearch.sample_train) LineSearch.sample_scorer) =
    some [(LineSearch.sample_after_first, LineSearch.Exit.next),
      (LineSearch.sample_after_second, LineSearch.Exit.break_validation)] ∧
    List.Chain
      (LineSearch.Advance LineSearch.sample_cfg_one LineSearch.sample_train
        LineSearch.sample_scorer)
      (LineSearch.initial LineSearch.sample_cfg_one LineSearch.sample_train
        (some LineSearch.sample_train) LineSearch.sample_scorer)
      [LineSearch.sample_after_first, LineSearch.sample_after_second] :=
  ⟨sample_run_one,
    best_metric_on_training_monotone LineSearch.sample_cfg_one LineSearch.sample_train
      (some LineSearch.sample_train) LineSearch.sample_scorer 3 _ _ sample_run_one⟩

/-! ### Regression tree: the scan of `split` -/

theorem before_irrefl (f t : Nat) : ¬ RegressionTree.Before f t f t := by
  unfold RegressionTree.Before
  omega

theorem before_asymm {f t f' t' : Nat} (h : RegressionTree.Before f t f' t') :
    ¬ RegressionTree.Before f' t' f t := by
  unfold RegressionTree.Before at h ⊢
  omega

theorem before_succ {f t f' t' : Nat} :
    RegressionTree.Before f (t + 1) f' t' ↔
      RegressionTree.Before f t f' t' ∨ (f' = f ∧ t' = t) := by
  unfold RegressionTree.Before
  omega

theorem split_score_nonneg (h : RegressionTree.RTNodeHistogram) (f t : Nat) :
    0 ≤ RegressionTree.split_score h f t := by
  unfold RegressionTree.split_score
  have h1 : (0 : ℚ) ≤ (RegressionTree.c_L h f t : ℚ) := Nat.cast_nonneg _
  have h2 : (0 : ℚ) ≤ (RegressionTree.c_R h f t : ℚ) := Nat.cast_nonneg _
  exact add_nonneg (div_nonneg (sq_nonneg _) h1) (div_nonneg (sq_nonneg _) h2)

theorem scan_threshold_eq (h : RegressionTree.RTNodeHistogram) (minls f t : Nat)
    (b : RegressionTree.Best) :
    RegressionTree.scan_threshold h minls f (RegressionTree.s_total h f)
        (RegressionTree.c_total h f) b t =
      if minls ≤ RegressionTree.c_L h f t ∧ minls ≤ RegressionTree.c_R h f t then
        (if RegressionTree.split_score h f t > b.score then
          { score := RegressionTree.split_score h f t, featureidx := f, thresholdid := t }
        else b)
      else b := by
  unfold RegressionTree.scan_threshold RegressionTree.split_score RegressionTree.c_R
    RegressionTree.s_R RegressionTree.c_L RegressionTree.s_L
  simp only [ge_iff_le, sq]

theorem scan_threshold_invariant (h : RegressionTree.RTNodeHistogram)
    (minls F f t : Nat) (b : RegressionTree.Best) (hf : f < F)
    (ht : t < h.thresholds_size.getD f 0)
    (hb : RegressionTree.BestAmong h minls F f t b) :
    RegressionTree.BestAmong h minls F f (t + 1)
      (RegressionTree.scan_threshold h minls f (RegressionTree.s_total h f)
        (RegressionTree.c_total h f) b t) := by
  rw [scan_threshold_eq]
  by_cases hadm : minls ≤ RegressionTree.c_L h f t ∧ minls ≤ RegressionTree.c_R h f t
  · rw [if_pos hadm]
    have hA : RegressionTree.Admissible h minls F f t := ⟨hf, ht, hadm.1, hadm.2⟩
    by_cases hgt : RegressionTree.split_score h f t > b.score
    · rw [if_pos hgt]
      right
      refine ⟨hA, before_succ.mpr (Or.inr ⟨rfl, rfl⟩), rfl, ?_⟩
      intro f' t' hA' hB'
      rcases before_succ.mp hB' with hB | ⟨rfl, rfl⟩
      · rcases hb with ⟨_, hnone⟩ | ⟨_, _, _, hall⟩
        · exact absurd hB (hnone f' t' hA')
        · have := (hall f' t' hA' hB).1
          have hlt : RegressionTree.split_score h f' t' < RegressionTree.split_score h f t :=
            lt_of_le_of_lt this hgt
          exact ⟨hlt.le, fun heq => absurd heq (ne_of_lt hlt)⟩
      · exact ⟨le_refl _, fun _ => before_irrefl _ _⟩
    · rw [if_neg hgt]
      rcases hb with ⟨hinit, _⟩ | ⟨hbA, hbB, hbs, hall⟩
      · exfalso
        apply hgt
        rw [hinit]
        have := split_score_nonneg h f t
        show (-1 : ℚ) < _
        linarith
      · right
        refine ⟨hbA, before_succ.mpr (Or.inl hbB), hbs, ?_⟩
        intro f' t' hA' hB'
        rcases before_succ.mp hB' with hB | ⟨rfl, rfl⟩
        · exact hall f' t' hA' hB
        · exact ⟨not_lt.mp hgt, fun _ => before_asymm hbB⟩
  · rw [if_neg hadm]
    rcases hb with ⟨hinit, hnone⟩ | ⟨hbA, hbB, hbs, hall⟩
    · left
      refine ⟨hinit, ?_⟩
      intro f' t' hA' hB'
      rcases before_succ.mp hB' with hB | ⟨rfl, rfl⟩
      · exact hnone f' t' hA' hB
      · exact hadm ⟨hA'.2.2.1, hA'.2.2.2⟩
    · right
      refine ⟨hbA, before_succ.mpr (Or.inl hbB), hbs, ?_⟩
      intro f' t' hA' hB'
      rcases before_succ.mp hB' with hB | ⟨rfl, rfl⟩
      · exact hall f' t' hA' hB
      · exact absurd ⟨hA'.2.2.1, hA'.2.2.2⟩ hadm

theorem scan_feature_invariant (h : RegressionTree.RTNodeHistogram)
    (minls F f : Nat) (b : RegressionTree.Best) (hf : f < F)
    (hb : RegressionTree.BestAmong h minls F f 0 b) :
    RegressionTree.BestAmong h minls F (f + 1) 0 (RegressionTree.scan_feature h minls b f) := by
  have hloop : ∀ t, t ≤ h.thresholds_size.getD f 0 →
      RegressionTree.BestAmong h minls F f t
        ((List.range t).foldl (RegressionTree.scan_threshold h minls f
          (RegressionTree.s_total h f) (RegressionTree.c_total h f)) b) := by
    intro t
    induction t with
    | zero => intro _; exact hb
    | succ t ih =>
      intro ht
      rw [List.range_succ, List.foldl_append]
      exact scan_threshold_invariant h minls F f t _ hf (by omega) (ih (by omega))
  have hend := hloop _ (le_refl _)
  have hconv : ∀ f' t', RegressionTree.Admissible h minls F f' t' →
      (RegressionTree.Before (f + 1) 0 f' t' ↔
        RegressionTree.Before f (h.thresholds_size.getD f 0) f' t') := by
    intro f' t' hA
    unfold RegressionTree.Before
    constructor
    · intro hB
      by_cases hff : f' = f
      · subst hff; exact Or.inr ⟨rfl, hA.2.1⟩
      · left; omega
    · intro hB
      left; omega
  unfold RegressionTree.scan_feature
  simp only []
  change RegressionTree.BestAmong h minls F (f + 1) 0
    ((List.range (h.thresholds_size.getD f 0)).foldl (RegressionTree.scan_threshold h minls f
      (RegressionTree.s_total h f) (RegressionTree.c_total h f)) b)
  rcases hend with ⟨hinit, hnone⟩ | ⟨hbA, hbB, hbs, hall⟩
  · left
    exact ⟨hinit, fun f' t' hA hB => hnone f' t' hA ((hconv f' t' hA).mp hB)⟩
  · right
    exact ⟨hbA, (hconv _ _ hbA).mpr hbB, hbs,
      fun f' t' hA hB => hall f' t' hA ((hconv f' t' hA).mp hB)⟩

theorem scan_all_invariant (h : RegressionTree.RTNodeHistogram) (minls F : Nat) :
    RegressionTree.BestAmong h minls F F 0
      ((List.range F).foldl (RegressionTree.scan_feature h minls) RegressionTree.Best.init) := by
  have hloop : ∀ f, f ≤ F → RegressionTree.BestAmong h minls F f 0
      ((List.range f).foldl (RegressionTree.scan_feature h minls) RegressionTree.Best.init) := by
    intro f
    induction f with
    | zero =>
      intro _
      left
      refine ⟨rfl, ?_⟩
      intro f' t' _ hB
      unfold RegressionTree.Before at hB
      omega
    | succ f ih =>
      intro hf
      rw [List.range_succ, List.foldl_append]
      exact scan_feature_invariant h minls F f _ (by omega) (ih (by omega))
  exact hloop F (le_refl _)

theorem bestAmong_score_ge (h : RegressionTree.RTNodeHistogram) (minls F f t : Nat)
    (b : RegressionTree.Best) (hb : RegressionTree.BestAmong h minls F f t b) :
    -1 ≤ b.score := by
  rcases hb with ⟨hinit, _⟩ | ⟨_, _, hs, _⟩
  · rw [hinit]; exact le_refl _
  · rw [hs]
    have := split_score_nonneg h b.featureidx b.thresholdid
    linarith

theorem best_split_eq_scan (h : RegressionTree.RTNodeHistogram) (minls : Nat)
    (features : List Nat) (nth : Nat) (hnth : 1 ≤ nth)
    (hge : -1 ≤ (features.foldl (RegressionTree.scan_feature h minls)
      RegressionTree.Best.init).score) :
    RegressionTree.best_split h minls features nth =
      features.foldl (RegressionTree.scan_feature h minls) RegressionTree.Best.init := by
  unfold RegressionTree.best_split
  simp only []
  have hinit0 : (List.replicate nth RegressionTree.Best.init).getD 0 RegressionTree.Best.init =
      RegressionTree.Best.init := by
    rw [List.getD_eq_getElem _ _ (by simpa using hnth)]
    simp
  rw [hinit0]
  generalize features.foldl (RegressionTree.scan_feature h minls) RegressionTree.Best.init = r
    at hge ⊢
  have h0 : ((List.replicate nth RegressionTree.Best.init).set 0 r).getD 0
      RegressionTree.Best.init = r := by
    rw [List.getD_eq_getElem _ _ (by simpa using hnth)]
    simp
  have hi : ∀ i, 1 ≤ i → ((List.replicate nth RegressionTree.Best.init).set 0 r).getD i
      RegressionTree.Best.init = RegressionTree.Best.init := by
    intro i hi
    by_cases hlt : i < nth
    · rw [List.getD_eq_getElem _ _ (by simpa using hlt), List.getElem_set_ne (by omega)]
      simp
    · rw [List.getD_eq_default _ _ (by simpa using hlt)]
  rw [h0]
  have hfold : ∀ (l : List Nat), (∀ i ∈ l, 1 ≤ i) →
      l.foldl (fun best i =>
        if (((List.replicate nth RegressionTree.Best.init).set 0 r).getD i
            RegressionTree.Best.init).score > best.score
        then ((List.replicate nth RegressionTree.Best.init).set 0 r).getD i
          RegressionTree.Best.init
        else best) r = r := by
    intro l
    induction l with
    | nil => intro _; rfl
    | cons a l ih =>
      intro hl
      rw [List.foldl_cons, hi a (hl a (List.mem_cons_self _ _))]
      have : ¬ (RegressionTree.Best.init.score > r.score) := by
        show ¬ ((-1 : ℚ) > r.score)
        exact not_lt.mpr hge
      rw [if_neg this]
      exact ih (fun i hi => hl i (List.mem_cons_of_mem _ hi))
  apply hfold
  intro i hi
  have := (List.mem_range'.mp hi)
  obtain ⟨k, _, rfl⟩ := this
  omega

theorem best_split_all (h : RegressionTree.RTNodeHistogram) (minls F nth : Nat)
    (rate : ℚ) (rand : Nat → Nat) (hrate : 1 ≤ rate) (hnth : 1 ≤ nth) :
    RegressionTree.BestAmong h minls F F 0
      (RegressionTree.best_split h minls (RegressionTree.scanned_features F rate rand) nth) := by
  have hs : RegressionTree.scanned_features F rate rand = List.range F := by
    unfold RegressionTree.scanned_features
    rw [if_neg (not_lt.mpr hrate)]
  have hinv := scan_all_invariant h minls F
  rw [hs, best_split_eq_scan h minls _ nth hnth (bestAmong_score_ge h minls F F 0 _ hinv)]
  exact hinv

theorem admissible_before_end {h : RegressionTree.RTNodeHistogram} {minls F f t : Nat}
    (hA : RegressionTree.Admissible h minls F f t) : RegressionTree.Before F 0 f t :=
  Or.inl hA.1

theorem best_split_init_iff (h : RegressionTree.RTNodeHistogram) (minls F nth : Nat)
    (rate : ℚ) (rand : Nat → Nat) (hrate : 1 ≤ rate) (hnth : 1 ≤ nth) :
    (RegressionTree.best_split h minls
        (RegressionTree.scanned_features F rate rand) nth).score = -1 ↔
      ¬ ∃ f t, RegressionTree.Admissible h minls F f t := by
  have hb := best_split_all h minls F nth rate rand hrate hnth
  constructor
  · intro hs
    rintro ⟨f, t, hA⟩
    rcases hb with ⟨_, hnone⟩ | ⟨_, _, hbs, _⟩
    · exact hnone f t hA (admissible_before_end hA)
    · rw [hbs] at hs
      have := split_score_nonneg h
        (RegressionTree.best_split h minls
          (RegressionTree.scanned_features F rate rand) nth).featureidx
        (RegressionTree.best_split h minls
          (RegressionTree.scanned_features F rate rand) nth).thresholdid
      linarith
  · intro hnone
    rcases hb with ⟨hinit, _⟩ | ⟨hbA, _, _, _⟩
    · rw [hinit]; rfl
    · exact absurd ⟨_, _, hbA⟩ hnone

theorem split_false_iff_best (p : RegressionTree.Params)
    (nodes : List RegressionTree.RTNode) (root i : Nat) (rate : ℚ) (rand : Nat → Nat)
    (nth : Nat) (nd : RegressionTree.RTNode) (hnode : nodes[i]? = some nd) :
    (RegressionTree.split p nodes root i rate rand nth).1 = false ↔
      (nd.deviance ≤ 0 ∨
        (RegressionTree.best_split (nd.hist.getD RegressionTree.RTNodeHistogram.null) p.minls
          (RegressionTree.scanned_features p.training_dataset.num_features rate rand)
          nth).score = -1) := by
  unfold RegressionTree.split
  rw [hnode]
  simp only []
  by_cases hdev : nd.deviance > 0
  · rw [if_pos hdev]
    by_cases hbest : (RegressionTree.best_split
        (nd.hist.getD RegressionTree.RTNodeHistogram.null) p.minls
        (RegressionTree.scanned_features p.training_dataset.num_features rate rand)
        nth).score = -1
    · rw [if_pos hbest]
      exact ⟨fun _ => Or.inr hbest, fun _ => rfl⟩
    · rw [if_neg hbest]
      constructor
      · intro h; exact absurd h (by simp)
      · intro h
        rcases h with h | h
        · exact absurd hdev (not_lt.mpr h)
        · exact absurd h hbest
  · rw [if_neg hdev]
    exact ⟨fun _ => Or.inl (not_lt.mp hdev), fun _ => rfl⟩

theorem split_false_frame (p : RegressionTree.Params)
    (nodes : List RegressionTree.RTNode) (root i : Nat) (rate : ℚ) (rand : Nat → Nat)
    (nth : Nat) (h : (RegressionTree.split p nodes root i rate rand nth).1 = false) :
    (RegressionTree.split p nodes root i rate rand nth).2 = nodes := by
  unfold RegressionTree.split at h ⊢
  cases hnode : nodes[i]? with
  | none => rfl
  | some nd =>
    rw [hnode] at h
    simp only [] at h ⊢
    by_cases hdev : nd.deviance > 0
    · rw [if_pos hdev] at h ⊢
      by_cases hbest : (RegressionTree.best_split
          (nd.hist.getD RegressionTree.RTNodeHistogram.null) p.minls
          (RegressionTree.scanned_features p.training_dataset.num_features rate rand)
          nth).score = -1
      · rw [if_pos hbest]
      · rw [if_neg hbest] at h
        exact absurd h (by simp)
    · rw [if_neg hdev]

theorem split_true_shape (p : RegressionTree.Params)
    (nodes : List RegressionTree.RTNode) (root i : Nat) (rate : ℚ) (rand : Nat → Nat)
    (nth : Nat) (h : (RegressionTree.split p nodes root i rate rand nth).1 = true) :
    ∃ nd nd' l r, nodes[i]? = some nd ∧
      (RegressionTree.split p nodes root i rate rand nth).2 = nodes.set i nd' ++ [l, r] ∧
      nd'.left = some nodes.length ∧ nd'.right = some (nodes.length + 1) ∧
      nd'.featureidx = (RegressionTree.best_split
        (nd.hist.getD RegressionTree.RTNodeHistogram.null) p.minls
        (RegressionTree.scanned_features p.training_dataset.num_features rate rand)
        nth).featureidx ∧
      nd'.threshold = ((nd.hist.getD RegressionTree.RTNodeHistogram.null).thresholds.getD
        (RegressionTree.best_split
          (nd.hist.getD RegressionTree.RTNodeHistogram.null) p.minls
          (RegressionTree.scanned_features p.training_dataset.num_features rate rand)
          nth).featureidx []).getD
        (RegressionTree.best_split
          (nd.hist.getD RegressionTree.RTNodeHistogram.null) p.minls
          (RegressionTree.scanned_features p.training_dataset.num_features rate rand)
          nth).thresholdid 0 ∧
      l.featureidx = RegressionTree.uint_max ∧ l.left = none ∧ l.right = none ∧
      r.featureidx = RegressionTree.uint_max ∧ r.left = none ∧ r.right = none := by
  unfold RegressionTree.split at h ⊢
  cases hnode : nodes[i]? with
  | none => rw [hnode] at h; exact absurd h (by simp)
  | some nd =>
    rw [hnode] at h
    simp only [] at h ⊢
    by_cases hdev : nd.deviance > 0
    · rw [if_pos hdev] at h ⊢
      by_cases hbest : (RegressionTree.best_split
          (nd.hist.getD RegressionTree.RTNodeHistogram.null) p.minls
          (RegressionTree.scanned_features p.training_dataset.num_features rate rand)
          nth).score = -1
      · rw [if_pos hbest] at h
        exact absurd h (by simp)
      · rw [if_neg hbest]
        exact ⟨nd, _, _, _, rfl, rfl, rfl, rfl, rfl, rfl, rfl, rfl, rfl, rfl, rfl, rfl⟩
    · rw [if_neg hdev] at h
      exact absurd h (by simp)

theorem getD_set_append_self {β : Type} (l : List β) (i : Nat) (a d : β) (t : List β)
    (hi : i < l.length) : (l.set i a ++ t).getD i d = a := by
  rw [List.getD_eq_getElem _ _ (by simp; omega)]
  rw [List.getElem_append_left (by simpa using hi)]
  simp

/-- C7 (as amended).  For `minls ≥ 1`, sequential execution and no feature sub-sampling
(`featuresamplingrate ≥ 1`, as `fit` calls it), `split` returns `false` if and only if the
node's deviance is `≤ 0` or no candidate (feature, threshold) of the node's histogram is
admissible; every admissible candidate has a score `≥ 0`; and when `split` returns `false`
the arena of nodes is unchanged, so the node is left without children. -/
theorem split_false_iff (p : RegressionTree.Params)
    (nodes : List RegressionTree.RTNode) (root i : Nat) (rate : ℚ) (rand : Nat → Nat)
    (nth : Nat) (nd : RegressionTree.RTNode)
    (hminls : 1 ≤ p.minls) (hrate : 1 ≤ rate) (hnth : 1 ≤ nth)
    (hnode : nodes[i]? = some nd) :
    ((RegressionTree.split p nodes root i rate rand nth).1 = false ↔
      (nd.deviance ≤ 0 ∨
        ¬ ∃ f t, RegressionTree.Admissible (nd.hist.getD RegressionTree.RTNodeHistogram.null)
          p.minls p.training_dataset.num_features f t)) ∧
    (∀ f t, RegressionTree.Admissible (nd.hist.getD RegressionTree.RTNodeHistogram.null)
        p.minls p.training_dataset.num_features f t →
      0 ≤ RegressionTree.split_score (nd.hist.getD RegressionTree.RTNodeHistogram.null) f t) ∧
    ((RegressionTree.split p nodes root i rate rand nth).1 = false →
      (RegressionTree.split p nodes root i rate rand nth).2 = nodes) := by
  refine ⟨?_, fun f t _ => split_score_nonneg _ f t, split_false_frame p nodes root i rate rand nth⟩
  rw [split_false_iff_best p nodes root i rate rand nth nd hnode,
    best_split_init_iff _ p.minls p.training_dataset.num_features nth rate rand hrate hnth]

theorem sample_admissible :
    RegressionTree.Admissible RegressionTree.sample_hist 1 2 0 0 := by
  unfold RegressionTree.Admissible RegressionTree.c_L RegressionTree.c_R
    RegressionTree.c_total RegressionTree.usub RegressionTree.sample_hist
  decide

theorem flat_admissible :
    RegressionTree.Admissible RegressionTree.flat_hist 1 2 0 0 := by
  unfold RegressionTree.Admissible RegressionTree.c_L RegressionTree.c_R
    RegressionTree.c_total RegressionTree.usub RegressionTree.flat_hist
  decide

theorem sample_split_succeeds :
    (RegressionTree.split RegressionTree.sample_params [RegressionTree.sample_root] 0 0 1
      (fun _ => 0) 1).1 = true := by
  cases hs : (RegressionTree.split RegressionTree.sample_params [RegressionTree.sample_root]
      0 0 1 (fun _ => 0) 1).1 with
  | true => rfl
  | false =>
    exfalso
    have h := (split_false_iff_best RegressionTree.sample_params [RegressionTree.sample_root]
      0 0 1 (fun _ => 0) 1 RegressionTree.sample_root rfl).mp hs
    rcases h with h | h
    · have hdev : RegressionTree.sample_root.deviance = RegressionTree.DBL_MAX := rfl
      rw [hdev] at h
      unfold RegressionTree.DBL_MAX at h
      norm_num at h
    · have h' := (best_split_init_iff RegressionTree.sample_hist 1 2 1 1 (fun _ => 0)
        (le_refl _) (le_refl _)).mp h
      exact h' ⟨0, 0, sample_admissible⟩

/-- C7, a concrete instance: the root of the three-sample training set has positive deviance
and an admissible candidate, so `split` without sub-sampling does not return `false`. -/
theorem split_false_iff_witness :
    1 ≤ RegressionTree.sample_params.minls ∧ (1 : ℚ) ≤ 1 ∧ 1 ≤ 1 ∧
    [RegressionTree.sample_root][0]? = some RegressionTree.sample_root ∧
    ((RegressionTree.split RegressionTree.sample_params [RegressionTree.sample_root] 0 0 1
        (fun _ => 0) 1).1 = false ↔
      (RegressionTree.sample_root.deviance ≤ 0 ∨
        ¬ ∃ f t, RegressionTree.Admissible RegressionTree.sample_hist 1 2 f t)) :=
  ⟨le_refl _, le_refl _, le_refl _, rfl,
    (split_false_iff RegressionTree.sample_params [RegressionTree.sample_root] 0 0 1
      (fun _ => 0) 1 RegressionTree.sample_root (le_refl _) (le_refl _) (le_refl _) rfl).1⟩

theorem sample_scanned_half :
    RegressionTree.scanned_features 2 (1 / 2) (fun _ => 0) = [1] := by
  have hfloor : ⌊(1 / 2 : ℚ) * ((2 : Nat) : ℚ)⌋₊ = 1 := by
    have : (1 / 2 : ℚ) * ((2 : Nat) : ℚ) = 1 := by norm_num
    rw [this]
    exact Nat.floor_one
  unfold RegressionTree.scanned_features
  rw [if_pos (by norm_num), hfloor]
  decide

theorem sample_best_half :
    RegressionTree.best_split RegressionTree.sample_hist 1 [1] 1 =
      { score := 9 / 2, featureidx := 1, thresholdid := 0 } := by
  simp [RegressionTree.best_split, RegressionTree.scan_feature, RegressionTree.scan_threshold,
    RegressionTree.sample_hist, RegressionTree.usub, RegressionTree.Best.init,
    List.range_succ]
  norm_num

theorem flat_best_half :
    RegressionTree.best_split RegressionTree.flat_hist 1 [1] 1 = RegressionTree.Best.init := by
  simp [RegressionTree.best_split, RegressionTree.scan_feature, RegressionTree.scan_threshold,
    RegressionTree.flat_hist, RegressionTree.usub, RegressionTree.Best.init,
    List.range_succ]

/-- C6 as stated fails under feature sub-sampling: with `featuresamplingrate = 1/2` and
`rand()` returning `0`, only feature `1` of the two features is scanned; `split` succeeds and
chooses feature `1`, whose candidates all score below `9`, the score of the admissible
candidate `(0, 0)`. -/
theorem split_subsampling_counterexample :
    (RegressionTree.split RegressionTree.sample_params [RegressionTree.sample_root] 0 0
      (1 / 2) (fun _ => 0) 1).1 = true ∧
    ((RegressionTree.split RegressionTree.sample_params [RegressionTree.sample_root] 0 0
      (1 / 2) (fun _ => 0) 1).2.getD 0 RegressionTree.sample_root).featureidx = 1 ∧
    RegressionTree.Admissible RegressionTree.sample_hist 1 2 0 0 ∧
    ∀ t, t < 2 → RegressionTree.split_score RegressionTree.sample_hist 1 t <
      RegressionTree.split_score RegressionTree.sample_hist 0 0 := by
  have hbest : RegressionTree.best_split
      (RegressionTree.sample_root.hist.getD RegressionTree.RTNodeHistogram.null)
      RegressionTree.sample_params.minls
      (RegressionTree.scanned_features
        RegressionTree.sample_params.training_dataset.num_features (1 / 2) (fun _ => 0)) 1 =
      { score := 9 / 2, featureidx := 1, thresholdid := 0 } := by
    have h1 : RegressionTree.sample_params.training_dataset.num_features = 2 := rfl
    have h2 : RegressionTree.sample_root.hist.getD RegressionTree.RTNodeHistogram.null =
        RegressionTree.sample_hist := rfl
    have h3 : RegressionTree.sample_params.minls = 1 := rfl
    rw [h1, h2, h3, sample_scanned_half, sample_best_half]
  have htrue : (RegressionTree.split RegressionTree.sample_params
      [RegressionTree.sample_root] 0 0 (1 / 2) (fun _ => 0) 1).1 = true := by
    cases hs : (RegressionTree.split RegressionTree.sample_params
        [RegressionTree.sample_root] 0 0 (1 / 2) (fun _ => 0) 1).1 with
    | true => rfl
    | false =>
      exfalso
      have h := (split_false_iff_best RegressionTree.sample_params
        [RegressionTree.sample_root] 0 0 (1 / 2) (fun _ => 0) 1
        RegressionTree.sample_root rfl).mp hs
      rcases h with h | h
      · have hdev : RegressionTree.sample_root.deviance = RegressionTree.DBL_MAX := rfl
        rw [hdev] at h
        unfold RegressionTree.DBL_MAX at h
        norm_num at h
      · rw [hbest] at h
        norm_num at h
  refine ⟨htrue, ?_, sample_admissible, ?_⟩
  · obtain ⟨nd0, nd', l, r, hnode0, hres, _, _, hfeat, _⟩ :=
      split_true_shape RegressionTree.sample_params [RegressionTree.sample_root] 0 0
        (1 / 2) (fun _ => 0) 1 htrue
    have hnd : nd0 = RegressionTree.sample_root := by
      have : ([RegressionTree.sample_root] : List RegressionTree.RTNode)[0]? =
          some RegressionTree.sample_root := rfl
      rw [this] at hnode0
      exact (Option.some.inj hnode0).symm
    subst hnd
    rw [hres, getD_set_append_self _ 0 nd' _ [l, r] (by simp), hfeat, hbest]
  · intro t ht
    have ht' : t = 0 ∨ t = 1 := by omega
    rcases ht' with rfl | rfl
    · simp [RegressionTree.split_score, RegressionTree.s_L, RegressionTree.s_R,
        RegressionTree.c_L, RegressionTree.c_R, RegressionTree.c_total,
        RegressionTree.s_total, RegressionTree.usub, RegressionTree.sample_hist]
      try norm_num
    · simp [RegressionTree.split_score, RegressionTree.s_L, RegressionTree.s_R,
        RegressionTree.c_L, RegressionTree.c_R, RegressionTree.c_total,
        RegressionTree.s_total, RegressionTree.usub, RegressionTree.sample_hist]
      try norm_num

/-- C7 as stated fails under feature sub-sampling: with `featuresamplingrate = 1/2` and
`rand()` returning `0`, only the constant feature `1` is scanned and `split` returns `false`,
although the node's deviance is positive and the candidate `(0, 0)` is admissible. -/
theorem split_false_subsampling_counterexample :
    (RegressionTree.split RegressionTree.flat_params [RegressionTree.flat_root] 0 0
      (1 / 2) (fun _ => 0) 1).1 = false ∧
    0 < RegressionTree.flat_root.deviance ∧
    RegressionTree.Admissible RegressionTree.flat_hist 1 2 0 0 := by
  refine ⟨?_, ?_, flat_admissible⟩
  · apply (split_false_iff_best RegressionTree.flat_params [RegressionTree.flat_root] 0 0
      (1 / 2) (fun _ => 0) 1 RegressionTree.flat_root rfl).mpr
    right
    have h1 : RegressionTree.flat_params.training_dataset.num_features = 2 := rfl
    have h2 : RegressionTree.flat_root.hist.getD RegressionTree.RTNodeHistogram.null =
        RegressionTree.flat_hist := rfl
    have h3 : RegressionTree.flat_params.minls = 1 := rfl
    rw [h1, h2, h3, sample_scanned_half, flat_best_half]
    rfl
  · have hdev : RegressionTree.flat_root.deviance = RegressionTree.DBL_MAX := rfl
    rw [hdev]
    unfold RegressionTree.DBL_MAX
    norm_num

/-! ### Regression tree: `fit` and `update_output` on the sample training set -/

theorem sample_best_all :
    RegressionTree.best_split RegressionTree.sample_hist 1 (List.range 2) 1 =
      { score := 9, featureidx := 0, thresholdid := 0 } := by
  simp [RegressionTree.best_split, RegressionTree.scan_feature, RegressionTree.scan_threshold,
    RegressionTree.sample_hist, RegressionTree.usub, RegressionTree.Best.init,
    List.range_succ]
  norm_num

theorem sample_scanned_all (rand : Nat → Nat) :
    RegressionTree.scanned_features 2 1 rand = List.range 2 := by
  unfold RegressionTree.scanned_features
  rw [if_neg (by norm_num)]

set_option maxHeartbeats 4000000 in
theorem sample_split_root (p : RegressionTree.Params) (rand : Nat → Nat)
    (hm : p.minls = 1) (hd : p.training_dataset = RegressionTree.sample_dataset)
    (hl : p.training_labels = RegressionTree.sample_labels) :
    RegressionTree.split p [RegressionTree.sample_root] 0 0 1 rand 1 =
      (true, [RegressionTree.sample_fitted_root, RegressionTree.sample_left_child,
        RegressionTree.sample_right_child]) := by
  unfold RegressionTree.split
  have h0 : ([RegressionTree.sample_root] : List RegressionTree.RTNode)[0]? =
      some RegressionTree.sample_root := rfl
  rw [h0]
  simp only []
  have hdev : RegressionTree.sample_root.deviance > 0 := by
    show RegressionTree.DBL_MAX > 0
    unfold RegressionTree.DBL_MAX
    norm_num
  rw [if_pos hdev]
  have h1 : RegressionTree.sample_dataset.num_features = 2 := rfl
  have h2 : RegressionTree.sample_root.hist.getD RegressionTree.RTNodeHistogram.null =
      RegressionTree.sample_hist := rfl
  rw [hm, hd, hl, h1, h2, sample_scanned_all, sample_best_all]
  simp [RegressionTree.sample_hist, RegressionTree.usub, RegressionTree.sample_root,
    RegressionTree.RTNode.create, RegressionTree.sample_dataset,
    RegressionTree.Dataset.feature, RegressionTree.RTNodeHistogram.of_samples,
    RegressionTree.RTNodeHistogram.minus, RegressionTree.sample_labels,
    RegressionTree.sample_fitted_root, RegressionTree.sample_left_child,
    RegressionTree.sample_right_child, List.range_succ, List.filter]
  norm_num

theorem grow_loop_done (p : RegressionTree.Params) (rand : Nat → Nat) (nth fuel : Nat)
    (g : RegressionTree.Growth) (h : ¬ RegressionTree.growing p g) :
    RegressionTree.grow_loop p rand nth fuel g = some g := by
  cases fuel with
  | zero => unfold RegressionTree.grow_loop; rw [if_neg h]
  | succ n => unfold RegressionTree.grow_loop; rw [if_neg h]

/-- C2, the failing input.  On the sample training set (three samples, labels `0, 0, 3`) with
`nrequiredleaves = 1` the root is split before the leaf budget is consulted, the loop does not
run, and the fitted tree has two leaves, one more than the budget. -/
theorem fit_single_leaf_budget (rand : Nat → Nat) (fuel : Nat) :
    RegressionTree.fit RegressionTree.single_leaf_params RegressionTree.sample_hist rand 1
      fuel = some RegressionTree.single_leaf_fitted ∧
    RegressionTree.single_leaf_params.nrequiredleaves = 1 ∧
    RegressionTree.single_leaf_fitted.nleaves = 2 := by
  refine ⟨?_, rfl, rfl⟩
  unfold RegressionTree.fit
  simp only []
  have hroot : RegressionTree.RTNode.create
      (List.range RegressionTree.single_leaf_params.training_dataset.num_instances)
      RegressionTree.single_leaf_params.training_dataset.num_instances
      RegressionTree.DBL_MAX 0 (some RegressionTree.sample_hist) =
      RegressionTree.sample_root := rfl
  rw [hroot, sample_split_root RegressionTree.single_leaf_params rand rfl rfl rfl]
  simp only [if_true]
  rw [grow_loop_done]
  · rfl
  · unfold RegressionTree.growing
    decide

theorem sample_split_leaf (rand : Nat → Nat) (nodes : List RegressionTree.RTNode) (i : Nat)
    (nd : RegressionTree.RTNode) (hnode : nodes[i]? = some nd) (hdev : nd.deviance = 0) :
    RegressionTree.split RegressionTree.sample_params nodes 0 i 1 rand 1 = (false, nodes) := by
  unfold RegressionTree.split
  rw [hnode]
  simp only []
  rw [if_neg (by rw [hdev]; exact lt_irrefl 0)]

theorem sample_grow_first (rand : Nat → Nat) :
    RegressionTree.grow RegressionTree.sample_params rand 1
      RegressionTree.sample_growth_start = RegressionTree.sample_growth_middle := by
  have htop : RegressionTree.top [((0 : ℚ), 1), ((0 : ℚ), 2)] = 1 := by
    simp [RegressionTree.top, RegressionTree.top_position]
  have hpos : RegressionTree.top_position [((0 : ℚ), 1), ((0 : ℚ), 2)] = 0 := by
    simp [RegressionTree.top_position]
  unfold RegressionTree.grow RegressionTree.sample_growth_start
    RegressionTree.sample_growth_middle
  simp only [htop]
  rw [sample_split_leaf rand _ 1 RegressionTree.sample_left_child rfl rfl]
  simp only [Bool.false_eq_true, if_false]
  unfold RegressionTree.pop
  simp [htop, hpos, RegressionTree.sample_left_child, RegressionTree.sample_fitted_left,
    RegressionTree.RTNode.create]

theorem sample_grow_second (rand : Nat → Nat) :
    RegressionTree.grow RegressionTree.sample_params rand 1
      RegressionTree.sample_growth_middle = RegressionTree.sample_growth_end := by
  have htop : RegressionTree.top [((0 : ℚ), 2)] = 2 := by
    simp [RegressionTree.top, RegressionTree.top_position]
  have hpos : RegressionTree.top_position [((0 : ℚ), 2)] = 0 := by
    simp [RegressionTree.top_position]
  unfold RegressionTree.grow RegressionTree.sample_growth_middle
    RegressionTree.sample_growth_end
  simp only [htop]
  rw [sample_split_leaf rand _ 2 RegressionTree.sample_right_child rfl rfl]
  simp only [Bool.false_eq_true, if_false]
  unfold RegressionTree.pop
  simp [htop, hpos, RegressionTree.sample_right_child, RegressionTree.sample_fitted_right,
    RegressionTree.RTNode.create]

theorem grow_loop_step (p : RegressionTree.Params) (rand : Nat → Nat) (nth fuel : Nat)
    (g : RegressionTree.Growth) (h : RegressionTree.growing p g) :
    RegressionTree.grow_loop p rand nth (fuel + 1) g =
      RegressionTree.grow_loop p rand nth fuel (RegressionTree.grow p rand nth g) := by
  rw [RegressionTree.grow_loop, if_pos h]

theorem sample_grow_loop (rand : Nat → Nat) (fuel : Nat) :
    RegressionTree.grow_loop RegressionTree.sample_params rand 1 (fuel + 1 + 1)
      RegressionTree.sample_growth_start = some RegressionTree.sample_growth_end := by
  have hg0 : RegressionTree.growing RegressionTree.sample_params
      RegressionTree.sample_growth_start := by
    unfold RegressionTree.growing
    exact ⟨by simp [RegressionTree.sample_growth_start],
      Or.inr (by simp [RegressionTree.sample_params, RegressionTree.sample_growth_start])⟩
  have hg1 : RegressionTree.growing RegressionTree.sample_params
      RegressionTree.sample_growth_middle := by
    unfold RegressionTree.growing
    exact ⟨by simp [RegressionTree.sample_growth_middle],
      Or.inr (by simp [RegressionTree.sample_params, RegressionTree.sample_growth_middle])⟩
  have hg2 : ¬ RegressionTree.growing RegressionTree.sample_params
      RegressionTree.sample_growth_end := by
    unfold RegressionTree.growing
    simp [RegressionTree.sample_growth_end]
  rw [grow_loop_step _ _ _ _ _ hg0, sample_grow_first, grow_loop_step _ _ _ _ _ hg1,
    sample_grow_second, grow_loop_done _ _ _ _ _ hg2]

/-- The tree fitted on the sample training set with a budget of four leaves: both children of
the root are popped from the heap as unsplittable. -/
theorem fit_sample (rand : Nat → Nat) (fuel : Nat) (hfuel : 2 ≤ fuel) :
    RegressionTree.fit RegressionTree.sample_params RegressionTree.sample_hist rand 1
      fuel = some RegressionTree.sample_fitted := by
  unfold RegressionTree.fit
  simp only []
  have hroot : RegressionTree.RTNode.create
      (List.range RegressionTree.sample_params.training_dataset.num_instances)
      RegressionTree.sample_params.training_dataset.num_instances
      RegressionTree.DBL_MAX 0 (some RegressionTree.sample_hist) =
      RegressionTree.sample_root := rfl
  rw [hroot, sample_split_root RegressionTree.sample_params rand rfl rfl rfl]
  simp only [if_true]
  have hpush : RegressionTree.push_chidrenof
      [RegressionTree.sample_fitted_root, RegressionTree.sample_left_child,
        RegressionTree.sample_right_child] [] 0 = [(0, 1), (0, 2)] := by
    simp [RegressionTree.push_chidrenof, RegressionTree.sample_fitted_root,
      RegressionTree.sample_left_child, RegressionTree.sample_right_child,
      RegressionTree.RTNode.create]
  rw [hpush]
  obtain ⟨k, hk⟩ : ∃ k, fuel = k + 1 + 1 := ⟨fuel - 2, by omega⟩
  have hstart : RegressionTree.Growth.mk
      [RegressionTree.sample_fitted_root, RegressionTree.sample_left_child,
        RegressionTree.sample_right_child] [(0, 1), (0, 2)] 0 =
      RegressionTree.sample_growth_start := rfl
  rw [hk, hstart, sample_grow_loop]
  simp [RegressionTree.save_leaves, RegressionTree.sample_fitted,
    RegressionTree.sample_growth_end,
    RegressionTree.sample_fitted_root, RegressionTree.sample_fitted_left,
    RegressionTree.sample_fitted_right, RegressionTree.uint_max]

/-- C5, the failing input.  On the sample training set (three samples, labels `0, 0, 3`) with
a budget of four leaves both children of the root are popped from the heap as unsplittable,
which empties their sample ids.  Samples `0` and `1` are routed to the leaf at node `1`, so
with all pseudo-responses and weights equal to `1` the claimed average label of that leaf is
`2 / 2 = 1`; `update_output` sums over the emptied list, stores `0` and returns the maximum
`0`. -/
theorem update_output_popped_leaf (rand : Nat → Nat) :
    RegressionTree.fit RegressionTree.sample_params RegressionTree.sample_hist rand 1 12 =
      some RegressionTree.sample_fitted ∧
    RegressionTree.routed_samples RegressionTree.sample_dataset
      RegressionTree.sample_fitted.nodes 1 = [0, 1] ∧
    RegressionTree.claimed_avglabel [0, 1] [1, 1, 1] [1, 1, 1] = 1 ∧
    ((RegressionTree.update_output RegressionTree.sample_fitted [1, 1, 1] [1, 1, 1]).2.getD 1
      RegressionTree.sample_fitted_left).avglabel = 0 ∧
    (RegressionTree.update_output RegressionTree.sample_fitted [1, 1, 1] [1, 1, 1]).1 = 0 := by
  refine ⟨fit_sample rand 12 (by norm_num), ?_, ?_, ?_, ?_⟩
  · simp [RegressionTree.routed_samples, RegressionTree.route, RegressionTree.sample_fitted,
      RegressionTree.sample_fitted_root, RegressionTree.sample_fitted_left,
      RegressionTree.sample_fitted_right, RegressionTree.sample_dataset,
      RegressionTree.Dataset.feature, RegressionTree.uint_max, List.range_succ, List.filter]
  · simp [RegressionTree.claimed_avglabel, RegressionTree.DBL_EPSILON]
    norm_num
  · simp [RegressionTree.update_output, RegressionTree.sample_fitted,
      RegressionTree.sample_fitted_root, RegressionTree.sample_fitted_left,
      RegressionTree.sample_fitted_right, RegressionTree.DBL_EPSILON, List.range_succ]
  · have hneg : -RegressionTree.DBL_MAX < 0 := by
      unfold RegressionTree.DBL_MAX
      norm_num
    simp [RegressionTree.update_output, RegressionTree.sample_fitted,
      RegressionTree.sample_fitted_root, RegressionTree.sample_fitted_left,
      RegressionTree.sample_fitted_right, RegressionTree.DBL_EPSILON, List.range_succ, hneg]

/-! ### Line search: the sizes of the vectors along a run -/

theorem step1_feature_lengths (train : LineSearch.Dataset) (scorer : LineSearch.Metric)
    (step : ℚ) (st s : LineSearch.State) (f : Nat)
    (h : LineSearch.step1_feature train scorer step st f = some s) :
    s.metric_scores.length = st.metric_scores.length ∧
    s.weights.length = st.weights.length ∧ s.weights_prev = st.weights_prev := by
  unfold LineSearch.step1_feature at h
  simp only [] at h
  split at h
  · exact absurd h (by simp)
  · split_ifs at h <;>
    · have hs := Option.some.inj h
      subst hs
      simp [foldl_set_length]

theorem step1_lengths (train : LineSearch.Dataset) (scorer : LineSearch.Metric) (P : Nat)
    (st s : LineSearch.State) (h : LineSearch.step1 train scorer P st = some s) :
    s.metric_scores.length = st.metric_scores.length ∧
    s.weights.length = st.weights.length ∧ s.weights_prev = st.weights_prev := by
  refine step1_fold_invariant train scorer _
    (fun x => x.metric_scores.length = st.metric_scores.length ∧
      x.weights.length = st.weights.length ∧ x.weights_prev = st.weights_prev)
    ?_ _ st s (step1_eq_fold train scorer P st s h) ⟨rfl, rfl, rfl⟩
  intro a b f hab ha
  obtain ⟨h1, h2, h3⟩ := step1_feature_lengths train scorer _ a b f hab
  exact ⟨h1.trans ha.1, h2.trans ha.2.1, h3.trans ha.2.2⟩

theorem step2_lengths (train : LineSearch.Dataset) (scorer : LineSearch.Metric) (P : Nat)
    (st : LineSearch.State) :
    (LineSearch.step2 train scorer P st).metric_scores.length = st.metric_scores.length ∧
    (LineSearch.step2 train scorer P st).weights.length = st.weights.length ∧
    ((LineSearch.step2 train scorer P st).weights_prev.length = st.weights_prev.length ∨
      (LineSearch.step2 train scorer P st).weights_prev.length = st.weights.length) := by
  unfold LineSearch.step2
  simp only []
  split_ifs
  · exact ⟨rfl, rfl, Or.inl rfl⟩
  · simp only [foldl_set_length]
    exact ⟨trivial, trivial, Or.inr trivial⟩
  · simp only [foldl_set_length]
    exact ⟨trivial, trivial, Or.inl trivial⟩

theorem finish_lengths (cfg : LineSearch.Config) (vali : Option LineSearch.Dataset)
    (scorer : LineSearch.Metric) (st : LineSearch.State) :
    (LineSearch.finish cfg vali scorer st).1.metric_scores = st.metric_scores ∧
    (LineSearch.finish cfg vali scorer st).1.weights = st.weights ∧
    (LineSearch.finish cfg vali scorer st).1.weights_prev = st.weights_prev := by
  unfold LineSearch.finish
  simp only []
  cases vali with
  | none => simp only []; split_ifs <;> exact ⟨rfl, rfl, rfl⟩
  | some vd => simp only []; split_ifs <;> exact ⟨rfl, rfl, rfl⟩

/-- The sizes `learn` gives its vectors are kept by every iteration: `metric_scores` has
`num_points + 1` entries, `weights` and `weights_prev` one entry per feature; the state after
Step 1 of the iteration has them too.  These are the hypotheses of `step2_spec`. -/
theorem iteration_lengths (cfg : LineSearch.Config) (train : LineSearch.Dataset)
    (vali : Option LineSearch.Dataset) (scorer : LineSearch.Metric)
    (st s : LineSearch.State) (e : LineSearch.Exit)
    (h : LineSearch.iteration cfg train vali scorer st = some (s, e))
    (hms : st.metric_scores.length = LineSearch.even_points cfg + 1)
    (hw : st.weights.length = train.num_features)
    (hwp : st.weights_prev.length = train.num_features) :
    (∃ s1, LineSearch.step1 train scorer (LineSearch.even_points cfg) st = some s1 ∧
      s1.metric_scores.length = LineSearch.even_points cfg + 1 ∧
      s1.weights.length = train.num_features ∧
      s1.weights_prev.length = train.num_features) ∧
    s.metric_scores.length = LineSearch.even_points cfg + 1 ∧
    s.weights.length = train.num_features ∧
    s.weights_prev.length = train.num_features := by
  unfold LineSearch.iteration at h
  cases h1 : LineSearch.step1 train scorer (LineSearch.even_points cfg) st with
  | none => rw [h1] at h; exact absurd h (by simp)
  | some s1 =>
    rw [h1] at h
    simp only [Option.some.injEq] at h
    obtain ⟨a1, a2, a3⟩ := step1_lengths train scorer _ st s1 h1
    obtain ⟨b1, b2, b3⟩ := step2_lengths train scorer (LineSearch.even_points cfg) s1
    obtain ⟨c1, c2, c3⟩ := finish_lengths cfg vali scorer
      (LineSearch.step2 train scorer (LineSearch.even_points cfg) s1)
    rw [h] at c1 c2 c3
    refine ⟨⟨s1, rfl, by rw [a1, hms], by rw [a2, hw], by rw [a3, hwp]⟩, ?_, ?_, ?_⟩
    · rw [c1, b1, a1, hms]
    · rw [c2, b2, a2, hw]
    · rw [c3]
      rcases b3 with b3 | b3
      · rw [b3, a3, hwp]
      · rw [b3, a2, hw]

theorem initial_lengths (cfg : LineSearch.Config) (train : LineSearch.Dataset)
    (vali : Option LineSearch.Dataset) (scorer : LineSearch.Metric) :
    (LineSearch.initial cfg train vali scorer).metric_scores.length =
      LineSearch.even_points cfg + 1 ∧
    (LineSearch.initial cfg train vali scorer).weights.length = train.num_features ∧
    (LineSearch.initial cfg train vali scorer).weights_prev.length = train.num_features := by
  unfold LineSearch.initial
  simp

/-! ### RMSE -/

theorem evaluate_result_list_eq {α : Type} [LinearOrderedField α] (cutoff : Nat)
    (labels scores : List α) (offset : Nat) :
    Rmse.evaluate_result_list cutoff labels scores offset =
      ∑ i in Finset.range (min cutoff labels.length),
        (scores.getD (offset + i) 0 - labels.getD i 0) ^ 2 := by
  unfold Rmse.evaluate_result_list
  simp only []
  by_cases h : min cutoff labels.length = 0
  · rw [if_pos h, h]; simp
  · rw [if_neg h]
    exact foldl_range_add (fun i => (scores.getD (offset + i) 0 - labels.getD i 0) ^ 2) _

theorem take_lengths_succ {α : Type} (qs : List (List α)) (n : Nat) (hn : n < qs.length) :
    ((qs.take (n + 1)).map List.length).sum =
      ((qs.take n).map List.length).sum + (qs.getD n []).length := by
  rw [List.take_succ, List.getD_eq_getElem _ _ hn, List.getElem?_eq_getElem hn,
    List.map_append, List.sum_append]
  simp

theorem evaluate_dataset_fold {α : Type} [LinearOrderedField α] (cutoff : Nat)
    (qs : List (List α)) (scores : List α) (n : Nat) (hn : n ≤ qs.length) :
    (List.range n).foldl
      (fun (acc : α × Nat) q =>
        (acc.1 + Rmse.evaluate_result_list cutoff (qs.getD q []) scores acc.2,
          acc.2 + (qs.getD q []).length)) (0, 0) =
      (∑ q in Finset.range n,
        ∑ i in Finset.range (min cutoff (qs.getD q []).length),
          (scores.getD (((qs.take q).map List.length).sum + i) 0 -
            (qs.getD q []).getD i 0) ^ 2,
       ((qs.take n).map List.length).sum) := by
  induction n with
  | zero => simp
  | succ n ih =>
    rw [List.range_succ, List.foldl_append, ih (by omega)]
    simp only [List.foldl_cons, List.foldl_nil]
    rw [evaluate_result_list_eq, Finset.sum_range_succ, take_lengths_succ qs n (by omega)]

theorem evaluate_dataset_eq {α : Type} [LinearOrderedField α] (sqrt : α → α) (cutoff : Nat)
    (d : Rmse.Dataset α) (scores : List α) :
    Rmse.evaluate_dataset sqrt cutoff d scores =
      if min cutoff d.queries.length = 0 then 0
      else -sqrt (Rmse.sseFormula cutoff d.queries scores / (d.num_instances : α)) := by
  unfold Rmse.evaluate_dataset
  simp only []
  rw [evaluate_dataset_fold cutoff d.queries scores d.queries.length (le_refl _)]
  rfl

theorem sseFormula_cutoff_zero {α : Type} [LinearOrderedField α] (queries : List (List α))
    (scores : List α) : Rmse.sseFormula 0 queries scores = 0 := by
  unfold Rmse.sseFormula
  simp

theorem sseFormula_nonneg {α : Type} [LinearOrderedField α] (cutoff : Nat)
    (queries : List (List α)) (scores : List α) : 0 ≤ Rmse.sseFormula cutoff queries scores := by
  unfold Rmse.sseFormula
  exact Finset.sum_nonneg (fun q _ => Finset.sum_nonneg (fun i _ => sq_nonneg _))

theorem join_getD {α : Type} (qs : List (List α)) (d : α) :
    ∀ q i, q < qs.length → i < (qs.getD q []).length →
      qs.flatten.getD (((qs.take q).map List.length).sum + i) d = (qs.getD q []).getD i d := by
  induction qs with
  | nil => intro q i hq; simp at hq
  | cons a l ih =>
    intro q i hq hi
    cases q with
    | zero =>
      simp only [List.take_zero, List.map_nil, List.sum_nil, zero_add, List.flatten_cons,
        List.getD_cons_zero] at hi ⊢
      rw [List.getD_eq_getElem _ _ (by simp; omega), List.getD_eq_getElem _ _ hi,
        List.getElem_append_left hi]
    | succ q =>
      simp only [List.take_succ_cons, List.map_cons, List.sum_cons, List.flatten_cons,
        List.getD_cons_succ, List.length_cons] at hi hq ⊢
      rw [add_assoc, List.getD_append_right _ _ _ _ (by omega)]
      have : a.length + (((l.take q).map List.length).sum + i) - a.length =
          ((l.take q).map List.length).sum + i := by omega
      rw [this]
      exact ih q i (by omega) hi

theorem sseFormula_labels {α : Type} [LinearOrderedField α] (cutoff : Nat)
    (queries : List (List α)) : Rmse.sseFormula cutoff queries queries.flatten = 0 := by
  unfold Rmse.sseFormula
  apply Finset.sum_eq_zero
  intro q hq
  apply Finset.sum_eq_zero
  intro i hi
  have hq' := Finset.mem_range.mp hq
  have hi' : i < (queries.getD q []).length :=
    lt_of_lt_of_le (Finset.mem_range.mp hi) (Nat.min_le_right _ _)
  rw [join_getD queries 0 q i hq' hi']
  simp

/-- C11.  Over the reals with the true square root, for every cutoff, every score vector and
every dataset that either has no query or reports `N > 0` instances: with at least one query
`evaluate_dataset` returns `-sqrt(S / N)`, `S` being the sum over the queries of the squared
differences of score and label over the first `min(cutoff, query size)` results, the scores of
a query starting where those of the earlier queries end; with no query it returns `0`; when
the scores are the labels the result is `0`; and the result is never positive. -/
theorem evaluate_dataset_spec (cutoff : Nat) (d : Rmse.Dataset ℝ) (scores : List ℝ)
    (hd : d.queries = [] ∨ 0 < d.num_instances) :
    (d.queries ≠ [] →
      Rmse.evaluate_dataset Real.sqrt cutoff d scores =
        -Real.sqrt (Rmse.sseFormula cutoff d.queries scores / (d.num_instances : ℝ))) ∧
    (d.queries = [] → Rmse.evaluate_dataset Real.sqrt cutoff d scores = 0) ∧
    (scores = d.queries.flatten → Rmse.evaluate_dataset Real.sqrt cutoff d scores = 0) ∧
    Rmse.evaluate_dataset Real.sqrt cutoff d scores ≤ 0 := by
  rw [evaluate_dataset_eq]
  refine ⟨?_, ?_, ?_, ?_⟩
  · intro hne
    by_cases h : min cutoff d.queries.length = 0
    · rw [if_pos h]
      have hlen : d.queries.length ≠ 0 := fun h0 => hne (List.length_eq_zero.mp h0)
      have hc : cutoff = 0 := by
        rcases Nat.min_eq_zero_iff.mp h with h1 | h1
        · exact h1
        · exact absurd h1 hlen
      rw [hc, sseFormula_cutoff_zero]
      simp
    · rw [if_neg h]
  · intro he
    rw [he]
    simp
  · intro hs
    rw [hs, sseFormula_labels]
    simp
  · split_ifs
    · exact le_refl _
    · exact neg_nonpos.mpr (Real.sqrt_nonneg _)

/-- C11, the example of the specification: scores `[1, 2, 3]`, labels `[1, 2, 3]`, one query,
`N = 3`, no cutoff: the result is `-sqrt(S / 3)` with `S = 0`, which is `0`. -/
theorem evaluate_dataset_spec_witness :
    (Rmse.sample_dataset.queries = [] ∨ 0 < Rmse.sample_dataset.num_instances) ∧
    Rmse.sample_dataset.queries ≠ [] ∧
    Rmse.evaluate_dataset Real.sqrt (2 ^ 32 - 1) Rmse.sample_dataset [1, 2, 3] =
      -Real.sqrt (Rmse.sseFormula (2 ^ 32 - 1) Rmse.sample_dataset.queries [1, 2, 3] /
        (Rmse.sample_dataset.num_instances : ℝ)) ∧
    Rmse.evaluate_dataset Real.sqrt (2 ^ 32 - 1) Rmse.sample_dataset [1, 2, 3] = 0 := by
  have hd : Rmse.sample_dataset.queries = [] ∨ 0 < Rmse.sample_dataset.num_instances :=
    Or.inr (by unfold Rmse.sample_dataset; decide)
  have hne : Rmse.sample_dataset.queries ≠ [] := by unfold Rmse.sample_dataset; simp
  have h := evaluate_dataset_spec (2 ^ 32 - 1) Rmse.sample_dataset [1, 2, 3] hd
  exact ⟨hd, hne, h.1 hne, h.2.2.1 (by simp [Rmse.sample_dataset])⟩

/-! ### NDCG of a query in the ideal order -/

theorem double_qsort_sorted {labels : List Nat}
    (h : List.Sorted (fun a b => b ≤ a) labels) : double_qsort labels = labels :=
  List.Sorted.insertionSort_eq h

theorem dcgFormula_pos {α : Type} [LinearOrderedField α] (log2 : α → α)
    (hlog : ∀ i : Nat, 0 < log2 ((i : α) + 2)) (labels : List Nat) (k' : Nat) (hk : 1 ≤ k')
    (h0 : 0 < labels.getD 0 0) : 0 < dcgFormula log2 labels k' := by
  unfold dcgFormula
  apply Finset.sum_pos'
  · intro i _
    apply div_nonneg _ (hlog i).le
    have : (1 : α) ≤ 2 ^ (labels.getD i 0) := one_le_pow₀ (by norm_num)
    linarith
  · refine ⟨0, Finset.mem_range.mpr (by omega), ?_⟩
    apply div_pos _ (hlog 0)
    have : (1 : α) < 2 ^ (labels.getD 0 0) := one_lt_pow₀ (by norm_num) (by omega)
    linarith

theorem sorted_head_pos {labels : List Nat} (h : List.Sorted (fun a b => b ≤ a) labels)
    (hpos : ∃ y ∈ labels, 0 < y) : 0 < labels.getD 0 0 := by
  cases labels with
  | nil => obtain ⟨y, hy, _⟩ := hpos; simp at hy
  | cons a l =>
    obtain ⟨y, hy, hy0⟩ := hpos
    rw [List.getD_cons_zero]
    rcases List.mem_cons.mp hy with rfl | hmem
    · exact hy0
    · have := List.rel_of_sorted_cons h y hmem
      omega

/-- C12.  For every non-empty query whose labels are small non-negative integers (below 31)
in the ideal, non-increasing order with at least one positive label, and for every cutoff `k`,
`compute_score` returns exactly `1`; `log2` is any function that is positive at `i + 2` for
every rank `i`, as the binary logarithm is. -/
theorem compute_score_ideal_order {α : Type} [LinearOrderedField α] (log2 : α → α)
    (hlog : ∀ i : Nat, 0 < log2 ((i : α) + 2)) (k : Nat) (labels : List Nat)
    (hne : labels ≠ []) (hsmall : ∀ y ∈ labels, y < 31)
    (hsorted : List.Sorted (fun a b => b ≤ a) labels) (hpos : ∃ y ∈ labels, 0 < y) :
    ndcgscorer.compute_score log2 k labels = 1 := by
  have hlen : labels.length ≠ 0 := fun h => hne (List.length_eq_zero.mp h)
  have hk : 1 ≤ (if (if k < labels.length then k else labels.length) = 0 ∨
        (if k < labels.length then k else labels.length) > labels.length
      then labels.length else (if k < labels.length then k else labels.length)) := by
    split_ifs <;> omega
  have hdcg := dcgFormula_pos log2 hlog labels _ hk (sorted_head_pos hsorted hpos)
  unfold ndcgscorer.compute_score
  rw [if_neg hlen]
  simp only []
  rw [compute_idcg_eq log2 labels _ hsmall, compute_dcg_eq log2 labels _ hsmall,
    double_qsort_sorted hsorted, if_pos hdcg]
  exact div_self (ne_of_gt hdcg)

theorem logb_two_pos (i : Nat) : 0 < Real.logb 2 ((i : ℝ) + 2) := by
  apply Real.logb_pos (by norm_num)
  have : (0 : ℝ) ≤ (i : ℝ) := Nat.cast_nonneg i
  linarith

/-- C12, a concrete instance: the labels `[3, 3, 2, 2, 1, 0]` in ideal order at cutoff `3`,
over the reals with the true binary logarithm, score `1`. -/
theorem compute_score_ideal_order_witness :
    (∀ i : Nat, 0 < (fun x : ℝ => Real.logb 2 x) ((i : ℝ) + 2)) ∧
    ([3, 3, 2, 2, 1, 0] : List Nat) ≠ [] ∧ (∀ y ∈ ([3, 3, 2, 2, 1, 0] : List Nat), y < 31) ∧
    List.Sorted (fun a b => b ≤ a) ([3, 3, 2, 2, 1, 0] : List Nat) ∧
    (∃ y ∈ ([3, 3, 2, 2, 1, 0] : List Nat), 0 < y) ∧
    ndcgscorer.compute_score (fun x : ℝ => Real.logb 2 x) 3 [3, 3, 2, 2, 1, 0] = 1 :=
  ⟨logb_two_pos, by decide, by decide, by decide, ⟨3, by decide, by decide⟩,
    compute_score_ideal_order (fun x : ℝ => Real.logb 2 x) logb_two_pos 3 [3, 3, 2, 2, 1, 0]
      (by decide) (by decide) (by decide) ⟨3, by decide, by decide⟩⟩

/-! ### Swap matrix: the sign of the entries -/

theorem logb_two_strictMono (i j : Nat) (hij : i < j) :
    Real.logb 2 ((i : ℝ) + 2) < Real.logb 2 ((j : ℝ) + 2) := by
  have hi : (0 : ℝ) ≤ (i : ℝ) := Nat.cast_nonneg i
  have hlt : (i : ℝ) < (j : ℝ) := Nat.cast_lt.mpr hij
  exact Real.logb_lt_logb (by norm_num) (by linarith) (by linarith)

/-- C13 (as amended).  For every query with small labels, every cutoff `k ≥ 1` and every pair
of ranks `i < j < n`: when `IDCG > 0` and row `i` lies inside the cutoff (`i < min k n`) the entry
`swap_change` stores for `(i, j)` is the signed product
`(1/log2(i+2) - 1/log2(j+2)) * (2^y[i] - 2^y[j]) / IDCG`, and every other entry is `0`.  The
magnitude of a written entry is `|1/log2(i+2) - 1/log2(j+2)| * |2^y[i] - 2^y[j]| / IDCG`, and the
entry is non-negative exactly when `y[j] ≤ y[i]`.  `IDCG` is the DCG of the labels sorted in
descending order at `min k n`; `log2` is any function positive and strictly increasing on the
arguments `i + 2`, as the binary logarithm is. -/
theorem swap_change_entry_signed {α : Type} [LinearOrderedField α] (log2 : α → α)
    (hlog : ∀ i : Nat, 0 < log2 ((i : α) + 2))
    (hmono : ∀ i j : Nat, i < j → log2 ((i : α) + 2) < log2 ((j : α) + 2))
    (k : Nat) (labels : List Nat) (i j : Nat) (hk : 1 ≤ k) (hsmall : ∀ y ∈ labels, y < 31)
    (hij : i < j) (hj : j < labels.length) :
    (ndcgscorer.entry (ndcgscorer.swap_change log2 k labels) i j =
      if 0 < dcgFormula log2 (double_qsort labels) (min k labels.length) ∧
          i < min k labels.length then
        (1 / log2 ((i : α) + 2) - 1 / log2 ((j : α) + 2)) *
          ((2 : α) ^ (labels.getD i 0) - (2 : α) ^ (labels.getD j 0)) /
          dcgFormula log2 (double_qsort labels) (min k labels.length)
      else 0) ∧
    (0 < dcgFormula log2 (double_qsort labels) (min k labels.length) ∧
        i < min k labels.length →
      |ndcgscorer.entry (ndcgscorer.swap_change log2 k labels) i j| =
        |1 / log2 ((i : α) + 2) - 1 / log2 ((j : α) + 2)| *
          |(2 : α) ^ (labels.getD i 0) - (2 : α) ^ (labels.getD j 0)| /
          dcgFormula log2 (double_qsort labels) (min k labels.length) ∧
      (0 ≤ ndcgscorer.entry (ndcgscorer.swap_change log2 k labels) i j ↔
        labels.getD j 0 ≤ labels.getD i 0)) := by
  have hsize : (if k < labels.length then k else labels.length) = min k labels.length := by
    simp only [Nat.min_def]; split_ifs <;> omega
  have hval : ndcgscorer.entry (ndcgscorer.swap_change log2 k labels) i j =
      if 0 < dcgFormula log2 (double_qsort labels) (min k labels.length) ∧
          i < min k labels.length then
        (1 / log2 ((i : α) + 2) - 1 / log2 ((j : α) + 2)) *
          ((2 : α) ^ (labels.getD i 0) - (2 : α) ^ (labels.getD j 0)) /
          dcgFormula log2 (double_qsort labels) (min k labels.length)
      else 0 := by
    rw [entry_swap_change log2 k labels hij hj, hsize]
    by_cases hi : i < min k labels.length
    · have hinner : (if min k labels.length = 0 ∨ min k labels.length > labels.length
          then labels.length else min k labels.length) = min k labels.length := by
        have := Nat.min_le_right k labels.length
        rw [if_neg]; omega
      rw [compute_idcg_eq log2 labels _ hsmall, hinner]
    · rw [if_neg (fun h => hi h.2), if_neg (fun h => hi h.2)]
  refine ⟨hval, ?_⟩
  intro hw
  rw [hval, if_pos hw]
  have hI := hw.1
  have hA : 0 < 1 / log2 ((i : α) + 2) - 1 / log2 ((j : α) + 2) := by
    have := one_div_lt_one_div_of_lt (hlog i) (hmono i j hij)
    linarith
  constructor
  · rw [abs_div, abs_mul, abs_of_pos hI]
  · have hpow : (0 : α) ≤ (2 : α) ^ (labels.getD i 0) - (2 : α) ^ (labels.getD j 0) ↔
        labels.getD j 0 ≤ labels.getD i 0 := by
      rw [sub_nonneg]
      exact pow_le_pow_iff_right₀ (by norm_num)
    rw [← hpow]
    constructor
    · intro h
      have h1 := (div_nonneg_iff.mp h)
      rcases h1 with ⟨h1, _⟩ | ⟨_, h2⟩
      · exact (mul_nonneg_iff_of_pos_left hA).mp h1
      · exact absurd hI (not_lt.mpr h2)
    · intro h
      exact div_nonneg (mul_nonneg hA.le h) hI.le

/-- C13, a concrete instance of the amended statement: labels `[1, 0]`, cutoff `2`, ranks
`0 < 1`, over the reals with the true binary logarithm; the entry is written and
non-negative. -/
theorem swap_change_entry_signed_witness :
    1 ≤ 2 ∧ (∀ y ∈ ([1, 0] : List Nat), y < 31) ∧ 0 < 1 ∧ 1 < ([1, 0] : List Nat).length ∧
    (0 < dcgFormula (fun x : ℝ => Real.logb 2 x) (double_qsort [1, 0])
        (min 2 ([1, 0] : List Nat).length) ∧ 0 < min 2 ([1, 0] : List Nat).length) ∧
    0 ≤ ndcgscorer.entry (ndcgscorer.swap_change (fun x : ℝ => Real.logb 2 x) 2 [1, 0]) 0 1 := by
  have h4 : 0 < dcgFormula (fun x : ℝ => Real.logb 2 x) (double_qsort [1, 0])
      (min 2 ([1, 0] : List Nat).length) := by
    have hs : double_qsort [1, 0] = [1, 0] := by decide
    simp [hs, dcgFormula, Finset.sum_range_succ, logb_two_two]
  have h := swap_change_entry_signed (fun x : ℝ => Real.logb 2 x) logb_two_pos
    logb_two_strictMono 2 [1, 0] 0 1 (by decide) (by decide) (by decide) (by decide)
  exact ⟨by decide, by decide, by decide, by decide, ⟨h4, by decide⟩,
    ((h.2 ⟨h4, by decide⟩).2).mpr (by decide)⟩

/-- C13 as stated fails when a smaller label is ranked above a larger one: for labels
`[0, 1]` and cutoff `2` the ideal DCG is `1` and the entry stored for `(0, 1)` is
`(1 - 1/log2 3) * (1 - 2) / 1`, which is negative, while the claimed value
`|1 - 1/log2 3| * |1 - 2| / 1` is positive. -/
theorem swap_change_negative_counterexample :
    ndcgscorer.entry (ndcgscorer.swap_change (fun x : ℝ => Real.logb 2 x) 2 [0, 1]) 0 1 < 0 ∧
    0 < |1 / Real.logb 2 ((0 : ℝ) + 2) - 1 / Real.logb 2 ((1 : ℝ) + 2)| *
      |(2 : ℝ) ^ (([0, 1] : List Nat).getD 0 0) - (2 : ℝ) ^ (([0, 1] : List Nat).getD 1 0)| /
      compute_idcg (fun x : ℝ => Real.logb 2 x) [0, 1] 2 2 := by
  have hs : double_qsort [0, 1] = [1, 0] := by decide
  have hp1 : (POWEROFTWO 1 : ℝ) = 2 := by rw [POWEROFTWO_eq (by decide)]; norm_num
  have hp0 : (POWEROFTWO 0 : ℝ) = 1 := by rw [POWEROFTWO_eq (by decide)]; norm_num
  have hI : compute_idcg (fun x : ℝ => Real.logb 2 x) [0, 1] 2 2 = 1 := by
    simp [compute_idcg, compute_dcg, hs, hp1, hp0, List.range_succ, logb_two_two]
    norm_num
  have hI' : compute_idcg (fun x : ℝ => Real.logb 2 x) [0, 1] ([0, 1] : List Nat).length
      (if 2 < ([0, 1] : List Nat).length then 2 else ([0, 1] : List Nat).length) = 1 := hI
  have h3 : ((1 : ℝ) + 2) = 3 := by norm_num
  have hL := one_lt_logb_two_three
  rw [h3] at hL
  have hpos : 0 < Real.logb 2 (3 : ℝ) := by linarith
  have hinv : (Real.logb 2 (3 : ℝ))⁻¹ < 1 := by
    rw [← one_div, div_lt_one hpos]; exact hL
  constructor
  · rw [entry_swap_change _ 2 [0, 1] (by decide) (by decide), hI']
    simp only [List.length_cons, List.length_nil, List.getD_cons_zero, List.getD_cons_succ,
      Nat.cast_zero, Nat.cast_one, logb_two_two]
    norm_num
    linarith
  · rw [hI]
    simp only [List.getD_cons_zero, List.getD_cons_succ, logb_two_two, h3]
    have hdiff : 0 < 1 / (1 : ℝ) - 1 / Real.logb 2 3 := by
      norm_num
      linarith
    have habs : |1 / (1 : ℝ) - 1 / Real.logb 2 3| = 1 - (Real.logb 2 3)⁻¹ := by
      rw [abs_of_pos hdiff]
      norm_num
    rw [habs]
    norm_num
    linarith

/-! ### NDCG with cutoff zero -/

theorem compute_dcg_cutoff_zero {α : Type} [LinearOrderedField α] (log2 : α → α)
    (labels : List Nat) (n : Nat) : compute_dcg log2 labels n 0 = compute_dcg log2 labels n n := by
  unfold compute_dcg
  simp

theorem swap_change_size_zero (n : Nat) : (if 0 < n then 0 else n) = 0 := by
  split_ifs <;> omega

theorem entry_of_zero_rows {α : Type} [LinearOrderedField α] (m : List (List α))
    (hm : ∀ row ∈ m, ∀ x ∈ row, x = 0) (i j : Nat) : ndcgscorer.entry m i j = 0 := by
  unfold ndcgscorer.entry
  by_cases hi : i < m.length
  · rw [List.getD_eq_getElem _ _ hi]
    by_cases hj : j - (i + 1) < (m[i]).length
    · rw [List.getD_eq_getElem _ _ hj]
      exact hm _ (List.getElem_mem _) _ (List.getElem_mem _)
    · rw [List.getD_eq_default _ _ (by omega)]
  · rw [List.getD_eq_default m [] (by omega)]
    rfl

/-- C14.  With cutoff `k = 0` the score is the score at cutoff `n` for every query, but the swap
matrix is not: constructed with `k = 0`, `swap_change` computes the ideal DCG over all
results and then runs its row loop `for (i = 0; i < size; ++i)` with `size = 0`, so every
entry keeps its initial zero.  For the labels `[1, 0]` the entry `(0, 1)` is `0` with `k = 0`
and `1 - 1/log2 3 > 0` with `k = n = 2`. -/
theorem swap_change_cutoff_zero :
    (∀ labels : List Nat,
      ndcgscorer.compute_score (fun x : ℝ => Real.logb 2 x) 0 labels =
        ndcgscorer.compute_score (fun x : ℝ => Real.logb 2 x) labels.length labels) ∧
    (∀ (labels : List Nat) (i j : Nat),
      ndcgscorer.entry (ndcgscorer.swap_change (fun x : ℝ => Real.logb 2 x) 0 labels) i j = 0) ∧
    ndcgscorer.swap_change (fun x : ℝ => Real.logb 2 x) 0 [1, 0] = [[0], []] ∧
    ndcgscorer.entry (ndcgscorer.swap_change (fun x : ℝ => Real.logb 2 x) 2 [1, 0]) 0 1 =
      1 - 1 / Real.logb 2 3 ∧
    0 < ndcgscorer.entry (ndcgscorer.swap_change (fun x : ℝ => Real.logb 2 x) 2 [1, 0]) 0 1 := by
  have hs : double_qsort [1, 0] = [1, 0] := by decide
  have hp1 : (POWEROFTWO 1 : ℝ) = 2 := by rw [POWEROFTWO_eq (by decide)]; norm_num
  have hp0 : (POWEROFTWO 0 : ℝ) = 1 := by rw [POWEROFTWO_eq (by decide)]; norm_num
  have hI : compute_idcg (fun x : ℝ => Real.logb 2 x) [1, 0] ([1, 0] : List Nat).length
      (if 2 < ([1, 0] : List Nat).length then 2 else ([1, 0] : List Nat).length) = 1 := by
    simp [compute_idcg, compute_dcg, hs, hp1, hp0, List.range_succ, logb_two_two]
    norm_num
  have h3 : ((1 : ℝ) + 2) = 3 := by norm_num
  have hL := one_lt_logb_two_three
  rw [h3] at hL
  have hpos : 0 < Real.logb 2 (3 : ℝ) := by linarith
  have hinv : (Real.logb 2 (3 : ℝ))⁻¹ < 1 := by
    rw [← one_div, div_lt_one hpos]; exact hL
  have hentry : ndcgscorer.entry
      (ndcgscorer.swap_change (fun x : ℝ => Real.logb 2 x) 2 [1, 0]) 0 1 =
        1 - 1 / Real.logb 2 3 := by
    rw [entry_swap_change _ 2 [1, 0] (by decide) (by decide), hI]
    simp only [List.length_cons, List.length_nil, List.getD_cons_zero, List.getD_cons_succ,
      Nat.cast_zero, Nat.cast_one, logb_two_two, h3]
    norm_num
  refine ⟨?_, ?_, ?_, hentry, ?_⟩
  · intro labels
    unfold ndcgscorer.compute_score
    by_cases hlen : labels.length = 0
    · rw [if_pos hlen, if_pos hlen]
    · rw [if_neg hlen, if_neg hlen]
      have h0 : (if 0 < labels.length then 0 else labels.length) = 0 :=
        swap_change_size_zero _
      have hn : (if labels.length < labels.length then labels.length else labels.length) =
          labels.length := by simp
      simp only [h0, hn]
      unfold compute_idcg
      simp only [compute_dcg_cutoff_zero]
  · intro labels i j
    apply entry_of_zero_rows
    intro row hrow x hx
    unfold ndcgscorer.swap_change at hrow
    simp only [swap_change_size_zero, Nat.not_lt_zero, and_false, if_false] at hrow
    obtain ⟨r, _, hr⟩ := List.mem_map.mp hrow
    rw [← hr] at hx
    obtain ⟨d, _, hd⟩ := List.mem_map.mp hx
    exact hd.symm
  · simp [ndcgscorer.swap_change, List.range_succ]
  · rw [hentry]
    have : 1 / Real.logb 2 (3 : ℝ) < 1 := by rw [one_div]; exact hinv
    linarith

/-! ### NDCG of an empty query -/

/-- C15 (as amended).  For an empty query (size `0`) `compute_score` returns `-1`, for every
cutoff `k` and whatever the logarithm is: the guard `if (ql.size == 0) return -1.0` comes
first. -/
theorem compute_score_empty {α : Type} [LinearOrderedField α] (log2 : α → α) (k : Nat) :
    ndcgscorer.compute_score log2 k [] = -1 := by
  unfold ndcgscorer.compute_score
  rw [if_pos List.length_nil]

/-- C15 as stated fails: for the empty query and cutoff `10`, over the reals with the true
binary logarithm, `compute_score` is `-1` and not `0`. -/
theorem compute_score_empty_counterexample :
    ndcgscorer.compute_score (fun x : ℝ => Real.logb 2 x) 10 [] = -1 ∧
    ndcgscorer.compute_score (fun x : ℝ => Real.logb 2 x) 10 [] ≠ 0 := by
  have h : ndcgscorer.compute_score (fun x : ℝ => Real.logb 2 x) 10 [] = -1 := by
    unfold ndcgscorer.compute_score
    rw [if_pos List.length_nil]
  refine ⟨h, ?_⟩
  rw [h]
  norm_num

/-! ### Line search: loading a model -/

theorem max_feature_fold (l : List LineSearch.Child) (m0 : Nat) :
    m0 ≤ l.foldl (fun max_feature tree =>
        if tree.first = "tree" then
          (if tree.index > max_feature then tree.index else max_feature)
        else max_feature) m0 ∧
    (∀ t ∈ l, t.first = "tree" → t.index ≤ l.foldl (fun max_feature tree =>
        if tree.first = "tree" then
          (if tree.index > max_feature then tree.index else max_feature)
        else max_feature) m0) ∧
    (l.foldl (fun max_feature tree =>
        if tree.first = "tree" then
          (if tree.index > max_feature then tree.index else max_feature)
        else max_feature) m0 = m0 ∨
      ∃ t ∈ l, t.first = "tree" ∧ t.index = l.foldl (fun max_feature tree =>
        if tree.first = "tree" then
          (if tree.index > max_feature then tree.index else max_feature)
        else max_feature) m0) := by
  induction l generalizing m0 with
  | nil => simp
  | cons a l ih =>
    rw [List.foldl_cons]
    obtain ⟨h1, h2, h3⟩ := ih (if a.first = "tree" then
      (if a.index > m0 then a.index else m0) else m0)
    have hstep : m0 ≤ (if a.first = "tree" then
        (if a.index > m0 then a.index else m0) else m0) := by
      split_ifs <;> omega
    refine ⟨le_trans hstep h1, ?_, ?_⟩
    · intro t ht htree
      rcases List.mem_cons.mp ht with rfl | hmem
      · refine le_trans ?_ h1
        rw [if_pos htree]
        split_ifs <;> omega
      · exact h2 t hmem htree
    · rcases h3 with h3 | ⟨t, ht, htree, hidx⟩
      · by_cases htree : a.first = "tree"
        · by_cases hgt : a.index > m0
          · right
            refine ⟨a, List.mem_cons_self _ _, htree, ?_⟩
            rw [h3, if_pos htree, if_pos hgt]
          · left
            rw [h3, if_pos htree, if_neg hgt]
        · left
          rw [h3, if_neg htree]
      · right
        exact ⟨t, List.mem_cons_of_mem _ ht, htree, hidx⟩

theorem load_fold (l : List LineSearch.Child) (w0 : List ℚ)
    (hidx : ∀ t ∈ l, t.first = "tree" → 1 ≤ t.index ∧ t.index ≤ w0.length) :
    ∃ w, l.foldl
        (fun acc tree =>
          acc.bind (fun best_weights_ =>
            if tree.first = "tree" then
              if 0 ≤ (tree.index : Int) - 1 ∧
                  (tree.index : Int) - 1 < (best_weights_.length : Int) then
                some (best_weights_.set ((tree.index : Int) - 1).toNat tree.weight)
              else none
            else some best_weights_))
        (some w0) = some w ∧
      w.length = w0.length ∧
      ∀ i, 1 ≤ i → i ≤ w0.length →
        w.getD (i - 1) 0 =
          match (l.filter (fun t => decide (t.first = "tree" ∧ t.index = i))).getLast? with
          | some t => t.weight
          | none => w0.getD (i - 1) 0 := by
  induction l generalizing w0 with
  | nil => exact ⟨w0, rfl, rfl, fun i _ _ => rfl⟩
  | cons a l ih =>
    rw [List.foldl_cons, Option.some_bind]
    by_cases htree : a.first = "tree"
    · obtain ⟨ha1, ha2⟩ := hidx a (List.mem_cons_self _ _) htree
      have hcond : 0 ≤ (a.index : Int) - 1 ∧ (a.index : Int) - 1 < (w0.length : Int) := by
        constructor <;> omega
      have hpos : ((a.index : Int) - 1).toNat = a.index - 1 := by omega
      rw [if_pos htree, if_pos hcond, hpos]
      obtain ⟨w, hw, hlen, hget⟩ := ih (w0.set (a.index - 1) a.weight) (by
        intro t ht htr
        rw [List.length_set]
        exact hidx t (List.mem_cons_of_mem _ ht) htr)
      rw [List.length_set] at hlen
      refine ⟨w, hw, hlen, ?_⟩
      intro i hi1 hi2
      rw [hget i hi1 (by rw [List.length_set]; exact hi2)]
      by_cases hai : a.index = i
      · have hdec : decide (a.first = "tree" ∧ a.index = i) = true := by
          simp [htree, hai]
        simp only [List.filter_cons, hdec, if_true]
        cases hfl : l.filter (fun t => decide (t.first = "tree" ∧ t.index = i)) with
        | nil =>
          simp only [List.getLast?_nil, List.getLast?_singleton]
          rw [hai, List.getD_eq_getElem _ _ (by rw [List.length_set]; omega)]
          simp
        | cons b m =>
          rw [List.getLast?_cons_cons, List.getLast?_eq_getLast _ (List.cons_ne_nil b m)]
      · have hdec : decide (a.first = "tree" ∧ a.index = i) = false := by
          simp [hai]
        simp only [List.filter_cons, hdec, Bool.false_eq_true, if_false]
        cases hfl : (l.filter (fun t => decide (t.first = "tree" ∧ t.index = i))).getLast? with
        | some t => rfl
        | none =>
          simp only []
          rw [List.getD_eq_getElem _ _ (by rw [List.length_set]; omega),
            List.getD_eq_getElem _ _ (by omega), List.getElem_set_ne (by omega)]
    · rw [if_neg htree]
      obtain ⟨w, hw, hlen, hget⟩ := ih w0 (fun t ht htr =>
        hidx t (List.mem_cons_of_mem _ ht) htr)
      refine ⟨w, hw, hlen, ?_⟩
      intro i hi1 hi2
      rw [hget i hi1 hi2]
      have hdec : decide (a.first = "tree" ∧ a.index = i) = false := by
        simp [htree]
      simp only [List.filter_cons, hdec, Bool.false_eq_true, if_false]

/-- C16.  Loading a model whose `<tree>` entries have 1-based indices `≥ 1` succeeds and
yields a weight vector `w` whose length is the maximum index observed (it bounds every index
and is attained by an entry, or is `0` when there is no `<tree>` entry), whose position
`i - 1` holds the weight of the last `<tree>` entry with index `i` and `0` when index `i`
does not occur; `score_document` is then the inner product of `w` with the features of the
document. -/
theorem load_spec (model_ptree : List LineSearch.Child)
    (hidx : ∀ t ∈ model_ptree, t.first = "tree" → 1 ≤ t.index) :
    ∃ w, LineSearch.load model_ptree = some w ∧
      (∀ t ∈ model_ptree, t.first = "tree" → t.index ≤ w.length) ∧
      ((∃ t ∈ model_ptree, t.first = "tree" ∧ t.index = w.length) ∨
        (w.length = 0 ∧ ∀ t ∈ model_ptree, t.first ≠ "tree")) ∧
      (∀ i, 1 ≤ i → i ≤ w.length →
        w.getD (i - 1) 0 = LineSearch.loaded_weight model_ptree i) ∧
      ∀ d : List ℚ, LineSearch.score_document w d =
        ∑ k in Finset.range w.length, w.getD k 0 * d.getD k 0 := by
  obtain ⟨_, hmax, hatt⟩ := max_feature_fold model_ptree 0
  have hlen0 : (List.replicate (LineSearch.max_feature model_ptree) (0 : ℚ)).length =
      LineSearch.max_feature model_ptree := List.length_replicate _ _
  obtain ⟨w, hw, hlen, hget⟩ := load_fold model_ptree
    (List.replicate (LineSearch.max_feature model_ptree) 0) (by
      intro t ht htree
      rw [hlen0]
      exact ⟨hidx t ht htree, hmax t ht htree⟩)
  rw [hlen0] at hlen
  refine ⟨w, hw, ?_, ?_, ?_, ?_⟩
  · intro t ht htree
    rw [hlen]
    exact hmax t ht htree
  · rcases hatt with h0 | ⟨t, ht, htree, hti⟩
    · right
      have hw0 : w.length = 0 := by rw [hlen]; exact h0
      refine ⟨hw0, ?_⟩
      intro t ht htree
      have h1 := hidx t ht htree
      have h2 := hmax t ht htree
      have h0' : LineSearch.max_feature model_ptree = 0 := h0
      unfold LineSearch.max_feature at h0'
      omega
    · left
      exact ⟨t, ht, htree, by rw [hlen]; exact hti⟩
  · intro i hi1 hi2
    rw [hget i hi1 (by rw [hlen0, ← hlen]; exact hi2)]
    unfold LineSearch.loaded_weight
    cases (model_ptree.filter
      (fun t => decide (t.first = "tree" ∧ t.index = i))).getLast? with
    | some t => rfl
    | none =>
      simp only []
      rw [List.getD_eq_getElem _ _ (by rw [hlen0, ← hlen]; omega)]
      simp
  · intro d
    unfold LineSearch.score_document
    exact foldl_range_add (fun k => w.getD k 0 * d.getD k 0) w.length

/-- C16, a concrete instance: a model with entries for the indices `1`, `3` and `1` again
loads as the vector `[3/4, 0, 2]`, and the score of the document `[1, 1, 1]` is `11/4`. -/
theorem load_spec_witness :
    (∀ t ∈ LineSearch.sample_model, t.first = "tree" → 1 ≤ t.index) ∧
    LineSearch.load LineSearch.sample_model = some [3 / 4, 0, 2] ∧
    LineSearch.score_document [3 / 4, 0, 2] [1, 1, 1] = 11 / 4 := by
  have hidx : ∀ t ∈ LineSearch.sample_model, t.first = "tree" → 1 ≤ t.index := by
    intro t ht htree
    simp only [LineSearch.sample_model, List.mem_cons, List.mem_singleton,
      List.not_mem_nil, or_false] at ht
    rcases ht with rfl | rfl | rfl | rfl
    · decide
    · exact absurd htree (by decide)
    · decide
    · decide
  obtain ⟨w, hw, hb, _, hget, hscore⟩ := load_spec LineSearch.sample_model hidx
  have hload : LineSearch.load LineSearch.sample_model = some [3 / 4, 0, 2] := by
    simp [LineSearch.load, LineSearch.max_feature, LineSearch.sample_model]
  refine ⟨hidx, hload, ?_⟩
  rw [hload] at hw
  have hw' : w = [3 / 4, 0, 2] := (Option.some.inj hw).symm
  rw [← hw', hscore [1, 1, 1], hw']
  simp [Finset.sum_range_succ]
  norm_num

/-! ### Line search: hyperparameters that are not checked -/

theorem step1_feature_some (train : LineSearch.Dataset) (scorer : LineSearch.Metric)
    (step : ℚ) (hstep : 0 < step) (st : LineSearch.State) (f : Nat) :
    ∃ s, LineSearch.step1_feature train scorer step st f = some s ∧
      s.window_size = st.window_size := by
  unfold LineSearch.step1_feature LineSearch.points
  simp only []
  rw [dif_pos hstep]
  simp only []
  split_ifs
  · exact ⟨_, rfl, rfl⟩
  · exact ⟨_, rfl, rfl⟩

theorem step1_fold_some (train : LineSearch.Dataset) (scorer : LineSearch.Metric)
    (step : ℚ) (hstep : 0 < step) :
    ∀ (l : List Nat) (st : LineSearch.State),
      ∃ s, l.foldl (fun acc f => acc.bind
        (fun s => LineSearch.step1_feature train scorer step s f)) (some st) = some s := by
  intro l
  induction l with
  | nil => intro st; exact ⟨st, rfl⟩
  | cons f l ih =>
    intro st
    obtain ⟨s1, hs1, _⟩ := step1_feature_some train scorer step hstep st f
    rw [List.foldl_cons, Option.some_bind, hs1]
    exact ih s1

theorem step1_some (train : LineSearch.Dataset) (scorer : LineSearch.Metric) (P : Nat)
    (hP : 1 ≤ P) (st : LineSearch.State) (hW : 0 < st.window_size) :
    ∃ s, LineSearch.step1 train scorer P st = some s := by
  unfold LineSearch.step1
  rw [if_neg (by omega)]
  have hP' : (0 : ℚ) < (P : ℚ) := by exact_mod_cast hP
  exact step1_fold_some train scorer _ (div_pos (by linarith) hP') _ st

theorem initial_window (cfg : LineSearch.Config) (train : LineSearch.Dataset)
    (vali : Option LineSearch.Dataset) (scorer : LineSearch.Metric) :
    (LineSearch.initial cfg train vali scorer).window_size = cfg.window_size_ := rfl

/-- C17 (as amended).  `learn` does not check its hyperparameters.  The local `num_points`
is `0` exactly for `num_points_ = 0` and `num_points_ = 1`; then every iteration stops at the
division `step1 = 2 * window_size / num_points` by `P = 0`, and with `max_iterations ≥ 1` the
run of `learn` reaches it.  With `P ≥ 1` and a positive window the first iteration runs to its
end whatever the reduction factor is, also for `reduction_factor ≤ 0`. -/
theorem learn_no_validation (cfg : LineSearch.Config) (train : LineSearch.Dataset)
    (vali : Option LineSearch.Dataset) (scorer : LineSearch.Metric) :
    (LineSearch.even_points cfg = 0 ↔ cfg.num_points_ = 0 ∨ cfg.num_points_ = 1) ∧
    (LineSearch.even_points cfg = 0 →
      ∀ st, LineSearch.iteration cfg train vali scorer st = none) ∧
    (LineSearch.even_points cfg = 0 → 1 ≤ cfg.max_iterations_ →
      LineSearch.learn cfg train vali scorer = none) ∧
    (1 ≤ LineSearch.even_points cfg → 0 < cfg.window_size_ →
      ∃ r, LineSearch.iteration cfg train vali scorer
        (LineSearch.initial cfg train vali scorer) = some r) := by
  have hiter : LineSearch.even_points cfg = 0 →
      ∀ st, LineSearch.iteration cfg train vali scorer st = none := by
    intro h0 st
    unfold LineSearch.iteration LineSearch.step1
    rw [h0, if_pos rfl]
  refine ⟨?_, hiter, ?_, ?_⟩
  · unfold LineSearch.even_points
    split_ifs <;> omega
  · intro h0 hI
    obtain ⟨n, hn⟩ : ∃ n, cfg.max_iterations_ = n + 1 := ⟨cfg.max_iterations_ - 1, by omega⟩
    unfold LineSearch.learn
    simp only []
    rw [hn]
    unfold LineSearch.iterations
    rw [hiter h0]
  · intro hP hW
    obtain ⟨s1, hs1⟩ := step1_some train scorer (LineSearch.even_points cfg) hP
      (LineSearch.initial cfg train vali scorer) (by rw [initial_window]; exact hW)
    unfold LineSearch.iteration
    rw [hs1]
    exact ⟨_, rfl⟩

/-- C17, concrete instances of the amended statement: with `num_points = 1` the local
`num_points` is `0` and `learn` reaches the division by it; with the reduction factor `-1/2`
the first iteration runs. -/
theorem learn_no_validation_witness :
    LineSearch.even_points LineSearch.sample_cfg_odd = 0 ∧
    1 ≤ LineSearch.sample_cfg_odd.max_iterations_ ∧
    LineSearch.learn LineSearch.sample_cfg_odd LineSearch.sample_train none
      LineSearch.sample_scorer = none ∧
    1 ≤ LineSearch.even_points LineSearch.sample_cfg_negative ∧
    0 < LineSearch.sample_cfg_negative.window_size_ ∧
    LineSearch.sample_cfg_negative.reduction_factor_ ≤ 0 ∧
    ∃ r, LineSearch.iteration LineSearch.sample_cfg_negative LineSearch.sample_train none
      LineSearch.sample_scorer
      (LineSearch.initial LineSearch.sample_cfg_negative LineSearch.sample_train none
        LineSearch.sample_scorer) = some r := by
  have h0 : LineSearch.even_points LineSearch.sample_cfg_odd = 0 := by decide
  have hI : 1 ≤ LineSearch.sample_cfg_odd.max_iterations_ := by decide
  have hP : 1 ≤ LineSearch.even_points LineSearch.sample_cfg_negative := by decide
  have hW : 0 < LineSearch.sample_cfg_negative.window_size_ := by
    unfold LineSearch.sample_cfg_negative; norm_num
  have hR : LineSearch.sample_cfg_negative.reduction_factor_ ≤ 0 := by
    unfold LineSearch.sample_cfg_negative; norm_num
  exact ⟨h0, hI,
    (learn_no_validation LineSearch.sample_cfg_odd LineSearch.sample_train none
      LineSearch.sample_scorer).2.2.1 h0 hI,
    hP, hW, hR,
    (learn_no_validation LineSearch.sample_cfg_negative LineSearch.sample_train none
      LineSearch.sample_scorer).2.2.2 hP hW⟩

set_option maxHeartbeats 1000000 in
/-- C17 as stated fails: nothing is rejected at entry.  With `num_points = 0` and one
iteration to run, the loop is entered and the run stops at the division by `P = 0`; with the
reduction factor `-1/2` the iteration runs to its end, moves the weight from `1` to `2` and
leaves the negative window `-1/2`. -/
theorem learn_rejects_nothing_counterexample :
    LineSearch.iterations
      { num_points_ := 0, window_size_ := 1, reduction_factor_ := 1 / 2, max_iterations_ := 1,
        max_failed_vali_ := 0, adaptive_ := false }
      LineSearch.sample_train none LineSearch.sample_scorer 1
      (LineSearch.initial
        { num_points_ := 0, window_size_ := 1, reduction_factor_ := 1 / 2, max_iterations_ := 1,
          max_failed_vali_ := 0, adaptive_ := false }
        LineSearch.sample_train none LineSearch.sample_scorer) = none ∧
    LineSearch.sample_cfg_negative.reduction_factor_ ≤ 0 ∧
    LineSearch.iterations LineSearch.sample_cfg_negative LineSearch.sample_train none
      LineSearch.sample_scorer LineSearch.sample_cfg_negative.max_iterations_
      (LineSearch.initial LineSearch.sample_cfg_negative LineSearch.sample_train none
        LineSearch.sample_scorer) =
      some [(LineSearch.sample_after_negative, LineSearch.Exit.next)] := by
  refine ⟨?_, ?_, ?_⟩
  · simp [LineSearch.iterations, LineSearch.iteration, LineSearch.step1,
      LineSearch.even_points]
  · unfold LineSearch.sample_cfg_negative; norm_num
  · have hI : LineSearch.sample_cfg_negative.max_iterations_ = 1 := rfl
    rw [hI]
    simp [LineSearch.iterations, LineSearch.iteration, LineSearch.step1,
      LineSearch.step1_feature, LineSearch.even_points, LineSearch.sample_cfg_negative,
      LineSearch.sample_train, LineSearch.initial, LineSearch.sample_scorer, LineSearch.score,
      LineSearch.preCompute, sample_points_first, List.range_succ, LineSearch.max_element,
      LineSearch.Dataset.feature_at, LineSearch.step2, LineSearch.step2_vector,
      LineSearch.step2_column, LineSearch.finish, LineSearch.reduction,
      LineSearch.sample_after_negative]
    norm_num [List.range', List.range_succ, LineSearch.max_element]

/-! ### Regression tree: the partition made by `split` -/

theorem subsample_mem_lt (F reduced : Nat) (rand : Nat → Nat) :
    ∀ (n calls : Nat) (fs : List Nat), (∀ x ∈ fs, x < F) →
      ∀ x ∈ (RegressionTree.subsample reduced rand n calls fs).1, x < F := by
  intro n
  induction n with
  | zero => intro calls fs hfs x hx; exact hfs x hx
  | succ n ih =>
    intro calls fs hfs x hx
    unfold RegressionTree.subsample at hx
    by_cases hc : n + 1 > reduced ∧ n + 1 > 1
    · rw [if_pos hc] at hx
      refine ih (calls + 1) _ ?_ x hx
      intro y hmem
      rcases List.mem_or_eq_of_mem_set hmem with hy | hy
      · exact hfs y hy
      · by_cases hn : n < fs.length
        · rw [hy, List.getD_eq_getElem _ _ hn]
          exact hfs _ (List.getElem_mem _)
        · rw [hy, List.getD_eq_default _ _ (by omega)]
          cases fs with
          | nil => simp at hmem
          | cons a l => exact lt_of_le_of_lt (Nat.zero_le _) (hfs a (List.mem_cons_self _ _))
    · rw [if_neg hc] at hx
      exact hfs x hx

theorem scanned_features_lt (F : Nat) (rate : ℚ) (rand : Nat → Nat) :
    ∀ x ∈ RegressionTree.scanned_features F rate rand, x < F := by
  intro x hx
  unfold RegressionTree.scanned_features at hx
  by_cases hr : rate < 1
  · rw [if_pos hr] at hx
    simp only [] at hx
    exact subsample_mem_lt F _ rand F 0 (List.range F) (fun y hy => List.mem_range.mp hy) x
      (List.mem_of_mem_take hx)
  · rw [if_neg hr] at hx
    exact List.mem_range.mp hx

theorem scan_threshold_chosen (h : RegressionTree.RTNodeHistogram) (minls : Nat)
    (features : List Nat) (f t : Nat) (b : RegressionTree.Best) (hf : f ∈ features)
    (ht : t < h.thresholds_size.getD f 0) (hb : RegressionTree.Chosen h minls features b) :
    RegressionTree.Chosen h minls features
      (RegressionTree.scan_threshold h minls f (RegressionTree.s_total h f)
        (RegressionTree.c_total h f) b t) := by
  rw [scan_threshold_eq]
  by_cases hadm : minls ≤ RegressionTree.c_L h f t ∧ minls ≤ RegressionTree.c_R h f t
  · rw [if_pos hadm]
    by_cases hgt : RegressionTree.split_score h f t > b.score
    · rw [if_pos hgt]
      exact Or.inr ⟨hf, ht, hadm.1, hadm.2, rfl⟩
    · rw [if_neg hgt]
      exact hb
  · rw [if_neg hadm]
    exact hb

theorem scan_feature_chosen (h : RegressionTree.RTNodeHistogram) (minls : Nat)
    (features : List Nat) (f : Nat) (b : RegressionTree.Best) (hf : f ∈ features)
    (hb : RegressionTree.Chosen h minls features b) :
    RegressionTree.Chosen h minls features (RegressionTree.scan_feature h minls b f) := by
  have hloop : ∀ t, t ≤ h.thresholds_size.getD f 0 →
      RegressionTree.Chosen h minls features
        ((List.range t).foldl (RegressionTree.scan_threshold h minls f
          (RegressionTree.s_total h f) (RegressionTree.c_total h f)) b) := by
    intro t
    induction t with
    | zero => intro _; exact hb
    | succ t ih =>
      intro ht
      rw [List.range_succ, List.foldl_append]
      exact scan_threshold_chosen h minls features f t _ hf (by omega) (ih (by omega))
  exact hloop _ (le_refl _)

theorem scan_list_chosen (h : RegressionTree.RTNodeHistogram) (minls : Nat)
    (features : List Nat) :
    ∀ (l : List Nat) (b : RegressionTree.Best), (∀ f ∈ l, f ∈ features) →
      RegressionTree.Chosen h minls features b →
      RegressionTree.Chosen h minls features (l.foldl (RegressionTree.scan_feature h minls) b) := by
  intro l
  induction l with
  | nil => intro b _ hb; exact hb
  | cons f l ih =>
    intro b hl hb
    rw [List.foldl_cons]
    exact ih _ (fun g hg => hl g (List.mem_cons_of_mem _ hg))
      (scan_feature_chosen h minls features f b (hl f (List.mem_cons_self _ _)) hb)

theorem best_split_chosen (h : RegressionTree.RTNodeHistogram) (minls : Nat)
    (features : List Nat) (nth : Nat) :
    RegressionTree.Chosen h minls features (RegressionTree.best_split h minls features nth) := by
  unfold RegressionTree.best_split
  simp only []
  have hslot : ∀ (tb : List RegressionTree.Best),
      (∀ b ∈ tb, RegressionTree.Chosen h minls features b) →
      ∀ i, RegressionTree.Chosen h minls features (tb.getD i RegressionTree.Best.init) := by
    intro tb htb i
    by_cases hi : i < tb.length
    · rw [List.getD_eq_getElem _ _ hi]
      exact htb _ (List.getElem_mem _)
    · rw [List.getD_eq_default _ _ (by omega)]
      exact Or.inl rfl
  have hrep : ∀ b ∈ List.replicate nth RegressionTree.Best.init,
      RegressionTree.Chosen h minls features b := by
    intro b hb
    rw [List.eq_of_mem_replicate hb]
    exact Or.inl rfl
  have htb : ∀ b ∈ (List.replicate nth RegressionTree.Best.init).set 0
      (features.foldl (RegressionTree.scan_feature h minls)
        ((List.replicate nth RegressionTree.Best.init).getD 0 RegressionTree.Best.init)),
      RegressionTree.Chosen h minls features b := by
    intro b hb
    rcases List.mem_or_eq_of_mem_set hb with hb | hb
    · exact hrep b hb
    · rw [hb]
      exact scan_list_chosen h minls features features _ (fun f hf => hf) (hslot _ hrep 0)
  have hfold : ∀ (l : List Nat) (b : RegressionTree.Best),
      RegressionTree.Chosen h minls features b →
      RegressionTree.Chosen h minls features (l.foldl (fun best i =>
        if (((List.replicate nth RegressionTree.Best.init).set 0
            (features.foldl (RegressionTree.scan_feature h minls)
              ((List.replicate nth RegressionTree.Best.init).getD 0
                RegressionTree.Best.init))).getD i RegressionTree.Best.init).score > best.score
        then ((List.replicate nth RegressionTree.Best.init).set 0
            (features.foldl (RegressionTree.scan_feature h minls)
              ((List.replicate nth RegressionTree.Best.init).getD 0
                RegressionTree.Best.init))).getD i RegressionTree.Best.init
        else best) b) := by
    intro l
    induction l with
    | nil => intro b hb; exact hb
    | cons a l ih =>
      intro b hb
      rw [List.foldl_cons]
      apply ih
      split_ifs
      · exact hslot _ htb a
      · exact hb
  exact hfold _ _ (hslot _ htb 0)

theorem chosen_of_score {h : RegressionTree.RTNodeHistogram} {minls : Nat}
    {features : List Nat} {b : RegressionTree.Best}
    (hb : RegressionTree.Chosen h minls features b) (hs : b.score ≠ -1) :
    b.featureidx ∈ features ∧ b.thresholdid < h.thresholds_size.getD b.featureidx 0 ∧
      minls ≤ RegressionTree.c_L h b.featureidx b.thresholdid ∧
      minls ≤ RegressionTree.c_R h b.featureidx b.thresholdid := by
  rcases hb with hinit | ⟨h1, h2, h3, h4, _⟩
  · exfalso
    apply hs
    rw [hinit]
    rfl
  · exact ⟨h1, h2, h3, h4⟩

theorem split_true_children (p : RegressionTree.Params)
    (nodes : List RegressionTree.RTNode) (root i : Nat) (rate : ℚ) (rand : Nat → Nat)
    (nth : Nat) (nd : RegressionTree.RTNode) (hnode : nodes[i]? = some nd)
    (h : (RegressionTree.split p nodes root i rate rand nth).1 = true) :
    0 < nd.deviance ∧ (RegressionTree.chosen p nd rate rand nth).score ≠ -1 ∧
    ∃ nd' l r,
      (RegressionTree.split p nodes root i rate rand nth).2 = nodes.set i nd' ++ [l, r] ∧
      nd'.featureidx = (RegressionTree.chosen p nd rate rand nth).featureidx ∧
      nd'.threshold = ((nd.hist.getD RegressionTree.RTNodeHistogram.null).thresholds.getD
        (RegressionTree.chosen p nd rate rand nth).featureidx []).getD
        (RegressionTree.chosen p nd rate rand nth).thresholdid 0 ∧
      nd'.left = some nodes.length ∧ nd'.right = some (nodes.length + 1) ∧
      l.sampleids = nd.ids.filter (fun k => decide
        (p.training_dataset.feature (RegressionTree.chosen p nd rate rand nth).featureidx k ≤
          ((nd.hist.getD RegressionTree.RTNodeHistogram.null).thresholds.getD
            (RegressionTree.chosen p nd rate rand nth).featureidx []).getD
            (RegressionTree.chosen p nd rate rand nth).thresholdid 0)) ∧
      l.nsampleids = l.sampleids.length ∧
      r.sampleids = nd.ids.filter (fun k => ¬ decide
        (p.training_dataset.feature (RegressionTree.chosen p nd rate rand nth).featureidx k ≤
          ((nd.hist.getD RegressionTree.RTNodeHistogram.null).thresholds.getD
            (RegressionTree.chosen p nd rate rand nth).featureidx []).getD
            (RegressionTree.chosen p nd rate rand nth).thresholdid 0)) ∧
      r.nsampleids = r.sampleids.length ∧
      l.deviance =
        RegressionTree.sq_L (nd.hist.getD RegressionTree.RTNodeHistogram.null)
            (RegressionTree.chosen p nd rate rand nth).featureidx
            (RegressionTree.chosen p nd rate rand nth).thresholdid -
          RegressionTree.s_L (nd.hist.getD RegressionTree.RTNodeHistogram.null)
              (RegressionTree.chosen p nd rate rand nth).featureidx
              (RegressionTree.chosen p nd rate rand nth).thresholdid *
            RegressionTree.s_L (nd.hist.getD RegressionTree.RTNodeHistogram.null)
              (RegressionTree.chosen p nd rate rand nth).featureidx
              (RegressionTree.chosen p nd rate rand nth).thresholdid /
            (RegressionTree.c_L (nd.hist.getD RegressionTree.RTNodeHistogram.null)
              (RegressionTree.chosen p nd rate rand nth).featureidx
              (RegressionTree.chosen p nd rate rand nth).thresholdid : ℚ) ∧
      r.deviance =
        (RegressionTree.sq_total (nd.hist.getD RegressionTree.RTNodeHistogram.null)
            (RegressionTree.chosen p nd rate rand nth).featureidx -
          RegressionTree.sq_L (nd.hist.getD RegressionTree.RTNodeHistogram.null)
            (RegressionTree.chosen p nd rate rand nth).featureidx
            (RegressionTree.chosen p nd rate rand nth).thresholdid) -
          RegressionTree.s_R (nd.hist.getD RegressionTree.RTNodeHistogram.null)
              (RegressionTree.chosen p nd rate rand nth).featureidx
              (RegressionTree.chosen p nd rate rand nth).thresholdid *
            RegressionTree.s_R (nd.hist.getD RegressionTree.RTNodeHistogram.null)
              (RegressionTree.chosen p nd rate rand nth).featureidx
              (RegressionTree.chosen p nd rate rand nth).thresholdid /
            (RegressionTree.c_R (nd.hist.getD RegressionTree.RTNodeHistogram.null)
              (RegressionTree.chosen p nd rate rand nth).featureidx
              (RegressionTree.chosen p nd rate rand nth).thresholdid : ℚ) := by
  unfold RegressionTree.split at h ⊢
  rw [hnode] at h ⊢
  simp only [] at h ⊢
  by_cases hdev : nd.deviance > 0
  · rw [if_pos hdev] at h ⊢
    by_cases hbest : (RegressionTree.best_split
        (nd.hist.getD RegressionTree.RTNodeHistogram.null) p.minls
        (RegressionTree.scanned_features p.training_dataset.num_features rate rand)
        nth).score = -1
    · rw [if_pos hbest] at h
      exact absurd h (by simp)
    · rw [if_neg hbest]
      exact ⟨hdev, hbest, _, _, _, rfl, rfl, rfl, rfl, rfl, rfl, rfl, rfl, rfl, rfl, rfl⟩
  · rw [if_neg hdev] at h
    exact absurd h (by simp)

theorem usub_eq_sub {a b : Nat} (hb : b ≤ a) (ha : a < 2 ^ 32) :
    RegressionTree.usub a b = a - b := by
  unfold RegressionTree.usub
  norm_num at ha ⊢
  omega

theorem filter_length_split (l : List Nat) (P Q : Nat → Bool) (hPQ : ∀ k, Q k = !P k) :
    (l.filter P).length + (l.filter Q).length = l.length := by
  induction l with
  | nil => rfl
  | cons a l ih =>
    simp only [List.filter_cons, hPQ a]
    cases P a <;> simp <;> omega

theorem filter_sum_split (l : List Nat) (P Q : Nat → Bool) (hPQ : ∀ k, Q k = !P k)
    (g : Nat → ℚ) :
    ((l.filter P).map g).sum + ((l.filter Q).map g).sum = (l.map g).sum := by
  induction l with
  | nil => simp
  | cons a l ih =>
    simp only [List.filter_cons, hPQ a]
    cases P a <;> simp <;> linarith

theorem decide_not_decide (P : Prop) [Decidable P] :
    decide (¬ (decide P = true)) = !decide P := by
  by_cases h : P <;> simp [h]

theorem decide_lt_eq_not_le (a b : ℚ) : decide (b < a) = !decide (a ≤ b) := by
  by_cases h : a ≤ b
  · simp [h, not_lt.mpr h]
  · simp [h, not_le.mp h]

/-- C18.  For every successful `split` of a node with fewer than `2 ^ 32` samples whose
histogram satisfies the histogram invariant, with `(f, t)` the chosen feature and threshold
index: the node records `f` and the threshold `thresholds[f][t]` and gets the two new nodes
of the arena as children; the left child holds, in order, exactly the node's samples whose
value of feature `f` is at most the threshold and the right child the rest; their sizes are the
histogram counts (`lsize = c_L`, `rsize = c_R`); `c_L + c_R = c_total` and
`s_L + s_R = s_total`; and `s_L`, `s_R` are the label sums of the two parts. -/
theorem split_partitions_samples (p : RegressionTree.Params)
    (nodes : List RegressionTree.RTNode) (root i : Nat) (rate : ℚ) (rand : Nat → Nat)
    (nth : Nat) (nd : RegressionTree.RTNode)
    (hnode : nodes[i]? = some nd) (hsize : nd.nsampleids < 2 ^ 32)
    (hinv : RegressionTree.HistInvariant p.training_dataset p.training_labels nd.ids
      (nd.hist.getD RegressionTree.RTNodeHistogram.null))
    (hsplit : (RegressionTree.split p nodes root i rate rand nth).1 = true) :
    ∃ f t l r,
      f < p.training_dataset.num_features ∧
      t < (nd.hist.getD RegressionTree.RTNodeHistogram.null).thresholds_size.getD f 0 ∧
      ((RegressionTree.split p nodes root i rate rand nth).2.getD i nd).featureidx = f ∧
      ((RegressionTree.split p nodes root i rate rand nth).2.getD i nd).threshold =
        ((nd.hist.getD RegressionTree.RTNodeHistogram.null).thresholds.getD f []).getD t 0 ∧
      ((RegressionTree.split p nodes root i rate rand nth).2.getD i nd).left =
        some nodes.length ∧
      ((RegressionTree.split p nodes root i rate rand nth).2.getD i nd).right =
        some (nodes.length + 1) ∧
      (RegressionTree.split p nodes root i rate rand nth).2[nodes.length]? = some l ∧
      (RegressionTree.split p nodes root i rate rand nth).2[nodes.length + 1]? = some r ∧
      l.sampleids = nd.ids.filter (fun k => decide (p.training_dataset.feature f k ≤
        ((nd.hist.getD RegressionTree.RTNodeHistogram.null).thresholds.getD f []).getD t 0)) ∧
      r.sampleids = nd.ids.filter (fun k => decide
        (((nd.hist.getD RegressionTree.RTNodeHistogram.null).thresholds.getD f []).getD t 0 <
          p.training_dataset.feature f k)) ∧
      l.nsampleids = l.sampleids.length ∧ r.nsampleids = r.sampleids.length ∧
      l.nsampleids = RegressionTree.c_L (nd.hist.getD RegressionTree.RTNodeHistogram.null) f t ∧
      r.nsampleids = RegressionTree.c_R (nd.hist.getD RegressionTree.RTNodeHistogram.null) f t ∧
      RegressionTree.c_L (nd.hist.getD RegressionTree.RTNodeHistogram.null) f t +
          RegressionTree.c_R (nd.hist.getD RegressionTree.RTNodeHistogram.null) f t =
        RegressionTree.c_total (nd.hist.getD RegressionTree.RTNodeHistogram.null) f ∧
      RegressionTree.s_L (nd.hist.getD RegressionTree.RTNodeHistogram.null) f t +
          RegressionTree.s_R (nd.hist.getD RegressionTree.RTNodeHistogram.null) f t =
        RegressionTree.s_total (nd.hist.getD RegressionTree.RTNodeHistogram.null) f ∧
      RegressionTree.s_L (nd.hist.getD RegressionTree.RTNodeHistogram.null) f t =
        (l.sampleids.map (fun k => p.training_labels.getD k 0)).sum ∧
      RegressionTree.s_R (nd.hist.getD RegressionTree.RTNodeHistogram.null) f t =
        (r.sampleids.map (fun k => p.training_labels.getD k 0)).sum := by
  obtain ⟨_, hscore, nd', l, r, hres, hfeat, hthr, hleft, hright, hl, hln, hr, hrn, _, _⟩ :=
    split_true_children p nodes root i rate rand nth nd hnode hsplit
  have hchosen : RegressionTree.Chosen (nd.hist.getD RegressionTree.RTNodeHistogram.null)
      p.minls (RegressionTree.scanned_features p.training_dataset.num_features rate rand)
      (RegressionTree.chosen p nd rate rand nth) :=
    best_split_chosen (nd.hist.getD RegressionTree.RTNodeHistogram.null) p.minls
      (RegressionTree.scanned_features p.training_dataset.num_features rate rand) nth
  obtain ⟨hmem, ht, _, _⟩ := chosen_of_score hchosen hscore
  have hf : (RegressionTree.chosen p nd rate rand nth).featureidx <
      p.training_dataset.num_features := scanned_features_lt _ _ _ _ hmem
  have hilt : i < nodes.length := by
    by_contra hcon
    rw [List.getElem?_eq_none (by omega)] at hnode
    exact absurd hnode (by simp)
  have hget : (RegressionTree.split p nodes root i rate rand nth).2.getD i nd = nd' := by
    rw [hres]
    exact getD_set_append_self nodes i nd' nd [l, r] hilt
  have hgl : (RegressionTree.split p nodes root i rate rand nth).2[nodes.length]? = some l := by
    rw [hres, List.getElem?_append_right (by simp)]
    simp
  have hgr : (RegressionTree.split p nodes root i rate rand nth).2[nodes.length + 1]? =
      some r := by
    rw [hres, List.getElem?_append_right (by simp)]
    simp
  obtain ⟨hbins, hct, hst⟩ := hinv _ hf
  obtain ⟨hcl, hsl⟩ := hbins _ ht
  have hnot : ∀ k, (fun k => decide (¬ decide
      (p.training_dataset.feature (RegressionTree.chosen p nd rate rand nth).featureidx k ≤
        ((nd.hist.getD RegressionTree.RTNodeHistogram.null).thresholds.getD
          (RegressionTree.chosen p nd rate rand nth).featureidx []).getD
          (RegressionTree.chosen p nd rate rand nth).thresholdid 0) = true)) k =
      !(fun k => decide
      (p.training_dataset.feature (RegressionTree.chosen p nd rate rand nth).featureidx k ≤
        ((nd.hist.getD RegressionTree.RTNodeHistogram.null).thresholds.getD
          (RegressionTree.chosen p nd rate rand nth).featureidx []).getD
          (RegressionTree.chosen p nd rate rand nth).thresholdid 0)) k := by
    intro k
    exact decide_not_decide _
  have hlen := filter_length_split nd.ids _ _ hnot
  have hsum := filter_sum_split nd.ids _ _ hnot (fun k => p.training_labels.getD k 0)
  have hr' : r.sampleids = nd.ids.filter (fun k => decide
      (((nd.hist.getD RegressionTree.RTNodeHistogram.null).thresholds.getD
          (RegressionTree.chosen p nd rate rand nth).featureidx []).getD
          (RegressionTree.chosen p nd rate rand nth).thresholdid 0 <
        p.training_dataset.feature (RegressionTree.chosen p nd rate rand nth).featureidx k)) := by
    rw [hr]
    apply List.filter_congr
    intro k _
    exact (decide_not_decide _).trans (decide_lt_eq_not_le _ _).symm
  rw [← hr, ← hl] at hlen hsum
  have hcl' : RegressionTree.c_L (nd.hist.getD RegressionTree.RTNodeHistogram.null)
      (RegressionTree.chosen p nd rate rand nth).featureidx
      (RegressionTree.chosen p nd rate rand nth).thresholdid = l.sampleids.length := by
    rw [hl]; exact hcl
  have hsl' : RegressionTree.s_L (nd.hist.getD RegressionTree.RTNodeHistogram.null)
      (RegressionTree.chosen p nd rate rand nth).featureidx
      (RegressionTree.chosen p nd rate rand nth).thresholdid =
        (l.sampleids.map (fun k => p.training_labels.getD k 0)).sum := by
    rw [hl]; exact hsl
  have hidlen : nd.ids.length = nd.nsampleids := by
    unfold RegressionTree.RTNode.ids
    simp
  have hcr : RegressionTree.c_R (nd.hist.getD RegressionTree.RTNodeHistogram.null)
      (RegressionTree.chosen p nd rate rand nth).featureidx
      (RegressionTree.chosen p nd rate rand nth).thresholdid = r.sampleids.length := by
    unfold RegressionTree.c_R
    rw [hct, hcl', usub_eq_sub (by omega) (by omega)]
    omega
  have hsr : RegressionTree.s_R (nd.hist.getD RegressionTree.RTNodeHistogram.null)
      (RegressionTree.chosen p nd rate rand nth).featureidx
      (RegressionTree.chosen p nd rate rand nth).thresholdid =
        (r.sampleids.map (fun k => p.training_labels.getD k 0)).sum := by
    unfold RegressionTree.s_R
    rw [hst, hsl']
    linarith
  refine ⟨(RegressionTree.chosen p nd rate rand nth).featureidx,
    (RegressionTree.chosen p nd rate rand nth).thresholdid, l, r, hf, ht, ?_, ?_, ?_, ?_,
    hgl, hgr, hl, hr', hln, hrn, ?_, ?_, ?_, ?_, hsl', hsr⟩
  · rw [hget, hfeat]
  · rw [hget, hthr]
  · rw [hget, hleft]
  · rw [hget, hright]
  · rw [hln, hcl']
  · rw [hrn, hcr]
  · rw [hcl', hcr, hct]
    omega
  · unfold RegressionTree.s_R
    ring

theorem sample_root_ids : RegressionTree.sample_root.ids = [0, 1, 2] := by decide

theorem sample_hist_invariant :
    RegressionTree.HistInvariant RegressionTree.sample_dataset RegressionTree.sample_labels
      [0, 1, 2] RegressionTree.sample_hist := by
  intro f hf
  have hf' : f < 2 := hf
  interval_cases f
  · refine ⟨?_, ?_, ?_⟩
    · intro t ht
      have ht' : t < 2 := by simpa [RegressionTree.sample_hist] using ht
      interval_cases t <;>
        norm_num [RegressionTree.c_L, RegressionTree.s_L, RegressionTree.sample_hist,
          RegressionTree.Dataset.feature, RegressionTree.sample_dataset,
          RegressionTree.sample_labels, List.filter]
    · decide
    · norm_num [RegressionTree.s_total, RegressionTree.sample_hist, RegressionTree.usub,
        RegressionTree.sample_labels]
  · refine ⟨?_, ?_, ?_⟩
    · intro t ht
      have ht' : t < 2 := by simpa [RegressionTree.sample_hist] using ht
      interval_cases t <;>
        norm_num [RegressionTree.c_L, RegressionTree.s_L, RegressionTree.sample_hist,
          RegressionTree.Dataset.feature, RegressionTree.sample_dataset,
          RegressionTree.sample_labels, List.filter]
    · decide
    · norm_num [RegressionTree.s_total, RegressionTree.sample_hist, RegressionTree.usub,
        RegressionTree.sample_labels]

/-- C18, a concrete instance: the root of the three-sample training set is split, and the
sizes of the two children are histogram counts that add up to the three samples of the root. -/
theorem split_partitions_samples_witness :
    [RegressionTree.sample_root][0]? = some RegressionTree.sample_root ∧
    RegressionTree.sample_root.nsampleids < 2 ^ 32 ∧
    RegressionTree.HistInvariant RegressionTree.sample_params.training_dataset
      RegressionTree.sample_params.training_labels RegressionTree.sample_root.ids
      (RegressionTree.sample_root.hist.getD RegressionTree.RTNodeHistogram.null) ∧
    (RegressionTree.split RegressionTree.sample_params [RegressionTree.sample_root] 0 0 1
      (fun _ => 0) 1).1 = true ∧
    ∃ l r,
      (RegressionTree.split RegressionTree.sample_params [RegressionTree.sample_root] 0 0 1
        (fun _ => 0) 1).2[1]? = some l ∧
      (RegressionTree.split RegressionTree.sample_params [RegressionTree.sample_root] 0 0 1
        (fun _ => 0) 1).2[2]? = some r ∧
      l.nsampleids + r.nsampleids = 3 := by
  have hsize : RegressionTree.sample_root.nsampleids < 2 ^ 32 := by
    show 3 < 2 ^ 32
    norm_num
  have hinv : RegressionTree.HistInvariant RegressionTree.sample_params.training_dataset
      RegressionTree.sample_params.training_labels RegressionTree.sample_root.ids
      (RegressionTree.sample_root.hist.getD RegressionTree.RTNodeHistogram.null) := by
    rw [sample_root_ids]
    exact sample_hist_invariant
  obtain ⟨f, t, l, r, hf, _, _, _, _, _, hl, hr, _, _, _, _, hcl, hcr, hsum, _⟩ :=
    split_partitions_samples RegressionTree.sample_params [RegressionTree.sample_root] 0 0 1
      (fun _ => 0) 1 RegressionTree.sample_root rfl hsize hinv sample_split_succeeds
  refine ⟨rfl, hsize, hinv, sample_split_succeeds, l, r, hl, hr, ?_⟩
  have htot := (hinv f hf).2.1
  rw [sample_root_ids] at htot
  rw [hcl, hcr, hsum, htot]
  rfl

/-! ### Regression tree: a training set too small to split -/

theorem filter_length_le_self (l : List Nat) (P : Nat → Bool) : (l.filter P).length ≤ l.length :=
  List.length_filter_le P l

theorem no_admissible_of_small (d : RegressionTree.Dataset) (labels : List ℚ) (ids : List Nat)
    (h : RegressionTree.RTNodeHistogram) (minls : Nat)
    (hN : ids.length < 2 * minls) (h32 : ids.length < 2 ^ 32)
    (hinv : RegressionTree.HistInvariant d labels ids h) :
    ¬ ∃ f t, RegressionTree.Admissible h minls d.num_features f t := by
  rintro ⟨f, t, hf, ht, hl, hr⟩
  obtain ⟨hbins, hct, _⟩ := hinv f hf
  obtain ⟨hcl, _⟩ := hbins t ht
  have hle : RegressionTree.c_L h f t ≤ ids.length := by
    rw [hcl]; exact filter_length_le_self _ _
  unfold RegressionTree.c_R at hr
  rw [hct, usub_eq_sub hle h32] at hr
  omega

theorem split_false_of_no_admissible (p : RegressionTree.Params)
    (nodes : List RegressionTree.RTNode) (root i : Nat) (rate : ℚ) (rand : Nat → Nat)
    (nth : Nat) (nd : RegressionTree.RTNode) (hnode : nodes[i]? = some nd)
    (hnone : ¬ ∃ f t, RegressionTree.Admissible
      (nd.hist.getD RegressionTree.RTNodeHistogram.null) p.minls
      p.training_dataset.num_features f t) :
    RegressionTree.split p nodes root i rate rand nth = (false, nodes) := by
  have h1 : (RegressionTree.split p nodes root i rate rand nth).1 = false := by
    cases hs : (RegressionTree.split p nodes root i rate rand nth).1 with
    | false => rfl
    | true =>
      exfalso
      obtain ⟨_, hscore, _⟩ := split_true_children p nodes root i rate rand nth nd hnode hs
      have hchosen : RegressionTree.Chosen (nd.hist.getD RegressionTree.RTNodeHistogram.null)
          p.minls (RegressionTree.scanned_features p.training_dataset.num_features rate rand)
          (RegressionTree.chosen p nd rate rand nth) :=
        best_split_chosen (nd.hist.getD RegressionTree.RTNodeHistogram.null) p.minls
          (RegressionTree.scanned_features p.training_dataset.num_features rate rand) nth
      obtain ⟨hmem, ht, hl, hr⟩ := chosen_of_score hchosen hscore
      exact hnone ⟨_, _, scanned_features_lt _ _ _ _ hmem, ht, hl, hr⟩
  have h2 := split_false_frame p nodes root i rate rand nth h1
  exact Prod.ext h1 h2

/-- C19.  For every training set with fewer than `2 * minls` samples (and fewer than
`2 ^ 32`, the range of `unsigned int`) whose root histogram satisfies the histogram invariant:
no candidate split of the root is admissible, `split` of the root returns `false`, and `fit`
returns, for every bound on the number of loop iterations, the tree whose only node is the
unsplit root, which is its only leaf. -/
theorem fit_small_training_set (p : RegressionTree.Params)
    (hist : RegressionTree.RTNodeHistogram) (rand : Nat → Nat) (nth fuel : Nat)
    (hN : p.training_dataset.num_instances < 2 * p.minls)
    (h32 : p.training_dataset.num_instances < 2 ^ 32)
    (hinv : RegressionTree.HistInvariant p.training_dataset p.training_labels
      (List.range p.training_dataset.num_instances) hist) :
    (¬ ∃ f t, RegressionTree.Admissible hist p.minls p.training_dataset.num_features f t) ∧
    (RegressionTree.split p
      [RegressionTree.RTNode.create (List.range p.training_dataset.num_instances)
        p.training_dataset.num_instances RegressionTree.DBL_MAX 0 (some hist)]
      0 0 1 rand nth).1 = false ∧
    ∃ t, RegressionTree.fit p hist rand nth fuel = some t ∧
      t.nodes = [RegressionTree.RTNode.create (List.range p.training_dataset.num_instances)
        p.training_dataset.num_instances RegressionTree.DBL_MAX 0 (some hist)] ∧
      t.leaves = [0] ∧ t.nleaves = 1 ∧
      (t.nodes.getD 0 (RegressionTree.RTNode.create [] 0 0 0 none)).left = none ∧
      (t.nodes.getD 0 (RegressionTree.RTNode.create [] 0 0 0 none)).right = none := by
  have hnone := no_admissible_of_small p.training_dataset p.training_labels
    (List.range p.training_dataset.num_instances) hist p.minls
    (by rw [List.length_range]; exact hN) (by rw [List.length_range]; exact h32) hinv
  have hsplit := split_false_of_no_admissible p
    [RegressionTree.RTNode.create (List.range p.training_dataset.num_instances)
      p.training_dataset.num_instances RegressionTree.DBL_MAX 0 (some hist)]
    0 0 1 rand nth _ rfl hnone
  refine ⟨hnone, by rw [hsplit], ?_⟩
  unfold RegressionTree.fit
  simp only []
  rw [hsplit]
  simp only [Bool.false_eq_true, if_false]
  rw [grow_loop_done _ _ _ _ _ (by unfold RegressionTree.growing; simp)]
  refine ⟨_, rfl, rfl, ?_, ?_, rfl, rfl⟩
  · simp [RegressionTree.save_leaves, RegressionTree.RTNode.create]
  · simp [RegressionTree.save_leaves, RegressionTree.RTNode.create]

theorem pair_hist_invariant :
    RegressionTree.HistInvariant RegressionTree.pair_dataset RegressionTree.pair_labels
      [0, 1] RegressionTree.pair_hist := by
  intro f hf
  have hf' : f < 1 := hf
  interval_cases f
  refine ⟨?_, ?_, ?_⟩
  · intro t ht
    have ht' : t < 2 := by simpa [RegressionTree.pair_hist] using ht
    interval_cases t <;>
      norm_num [RegressionTree.c_L, RegressionTree.s_L, RegressionTree.pair_hist,
        RegressionTree.Dataset.feature, RegressionTree.pair_dataset,
        RegressionTree.pair_labels, List.filter]
  · decide
  · norm_num [RegressionTree.s_total, RegressionTree.pair_hist, RegressionTree.usub,
      RegressionTree.pair_labels]

/-- C19, the example of the claim: two samples and `minls = 2`; `fit` returns the tree whose
only node and only leaf is the root. -/
theorem fit_small_training_set_witness :
    RegressionTree.pair_params.training_dataset.num_instances <
      2 * RegressionTree.pair_params.minls ∧
    RegressionTree.pair_params.training_dataset.num_instances < 2 ^ 32 ∧
    RegressionTree.HistInvariant RegressionTree.pair_params.training_dataset
      RegressionTree.pair_params.training_labels
      (List.range RegressionTree.pair_params.training_dataset.num_instances)
      RegressionTree.pair_hist ∧
    ∃ t, RegressionTree.fit RegressionTree.pair_params RegressionTree.pair_hist (fun _ => 0) 1 0 =
        some t ∧
      t.nodes = [RegressionTree.RTNode.create [0, 1] 2 RegressionTree.DBL_MAX 0
        (some RegressionTree.pair_hist)] ∧
      t.leaves = [0] ∧ t.nleaves = 1 := by
  have hN : RegressionTree.pair_params.training_dataset.num_instances <
      2 * RegressionTree.pair_params.minls := by decide
  have h32 : RegressionTree.pair_params.training_dataset.num_instances < 2 ^ 32 := by
    show 2 < 2 ^ 32
    norm_num
  have hinv : RegressionTree.HistInvariant RegressionTree.pair_params.training_dataset
      RegressionTree.pair_params.training_labels
      (List.range RegressionTree.pair_params.training_dataset.num_instances)
      RegressionTree.pair_hist := pair_hist_invariant
  obtain ⟨_, _, t, ht, hnodes, hleaves, hn, _, _⟩ :=
    fit_small_training_set RegressionTree.pair_params RegressionTree.pair_hist (fun _ => 0) 1 0
      hN h32 hinv
  exact ⟨hN, h32, hinv, t, ht, hnodes, hleaves, hn⟩

/-! ### Regression tree: a node of two samples -/

theorem singleton_deviance (L : List Nat) (g : Nat → ℚ) (hL : L.length = 1) :
    (L.map (fun k => g k * g k)).sum - (L.map g).sum * (L.map g).sum / ((1 : Nat) : ℚ) = 0 := by
  obtain ⟨x, rfl⟩ := List.length_eq_one.mp hL
  simp

theorem pair_filter_length (a b : Nat) (P : Nat → Bool) (hP : P a = P b) :
    ([a, b].filter P).length = 0 ∨ ([a, b].filter P).length = 2 := by
  simp only [List.filter_cons, List.filter_nil, hP]
  cases P b <;> simp

/-- C20 (as amended).  For a node that holds two samples `a` and `b`, with a histogram that
satisfies the histogram invariant (counts, label sums and squared label sums) and
`minls ≥ 1`: when the two samples have identical values of every feature, no threshold
separates them and `split` returns `false`, leaving the arena unchanged, whatever the labels
are; when instead some candidate has the left count `1`, the node's deviance is positive,
`minls = 1` and no features are sub-sampled, `split` succeeds, each child receives one sample
and both children have deviance `0`. -/
theorem split_two_samples (p : RegressionTree.Params)
    (nodes : List RegressionTree.RTNode) (root i : Nat) (rate : ℚ) (rand : Nat → Nat)
    (nth : Nat) (nd : RegressionTree.RTNode) (a b : Nat)
    (hnode : nodes[i]? = some nd) (hids : nd.ids = [a, b]) (hminls : 1 ≤ p.minls)
    (hinv : RegressionTree.HistInvariant p.training_dataset p.training_labels nd.ids
      (nd.hist.getD RegressionTree.RTNodeHistogram.null))
    (hsq : RegressionTree.SqsumInvariant p.training_dataset p.training_labels nd.ids
      (nd.hist.getD RegressionTree.RTNodeHistogram.null)) :
    ((∀ f, f < p.training_dataset.num_features →
        p.training_dataset.feature f a = p.training_dataset.feature f b) →
      RegressionTree.split p nodes root i rate rand nth = (false, nodes)) ∧
    (p.minls = 1 → 0 < nd.deviance → 1 ≤ rate → 1 ≤ nth →
      (∃ f t, f < p.training_dataset.num_features ∧
        t < (nd.hist.getD RegressionTree.RTNodeHistogram.null).thresholds_size.getD f 0 ∧
        RegressionTree.c_L (nd.hist.getD RegressionTree.RTNodeHistogram.null) f t = 1) →
      (RegressionTree.split p nodes root i rate rand nth).1 = true ∧
      ∃ l r,
        (RegressionTree.split p nodes root i rate rand nth).2[nodes.length]? = some l ∧
        (RegressionTree.split p nodes root i rate rand nth).2[nodes.length + 1]? = some r ∧
        l.nsampleids = 1 ∧ r.nsampleids = 1 ∧
        l.sampleids.length = 1 ∧ r.sampleids.length = 1 ∧
        (∀ k, k ∈ l.sampleids ∨ k ∈ r.sampleids ↔ k = a ∨ k = b) ∧
        l.deviance = 0 ∧ r.deviance = 0) := by
  have hlen : nd.ids.length = 2 := by rw [hids]; rfl
  constructor
  · intro hsame
    apply split_false_of_no_admissible p nodes root i rate rand nth nd hnode
    rintro ⟨f, t, hf, ht, hl, hr⟩
    obtain ⟨hbins, hct, _⟩ := hinv f hf
    obtain ⟨hcl, _⟩ := hbins t ht
    rw [hids] at hcl
    have hcases := pair_filter_length a b
      (fun k => decide (p.training_dataset.feature f k ≤
        ((nd.hist.getD RegressionTree.RTNodeHistogram.null).thresholds.getD f []).getD t 0))
      (by simp only [hsame f hf])
    unfold RegressionTree.c_R at hr
    rw [hct, hlen] at hr
    rcases hcases with h0 | h2
    · rw [h0] at hcl
      omega
    · rw [h2] at hcl
      rw [hcl, usub_eq_sub (le_refl _) (by norm_num)] at hr
      omega
  · intro hm hdev hrate hnth ⟨f, t, hf, ht, hc1⟩
    have hadm : RegressionTree.Admissible (nd.hist.getD RegressionTree.RTNodeHistogram.null)
        p.minls p.training_dataset.num_features f t := by
      refine ⟨hf, ht, by rw [hm, hc1], ?_⟩
      unfold RegressionTree.c_R
      rw [(hinv f hf).2.1, hlen, hc1, usub_eq_sub (by norm_num) (by norm_num), hm]
    have htrue : (RegressionTree.split p nodes root i rate rand nth).1 = true := by
      cases hs : (RegressionTree.split p nodes root i rate rand nth).1 with
      | true => rfl
      | false =>
        exfalso
        rcases (split_false_iff_best p nodes root i rate rand nth nd hnode).mp hs with h | h
        · exact absurd hdev (not_lt.mpr h)
        · exact (best_split_init_iff _ p.minls p.training_dataset.num_features nth rate rand
            hrate hnth).mp h ⟨f, t, hadm⟩
    refine ⟨htrue, ?_⟩
    obtain ⟨_, hscore, nd', l, r, hres, _, _, _, _, hl, hln, hr, hrn, hld, hrd⟩ :=
      split_true_children p nodes root i rate rand nth nd hnode htrue
    have hchosen : RegressionTree.Chosen (nd.hist.getD RegressionTree.RTNodeHistogram.null)
        p.minls (RegressionTree.scanned_features p.training_dataset.num_features rate rand)
        (RegressionTree.chosen p nd rate rand nth) :=
      best_split_chosen (nd.hist.getD RegressionTree.RTNodeHistogram.null) p.minls
        (RegressionTree.scanned_features p.training_dataset.num_features rate rand) nth
    obtain ⟨hmem, htc, hcl1, hcr1⟩ := chosen_of_score hchosen hscore
    have hfc : (RegressionTree.chosen p nd rate rand nth).featureidx <
        p.training_dataset.num_features := scanned_features_lt _ _ _ _ hmem
    obtain ⟨hbins, hct, hst⟩ := hinv _ hfc
    obtain ⟨hcl, hsl⟩ := hbins _ htc
    obtain ⟨hsqbins, hsqt⟩ := hsq _ hfc
    have hsql := hsqbins _ htc
    have hnot : ∀ k, (fun k => decide (¬ decide
        (p.training_dataset.feature (RegressionTree.chosen p nd rate rand nth).featureidx k ≤
          ((nd.hist.getD RegressionTree.RTNodeHistogram.null).thresholds.getD
            (RegressionTree.chosen p nd rate rand nth).featureidx []).getD
            (RegressionTree.chosen p nd rate rand nth).thresholdid 0) = true)) k =
        !(fun k => decide
        (p.training_dataset.feature (RegressionTree.chosen p nd rate rand nth).featureidx k ≤
          ((nd.hist.getD RegressionTree.RTNodeHistogram.null).thresholds.getD
            (RegressionTree.chosen p nd rate rand nth).featureidx []).getD
            (RegressionTree.chosen p nd rate rand nth).thresholdid 0)) k := by
      intro k
      exact decide_not_decide _
    have hlens := filter_length_split nd.ids _ _ hnot
    have hsum := filter_sum_split nd.ids _ _ hnot (fun k => p.training_labels.getD k 0)
    have hsqsum := filter_sum_split nd.ids _ _ hnot
      (fun k => p.training_labels.getD k 0 * p.training_labels.getD k 0)
    rw [← hl] at hcl hsl hsql
    rw [← hl, ← hr] at hlens hsum hsqsum
    have hcle : RegressionTree.c_L (nd.hist.getD RegressionTree.RTNodeHistogram.null)
        (RegressionTree.chosen p nd rate rand nth).featureidx
        (RegressionTree.chosen p nd rate rand nth).thresholdid ≤ 2 := by
      rw [hcl]; omega
    have hcr : RegressionTree.c_R (nd.hist.getD RegressionTree.RTNodeHistogram.null)
        (RegressionTree.chosen p nd rate rand nth).featureidx
        (RegressionTree.chosen p nd rate rand nth).thresholdid =
        2 - RegressionTree.c_L (nd.hist.getD RegressionTree.RTNodeHistogram.null)
          (RegressionTree.chosen p nd rate rand nth).featureidx
          (RegressionTree.chosen p nd rate rand nth).thresholdid := by
      unfold RegressionTree.c_R
      rw [hct, hlen, usub_eq_sub hcle (by norm_num)]
    rw [hm] at hcl1 hcr1
    have hcl2 : RegressionTree.c_L (nd.hist.getD RegressionTree.RTNodeHistogram.null)
        (RegressionTree.chosen p nd rate rand nth).featureidx
        (RegressionTree.chosen p nd rate rand nth).thresholdid = 1 := by omega
    have hcr2 : RegressionTree.c_R (nd.hist.getD RegressionTree.RTNodeHistogram.null)
        (RegressionTree.chosen p nd rate rand nth).featureidx
        (RegressionTree.chosen p nd rate rand nth).thresholdid = 1 := by omega
    have hl1 : l.sampleids.length = 1 := by rw [← hcl, hcl2]
    have hr1 : r.sampleids.length = 1 := by omega
    have hgl : (RegressionTree.split p nodes root i rate rand nth).2[nodes.length]? =
        some l := by
      rw [hres, List.getElem?_append_right (by simp)]
      simp
    have hgr : (RegressionTree.split p nodes root i rate rand nth).2[nodes.length + 1]? =
        some r := by
      rw [hres, List.getElem?_append_right (by simp)]
      simp
    refine ⟨l, r, hgl, hgr, by rw [hln, hl1], by rw [hrn, hr1], hl1, hr1, ?_, ?_, ?_⟩
    · intro k
      rw [hl, hr, List.mem_filter, List.mem_filter, hids]
      simp only [List.mem_cons, List.mem_singleton, List.not_mem_nil, or_false]
      constructor
      · rintro (⟨hk, _⟩ | ⟨hk, _⟩) <;> exact hk
      · intro hk
        by_cases hle : p.training_dataset.feature
            (RegressionTree.chosen p nd rate rand nth).featureidx k ≤
            ((nd.hist.getD RegressionTree.RTNodeHistogram.null).thresholds.getD
              (RegressionTree.chosen p nd rate rand nth).featureidx []).getD
              (RegressionTree.chosen p nd rate rand nth).thresholdid 0
        · exact Or.inl ⟨hk, by simpa using hle⟩
        · exact Or.inr ⟨hk, by simpa using hle⟩
    · rw [hld, hsql, hsl, hcl2]
      exact singleton_deviance _ _ hl1
    · have hsr : RegressionTree.s_R (nd.hist.getD RegressionTree.RTNodeHistogram.null)
          (RegressionTree.chosen p nd rate rand nth).featureidx
          (RegressionTree.chosen p nd rate rand nth).thresholdid =
          (r.sampleids.map (fun k => p.training_labels.getD k 0)).sum := by
        unfold RegressionTree.s_R
        rw [hst, hsl]
        linarith
      have hsqr : RegressionTree.sq_total (nd.hist.getD RegressionTree.RTNodeHistogram.null)
            (RegressionTree.chosen p nd rate rand nth).featureidx -
          RegressionTree.sq_L (nd.hist.getD RegressionTree.RTNodeHistogram.null)
            (RegressionTree.chosen p nd rate rand nth).featureidx
            (RegressionTree.chosen p nd rate rand nth).thresholdid =
          (r.sampleids.map
            (fun k => p.training_labels.getD k 0 * p.training_labels.getD k 0)).sum := by
        rw [hsqt, hsql]
        linarith
      rw [hrd, hsqr, hsr, hcr2]
      exact singleton_deviance _ _ hr1

theorem pair_hist_sqsum :
    RegressionTree.SqsumInvariant RegressionTree.pair_dataset RegressionTree.pair_labels
      [0, 1] RegressionTree.pair_hist := by
  intro f hf
  have hf' : f < 1 := hf
  interval_cases f
  refine ⟨?_, ?_⟩
  · intro t ht
    have ht' : t < 2 := by simpa [RegressionTree.pair_hist] using ht
    interval_cases t <;>
      norm_num [RegressionTree.sq_L, RegressionTree.pair_hist,
        RegressionTree.Dataset.feature, RegressionTree.pair_dataset,
        RegressionTree.pair_labels, List.filter]
  · norm_num [RegressionTree.sq_total, RegressionTree.pair_hist, RegressionTree.usub,
      RegressionTree.pair_labels]

theorem dbl_max_pos : 0 < RegressionTree.DBL_MAX := by
  unfold RegressionTree.DBL_MAX
  norm_num

/-- C20, a concrete instance of the amended statement: two samples with the feature values
`1` and `2` and the labels `0` and `1`, `minls = 1`; `split` succeeds, each child receives one
sample and both children have deviance `0`. -/
theorem split_two_samples_witness :
    [RegressionTree.pair_root][0]? = some RegressionTree.pair_root ∧
    RegressionTree.pair_root.ids = [0, 1] ∧ 1 ≤ RegressionTree.pair_params_one.minls ∧
    RegressionTree.HistInvariant RegressionTree.pair_params_one.training_dataset
      RegressionTree.pair_params_one.training_labels RegressionTree.pair_root.ids
      (RegressionTree.pair_root.hist.getD RegressionTree.RTNodeHistogram.null) ∧
    RegressionTree.SqsumInvariant RegressionTree.pair_params_one.training_dataset
      RegressionTree.pair_params_one.training_labels RegressionTree.pair_root.ids
      (RegressionTree.pair_root.hist.getD RegressionTree.RTNodeHistogram.null) ∧
    (RegressionTree.split RegressionTree.pair_params_one [RegressionTree.pair_root] 0 0 1
      (fun _ => 0) 1).1 = true ∧
    ∃ l r,
      (RegressionTree.split RegressionTree.pair_params_one [RegressionTree.pair_root] 0 0 1
        (fun _ => 0) 1).2[1]? = some l ∧
      (RegressionTree.split RegressionTree.pair_params_one [RegressionTree.pair_root] 0 0 1
        (fun _ => 0) 1).2[2]? = some r ∧
      l.nsampleids = 1 ∧ r.nsampleids = 1 ∧ l.deviance = 0 ∧ r.deviance = 0 := by
  have hids : RegressionTree.pair_root.ids = [0, 1] := by decide
  have hinv : RegressionTree.HistInvariant RegressionTree.pair_params_one.training_dataset
      RegressionTree.pair_params_one.training_labels RegressionTree.pair_root.ids
      (RegressionTree.pair_root.hist.getD RegressionTree.RTNodeHistogram.null) := by
    rw [hids]; exact pair_hist_invariant
  have hsq : RegressionTree.SqsumInvariant RegressionTree.pair_params_one.training_dataset
      RegressionTree.pair_params_one.training_labels RegressionTree.pair_root.ids
      (RegressionTree.pair_root.hist.getD RegressionTree.RTNodeHistogram.null) := by
    rw [hids]; exact pair_hist_sqsum
  have h := (split_two_samples RegressionTree.pair_params_one [RegressionTree.pair_root] 0 0 1
    (fun _ => 0) 1 RegressionTree.pair_root 0 1 rfl hids (le_refl _) hinv hsq).2 rfl
    dbl_max_pos (le_refl _) (le_refl _) ⟨0, 0, by decide, by decide, by decide⟩
  obtain ⟨htrue, l, r, hl, hr, hln, hrn, _, _, _, hld, hrd⟩ := h
  exact ⟨rfl, hids, le_refl _, hinv, hsq, htrue, l, r, hl, hr, hln, hrn, hld, hrd⟩

theorem twin_hist_invariant :
    RegressionTree.HistInvariant RegressionTree.twin_dataset RegressionTree.pair_labels
      [0, 1] RegressionTree.twin_hist := by
  intro f hf
  have hf' : f < 1 := hf
  interval_cases f
  refine ⟨?_, ?_, ?_⟩
  · intro t ht
    have ht' : t < 1 := by simpa [RegressionTree.twin_hist] using ht
    interval_cases t
    norm_num [RegressionTree.c_L, RegressionTree.s_L, RegressionTree.twin_hist,
      RegressionTree.Dataset.feature, RegressionTree.twin_dataset,
      RegressionTree.pair_labels, List.filter]
  · decide
  · norm_num [RegressionTree.s_total, RegressionTree.twin_hist, RegressionTree.usub,
      RegressionTree.pair_labels]

/-- C20 as stated fails: for the node that holds two samples with the same value `1` of the
single feature and the distinct labels `0` and `1`, with the histogram of these samples and
`minls = 1`, the only candidate has the counts `c_L = 2` and `c_R = 0`, and `split` returns
`false` and leaves the node without children. -/
theorem split_identical_samples_counterexample :
    RegressionTree.twin_dataset.feature 0 0 = RegressionTree.twin_dataset.feature 0 1 ∧
    RegressionTree.pair_labels.getD 0 0 ≠ RegressionTree.pair_labels.getD 1 0 ∧
    RegressionTree.HistInvariant RegressionTree.twin_dataset RegressionTree.pair_labels
      [0, 1] RegressionTree.twin_hist ∧
    RegressionTree.twin_params.minls = 1 ∧
    RegressionTree.c_L RegressionTree.twin_hist 0 0 = 2 ∧
    RegressionTree.c_R RegressionTree.twin_hist 0 0 = 0 ∧
    RegressionTree.split RegressionTree.twin_params [RegressionTree.twin_root] 0 0 1
      (fun _ => 0) 1 = (false, [RegressionTree.twin_root]) := by
  refine ⟨rfl, ?_, twin_hist_invariant, rfl, by decide, by decide, ?_⟩
  · norm_num [RegressionTree.pair_labels]
  · have hbest : RegressionTree.best_split RegressionTree.twin_hist 1 (List.range 1) 1 =
        RegressionTree.Best.init := by
      simp [RegressionTree.best_split, RegressionTree.scan_feature,
        RegressionTree.scan_threshold, RegressionTree.twin_hist, RegressionTree.usub,
        RegressionTree.Best.init, List.range_succ]
    have hscan : RegressionTree.scanned_features 1 1 (fun _ => 0) = List.range 1 := by
      unfold RegressionTree.scanned_features
      rw [if_neg (by norm_num)]
    unfold RegressionTree.split
    have h0 : ([RegressionTree.twin_root] : List RegressionTree.RTNode)[0]? =
        some RegressionTree.twin_root := rfl
    rw [h0]
    simp only []
    have hdev : RegressionTree.twin_root.deviance > 0 := dbl_max_pos
    rw [if_pos hdev]
    have h1 : RegressionTree.twin_params.training_dataset.num_features = 1 := rfl
    have h2 : RegressionTree.twin_root.hist.getD RegressionTree.RTNodeHistogram.null =
        RegressionTree.twin_hist := rfl
    have h3 : RegressionTree.twin_params.minls = 1 := rfl
    rw [h1, h2, h3, hscan, hbest]
    have hinit : RegressionTree.Best.init.score = -1 := rfl
    rw [if_pos hinit]

/-! ### Regression tree: score and deviance -/

theorem reduction_adaptive (cfg : LineSearch.Config) (gain : ℚ) (ha : cfg.adaptive_ = true) :
    LineSearch.reduction cfg gain =
      cfg.reduction_factor_ *
        (1 + LineSearch.clamp ((gain - 5 / 1000) / (5 / 1000)) (-1 / 2) 1) := by
  unfold LineSearch.reduction LineSearch.clamp
  rw [if_pos ha]
  simp only []
  rw [max_comm]

theorem clamp_bounds (x : ℚ) : -1 / 2 ≤ LineSearch.clamp x (-1 / 2) 1 ∧
    LineSearch.clamp x (-1 / 2) 1 ≤ 1 := by
  unfold LineSearch.clamp
  refine ⟨le_max_left _ _, max_le (by norm_num) (min_le_right _ _)⟩

theorem clamp_mono {x y : ℚ} (h : x ≤ y) :
    LineSearch.clamp x (-1 / 2) 1 ≤ LineSearch.clamp y (-1 / 2) 1 := by
  unfold LineSearch.clamp
  exact max_le_max (le_refl _) (min_le_min h (le_refl _))

theorem finish_window (cfg : LineSearch.Config) (vali : Option LineSearch.Dataset)
    (scorer : LineSearch.Metric) (st : LineSearch.State) :
    (LineSearch.finish cfg vali scorer st).1.cur_reduction_factor =
      LineSearch.reduction cfg st.gain_on_training ∧
    ((LineSearch.finish cfg vali scorer st).2 ≠ LineSearch.Exit.break_validation →
      (LineSearch.finish cfg vali scorer st).1.window_size =
        st.window_size * LineSearch.reduction cfg st.gain_on_training) ∧
    ((LineSearch.finish cfg vali scorer st).2 = LineSearch.Exit.break_validation →
      (LineSearch.finish cfg vali scorer st).1.window_size = st.window_size) ∧
    (vali = none →
      (LineSearch.finish cfg vali scorer st).2 ≠ LineSearch.Exit.break_validation) := by
  unfold LineSearch.finish
  simp only []
  cases vali with
  | none =>
    simp only []
    split_ifs <;> simp
  | some vd =>
    simp only []
    split_ifs <;> simp

/-- C23 (as amended).  The reduction factor of an iteration is `ρ_cur = ρ` when `adaptive` is
false and `ρ_cur = ρ * (1 + clamp((gain - 0.005)/0.005, -0.5, 1))` when it is true.  For
`ρ > 0` and every gain, `ρ/2 ≤ ρ_cur ≤ 2ρ` and `ρ_cur` is non-decreasing in the gain; in the
adaptive mode `ρ_cur = ρ/2` for every gain `≤ 0.0025` and `ρ_cur = 2ρ` for every gain
`≥ 0.01`.  The window after the iteration is `W * ρ_cur`, unless the iteration leaves the loop
through the validation `break`, which comes before the window update and leaves the window as
it was; without a validation set that `break` is never taken. -/
theorem reduction_spec (cfg : LineSearch.Config) (vali : Option LineSearch.Dataset)
    (scorer : LineSearch.Metric) (st : LineSearch.State) (gain gain' : ℚ) :
    (cfg.adaptive_ = false → LineSearch.reduction cfg gain = cfg.reduction_factor_) ∧
    (cfg.adaptive_ = true → LineSearch.reduction cfg gain =
      cfg.reduction_factor_ *
        (1 + LineSearch.clamp ((gain - 5 / 1000) / (5 / 1000)) (-1 / 2) 1)) ∧
    (0 < cfg.reduction_factor_ →
      cfg.reduction_factor_ / 2 ≤ LineSearch.reduction cfg gain ∧
      LineSearch.reduction cfg gain ≤ 2 * cfg.reduction_factor_ ∧
      (gain ≤ gain' → LineSearch.reduction cfg gain ≤ LineSearch.reduction cfg gain')) ∧
    (cfg.adaptive_ = true → gain ≤ 25 / 10000 →
      LineSearch.reduction cfg gain = cfg.reduction_factor_ / 2) ∧
    (cfg.adaptive_ = true → 1 / 100 ≤ gain →
      LineSearch.reduction cfg gain = 2 * cfg.reduction_factor_) ∧
    (LineSearch.finish cfg vali scorer st).1.cur_reduction_factor =
      LineSearch.reduction cfg st.gain_on_training ∧
    ((LineSearch.finish cfg vali scorer st).2 ≠ LineSearch.Exit.break_validation →
      (LineSearch.finish cfg vali scorer st).1.window_size =
        st.window_size * LineSearch.reduction cfg st.gain_on_training) ∧
    ((LineSearch.finish cfg vali scorer st).2 = LineSearch.Exit.break_validation →
      (LineSearch.finish cfg vali scorer st).1.window_size = st.window_size) ∧
    (vali = none →
      (LineSearch.finish cfg vali scorer st).2 ≠ LineSearch.Exit.break_validation) := by
  have hna : cfg.adaptive_ = false → ∀ g, LineSearch.reduction cfg g = cfg.reduction_factor_ := by
    intro ha g
    unfold LineSearch.reduction
    rw [ha]
    simp
  obtain ⟨hf1, hf2, hf3, hf4⟩ := finish_window cfg vali scorer st
  refine ⟨fun ha => hna ha gain, reduction_adaptive cfg gain, ?_, ?_, ?_, hf1, hf2, hf3, hf4⟩
  · intro hρ
    cases ha : cfg.adaptive_ with
    | false =>
      rw [hna ha gain, hna ha gain']
      refine ⟨by linarith, by linarith, fun _ => le_refl _⟩
    | true =>
      rw [reduction_adaptive cfg gain ha, reduction_adaptive cfg gain' ha]
      obtain ⟨h1, h2⟩ := clamp_bounds ((gain - 5 / 1000) / (5 / 1000))
      refine ⟨by nlinarith, by nlinarith, ?_⟩
      intro hg
      have hm : (gain - 5 / 1000) / (5 / 1000) ≤ (gain' - 5 / 1000) / (5 / 1000) :=
        div_le_div_of_nonneg_right (by linarith) (by norm_num)
      have := clamp_mono hm
      nlinarith
  · intro ha hg
    rw [reduction_adaptive cfg gain ha]
    have hx : (gain - 5 / 1000) / (5 / 1000) ≤ -1 / 2 := by
      rw [div_le_iff₀ (by norm_num)]
      linarith
    have hc : LineSearch.clamp ((gain - 5 / 1000) / (5 / 1000)) (-1 / 2) 1 = -1 / 2 := by
      unfold LineSearch.clamp
      exact max_eq_left (le_trans (min_le_left _ _) hx)
    rw [hc]
    ring
  · intro ha hg
    rw [reduction_adaptive cfg gain ha]
    have hx : 1 ≤ (gain - 5 / 1000) / (5 / 1000) := by
      rw [le_div_iff₀ (by norm_num)]
      linarith
    have hc : LineSearch.clamp ((gain - 5 / 1000) / (5 / 1000)) (-1 / 2) 1 = 1 := by
      unfold LineSearch.clamp
      rw [min_eq_right hx]
      exact max_eq_right (by norm_num)
    rw [hc]
    ring

/-- C23, a concrete instance: the adaptive configuration with `ρ = 1/2` and the gain `0` of a
state without a validation set; `ρ_cur = 1/4` and the window `1` becomes `1/4`. -/
theorem reduction_spec_witness :
    (0 : ℚ) < 1 / 2 ∧ (0 : ℚ) ≤ 25 / 10000 ∧
    LineSearch.reduction
      { num_points_ := 2, window_size_ := 1, reduction_factor_ := 1 / 2, max_iterations_ := 1,
        max_failed_vali_ := 0, adaptive_ := true } 0 = 1 / 4 ∧
    (LineSearch.finish
      { num_points_ := 2, window_size_ := 1, reduction_factor_ := 1 / 2, max_iterations_ := 1,
        max_failed_vali_ := 0, adaptive_ := true } none LineSearch.sample_scorer
      LineSearch.sample_state).1.window_size = 1 / 4 := by
  have h := reduction_spec
    { num_points_ := 2, window_size_ := 1, reduction_factor_ := 1 / 2, max_iterations_ := 1,
      max_failed_vali_ := 0, adaptive_ := true } none LineSearch.sample_scorer
    LineSearch.sample_state 0 0
  obtain ⟨_, _, _, h4, _, _, h7, _, h9⟩ := h
  have hr := h4 rfl (by norm_num)
  have hw := h7 (h9 rfl)
  have hg : LineSearch.sample_state.gain_on_training = 0 := rfl
  have hW : LineSearch.sample_state.window_size = 1 := rfl
  rw [hg, hr, hW] at hw
  refine ⟨by norm_num, by norm_num, ?_, ?_⟩
  · rw [hr]; norm_num
  · rw [hw]; norm_num

/-- C23 as stated fails for an iteration that ends in the validation `break`: in the sample
run with `V = 1` the second iteration starts with the window `1/2`, has `ρ_cur = 1/2`, leaves
through the validation `break` and ends with the window still `1/2`, not `1/4`. -/
theorem window_after_break_counterexample :
    LineSearch.iterations LineSearch.sample_cfg_one LineSearch.sample_train
      (some LineSearch.sample_train) LineSearch.sample_scorer 3
      (LineSearch.initial LineSearch.sample_cfg_one LineSearch.sample_train
        (some LineSearch.sample_train) LineSearch.sample_scorer) =
    some [(LineSearch.sample_after_first, LineSearch.Exit.next),
      (LineSearch.sample_after_second, LineSearch.Exit.break_validation)] ∧
    LineSearch.sample_after_first.window_size = 1 / 2 ∧
    LineSearch.sample_after_second.cur_reduction_factor = 1 / 2 ∧
    LineSearch.sample_after_second.window_size = 1 / 2 ∧
    LineSearch.sample_after_second.window_size ≠
      LineSearch.sample_after_first.window_size *
        LineSearch.sample_after_second.cur_reduction_factor := by
  refine ⟨sample_run_one, rfl, rfl, rfl, ?_⟩
  show (1 / 2 : ℚ) ≠ 1 / 2 * (1 / 2)
  norm_num

/-! ### NDCG: the score lies between zero and one -/

theorem weightedGain_eq_sum {α : Type} [LinearOrderedField α] (w : Nat → α) :
    ∀ (l : List Nat) (o : Nat),
      weightedGain w l o =
        ∑ i in Finset.range l.length, ((2 : α) ^ (l.getD i 0) - 1) * w (o + i) := by
  intro l
  induction l with
  | nil => intro o; simp [weightedGain]
  | cons a t ih =>
    intro o
    rw [weightedGain, ih (o + 1), List.length_cons, Finset.sum_range_succ']
    simp only [List.getD_cons_succ, List.getD_cons_zero, add_zero]
    rw [add_comm]
    congr 1
    apply Finset.sum_congr rfl
    intro i _
    rw [show o + 1 + i = o + (i + 1) by omega]

theorem weightedGain_insert {α : Type} [LinearOrderedField α] (w : Nat → α)
    (hw : ∀ i, w (i + 1) ≤ w i) (a : Nat) :
    ∀ (s : List Nat) (o : Nat),
      weightedGain w (a :: s) o ≤
        weightedGain w (s.orderedInsert (fun x y => y ≤ x) a) o := by
  intro s
  induction s with
  | nil => intro o; simp [List.orderedInsert]
  | cons b s ih =>
    intro o
    rw [List.orderedInsert]
    by_cases hab : b ≤ a
    · rw [if_pos hab]
    · rw [if_neg hab]
      have h1 := ih (o + 1)
      simp only [weightedGain] at h1 ⊢
      have hpow : (2 : α) ^ a ≤ 2 ^ b :=
        pow_le_pow_right₀ (by norm_num) (by omega)
      have hwo := hw o
      nlinarith [mul_nonneg (sub_nonneg.mpr hpow) (sub_nonneg.mpr hwo)]

theorem weightedGain_sort {α : Type} [LinearOrderedField α] (w : Nat → α)
    (hw : ∀ i, w (i + 1) ≤ w i) :
    ∀ (l : List Nat) (o : Nat), weightedGain w l o ≤ weightedGain w (double_qsort l) o := by
  intro l
  induction l with
  | nil => intro o; exact le_refl _
  | cons a t ih =>
    intro o
    unfold double_qsort
    rw [List.insertionSort]
    refine le_trans ?_ (weightedGain_insert w hw a _ o)
    simp only [weightedGain]
    have := ih (o + 1)
    unfold double_qsort at this
    linarith

theorem dcgFormula_eq_weightedGain {α : Type} [LinearOrderedField α] (log2 : α → α)
    (l : List Nat) (k' : Nat) (hk : k' ≤ l.length) :
    dcgFormula log2 l k' =
      weightedGain (fun i => if i < k' then 1 / log2 ((i : α) + 2) else 0) l 0 := by
  rw [weightedGain_eq_sum]
  unfold dcgFormula
  have hsub : Finset.range k' ⊆ Finset.range l.length :=
    Finset.range_subset.mpr hk
  rw [← Finset.sum_subset hsub]
  · apply Finset.sum_congr rfl
    intro i hi
    have hi' : i < k' := Finset.mem_range.mp hi
    simp only [zero_add, if_pos hi']
    rw [mul_one_div]
  · intro i _ hi
    have hi' : ¬ i < k' := fun h => hi (Finset.mem_range.mpr h)
    simp only [zero_add, if_neg hi', mul_zero]

theorem dcgFormula_le_sorted {α : Type} [LinearOrderedField α] (log2 : α → α)
    (hlog : ∀ i : Nat, 0 < log2 ((i : α) + 2))
    (hmono : ∀ i : Nat, log2 ((i : α) + 2) ≤ log2 (((i + 1 : Nat) : α) + 2))
    (l : List Nat) (k' : Nat) (hk : k' ≤ l.length) :
    dcgFormula log2 l k' ≤ dcgFormula log2 (double_qsort l) k' := by
  rw [dcgFormula_eq_weightedGain log2 l k' hk,
    dcgFormula_eq_weightedGain log2 (double_qsort l) k' (by rw [double_qsort_length]; exact hk)]
  apply weightedGain_sort
  intro i
  by_cases h1 : i + 1 < k'
  · rw [if_pos h1, if_pos (by omega)]
    exact one_div_le_one_div_of_le (hlog i) (hmono i)
  · rw [if_neg h1]
    split_ifs
    · exact (div_pos one_pos (hlog i)).le
    · exact le_refl _

theorem dcgFormula_nonneg {α : Type} [LinearOrderedField α] (log2 : α → α)
    (hlog : ∀ i : Nat, 0 < log2 ((i : α) + 2)) (l : List Nat) (k' : Nat) :
    0 ≤ dcgFormula log2 l k' := by
  unfold dcgFormula
  apply Finset.sum_nonneg
  intro i _
  apply div_nonneg _ (hlog i).le
  have : (1 : α) ≤ 2 ^ (l.getD i 0) := one_le_pow₀ (by norm_num)
  linarith

/-- C24.  For every non-empty query whose labels are small non-negative integers (below 31)
and every cutoff `k`, the DCG of the labels in the given order is at most the DCG of the same
labels sorted in descending order, both are non-negative, and `compute_score` lies between `0`
and `1`; `log2` is any function that is positive and non-decreasing on the arguments `i + 2`,
as the binary logarithm is. -/
theorem compute_score_bounds {α : Type} [LinearOrderedField α] (log2 : α → α)
    (hlog : ∀ i : Nat, 0 < log2 ((i : α) + 2))
    (hmono : ∀ i : Nat, log2 ((i : α) + 2) ≤ log2 (((i + 1 : Nat) : α) + 2))
    (k : Nat) (labels : List Nat) (hne : labels ≠ []) (hsmall : ∀ y ∈ labels, y < 31) :
    0 ≤ compute_dcg log2 labels labels.length k ∧
    compute_dcg log2 labels labels.length k ≤ compute_idcg log2 labels labels.length k ∧
    0 ≤ ndcgscorer.compute_score log2 k labels ∧
    ndcgscorer.compute_score log2 k labels ≤ 1 := by
  have hlen : labels.length ≠ 0 := fun h => hne (List.length_eq_zero.mp h)
  have hle : ∀ k0, compute_dcg log2 labels labels.length k0 ≤
      compute_idcg log2 labels labels.length k0 := by
    intro k0
    rw [compute_idcg_eq log2 labels _ hsmall, compute_dcg_eq log2 labels _ hsmall]
    apply dcgFormula_le_sorted log2 hlog hmono
    split_ifs <;> omega
  have hnn : ∀ k0, 0 ≤ compute_dcg log2 labels labels.length k0 := by
    intro k0
    rw [compute_dcg_eq log2 labels _ hsmall]
    exact dcgFormula_nonneg log2 hlog _ _
  refine ⟨hnn k, hle k, ?_, ?_⟩
  · unfold ndcgscorer.compute_score
    rw [if_neg hlen]
    simp only []
    generalize (if k < labels.length then k else labels.length) = size
    by_cases hpos : compute_idcg log2 labels labels.length size > 0
    · rw [if_pos hpos]
      exact div_nonneg (hnn _) hpos.le
    · rw [if_neg hpos]
  · unfold ndcgscorer.compute_score
    rw [if_neg hlen]
    simp only []
    generalize (if k < labels.length then k else labels.length) = size
    by_cases hpos : compute_idcg log2 labels labels.length size > 0
    · rw [if_pos hpos, div_le_one hpos]
      exact hle _
    · rw [if_neg hpos]
      exact zero_le_one

theorem logb_two_mono (i : Nat) :
    Real.logb 2 ((i : ℝ) + 2) ≤ Real.logb 2 (((i + 1 : Nat) : ℝ) + 2) := by
  have hi : (0 : ℝ) ≤ (i : ℝ) := Nat.cast_nonneg i
  apply Real.logb_le_logb_of_le (by norm_num) (by linarith)
  push_cast
  linarith

/-- C24, a concrete instance: the labels `[3, 2, 3, 0, 1, 2]` at cutoff `3`, over the reals
with the true binary logarithm; the score lies between `0` and `1`. -/
theorem compute_score_bounds_witness :
    (∀ i : Nat, 0 < (fun x : ℝ => Real.logb 2 x) ((i : ℝ) + 2)) ∧
    ([3, 2, 3, 0, 1, 2] : List Nat) ≠ [] ∧ (∀ y ∈ ([3, 2, 3, 0, 1, 2] : List Nat), y < 31) ∧
    0 ≤ ndcgscorer.compute_score (fun x : ℝ => Real.logb 2 x) 3 [3, 2, 3, 0, 1, 2] ∧
    ndcgscorer.compute_score (fun x : ℝ => Real.logb 2 x) 3 [3, 2, 3, 0, 1, 2] ≤ 1 := by
  have h := compute_score_bounds (fun x : ℝ => Real.logb 2 x) logb_two_pos logb_two_mono 3
    [3, 2, 3, 0, 1, 2] (by decide) (by decide)
  exact ⟨logb_two_pos, by decide, by decide, h.2.2.1, h.2.2.2⟩

/-! ### Line search: what Step 1 and Step 2 do to the state -/

theorem pointsFrom_nonneg (hi step : ℚ) (hstep : 0 < step) (point : ℚ) :
    ∀ x ∈ LineSearch.pointsFrom hi step hstep point, 0 ≤ x := by
  refine LineSearch.pointsFrom.induct hi step hstep
    (fun pt => ∀ x ∈ LineSearch.pointsFrom hi step hstep pt, 0 ≤ x) ?_ ?_ point
  · intro pt hle ih x hx
    rw [LineSearch.pointsFrom, dif_pos hle] at hx
    rcases List.mem_append.mp hx with h1 | h1
    · by_cases h0 : 0 ≤ pt
      · rw [if_pos h0] at h1
        rw [List.mem_singleton.mp h1]
        exact h0
      · rw [if_neg h0] at h1
        exact absurd h1 (List.not_mem_nil x)
    · exact ih x h1
  · intro pt hnle x hx
    rw [LineSearch.pointsFrom, dif_neg hnle] at hx
    exact absurd hx (List.not_mem_nil x)

theorem points_nonneg (w W step : ℚ) (pts : List ℚ)
    (h : LineSearch.points w W step = some pts) : ∀ x ∈ pts, 0 ≤ x := by
  unfold LineSearch.points at h
  by_cases hstep : 0 < step
  · rw [dif_pos hstep] at h
    rw [← Option.some.inj h]
    exact pointsFrom_nonneg _ _ hstep _
  · rw [dif_neg hstep] at h
    split_ifs at h
    rw [← Option.some.inj h]
    intro x hx
    exact absurd hx (List.not_mem_nil x)

theorem getD_nonneg (l : List ℚ) (hl : ∀ x ∈ l, 0 ≤ x) (i : Nat) : 0 ≤ l.getD i 0 := by
  by_cases hi : i < l.length
  · rw [List.getD_eq_getElem _ _ hi]
    exact hl _ (List.getElem_mem _)
  · rw [List.getD_eq_default _ _ (by omega)]

theorem step1_feature_cases (train : LineSearch.Dataset) (scorer : LineSearch.Metric)
    (step : ℚ) (st s : LineSearch.State) (f : Nat)
    (h : LineSearch.step1_feature train scorer step st f = some s) :
    ∃ pts, LineSearch.points (st.weights_prev.getD f 0) st.window_size step = some pts ∧
      s.metric_scores = (List.range pts.length).foldl
        (fun ms p => ms.set p (scorer train
          (LineSearch.step1_column train st.weights_prev f (pts.getD p 0))))
        st.metric_scores ∧
      ((st.best_metric_on_training <
          s.metric_scores.getD (LineSearch.max_element s.metric_scores pts.length) 0 ∧
        s.weights = st.weights.set f
          (pts.getD (LineSearch.max_element s.metric_scores pts.length) 0)) ∨
       (¬ st.best_metric_on_training <
          s.metric_scores.getD (LineSearch.max_element s.metric_scores pts.length) 0 ∧
        s.weights = st.weights)) ∧
      s.weights_prev = st.weights_prev ∧ s.best_weights_ = st.best_weights_ ∧
      s.best_metric_on_training = st.best_metric_on_training ∧
      s.window_size = st.window_size := by
  unfold LineSearch.step1_feature at h
  simp only [] at h
  cases hp : LineSearch.points (st.weights_prev.getD f 0) st.window_size step with
  | none =>
    rw [hp] at h
    exact absurd h (by simp)
  | some pts =>
    rw [hp] at h
    simp only [] at h
    by_cases hgt : ((List.range pts.length).foldl
        (fun ms p => ms.set p (scorer train
          ((List.range train.num_instances).map (fun s =>
            pts.getD p 0 * train.feature_at s f +
              (LineSearch.preCompute train.data train.num_instances train.num_features
                st.weights_prev f).getD s 0))))
        st.metric_scores).getD (LineSearch.max_element ((List.range pts.length).foldl
        (fun ms p => ms.set p (scorer train
          ((List.range train.num_instances).map (fun s =>
            pts.getD p 0 * train.feature_at s f +
              (LineSearch.preCompute train.data train.num_instances train.num_features
                st.weights_prev f).getD s 0))))
        st.metric_scores) pts.length) 0 > st.best_metric_on_training
    · rw [if_pos hgt] at h
      have hs := Option.some.inj h
      subst hs
      exact ⟨pts, rfl, rfl, Or.inl ⟨hgt, rfl⟩, rfl, rfl, rfl, rfl⟩
    · rw [if_neg hgt] at h
      have hs := Option.some.inj h
      subst hs
      exact ⟨pts, rfl, rfl, Or.inr ⟨hgt, rfl⟩, rfl, rfl, rfl, rfl⟩

theorem step1_feature_nonneg (train : LineSearch.Dataset) (scorer : LineSearch.Metric)
    (step : ℚ) (st s : LineSearch.State) (f : Nat)
    (h : LineSearch.step1_feature train scorer step st f = some s)
    (hst : LineSearch.NonNeg st) : LineSearch.NonNeg s := by
  obtain ⟨pts, hpts, _, hw, hwp, hbw, _, _⟩ := step1_feature_cases train scorer step st s f h
  refine ⟨?_, by rw [hwp]; exact hst.2.1, by rw [hbw]; exact hst.2.2⟩
  rcases hw with ⟨_, hw⟩ | ⟨_, hw⟩
  · rw [hw]
    intro x hx
    rcases List.mem_or_eq_of_mem_set hx with hx | hx
    · exact hst.1 x hx
    · rw [hx]
      exact getD_nonneg pts (points_nonneg _ _ _ pts hpts) _
  · rw [hw]
    exact hst.1

theorem step1_nonneg (train : LineSearch.Dataset) (scorer : LineSearch.Metric) (P : Nat)
    (st s : LineSearch.State) (h : LineSearch.step1 train scorer P st = some s)
    (hst : LineSearch.NonNeg st) : LineSearch.NonNeg s :=
  step1_fold_invariant train scorer _ LineSearch.NonNeg
    (fun a b f hab ha => step1_feature_nonneg train scorer _ a b f hab ha)
    _ st s (step1_eq_fold train scorer P st s h) hst

theorem convex_nonneg (a b : ℚ) (p P : Nat) (ha : 0 ≤ a) (hb : 0 ≤ b) (hp : p ≤ P)
    (hP : 1 ≤ P) : 0 ≤ a + (b - a) / (P : ℚ) * (p : ℚ) := by
  have hPq : (0 : ℚ) < (P : ℚ) := by exact_mod_cast hP
  have hpq : (p : ℚ) ≤ (P : ℚ) := by exact_mod_cast hp
  have hp0 : (0 : ℚ) ≤ (p : ℚ) := Nat.cast_nonneg p
  have key : a + (b - a) / (P : ℚ) * (p : ℚ) =
      (a * ((P : ℚ) - (p : ℚ)) + b * (p : ℚ)) / (P : ℚ) := by
    field_simp
    ring
  rw [key]
  exact div_nonneg (add_nonneg (mul_nonneg ha (by linarith)) (mul_nonneg hb hp0)) hPq.le

theorem step2_cases (train : LineSearch.Dataset) (scorer : LineSearch.Metric) (P : Nat)
    (st : LineSearch.State) :
    (LineSearch.step2 train scorer P st).best_weights_ = st.best_weights_ ∧
    (LineSearch.step2 train scorer P st).window_size = st.window_size ∧
    (((LineSearch.step2 train scorer P st).weights = st.weights ∧
      (LineSearch.step2 train scorer P st).weights_prev = st.weights_prev ∧
      (LineSearch.step2 train scorer P st).best_metric_on_training =
        st.best_metric_on_training ∧
      (LineSearch.step2 train scorer P st).gain_on_training = 0) ∨
     (∃ p, p = LineSearch.max_element
          ((List.range (P + 1)).foldl
            (fun ms p => ms.set p (scorer train (LineSearch.step2_column train st.weights_prev
              (LineSearch.step2_vector P st.weights st.weights_prev) p))) st.metric_scores)
          st.metric_scores.length ∧
      st.best_metric_on_training <
        ((List.range (P + 1)).foldl
          (fun ms p => ms.set p (scorer train (LineSearch.step2_column train st.weights_prev
            (LineSearch.step2_vector P st.weights st.weights_prev) p)))
          st.metric_scores).getD p 0 ∧
      (LineSearch.step2 train scorer P st).weights =
        (List.range train.num_features).foldl
          (fun w f => w.set f (st.weights_prev.getD f 0 +
            (LineSearch.step2_vector P st.weights st.weights_prev).getD f 0 * (p : ℚ)))
          st.weights ∧
      (LineSearch.step2 train scorer P st).weights_prev =
        (LineSearch.step2 train scorer P st).weights ∧
      (LineSearch.step2 train scorer P st).best_metric_on_training =
        ((List.range (P + 1)).foldl
          (fun ms p => ms.set p (scorer train (LineSearch.step2_column train st.weights_prev
            (LineSearch.step2_vector P st.weights st.weights_prev) p)))
          st.metric_scores).getD p 0)) := by
  unfold LineSearch.step2
  simp only [foldl_set_length]
  split_ifs with h1 h2
  · exact ⟨rfl, rfl, Or.inl ⟨rfl, rfl, rfl, rfl⟩⟩
  · exact ⟨rfl, rfl, Or.inr ⟨_, rfl, h2, rfl, rfl, rfl⟩⟩
  · exact ⟨rfl, rfl, Or.inl ⟨rfl, rfl, rfl, rfl⟩⟩

/-! ### Line search: the weights stay non-negative -/

theorem step2_nonneg (train : LineSearch.Dataset) (scorer : LineSearch.Metric) (P : Nat)
    (st : LineSearch.State) (hP : 1 ≤ P) (hms : st.metric_scores.length = P + 1)
    (hw : st.weights.length = train.num_features)
    (hwp : st.weights_prev.length = train.num_features)
    (hst : LineSearch.NonNeg st) : LineSearch.NonNeg (LineSearch.step2 train scorer P st) := by
  obtain ⟨hbw, _, hcase⟩ := step2_cases train scorer P st
  rcases hcase with ⟨h1, h2, _, _⟩ | ⟨p, hp, _, h1, h2, _⟩
  · exact ⟨by rw [h1]; exact hst.1, by rw [h2]; exact hst.2.1, by rw [hbw]; exact hst.2.2⟩
  · have hple : p ≤ P := by
      have := (max_element_spec ((List.range (P + 1)).foldl
        (fun ms p => ms.set p (scorer train (LineSearch.step2_column train st.weights_prev
          (LineSearch.step2_vector P st.weights st.weights_prev) p))) st.metric_scores)
        st.metric_scores.length (by omega)).1
      rw [← hp] at this
      omega
    have hnew : ∀ x ∈ (LineSearch.step2 train scorer P st).weights, 0 ≤ x := by
      intro x hx
      rw [h1] at hx
      obtain ⟨i, hi, hxi⟩ := List.getElem_of_mem hx
      rw [foldl_set_length] at hi
      have hget := foldl_set_getD (fun f => st.weights_prev.getD f 0 +
        (LineSearch.step2_vector P st.weights st.weights_prev).getD f 0 * (p : ℚ))
        train.num_features st.weights i
      rw [List.getD_eq_getElem _ _ (by rw [foldl_set_length]; exact hi), hxi,
        if_pos ⟨by omega, hi⟩,
        step2_vector_getD P st.weights st.weights_prev i hi (by omega)] at hget
      rw [hget]
      exact convex_nonneg _ _ p P (getD_nonneg _ hst.2.1 i) (getD_nonneg _ hst.1 i) hple hP
    exact ⟨hnew, by rw [h2]; exact hnew, by rw [hbw]; exact hst.2.2⟩

theorem finish_best_weights (cfg : LineSearch.Config) (vali : Option LineSearch.Dataset)
    (scorer : LineSearch.Metric) (st : LineSearch.State) :
    (LineSearch.finish cfg vali scorer st).1.best_weights_ = st.best_weights_ ∨
    (LineSearch.finish cfg vali scorer st).1.best_weights_ = st.weights := by
  unfold LineSearch.finish
  simp only []
  cases vali with
  | none => simp only []; split_ifs <;> exact Or.inl rfl
  | some vd =>
    simp only []
    split_ifs
    · exact Or.inr rfl
    · exact Or.inr rfl
    · exact Or.inl rfl
    · exact Or.inl rfl
    · exact Or.inl rfl

theorem finish_nonneg (cfg : LineSearch.Config) (vali : Option LineSearch.Dataset)
    (scorer : LineSearch.Metric) (st : LineSearch.State) (hst : LineSearch.NonNeg st) :
    LineSearch.NonNeg (LineSearch.finish cfg vali scorer st).1 := by
  obtain ⟨_, h2, h3⟩ := finish_lengths cfg vali scorer st
  refine ⟨by rw [h2]; exact hst.1, by rw [h3]; exact hst.2.1, ?_⟩
  rcases finish_best_weights cfg vali scorer st with h | h
  · rw [h]; exact hst.2.2
  · rw [h]; exact hst.1

theorem step1_pos_points (train : LineSearch.Dataset) (scorer : LineSearch.Metric) (P : Nat)
    (st s : LineSearch.State) (h : LineSearch.step1 train scorer P st = some s) : 1 ≤ P := by
  unfold LineSearch.step1 at h
  by_cases hP : P = 0
  · rw [if_pos hP] at h
    exact absurd h (by simp)
  · omega

theorem iteration_nonneg (cfg : LineSearch.Config) (train : LineSearch.Dataset)
    (vali : Option LineSearch.Dataset) (scorer : LineSearch.Metric)
    (st s : LineSearch.State) (e : LineSearch.Exit)
    (h : LineSearch.iteration cfg train vali scorer st = some (s, e))
    (hsz : LineSearch.Sized cfg train st) (hst : LineSearch.NonNeg st) :
    LineSearch.Sized cfg train s ∧ LineSearch.NonNeg s ∧
    ∃ s1, LineSearch.step1 train scorer (LineSearch.even_points cfg) st = some s1 ∧
      LineSearch.NonNeg s1 := by
  obtain ⟨⟨s1, hs1, a1, a2, a3⟩, b1, b2, b3⟩ :=
    iteration_lengths cfg train vali scorer st s e h hsz.1 hsz.2.1 hsz.2.2
  have hn1 := step1_nonneg train scorer _ st s1 hs1 hst
  refine ⟨⟨b1, b2, b3⟩, ?_, s1, hs1, hn1⟩
  unfold LineSearch.iteration at h
  rw [hs1] at h
  simp only [Option.some.injEq] at h
  have hP := step1_pos_points train scorer _ st s1 hs1
  have hn2 := step2_nonneg train scorer _ s1 hP a1 a2 a3 hn1
  have hn3 := finish_nonneg cfg vali scorer _ hn2
  rw [h] at hn3
  exact hn3

theorem iterations_invariant (cfg : LineSearch.Config) (train : LineSearch.Dataset)
    (vali : Option LineSearch.Dataset) (scorer : LineSearch.Metric)
    (Q : LineSearch.State → Prop)
    (hQ : ∀ st s e, LineSearch.iteration cfg train vali scorer st = some (s, e) → Q st → Q s) :
    ∀ (n : Nat) (st : LineSearch.State) (trace : List (LineSearch.State × LineSearch.Exit)),
      LineSearch.iterations cfg train vali scorer n st = some trace → Q st →
      ∀ x ∈ trace, Q x.1 := by
  intro n
  induction n with
  | zero =>
    intro st trace h _ x hx
    simp only [LineSearch.iterations, Option.some.injEq] at h
    subst h
    exact absurd hx (List.not_mem_nil x)
  | succ n ih =>
    intro st trace h hq x hx
    unfold LineSearch.iterations at h
    cases hi : LineSearch.iteration cfg train vali scorer st with
    | none => rw [hi] at h; exact absurd h (by simp)
    | some r =>
      obtain ⟨s, e⟩ := r
      have hqs := hQ st s e hi hq
      rw [hi] at h
      cases e with
      | next =>
        simp only [Option.map_eq_some'] at h
        obtain ⟨l, hl, rfl⟩ := h
        rcases List.mem_cons.mp hx with hx | hx
        · rw [hx]; exact hqs
        · exact ih s l hl hqs x hx
      | break_validation =>
        simp only [Option.some.injEq] at h
        subst h
        rw [List.mem_singleton.mp hx]
        exact hqs
      | break_window =>
        simp only [Option.some.injEq] at h
        subst h
        rw [List.mem_singleton.mp hx]
        exact hqs

theorem initial_nonneg (cfg : LineSearch.Config) (train : LineSearch.Dataset)
    (vali : Option LineSearch.Dataset) (scorer : LineSearch.Metric) :
    LineSearch.NonNeg (LineSearch.initial cfg train vali scorer) := by
  have h1 : ∀ x ∈ List.replicate train.num_features (1 : ℚ), 0 ≤ x := by
    intro x hx
    rw [List.eq_of_mem_replicate hx]
    exact zero_le_one
  exact ⟨h1, h1, h1⟩

theorem last_state_mem (st : LineSearch.State)
    (trace : List (LineSearch.State × LineSearch.Exit)) :
    LineSearch.last_state st trace = st ∨
      ∃ x ∈ trace, LineSearch.last_state st trace = x.1 := by
  unfold LineSearch.last_state
  cases hl : trace.getLast? with
  | none => exact Or.inl rfl
  | some x =>
    obtain ⟨s, e⟩ := x
    exact Or.inr ⟨(s, e), List.mem_of_getLast?_eq_some hl, rfl⟩

/-- C26.  On every run of `learn` every component of `weights`, `weights_prev` and
`best_weights_` is non-negative: in the state in which the loop is entered (all ones), after
Step 1 of every iteration, at the end of every iteration, and in the final state that `learn`
returns.  Step 1 only assigns candidates, which are all `≥ 0`, and Step 2 assigns
`w_prev[f] + p * (w[f] - w_prev[f]) / P` with `0 ≤ p ≤ P`, a convex combination of two
non-negative values. -/
theorem weights_nonneg (cfg : LineSearch.Config) (train : LineSearch.Dataset)
    (vali : Option LineSearch.Dataset) (scorer : LineSearch.Metric) :
    LineSearch.NonNeg (LineSearch.initial cfg train vali scorer) ∧
    (∀ (n : Nat) (trace : List (LineSearch.State × LineSearch.Exit)),
      LineSearch.iterations cfg train vali scorer n
        (LineSearch.initial cfg train vali scorer) = some trace →
      ∀ x ∈ trace, LineSearch.NonNeg x.1) ∧
    (∀ (st s : LineSearch.State) (e : LineSearch.Exit),
      LineSearch.Sized cfg train st → LineSearch.NonNeg st →
      LineSearch.iteration cfg train vali scorer st = some (s, e) →
      LineSearch.NonNeg s ∧
      ∃ s1, LineSearch.step1 train scorer (LineSearch.even_points cfg) st = some s1 ∧
        LineSearch.NonNeg s1) ∧
    (∀ final, LineSearch.learn cfg train vali scorer = some final →
      LineSearch.NonNeg final) := by
  have hinit := initial_nonneg cfg train vali scorer
  have hsz : LineSearch.Sized cfg train (LineSearch.initial cfg train vali scorer) :=
    initial_lengths cfg train vali scorer
  have htrace : ∀ (n : Nat) (trace : List (LineSearch.State × LineSearch.Exit)),
      LineSearch.iterations cfg train vali scorer n
        (LineSearch.initial cfg train vali scorer) = some trace →
      ∀ x ∈ trace, LineSearch.Sized cfg train x.1 ∧ LineSearch.NonNeg x.1 := by
    intro n trace h
    exact iterations_invariant cfg train vali scorer
      (fun x => LineSearch.Sized cfg train x ∧ LineSearch.NonNeg x)
      (fun st s e hi hq =>
        ⟨(iteration_nonneg cfg train vali scorer st s e hi hq.1 hq.2).1,
          (iteration_nonneg cfg train vali scorer st s e hi hq.1 hq.2).2.1⟩)
      n _ trace h ⟨hsz, hinit⟩
  refine ⟨hinit, fun n trace h x hx => (htrace n trace h x hx).2, ?_, ?_⟩
  · intro st s e hs hn hi
    exact (iteration_nonneg cfg train vali scorer st s e hi hs hn).2
  · intro final hfinal
    unfold LineSearch.learn at hfinal
    simp only [] at hfinal
    cases ht : LineSearch.iterations cfg train vali scorer cfg.max_iterations_
        (LineSearch.initial cfg train vali scorer) with
    | none => rw [ht] at hfinal; exact absurd hfinal (by simp)
    | some trace =>
      rw [ht] at hfinal
      simp only [] at hfinal
      have hlast : LineSearch.NonNeg
          (LineSearch.last_state (LineSearch.initial cfg train vali scorer) trace) := by
        rcases last_state_mem (LineSearch.initial cfg train vali scorer) trace with h | h
        · rw [h]; exact hinit
        · obtain ⟨x, hx, hxl⟩ := h
          rw [hxl]
          exact (htrace _ trace ht x hx).2
      cases vali with
      | none =>
        simp only [Option.some.injEq] at hfinal
        rw [← hfinal]
        exact ⟨hlast.1, hlast.2.1, hlast.1⟩
      | some vd =>
        simp only [Option.some.injEq] at hfinal
        rw [← hfinal]
        exact hlast

/-- C26, a concrete run: in the sample run with a validation set the weights after the two
iterations are `[2]`, and the state `learn` returns has non-negative weights. -/
theorem weights_nonneg_witness :
    LineSearch.iterations LineSearch.sample_cfg_one LineSearch.sample_train
      (some LineSearch.sample_train) LineSearch.sample_scorer 3
      (LineSearch.initial LineSearch.sample_cfg_one LineSearch.sample_train
        (some LineSearch.sample_train) LineSearch.sample_scorer) =
    some [(LineSearch.sample_after_first, LineSearch.Exit.next),
      (LineSearch.sample_after_second, LineSearch.Exit.break_validation)] ∧
    LineSearch.NonNeg LineSearch.sample_after_first ∧
    LineSearch.NonNeg LineSearch.sample_after_second ∧
    LineSearch.learn LineSearch.sample_cfg_one LineSearch.sample_train
      (some LineSearch.sample_train) LineSearch.sample_scorer =
        some LineSearch.sample_after_second := by
  have h := weights_nonneg LineSearch.sample_cfg_one LineSearch.sample_train
    (some LineSearch.sample_train) LineSearch.sample_scorer
  have htr := h.2.1 3 _ sample_run_one
  exact ⟨sample_run_one, htr _ (List.mem_cons_self _ _),
    h.2.2.2 _ sample_learn_one, sample_learn_one⟩

/-! ### Line search: the best training metric is the metric of `weights_prev` -/

theorem step1_column_centre (train : LineSearch.Dataset) (wp : List ℚ) (f : Nat) :
    LineSearch.step1_column train wp f (wp.getD f 0) =
      LineSearch.score train.data train.num_instances train.num_features wp := by
  unfold LineSearch.step1_column LineSearch.score LineSearch.preCompute
  apply List.map_congr_left
  intro s hs
  rw [getD_map_range _ _ (List.mem_range.mp hs)]
  unfold LineSearch.Dataset.feature_at
  ring

theorem step2_column_zero (train : LineSearch.Dataset) (wp step2 : List ℚ) :
    LineSearch.step2_column train wp step2 0 =
      LineSearch.score train.data train.num_instances train.num_features wp := by
  unfold LineSearch.step2_column LineSearch.score
  apply List.map_congr_left
  intro s _
  apply List.foldl_ext
  intro acc f _
  unfold LineSearch.Dataset.feature_at
  simp

theorem step2_column_weights (train : LineSearch.Dataset) (wp step2 w : List ℚ) (p : Nat)
    (hw : ∀ f, f < train.num_features → w.getD f 0 = wp.getD f 0 + step2.getD f 0 * (p : ℚ)) :
    LineSearch.score train.data train.num_instances train.num_features w =
      LineSearch.step2_column train wp step2 p := by
  unfold LineSearch.step2_column LineSearch.score
  apply List.map_congr_left
  intro s _
  apply List.foldl_ext
  intro acc f hf
  unfold LineSearch.Dataset.feature_at
  rw [hw f (List.mem_range.mp hf)]

theorem step2_trainInv (train : LineSearch.Dataset) (scorer : LineSearch.Metric) (P : Nat)
    (st : LineSearch.State) (hms : st.metric_scores.length = P + 1)
    (hw : st.weights.length = train.num_features)
    (hst : LineSearch.TrainInv train scorer st) :
    LineSearch.TrainInv train scorer (LineSearch.step2 train scorer P st) := by
  obtain ⟨_, _, hcase⟩ := step2_cases train scorer P st
  unfold LineSearch.TrainInv at hst ⊢
  rcases hcase with ⟨_, h2, h3, _⟩ | ⟨p, hp, _, h1, h2, h3⟩
  · rw [h2, h3]
    exact hst
  · have hple : p < P + 1 := by
      have := (max_element_spec ((List.range (P + 1)).foldl
        (fun ms p => ms.set p (scorer train (LineSearch.step2_column train st.weights_prev
          (LineSearch.step2_vector P st.weights st.weights_prev) p))) st.metric_scores)
        st.metric_scores.length (by omega)).1
      rw [← hp] at this
      omega
    rw [h3, h2, h1]
    rw [foldl_set_getD (fun p => scorer train (LineSearch.step2_column train st.weights_prev
      (LineSearch.step2_vector P st.weights st.weights_prev) p)) (P + 1) st.metric_scores p,
      if_pos ⟨hple, by omega⟩]
    congr 1
    symm
    apply step2_column_weights
    intro f hf
    rw [foldl_set_getD (fun f => st.weights_prev.getD f 0 +
      (LineSearch.step2_vector P st.weights st.weights_prev).getD f 0 * (p : ℚ))
      train.num_features st.weights f, if_pos ⟨hf, by omega⟩]

theorem iteration_trainInv (cfg : LineSearch.Config) (train : LineSearch.Dataset)
    (vali : Option LineSearch.Dataset) (scorer : LineSearch.Metric)
    (st s : LineSearch.State) (e : LineSearch.Exit)
    (h : LineSearch.iteration cfg train vali scorer st = some (s, e))
    (hsz : LineSearch.Sized cfg train st) (hst : LineSearch.TrainInv train scorer st) :
    LineSearch.Sized cfg train s ∧ LineSearch.TrainInv train scorer s := by
  obtain ⟨⟨s1, hs1, a1, a2, a3⟩, b1, b2, b3⟩ :=
    iteration_lengths cfg train vali scorer st s e h hsz.1 hsz.2.1 hsz.2.2
  refine ⟨⟨b1, b2, b3⟩, ?_⟩
  have h1 : LineSearch.TrainInv train scorer s1 := by
    unfold LineSearch.TrainInv at hst ⊢
    rw [step1_best train scorer _ st s1 hs1, (step1_lengths train scorer _ st s1 hs1).2.2]
    exact hst
  have h2 := step2_trainInv train scorer _ s1 a1 a2 h1
  unfold LineSearch.iteration at h
  rw [hs1] at h
  simp only [Option.some.injEq] at h
  have hs : s = (LineSearch.finish cfg vali scorer
      (LineSearch.step2 train scorer (LineSearch.even_points cfg) s1)).1 := by rw [h]
  unfold LineSearch.TrainInv at h2 ⊢
  rw [hs, finish_best, (finish_lengths cfg vali scorer _).2.2]
  exact h2

/-- C27.  On every run of `learn`, when the loop is entered and at the end of every iteration
(so at the start of the next one), `best_metric_on_training` is the scorer's value on the
training set for the scores produced by `weights_prev`.  In a state with this property the
Step 1 column of every feature `f` for the centre candidate `weights_prev[f]` (`pre_sum` plus
`weights_prev[f] * x[s][f]`) has exactly the metric `best_metric_on_training`, and after
Step 1 the Step 2 point `p = 0` has it too, so neither exceeds it. -/
theorem best_metric_of_weights_prev (cfg : LineSearch.Config) (train : LineSearch.Dataset)
    (vali : Option LineSearch.Dataset) (scorer : LineSearch.Metric) :
    LineSearch.TrainInv train scorer (LineSearch.initial cfg train vali scorer) ∧
    (∀ (n : Nat) (trace : List (LineSearch.State × LineSearch.Exit)),
      LineSearch.iterations cfg train vali scorer n
        (LineSearch.initial cfg train vali scorer) = some trace →
      ∀ x ∈ trace, LineSearch.TrainInv train scorer x.1) ∧
    (∀ st, LineSearch.TrainInv train scorer st →
      (∀ f, scorer train (LineSearch.step1_column train st.weights_prev f
          (st.weights_prev.getD f 0)) = st.best_metric_on_training ∧
        ¬ st.best_metric_on_training <
          scorer train (LineSearch.step1_column train st.weights_prev f
            (st.weights_prev.getD f 0))) ∧
      (∀ s1, LineSearch.step1 train scorer (LineSearch.even_points cfg) st = some s1 →
        ∀ step2, scorer train (LineSearch.step2_column train s1.weights_prev step2 0) =
            s1.best_metric_on_training ∧
          ¬ s1.best_metric_on_training <
            scorer train (LineSearch.step2_column train s1.weights_prev step2 0))) := by
  have hinit : LineSearch.TrainInv train scorer (LineSearch.initial cfg train vali scorer) := rfl
  have hsz : LineSearch.Sized cfg train (LineSearch.initial cfg train vali scorer) :=
    initial_lengths cfg train vali scorer
  refine ⟨hinit, ?_, ?_⟩
  · intro n trace h x hx
    exact (iterations_invariant cfg train vali scorer
      (fun x => LineSearch.Sized cfg train x ∧ LineSearch.TrainInv train scorer x)
      (fun st s e hi hq => iteration_trainInv cfg train vali scorer st s e hi hq.1 hq.2)
      n _ trace h ⟨hsz, hinit⟩ x hx).2
  · intro st hst
    unfold LineSearch.TrainInv at hst
    constructor
    · intro f
      have hc : scorer train (LineSearch.step1_column train st.weights_prev f
          (st.weights_prev.getD f 0)) = st.best_metric_on_training := by
        rw [step1_column_centre, hst]
      exact ⟨hc, by rw [hc]; exact lt_irrefl _⟩
    · intro s1 hs1 step2
      have hc : scorer train (LineSearch.step2_column train s1.weights_prev step2 0) =
          s1.best_metric_on_training := by
        rw [step2_column_zero, step1_best train scorer _ st s1 hs1,
          (step1_lengths train scorer _ st s1 hs1).2.2, hst]
      exact ⟨hc, by rw [hc]; exact lt_irrefl _⟩

/-- C27, a concrete run: in the sample run the state after the first iteration has
`weights_prev = [2]` and `best_metric_on_training = 0`, the metric of the scores `[2]`; the
centre candidate `2` of the next Step 1 has the metric `0`. -/
theorem best_metric_of_weights_prev_witness :
    LineSearch.iterations LineSearch.sample_cfg_one LineSearch.sample_train
      (some LineSearch.sample_train) LineSearch.sample_scorer 3
      (LineSearch.initial LineSearch.sample_cfg_one LineSearch.sample_train
        (some LineSearch.sample_train) LineSearch.sample_scorer) =
    some [(LineSearch.sample_after_first, LineSearch.Exit.next),
      (LineSearch.sample_after_second, LineSearch.Exit.break_validation)] ∧
    LineSearch.TrainInv LineSearch.sample_train LineSearch.sample_scorer
      LineSearch.sample_after_first ∧
    LineSearch.sample_scorer LineSearch.sample_train
      (LineSearch.step1_column LineSearch.sample_train
        LineSearch.sample_after_first.weights_prev 0
        (LineSearch.sample_after_first.weights_prev.getD 0 0)) =
      LineSearch.sample_after_first.best_metric_on_training := by
  have h := best_metric_of_weights_prev LineSearch.sample_cfg_one LineSearch.sample_train
    (some LineSearch.sample_train) LineSearch.sample_scorer
  have hinv := h.2.1 3 _ sample_run_one _ (List.mem_cons_self _ _)
  exact ⟨sample_run_one, hinv, ((h.2.2 _ hinv).1 0).1⟩

/-! ### Line search: the size of the validation score buffer -/

theorem points_shape (w W : ℚ) (P : Nat) (hw : 0 ≤ w) (hW : 0 < W) (hP : 1 ≤ P)
    (pts : List ℚ) (h : LineSearch.points w W (2 * W / (P : ℚ)) = some pts) :
    pts ≠ [] ∧ pts.length ≤ P + 1 := by
  have hPq : (0 : ℚ) < (P : ℚ) := by exact_mod_cast hP
  have hstep : 0 < 2 * W / (P : ℚ) := div_pos (by linarith) hPq
  unfold LineSearch.points at h
  rw [dif_pos hstep] at h
  have hhi : w - W + (P : ℚ) * (2 * W / (P : ℚ)) = w + W := by
    field_simp
    ring
  have heq := pointsFrom_eq (w + W) (2 * W / (P : ℚ)) hstep P (w - W)
    (by rw [hhi]) (by
      have : w - W + ((P : ℚ) + 1) * (2 * W / (P : ℚ)) = w + W + 2 * W / (P : ℚ) := by
        rw [← hhi]; ring
      rw [this]
      linarith)
  rw [heq] at h
  have hpts := Option.some.inj h
  rw [← hpts]
  constructor
  · apply List.ne_nil_of_mem (a := w + W)
    rw [List.mem_filter]
    refine ⟨List.mem_map.mpr ⟨P, List.mem_range.mpr (by omega), hhi⟩, ?_⟩
    exact decide_eq_true (by linarith)
  · refine le_trans (List.length_filter_le _ _) ?_
    rw [List.length_map, List.length_range]

theorem step1_feature_stagnant (cfg : LineSearch.Config) (train : LineSearch.Dataset)
    (scorer : LineSearch.Metric) (st0 st s : LineSearch.State) (f : Nat)
    (hf : f < train.num_features)
    (hP : 1 ≤ LineSearch.even_points cfg)
    (hnn : ∀ x ∈ st0.weights_prev, 0 ≤ x) (hW : 0 < st0.window_size)
    (hstag : LineSearch.StagnantAt cfg train scorer st0.weights_prev
      st0.best_metric_on_training st0.window_size)
    (hinv : st.weights = st0.weights ∧ st.weights_prev = st0.weights_prev ∧
      st.best_metric_on_training = st0.best_metric_on_training ∧
      st.window_size = st0.window_size ∧
      st.metric_scores.length = LineSearch.even_points cfg + 1)
    (h : LineSearch.step1_feature train scorer
      (2 * st0.window_size / (LineSearch.even_points cfg : ℚ)) st f = some s) :
    s.weights = st0.weights ∧ s.weights_prev = st0.weights_prev ∧
      s.best_metric_on_training = st0.best_metric_on_training ∧
      s.window_size = st0.window_size ∧
      s.metric_scores.length = LineSearch.even_points cfg + 1 := by
  obtain ⟨i1, i2, i3, i4, i5⟩ := hinv
  obtain ⟨pts, hpts, hms, hcase, hwp, _, hbest, hwin⟩ :=
    step1_feature_cases train scorer _ st s f h
  have hlen := (step1_feature_lengths train scorer _ st s f h).1
  refine ⟨?_, hwp.trans i2, hbest.trans i3, hwin.trans i4, hlen.trans i5⟩
  rcases hcase with ⟨hgt, _⟩ | ⟨_, hsame⟩
  · exfalso
    rw [i2, i4] at hpts
    obtain ⟨hne, hle⟩ := points_shape _ _ _ (getD_nonneg _ hnn f) hW hP pts hpts
    have hpos : 0 < pts.length := List.length_pos.mpr hne
    have hp := (max_element_spec s.metric_scores pts.length hpos).1
    have hgen : ∀ q, q < pts.length → s.metric_scores.getD q 0 =
        scorer train (LineSearch.step1_column train st.weights_prev f (pts.getD q 0)) := by
      intro q hq
      rw [hms, foldl_set_getD (fun p => scorer train
        (LineSearch.step1_column train st.weights_prev f (pts.getD p 0))) pts.length
        st.metric_scores, if_pos ⟨hq, by omega⟩]
    have hval := hgen _ hp
    rw [hval, i2, i3] at hgt
    refine hstag f hf pts hpts _ ?_ hgt
    rw [List.getD_eq_getElem _ _ hp]
    exact List.getElem_mem _
  · exact hsame.trans i1

theorem step1_fold_stagnant (cfg : LineSearch.Config) (train : LineSearch.Dataset)
    (scorer : LineSearch.Metric) (st0 : LineSearch.State)
    (hP : 1 ≤ LineSearch.even_points cfg)
    (hnn : ∀ x ∈ st0.weights_prev, 0 ≤ x) (hW : 0 < st0.window_size)
    (hstag : LineSearch.StagnantAt cfg train scorer st0.weights_prev
      st0.best_metric_on_training st0.window_size) :
    ∀ (l : List Nat), (∀ f ∈ l, f < train.num_features) → ∀ (st s : LineSearch.State),
      l.foldl (fun acc f => acc.bind (fun s => LineSearch.step1_feature train scorer
        (2 * st0.window_size / (LineSearch.even_points cfg : ℚ)) s f)) (some st) = some s →
      (st.weights = st0.weights ∧ st.weights_prev = st0.weights_prev ∧
        st.best_metric_on_training = st0.best_metric_on_training ∧
        st.window_size = st0.window_size ∧
        st.metric_scores.length = LineSearch.even_points cfg + 1) →
      (s.weights = st0.weights ∧ s.weights_prev = st0.weights_prev ∧
        s.best_metric_on_training = st0.best_metric_on_training ∧
        s.window_size = st0.window_size ∧
        s.metric_scores.length = LineSearch.even_points cfg + 1) := by
  intro l
  induction l with
  | nil => intro _ st s h hq; simp at h; rw [← h]; exact hq
  | cons f l ih =>
    intro hl st s h hq
    rw [List.foldl_cons, Option.some_bind] at h
    obtain ⟨s1, hs1, _⟩ := step1_feature_some train scorer
      (2 * st0.window_size / (LineSearch.even_points cfg : ℚ))
      (div_pos (by linarith) (by exact_mod_cast hP)) st f
    rw [hs1] at h
    exact ih (fun g hg => hl g (List.mem_cons_of_mem _ hg)) s1 s h
      (step1_feature_stagnant cfg train scorer st0 st s1 f (hl f (List.mem_cons_self _ _))
        hP hnn hW hstag hq hs1)

theorem step1_stagnant (cfg : LineSearch.Config) (train : LineSearch.Dataset)
    (scorer : LineSearch.Metric) (st : LineSearch.State)
    (hsz : LineSearch.Sized cfg train st)
    (hP : 1 ≤ LineSearch.even_points cfg)
    (hnn : ∀ x ∈ st.weights_prev, 0 ≤ x) (hW : 0 < st.window_size)
    (hstag : LineSearch.StagnantAt cfg train scorer st.weights_prev
      st.best_metric_on_training st.window_size) :
    ∃ s1, LineSearch.step1 train scorer (LineSearch.even_points cfg) st = some s1 ∧
      s1.weights = st.weights ∧ s1.weights_prev = st.weights_prev ∧
      s1.best_metric_on_training = st.best_metric_on_training ∧
      s1.window_size = st.window_size ∧
      s1.metric_scores.length = LineSearch.even_points cfg + 1 := by
  obtain ⟨s1, hs1⟩ := step1_some train scorer (LineSearch.even_points cfg) hP st hW
  exact ⟨s1, hs1, step1_fold_stagnant cfg train scorer st hP hnn hW hstag
    (List.range train.num_features) (fun f hf => List.mem_range.mp hf) st s1
    (step1_eq_fold train scorer _ st s1 hs1) ⟨rfl, rfl, rfl, rfl, hsz.1⟩⟩

theorem step2_vector_zero (P : Nat) (w : List ℚ) :
    (LineSearch.step2_vector P w w).all (fun s => decide (s = 0)) = true := by
  unfold LineSearch.step2_vector
  rw [List.all_eq_true]
  intro x hx
  obtain ⟨i, hi, hxi⟩ := List.getElem_of_mem hx
  rw [List.getElem_zipWith] at hxi
  rw [← hxi]
  simp

theorem step2_stagnant (train : LineSearch.Dataset) (scorer : LineSearch.Metric) (P : Nat)
    (st : LineSearch.State) (hw : st.weights = st.weights_prev) :
    LineSearch.step2 train scorer P st = { st with gain_on_training := 0 } := by
  unfold LineSearch.step2
  simp only []
  rw [hw, if_pos (step2_vector_zero P st.weights_prev)]

theorem reduction_zero (cfg : LineSearch.Config) (ha : cfg.adaptive_ = true) :
    LineSearch.reduction cfg 0 = cfg.reduction_factor_ / 2 := by
  unfold LineSearch.reduction
  rw [if_pos ha]
  simp only []
  have h1 : min (((0 : ℚ) - 5 / 1000) / (5 / 1000)) 1 = -1 := by norm_num
  rw [h1]
  have h2 : max (-1 : ℚ) (-1 / 2) = -1 / 2 := by norm_num
  rw [h2]
  ring

theorem finish_gain (cfg : LineSearch.Config) (vali : Option LineSearch.Dataset)
    (scorer : LineSearch.Metric) (st : LineSearch.State) :
    (LineSearch.finish cfg vali scorer st).1.gain_on_training = st.gain_on_training := by
  unfold LineSearch.finish
  simp only []
  cases vali with
  | none => simp only []; split_ifs <;> rfl
  | some vd => simp only []; split_ifs <;> rfl

theorem finish_none_exit (cfg : LineSearch.Config) (scorer : LineSearch.Metric)
    (st : LineSearch.State) :
    ((cfg.adaptive_ = true ∧
        st.window_size * LineSearch.reduction cfg st.gain_on_training < 1 / 100) →
      (LineSearch.finish cfg none scorer st).2 = LineSearch.Exit.break_window) ∧
    (¬ (cfg.adaptive_ = true ∧
        st.window_size * LineSearch.reduction cfg st.gain_on_training < 1 / 100) →
      (LineSearch.finish cfg none scorer st).2 = LineSearch.Exit.next) := by
  unfold LineSearch.finish
  simp only []
  constructor
  · intro h
    rw [if_pos h]
  · intro h
    rw [if_neg h]

theorem iteration_stagnant (cfg : LineSearch.Config) (train : LineSearch.Dataset)
    (vali : Option LineSearch.Dataset) (scorer : LineSearch.Metric) (st : LineSearch.State)
    (hsz : LineSearch.Sized cfg train st)
    (hP : 1 ≤ LineSearch.even_points cfg)
    (hnn : ∀ x ∈ st.weights_prev, 0 ≤ x) (hW : 0 < st.window_size)
    (hw : st.weights = st.weights_prev)
    (hstag : LineSearch.StagnantAt cfg train scorer st.weights_prev
      st.best_metric_on_training st.window_size) :
    ∃ s1 s e, LineSearch.step1 train scorer (LineSearch.even_points cfg) st = some s1 ∧
      s1.weights = st.weights ∧ s1.weights_prev = st.weights_prev ∧
      (LineSearch.step2_vector (LineSearch.even_points cfg) s1.weights s1.weights_prev).all
        (fun x => decide (x = 0)) = true ∧
      (s, e) = LineSearch.finish cfg vali scorer { s1 with gain_on_training := 0 } ∧
      LineSearch.iteration cfg train vali scorer st = some (s, e) ∧
      s.gain_on_training = 0 ∧ s.weights = st.weights ∧ s.weights_prev = st.weights_prev ∧
      s.best_metric_on_training = st.best_metric_on_training ∧
      LineSearch.Sized cfg train s ∧
      s.cur_reduction_factor = LineSearch.reduction cfg 0 ∧
      (e ≠ LineSearch.Exit.break_validation →
        s.window_size = st.window_size * LineSearch.reduction cfg 0) ∧
      (e = LineSearch.Exit.break_validation → s.window_size = st.window_size) ∧
      (vali = none → e ≠ LineSearch.Exit.break_validation ∧
        (e = LineSearch.Exit.break_window ↔ (cfg.adaptive_ = true ∧
          st.window_size * LineSearch.reduction cfg 0 < 1 / 100))) := by
  obtain ⟨s1, hs1, a1, a2, a3, a4, a5⟩ := step1_stagnant cfg train scorer st hsz hP hnn hW hstag
  have hw1 : s1.weights = s1.weights_prev := by rw [a1, a2, hw]
  have h2 := step2_stagnant train scorer (LineSearch.even_points cfg) s1 hw1
  have hit : LineSearch.iteration cfg train vali scorer st =
      some (LineSearch.finish cfg vali scorer { s1 with gain_on_training := 0 }) := by
    unfold LineSearch.iteration
    rw [hs1]
    simp only []
    rw [h2]
  obtain ⟨c1, c2, c3⟩ := finish_lengths cfg vali scorer { s1 with gain_on_training := 0 }
  obtain ⟨w1, w2, w3, _⟩ := finish_window cfg vali scorer { s1 with gain_on_training := 0 }
  refine ⟨s1, (LineSearch.finish cfg vali scorer { s1 with gain_on_training := 0 }).1,
    (LineSearch.finish cfg vali scorer { s1 with gain_on_training := 0 }).2, hs1, a1, a2, ?_,
    rfl, hit, ?_, ?_, ?_, ?_, ?_, w1, ?_, ?_, ?_⟩
  · rw [hw1]
    exact step2_vector_zero _ _
  · rw [finish_gain]
  · rw [c2]
    exact a1
  · rw [c3]
    exact a2
  · rw [finish_best]
    exact a3
  · refine ⟨by rw [c1]; exact a5, by rw [c2, a1]; exact hsz.2.1,
      by rw [c3, a2]; exact hsz.2.2⟩
  · intro he
    rw [w2 he]
    exact congrArg (fun x => x * LineSearch.reduction cfg 0) a4
  · intro he
    rw [w3 he]
    exact a4
  · intro hv
    subst hv
    refine ⟨(finish_window cfg none scorer { s1 with gain_on_training := 0 }).2.2.2 rfl, ?_⟩
    obtain ⟨e1, e2⟩ := finish_none_exit cfg scorer { s1 with gain_on_training := 0 }
    constructor
    · intro he
      by_contra hcon
      have hcon2 : ¬ (cfg.adaptive_ = true ∧
          ({ s1 with gain_on_training := 0 } : LineSearch.State).window_size *
            LineSearch.reduction cfg
              ({ s1 with gain_on_training := 0 } : LineSearch.State).gain_on_training <
            1 / 100) := by
        intro h
        apply hcon
        refine ⟨h.1, ?_⟩
        have h2 : s1.window_size * LineSearch.reduction cfg 0 < 1 / 100 := h.2
        rw [a4] at h2
        exact h2
      rw [e2 hcon2] at he
      exact absurd he (by decide)
    · intro h
      apply e1
      refine ⟨h.1, ?_⟩
      show s1.window_size * LineSearch.reduction cfg 0 < 1 / 100
      rw [a4]
      exact h.2

theorem iterations_stagnant_windows (cfg : LineSearch.Config) (train : LineSearch.Dataset)
    (scorer : LineSearch.Metric) (ha : cfg.adaptive_ = true)
    (hP : 1 ≤ LineSearch.even_points cfg) (wp : List ℚ) (best : ℚ)
    (hnn : ∀ x ∈ wp, 0 ≤ x)
    (hstag : ∀ W, 0 < W → LineSearch.StagnantAt cfg train scorer wp best W) :
    ∀ (n : Nat) (st : LineSearch.State) (trace : List (LineSearch.State × LineSearch.Exit)),
      LineSearch.Sized cfg train st → st.weights = wp → st.weights_prev = wp →
      st.best_metric_on_training = best → 0 < st.window_size →
      LineSearch.iterations cfg train none scorer n st = some trace →
      ∀ (k : Nat) (hk : k < trace.length),
        (trace.get ⟨k, hk⟩).1.window_size =
          st.window_size * (cfg.reduction_factor_ / 2) ^ (k + 1) ∧
        (trace.get ⟨k, hk⟩).1.weights = wp ∧ (trace.get ⟨k, hk⟩).1.weights_prev = wp ∧
        (trace.get ⟨k, hk⟩).1.best_metric_on_training = best ∧
        (trace.get ⟨k, hk⟩).1.gain_on_training = 0 := by
  intro n
  induction n with
  | zero =>
    intro st trace _ _ _ _ _ h k hk
    simp only [LineSearch.iterations, Option.some.injEq] at h
    subst h
    exact absurd hk (by simp)
  | succ n ih =>
    intro st trace hsz hw hwp hb hW h k hk
    obtain ⟨s1, s, e, _, _, _, _, _, hit, g1, g2, g3, g4, g5, _, g7, _, g9⟩ :=
      iteration_stagnant cfg train none scorer st hsz hP (by rw [hwp]; exact hnn) hW
        (hw.trans hwp.symm) (by rw [hwp, hb]; exact hstag _ hW)
    obtain ⟨hnb, hbw⟩ := g9 rfl
    have hwin : s.window_size = st.window_size * (cfg.reduction_factor_ / 2) := by
      rw [g7 hnb, reduction_zero cfg ha]
    have hfirst : s.window_size = st.window_size * (cfg.reduction_factor_ / 2) ^ (0 + 1) ∧
        s.weights = wp ∧ s.weights_prev = wp ∧ s.best_metric_on_training = best ∧
        s.gain_on_training = 0 :=
      ⟨by rw [hwin]; ring, g2.trans hw, g3.trans hwp, g4.trans hb, g1⟩
    unfold LineSearch.iterations at h
    rw [hit] at h
    cases e with
    | next =>
      simp only [Option.map_eq_some'] at h
      obtain ⟨l, hl, rfl⟩ := h
      have hpos : 0 < s.window_size := by
        by_contra hcon
        have : LineSearch.Exit.next = LineSearch.Exit.break_window :=
          hbw.mpr ⟨ha, by rw [reduction_zero cfg ha, ← hwin]; linarith⟩
        exact absurd this (by decide)
      cases k with
      | zero => exact hfirst
      | succ k =>
        have hk2 : k < l.length := by
          rw [List.length_cons] at hk
          omega
        have hrec := ih s l g5 (g2.trans hw) (g3.trans hwp) (g4.trans hb) hpos hl k hk2
        have hget : ((s, LineSearch.Exit.next) :: l).get ⟨k + 1, hk⟩ = l.get ⟨k, hk2⟩ := rfl
        rw [hget]
        refine ⟨?_, hrec.2⟩
        rw [hrec.1, hwin]
        ring
    | break_validation => exact absurd rfl hnb
    | break_window =>
      simp only [Option.some.injEq] at h
      subst h
      cases k with
      | zero => exact hfirst
      | succ k =>
        rw [List.length_singleton] at hk
        omega

theorem iterations_stagnant_break (cfg : LineSearch.Config) (train : LineSearch.Dataset)
    (scorer : LineSearch.Metric) (ha : cfg.adaptive_ = true)
    (hP : 1 ≤ LineSearch.even_points cfg) (wp : List ℚ) (best : ℚ)
    (hnn : ∀ x ∈ wp, 0 ≤ x)
    (hstag : ∀ W, 0 < W → LineSearch.StagnantAt cfg train scorer wp best W) :
    ∀ (m : Nat) (st : LineSearch.State),
      LineSearch.Sized cfg train st → st.weights = wp → st.weights_prev = wp →
      st.best_metric_on_training = best → 0 < st.window_size →
      st.window_size * (cfg.reduction_factor_ / 2) ^ (m + 1) < 1 / 100 →
      ∀ n, m + 1 ≤ n →
        ∃ trace s, LineSearch.iterations cfg train none scorer n st = some trace ∧
          trace.getLast? = some (s, LineSearch.Exit.break_window) ∧
          s.window_size < 1 / 100 ∧ trace.length ≤ m + 1 := by
  intro m
  induction m with
  | zero =>
    intro st hsz hw hwp hb hW hsmall n hn
    obtain ⟨s1, s, e, _, _, _, _, _, hit, g1, g2, g3, g4, g5, _, g7, _, g9⟩ :=
      iteration_stagnant cfg train none scorer st hsz hP (by rw [hwp]; exact hnn) hW
        (hw.trans hwp.symm) (by rw [hwp, hb]; exact hstag _ hW)
    obtain ⟨hnb, hbw⟩ := g9 rfl
    have hwin : s.window_size = st.window_size * (cfg.reduction_factor_ / 2) := by
      rw [g7 hnb, reduction_zero cfg ha]
    have hlt : st.window_size * (cfg.reduction_factor_ / 2) < 1 / 100 := by
      have := hsmall
      rw [zero_add, pow_one] at this
      exact this
    have he : e = LineSearch.Exit.break_window :=
      hbw.mpr ⟨ha, by rw [reduction_zero cfg ha]; exact hlt⟩
    subst he
    obtain ⟨n, rfl⟩ : ∃ n2, n = n2 + 1 := ⟨n - 1, by omega⟩
    refine ⟨[(s, LineSearch.Exit.break_window)], s, ?_, rfl, by rw [hwin]; exact hlt,
      by simp⟩
    unfold LineSearch.iterations
    rw [hit]
  | succ m ih =>
    intro st hsz hw hwp hb hW hsmall n hn
    obtain ⟨s1, s, e, _, _, _, _, _, hit, g1, g2, g3, g4, g5, _, g7, _, g9⟩ :=
      iteration_stagnant cfg train none scorer st hsz hP (by rw [hwp]; exact hnn) hW
        (hw.trans hwp.symm) (by rw [hwp, hb]; exact hstag _ hW)
    obtain ⟨hnb, hbw⟩ := g9 rfl
    have hwin : s.window_size = st.window_size * (cfg.reduction_factor_ / 2) := by
      rw [g7 hnb, reduction_zero cfg ha]
    obtain ⟨n, rfl⟩ : ∃ n2, n = n2 + 1 := ⟨n - 1, by omega⟩
    cases e with
    | next =>
      have hpos : 0 < s.window_size := by
        by_contra hcon
        have : LineSearch.Exit.next = LineSearch.Exit.break_window :=
          hbw.mpr ⟨ha, by rw [reduction_zero cfg ha, ← hwin]; linarith⟩
        exact absurd this (by decide)
      have hsmall2 : s.window_size * (cfg.reduction_factor_ / 2) ^ (m + 1) < 1 / 100 := by
        have : s.window_size * (cfg.reduction_factor_ / 2) ^ (m + 1) =
            st.window_size * (cfg.reduction_factor_ / 2) ^ (m + 1 + 1) := by
          rw [hwin]
          ring
        rw [this]
        exact hsmall
      obtain ⟨l, t, hl, hlast, hts, hlen⟩ :=
        ih s g5 (g2.trans hw) (g3.trans hwp) (g4.trans hb) hpos hsmall2 n (by omega)
      refine ⟨(s, LineSearch.Exit.next) :: l, t, ?_, ?_, hts, by
        rw [List.length_cons]; omega⟩
      · unfold LineSearch.iterations
        rw [hit]
        simp only [hl, Option.map_some']
      · cases l with
        | nil => simp at hlast
        | cons b l2 =>
          rw [List.getLast?_cons_cons]
          exact hlast
    | break_validation => exact absurd rfl hnb
    | break_window =>
      have hlt := (hbw.mp rfl).2
      rw [reduction_zero cfg ha] at hlt
      refine ⟨[(s, LineSearch.Exit.break_window)], s, ?_, rfl, by rw [hwin]; exact hlt,
        by simp⟩
      unfold LineSearch.iterations
      rw [hit]

theorem window_eventually_small (W r : ℚ) (hW : 0 < W) (hr : r < 2) :
    ∃ m : Nat, W * (r / 2) ^ (m + 1) < 1 / 100 := by
  by_cases h0 : r ≤ 0
  · refine ⟨0, ?_⟩
    rw [zero_add, pow_one]
    have : W * (r / 2) ≤ 0 := mul_nonpos_of_nonneg_of_nonpos hW.le (by linarith)
    linarith
  · have hpos : 0 < r / 2 := by linarith
    have hlt : r / 2 < 1 := by linarith
    obtain ⟨m, hm⟩ := exists_pow_lt_of_lt_one (show (0 : ℚ) < 1 / (100 * W) by positivity) hlt
    refine ⟨m, ?_⟩
    have h1 : (r / 2) ^ (m + 1) ≤ (r / 2) ^ m := by
      rw [pow_succ]
      exact mul_le_of_le_one_right (pow_nonneg hpos.le m) hlt.le
    have h2 : W * (r / 2) ^ (m + 1) < W * (1 / (100 * W)) :=
      mul_lt_mul_of_pos_left (lt_of_le_of_lt h1 hm) hW
    have h3 : W * (1 / (100 * W)) = 1 / 100 := by
      field_simp
      ring
    rw [h3] at h2
    exact h2

theorem unit_stagnant (cfg : LineSearch.Config) (W : ℚ) :
    LineSearch.StagnantAt cfg LineSearch.sample_train LineSearch.unit_scorer [1] 0 W := by
  intro f hf pts _ x _
  have hf0 : f = 0 := by
    have : f < 1 := hf
    omega
  subst hf0
  have hcol : LineSearch.unit_scorer LineSearch.sample_train
      (LineSearch.step1_column LineSearch.sample_train [1] 0 x) = -((x - 1) ^ 2) := by
    simp [LineSearch.unit_scorer, LineSearch.step1_column, LineSearch.sample_train,
      LineSearch.preCompute, LineSearch.Dataset.feature_at, List.range_succ]
  rw [hcol]
  have := sq_nonneg (x - 1)
  linarith

/-- C21 (as amended).  Take an iteration of `learn` that starts with `weights = weights_prev`,
non-negative weights, a positive window and `num_points ≥ 1`.  If no Step 1 candidate of any
feature has a metric strictly greater than `best_metric_on_training`, then Step 1 moves no
weight, the vector `step2` is zero, the gain is `0`, and `weights`, `weights_prev` and
`best_metric_on_training` are unchanged; with `adaptive` the reduction factor of the iteration
is `reduction_factor / 2`, and the window is multiplied by it unless the iteration leaves
through the validation `break`, which keeps the window.  Without a validation set, and when
the candidates of every positive window stagnate, the window after the `k`-th iteration is
`W0 * (reduction_factor / 2) ^ k`, and for `reduction_factor < 2` every large enough number
of iterations ends through the window `break` with a window below `1 / 100`. -/
theorem stagnation_shrinks_window (cfg : LineSearch.Config) (train : LineSearch.Dataset)
    (scorer : LineSearch.Metric) (st : LineSearch.State)
    (hsz : LineSearch.Sized cfg train st) (hP : 1 ≤ LineSearch.even_points cfg)
    (hnn : ∀ x ∈ st.weights_prev, 0 ≤ x) (hW : 0 < st.window_size)
    (hw : st.weights = st.weights_prev) :
    (LineSearch.StagnantAt cfg train scorer st.weights_prev st.best_metric_on_training
        st.window_size →
      ∀ vali, ∃ s1 s e,
        LineSearch.step1 train scorer (LineSearch.even_points cfg) st = some s1 ∧
        s1.weights = st.weights ∧
        (LineSearch.step2_vector (LineSearch.even_points cfg) s1.weights s1.weights_prev).all
          (fun x => decide (x = 0)) = true ∧
        LineSearch.iteration cfg train vali scorer st = some (s, e) ∧
        s.gain_on_training = 0 ∧ s.weights = st.weights ∧
        s.weights_prev = st.weights_prev ∧
        s.best_metric_on_training = st.best_metric_on_training ∧
        (cfg.adaptive_ = true →
          s.cur_reduction_factor = cfg.reduction_factor_ / 2 ∧
          (e ≠ LineSearch.Exit.break_validation →
            s.window_size = st.window_size * (cfg.reduction_factor_ / 2)) ∧
          (e = LineSearch.Exit.break_validation → s.window_size = st.window_size) ∧
          (vali = none → e ≠ LineSearch.Exit.break_validation))) ∧
    ((∀ W, 0 < W → LineSearch.StagnantAt cfg train scorer st.weights_prev
        st.best_metric_on_training W) →
      cfg.adaptive_ = true →
      (∀ (n : Nat) (trace : List (LineSearch.State × LineSearch.Exit)),
        LineSearch.iterations cfg train none scorer n st = some trace →
        ∀ (k : Nat) (hk : k < trace.length),
          (trace.get ⟨k, hk⟩).1.window_size =
            st.window_size * (cfg.reduction_factor_ / 2) ^ (k + 1) ∧
          (trace.get ⟨k, hk⟩).1.weights = st.weights ∧
          (trace.get ⟨k, hk⟩).1.weights_prev = st.weights_prev ∧
          (trace.get ⟨k, hk⟩).1.best_metric_on_training = st.best_metric_on_training ∧
          (trace.get ⟨k, hk⟩).1.gain_on_training = 0) ∧
      (cfg.reduction_factor_ < 2 →
        ∃ m, ∀ n, m ≤ n →
          ∃ trace s, LineSearch.iterations cfg train none scorer n st = some trace ∧
            trace.getLast? = some (s, LineSearch.Exit.break_window) ∧
            s.window_size < 1 / 100)) := by
  constructor
  · intro hstag vali
    obtain ⟨s1, s, e, h1, h2, _, h4, _, h6, h7, h8, h9, h10, _, h12, h13, h14, h15⟩ :=
      iteration_stagnant cfg train vali scorer st hsz hP hnn hW hw hstag
    refine ⟨s1, s, e, h1, h2, h4, h6, h7, h8, h9, h10, ?_⟩
    intro ha
    have hred := reduction_zero cfg ha
    refine ⟨h12.trans hred, ?_, h14, fun hv => (h15 hv).1⟩
    intro he
    rw [h13 he, hred]
  · intro hstag ha
    constructor
    · intro n trace h k hk
      have := iterations_stagnant_windows cfg train scorer ha hP st.weights_prev
        st.best_metric_on_training hnn hstag n st trace hsz hw rfl rfl hW h k hk
      rw [hw]
      exact this
    · intro hr
      obtain ⟨m, hm⟩ := window_eventually_small st.window_size cfg.reduction_factor_ hW hr
      refine ⟨m + 1, ?_⟩
      intro n hn
      obtain ⟨trace, s, h1, h2, h3, _⟩ := iterations_stagnant_break cfg train scorer ha hP
        st.weights_prev st.best_metric_on_training hnn hstag m st hsz hw rfl rfl hW hm n hn
      exact ⟨trace, s, h1, h2, h3⟩

theorem unit_initial_none :
    (LineSearch.initial LineSearch.unit_cfg LineSearch.sample_train none
      LineSearch.unit_scorer).weights_prev = [1] ∧
    (LineSearch.initial LineSearch.unit_cfg LineSearch.sample_train none
      LineSearch.unit_scorer).best_metric_on_training = 0 := by
  constructor
  · rfl
  · simp [LineSearch.initial, LineSearch.sample_train, LineSearch.unit_scorer,
      LineSearch.score, List.range_succ]

/-- C21, the sanity run of the specification: one feature, every `x[s][0] = 1`, a metric
whose unique optimum is at the weight `1`, start at `w = 1`, no validation set, adaptive with
reduction factor `1`.  The first iteration moves nothing and halves the window, and every
long enough run ends through the window `break`. -/
theorem stagnation_shrinks_window_witness :
    (∃ s e, LineSearch.iteration LineSearch.unit_cfg LineSearch.sample_train none
        LineSearch.unit_scorer (LineSearch.initial LineSearch.unit_cfg LineSearch.sample_train
          none LineSearch.unit_scorer) = some (s, e) ∧
      s.gain_on_training = 0 ∧ s.weights = [1] ∧ s.weights_prev = [1] ∧
      s.best_metric_on_training = 0 ∧ s.window_size = 1 / 2) ∧
    (∃ m, ∀ n, m ≤ n →
      ∃ trace s, LineSearch.iterations LineSearch.unit_cfg LineSearch.sample_train none
          LineSearch.unit_scorer n (LineSearch.initial LineSearch.unit_cfg
            LineSearch.sample_train none LineSearch.unit_scorer) = some trace ∧
        trace.getLast? = some (s, LineSearch.Exit.break_window) ∧
        s.window_size < 1 / 100) := by
  have h := stagnation_shrinks_window LineSearch.unit_cfg LineSearch.sample_train
    LineSearch.unit_scorer
    (LineSearch.initial LineSearch.unit_cfg LineSearch.sample_train none
      LineSearch.unit_scorer)
    (initial_lengths _ _ _ _) (by decide) (initial_nonneg _ _ _ _).2.1
    (by rw [initial_window]; norm_num [LineSearch.unit_cfg]) rfl
  have hstag : ∀ W, LineSearch.StagnantAt LineSearch.unit_cfg LineSearch.sample_train
      LineSearch.unit_scorer (LineSearch.initial LineSearch.unit_cfg LineSearch.sample_train
        none LineSearch.unit_scorer).weights_prev
      (LineSearch.initial LineSearch.unit_cfg LineSearch.sample_train none
        LineSearch.unit_scorer).best_metric_on_training W := by
    intro W
    rw [unit_initial_none.1, unit_initial_none.2]
    exact unit_stagnant _ W
  constructor
  · obtain ⟨s1, s, e, _, _, _, h4, h5, h6, h7, h8, h9⟩ := h.1 (hstag _) none
    obtain ⟨_, h10, _, h12⟩ := h9 rfl
    refine ⟨s, e, h4, h5, h6, h7.trans unit_initial_none.1, h8.trans unit_initial_none.2, ?_⟩
    rw [h10 (h12 rfl), initial_window]
    norm_num [LineSearch.unit_cfg]
  · exact (h.2 (fun W _ => hstag W) rfl).2 (by norm_num [LineSearch.unit_cfg])

set_option maxHeartbeats 1000000 in
theorem unit_run_validation :
    LineSearch.iterations LineSearch.unit_cfg LineSearch.sample_train
      (some LineSearch.sample_train) LineSearch.unit_scorer 10
      (LineSearch.initial LineSearch.unit_cfg LineSearch.sample_train
        (some LineSearch.sample_train) LineSearch.unit_scorer) =
    some [(LineSearch.unit_after_break, LineSearch.Exit.break_validation)] := by
  simp [LineSearch.iterations, LineSearch.iteration, LineSearch.step1,
    LineSearch.step1_feature, LineSearch.even_points, LineSearch.unit_cfg,
    LineSearch.sample_train, LineSearch.initial, LineSearch.unit_scorer, LineSearch.score,
    LineSearch.preCompute, sample_points_first, List.range_succ, LineSearch.max_element,
    LineSearch.Dataset.feature_at, LineSearch.step2, LineSearch.step2_vector,
    LineSearch.step2_column, LineSearch.finish, LineSearch.reduction,
    LineSearch.validation_scores, LineSearch.unit_after_break]
  norm_num [List.range', List.range_succ, LineSearch.max_element]

/-- C21, where the claim as stated fails: the sanity run with the sample also used as
validation set and a streak limit of `1`.  The run starts with `weights = weights_prev = [1]`,
no candidate of any window improves the metric, `adaptive` is set and the reduction factor is
`1 < 2`; yet the first iteration leaves through the validation `break` with the window still
`1` instead of `1 / 2`, and the loop never reaches the window `break`. -/
theorem stagnation_validation_counterexample :
    (LineSearch.initial LineSearch.unit_cfg LineSearch.sample_train
      (some LineSearch.sample_train) LineSearch.unit_scorer).weights =
    (LineSearch.initial LineSearch.unit_cfg LineSearch.sample_train
      (some LineSearch.sample_train) LineSearch.unit_scorer).weights_prev ∧
    (∀ W, LineSearch.StagnantAt LineSearch.unit_cfg LineSearch.sample_train
      LineSearch.unit_scorer
      (LineSearch.initial LineSearch.unit_cfg LineSearch.sample_train
        (some LineSearch.sample_train) LineSearch.unit_scorer).weights_prev
      (LineSearch.initial LineSearch.unit_cfg LineSearch.sample_train
        (some LineSearch.sample_train) LineSearch.unit_scorer).best_metric_on_training W) ∧
    LineSearch.unit_cfg.adaptive_ = true ∧ LineSearch.unit_cfg.reduction_factor_ < 2 ∧
    LineSearch.iterations LineSearch.unit_cfg LineSearch.sample_train
      (some LineSearch.sample_train) LineSearch.unit_scorer
      LineSearch.unit_cfg.max_iterations_
      (LineSearch.initial LineSearch.unit_cfg LineSearch.sample_train
        (some LineSearch.sample_train) LineSearch.unit_scorer) =
      some [(LineSearch.unit_after_break, LineSearch.Exit.break_validation)] ∧
    LineSearch.unit_after_break.gain_on_training = 0 ∧
    LineSearch.unit_after_break.window_size =
      (LineSearch.initial LineSearch.unit_cfg LineSearch.sample_train
        (some LineSearch.sample_train) LineSearch.unit_scorer).window_size ∧
    LineSearch.unit_after_break.window_size ≠
      (LineSearch.initial LineSearch.unit_cfg LineSearch.sample_train
        (some LineSearch.sample_train) LineSearch.unit_scorer).window_size *
        (LineSearch.unit_cfg.reduction_factor_ / 2) ∧
    ¬ LineSearch.unit_after_break.window_size < 1 / 100 := by
  have hb : (LineSearch.initial LineSearch.unit_cfg LineSearch.sample_train
      (some LineSearch.sample_train) LineSearch.unit_scorer).best_metric_on_training = 0 := by
    simp [LineSearch.initial, LineSearch.sample_train, LineSearch.unit_scorer,
      LineSearch.score, List.range_succ]
  have hwp : (LineSearch.initial LineSearch.unit_cfg LineSearch.sample_train
      (some LineSearch.sample_train) LineSearch.unit_scorer).weights_prev = [1] := rfl
  refine ⟨rfl, ?_, rfl, by norm_num [LineSearch.unit_cfg], unit_run_validation, rfl, ?_, ?_, ?_⟩
  · intro W
    rw [hb, hwp]
    exact unit_stagnant _ W
  · rw [initial_window]
    rfl
  · rw [initial_window]
    norm_num [LineSearch.unit_cfg, LineSearch.unit_after_break]
  · norm_num [LineSearch.unit_after_break]

/-! ### Regression tree: termination of `fit` -/

theorem split_true_full (p : RegressionTree.Params)
    (nodes : List RegressionTree.RTNode) (root i : Nat) (rate : ℚ) (rand : Nat → Nat)
    (nth : Nat) (nd : RegressionTree.RTNode) (hnode : nodes[i]? = some nd)
    (h : (RegressionTree.split p nodes root i rate rand nth).1 = true) :
    (RegressionTree.chosen p nd rate rand nth).score ≠ -1 ∧
    ∃ nd' l r,
      (RegressionTree.split p nodes root i rate rand nth).2 = nodes.set i nd' ++ [l, r] ∧
      nd'.left = some nodes.length ∧ nd'.right = some (nodes.length + 1) ∧
      nd'.hist = (if i = root then nd.hist else none) ∧
      nd'.nsampleids = nd.nsampleids ∧ nd'.sampleids = nd.sampleids ∧
      l.sampleids = nd.ids.filter (fun k => decide
        (p.training_dataset.feature (RegressionTree.chosen p nd rate rand nth).featureidx k ≤
          ((nd.hist.getD RegressionTree.RTNodeHistogram.null).thresholds.getD
            (RegressionTree.chosen p nd rate rand nth).featureidx []).getD
            (RegressionTree.chosen p nd rate rand nth).thresholdid 0)) ∧
      l.nsampleids = l.sampleids.length ∧
      r.sampleids = nd.ids.filter (fun k => ¬ decide
        (p.training_dataset.feature (RegressionTree.chosen p nd rate rand nth).featureidx k ≤
          ((nd.hist.getD RegressionTree.RTNodeHistogram.null).thresholds.getD
            (RegressionTree.chosen p nd rate rand nth).featureidx []).getD
            (RegressionTree.chosen p nd rate rand nth).thresholdid 0)) ∧
      r.nsampleids = r.sampleids.length ∧
      l.hist = some (RegressionTree.RTNodeHistogram.of_samples p.training_dataset
        (nd.hist.getD RegressionTree.RTNodeHistogram.null) l.sampleids p.training_labels) ∧
      r.hist = some (RegressionTree.RTNodeHistogram.minus
        (nd.hist.getD RegressionTree.RTNodeHistogram.null)
        (RegressionTree.RTNodeHistogram.of_samples p.training_dataset
          (nd.hist.getD RegressionTree.RTNodeHistogram.null) l.sampleids p.training_labels)) := by
  unfold RegressionTree.split at h ⊢
  rw [hnode] at h ⊢
  simp only [] at h ⊢
  by_cases hdev : nd.deviance > 0
  · rw [if_pos hdev] at h ⊢
    by_cases hbest : (RegressionTree.best_split
        (nd.hist.getD RegressionTree.RTNodeHistogram.null) p.minls
        (RegressionTree.scanned_features p.training_dataset.num_features rate rand)
        nth).score = -1
    · rw [if_pos hbest] at h
      exact absurd h (by simp)
    · rw [if_neg hbest]
      exact ⟨hbest, _, _, _, rfl, rfl, rfl, rfl, rfl, rfl, rfl, rfl, rfl, rfl, rfl, rfl⟩
  · rw [if_neg hdev] at h
    exact absurd h (by simp)

theorem ids_of_length (nd : RegressionTree.RTNode) (h : nd.nsampleids = nd.sampleids.length) :
    nd.ids = nd.sampleids := by
  unfold RegressionTree.RTNode.ids
  rw [h]
  apply List.ext_getElem
  · simp
  · intro n h1 h2
    simp [List.getElem?_eq_getElem h2]

theorem ids_length (nd : RegressionTree.RTNode) : nd.ids.length = nd.nsampleids := by
  unfold RegressionTree.RTNode.ids
  simp

theorem usub_one {a : Nat} (h1 : 1 ≤ a) (h2 : a < 2 ^ 32) : RegressionTree.usub a 1 = a - 1 :=
  usub_eq_sub h1 h2

theorem filter_filter_length_le (l : List Nat) (P Q : Nat → Bool) :
    ((l.filter Q).filter P).length ≤ (l.filter P).length := by
  induction l with
  | nil => exact le_refl _
  | cons a l ih =>
    cases hQ : Q a <;> cases hP : P a <;>
      simp only [List.filter_cons, hQ, hP, if_true, if_false, Bool.false_eq_true,
        List.length_cons] <;> omega

theorem filter_filter_length_split (l : List Nat) (P Q R : Nat → Bool)
    (hQR : ∀ k, R k = !Q k) :
    ((l.filter Q).filter P).length + ((l.filter R).filter P).length =
      (l.filter P).length := by
  induction l with
  | nil => rfl
  | cons a l ih =>
    cases hQ : Q a <;> cases hP : P a <;>
      simp only [List.filter_cons, hQR a, hQ, hP, if_true, if_false, Bool.false_eq_true,
        Bool.not_true, Bool.not_false, List.length_cons] <;> omega

theorem getD_map_lt {β γ : Type} (g : β → γ) (l : List β) (i : Nat) (d : β) (e : γ)
    (hi : i < l.length) : (l.map g).getD i e = g (l.getD i d) := by
  rw [List.getD_eq_getElem _ _ (by rw [List.length_map]; exact hi),
    List.getD_eq_getElem _ _ hi, List.getElem_map]

theorem getD_zipWith_lt {β γ δ : Type} (g : β → γ → δ) (a : List β) (b : List γ) (i : Nat)
    (da : β) (db : γ) (dc : δ) (ha : i < a.length) (hb : i < b.length) :
    (List.zipWith g a b).getD i dc = g (a.getD i da) (b.getD i db) := by
  rw [List.getD_eq_getElem _ _ (by rw [List.length_zipWith]; omega),
    List.getD_eq_getElem _ _ ha, List.getD_eq_getElem _ _ hb, List.getElem_zipWith]

theorem getD_zipWith_ge {β γ δ : Type} (g : β → γ → δ) (a : List β) (b : List γ) (i : Nat)
    (dc : δ) (ha : a.length ≤ i) : (List.zipWith g a b).getD i dc = dc := by
  rw [List.getD_eq_default _ _ (by rw [List.length_zipWith]; omega)]

theorem shaped_index (d : RegressionTree.Dataset) (h : RegressionTree.RTNodeHistogram)
    (hs : RegressionTree.Shaped d h) (f t : Nat) (hf : f < d.num_features)
    (ht : t < h.thresholds_size.getD f 0) :
    f < h.thresholds.length ∧ t < (h.thresholds.getD f []).length ∧
      RegressionTree.usub (h.thresholds_size.getD f 0) 1 = h.thresholds_size.getD f 0 - 1 := by
  obtain ⟨h1, h2⟩ := hs f hf
  have ht2 : t < (h.thresholds.getD f []).length := by omega
  refine ⟨?_, ht2, usub_one (by omega) h1⟩
  by_contra hcon
  rw [List.getD_eq_default _ _ (by omega)] at ht2
  exact absurd ht2 (by simp)

theorem of_samples_count (d : RegressionTree.Dataset) (h : RegressionTree.RTNodeHistogram)
    (S : List Nat) (labels : List ℚ) (hs : RegressionTree.Shaped d h) (f t : Nat)
    (hf : f < d.num_features) (ht : t < h.thresholds_size.getD f 0) :
    RegressionTree.c_L (RegressionTree.RTNodeHistogram.of_samples d h S labels) f t =
      (S.filter (fun k => decide
        (d.feature f k ≤ (h.thresholds.getD f []).getD t 0))).length := by
  obtain ⟨h1, h2, _⟩ := shaped_index d h hs f t hf ht
  unfold RegressionTree.c_L RegressionTree.RTNodeHistogram.of_samples
  simp only []
  rw [getD_map_range _ _ h1, getD_map_lt _ _ t 0 0 h2]

theorem count_invariant_child (d : RegressionTree.Dataset) (ids S : List Nat)
    (h c : RegressionTree.RTNodeHistogram)
    (hinv : RegressionTree.CountInvariant d ids h) (hs : RegressionTree.Shaped d h)
    (hth : c.thresholds = h.thresholds) (hsz : c.thresholds_size = h.thresholds_size)
    (hsub : ∀ k ∈ S, k ∈ ids)
    (hcount : ∀ f, f < d.num_features → ∀ t, t < h.thresholds_size.getD f 0 →
      RegressionTree.c_L c f t = (S.filter (fun k => decide
        (d.feature f k ≤ (h.thresholds.getD f []).getD t 0))).length) :
    RegressionTree.CountInvariant d S c ∧ RegressionTree.Shaped d c := by
  constructor
  · intro f hf t ht
    rw [hsz] at ht
    rw [hth]
    refine ⟨hcount f hf t ht, ?_⟩
    obtain ⟨_, _, hlast⟩ := shaped_index d h hs f t hf ht
    have hlt : h.thresholds_size.getD f 0 - 1 < h.thresholds_size.getD f 0 := by omega
    have hc : RegressionTree.c_total c f =
        RegressionTree.c_L c f (h.thresholds_size.getD f 0 - 1) := by
      unfold RegressionTree.c_total RegressionTree.c_L
      rw [hsz, hlast]
    have hp : RegressionTree.c_total h f =
        RegressionTree.c_L h f (h.thresholds_size.getD f 0 - 1) := by
      unfold RegressionTree.c_total RegressionTree.c_L
      rw [hlast]
    rw [hc, hcount f hf _ hlt]
    obtain ⟨p1, p2⟩ := hinv f hf _ hlt
    rw [hp, p1] at p2
    have hall := List.filter_length_eq_length.mp p2
    exact List.filter_length_eq_length.mpr (fun k hk => hall k (hsub k hk))
  · intro f hf
    rw [hth, hsz]
    exact hs f hf

theorem minus_count (d : RegressionTree.Dataset) (ids : List Nat) (Q R : Nat → Bool)
    (hQR : ∀ k, R k = !Q k) (labels : List ℚ)
    (h : RegressionTree.RTNodeHistogram)
    (hinv : RegressionTree.CountInvariant d ids h) (hs : RegressionTree.Shaped d h)
    (h32 : ids.length < 2 ^ 32) (f t : Nat)
    (hf : f < d.num_features) (ht : t < h.thresholds_size.getD f 0) :
    RegressionTree.c_L (RegressionTree.RTNodeHistogram.minus h
        (RegressionTree.RTNodeHistogram.of_samples d h (ids.filter Q) labels)) f t =
      ((ids.filter R).filter (fun k => decide
        (d.feature f k ≤ (h.thresholds.getD f []).getD t 0))).length := by
  obtain ⟨h1, h2, _⟩ := shaped_index d h hs f t hf ht
  have hl := of_samples_count d h (ids.filter Q) labels hs f t hf ht
  have hp := (hinv f hf t ht).1
  have hsplit := filter_filter_length_split ids (fun k => decide
        (d.feature f k ≤ (h.thresholds.getD f []).getD t 0)) Q R hQR
  have hle := List.length_filter_le (fun k => decide
        (d.feature f k ≤ (h.thresholds.getD f []).getD t 0)) ids
  unfold RegressionTree.c_L at hl hp ⊢
  have hlc : (RegressionTree.RTNodeHistogram.of_samples d h (ids.filter Q) labels).count.length =
      h.thresholds.length := by
    unfold RegressionTree.RTNodeHistogram.of_samples
    simp
  have hlc2 : ((RegressionTree.RTNodeHistogram.of_samples d h (ids.filter Q)
      labels).count.getD f []).length = (h.thresholds.getD f []).length := by
    unfold RegressionTree.RTNodeHistogram.of_samples
    simp only []
    rw [getD_map_range _ _ h1, List.length_map]
  unfold RegressionTree.RTNodeHistogram.minus
  simp only []
  by_cases ha : f < h.count.length
  · rw [getD_zipWith_lt _ _ _ f [] [] [] ha (by rw [hlc]; exact h1)]
    by_cases hb : t < (h.count.getD f []).length
    · rw [getD_zipWith_lt _ _ _ t 0 0 0 hb (by rw [hlc2]; exact h2), hl, hp,
        usub_eq_sub (by omega) (by omega)]
      omega
    · rw [getD_zipWith_ge _ _ _ t 0 (by omega)]
      rw [List.getD_eq_default _ _ (by omega)] at hp
      omega
  · rw [getD_zipWith_ge _ _ _ f [] (by omega)]
    rw [List.getD_eq_default h.count [] (by omega)] at hp
    have hnil : ([] : List Nat).getD t 0 = 0 := rfl
    rw [hnil] at hp ⊢
    omega

theorem split_children_fresh (p : RegressionTree.Params)
    (nodes : List RegressionTree.RTNode) (root i : Nat) (rate : ℚ) (rand : Nat → Nat)
    (nth : Nat) (nd : RegressionTree.RTNode) (hnode : nodes[i]? = some nd)
    (hfresh : RegressionTree.Fresh p nd) (hminls : 1 ≤ p.minls)
    (h : (RegressionTree.split p nodes root i rate rand nth).1 = true) :
    ∃ nd' l r,
      (RegressionTree.split p nodes root i rate rand nth).2 = nodes.set i nd' ++ [l, r] ∧
      nd'.left = some nodes.length ∧ nd'.right = some (nodes.length + 1) ∧
      nd'.hist = (if i = root then nd.hist else none) ∧
      nd'.nsampleids = nd.nsampleids ∧
      RegressionTree.Fresh p l ∧ RegressionTree.Fresh p r ∧
      1 ≤ l.nsampleids ∧ 1 ≤ r.nsampleids ∧
      l.nsampleids + r.nsampleids = nd.nsampleids := by
  obtain ⟨hscore, nd', l, r, e1, e2, e3, e4, e5, _, e7, e8, e9, e10, e11, e12⟩ :=
    split_true_full p nodes root i rate rand nth nd hnode h
  obtain ⟨hh, hhist, hinv, hshape, h32⟩ := hfresh
  have hget : nd.hist.getD RegressionTree.RTNodeHistogram.null = hh := by
    rw [hhist]
    rfl
  rw [hget] at e7 e9 e11 e12
  have hchosen : RegressionTree.Chosen hh p.minls
      (RegressionTree.scanned_features p.training_dataset.num_features rate rand)
      (RegressionTree.chosen p nd rate rand nth) := by
    unfold RegressionTree.chosen
    rw [hget]
    exact best_split_chosen _ _ _ _
  obtain ⟨c1, c2, c3, c4⟩ := chosen_of_score hchosen hscore
  have hf := scanned_features_lt _ _ _ _ c1
  obtain ⟨i1, i2⟩ := hinv _ hf _ c2
  have hidl := ids_length nd
  have hR : ∀ k, (fun k => decide (¬ (decide (p.training_dataset.feature
      (RegressionTree.chosen p nd rate rand nth).featureidx k ≤
        (hh.thresholds.getD (RegressionTree.chosen p nd rate rand nth).featureidx []).getD
          (RegressionTree.chosen p nd rate rand nth).thresholdid 0) = true))) k =
      !(fun k => decide (p.training_dataset.feature
      (RegressionTree.chosen p nd rate rand nth).featureidx k ≤
        (hh.thresholds.getD (RegressionTree.chosen p nd rate rand nth).featureidx []).getD
          (RegressionTree.chosen p nd rate rand nth).thresholdid 0)) k := by
    intro k
    exact decide_not_decide _
  have hsum := filter_length_split nd.ids _ _ hR
  have hl : l.nsampleids = RegressionTree.c_L hh
      (RegressionTree.chosen p nd rate rand nth).featureidx
      (RegressionTree.chosen p nd rate rand nth).thresholdid := by
    rw [e8, e7, i1]
  have hr : l.nsampleids + r.nsampleids = nd.nsampleids := by
    rw [e8, e10, e7, e9, ← hidl]
    exact hsum
  have hcR : RegressionTree.c_R hh (RegressionTree.chosen p nd rate rand nth).featureidx
      (RegressionTree.chosen p nd rate rand nth).thresholdid = r.nsampleids := by
    unfold RegressionTree.c_R
    rw [i2, ← hl, hidl, usub_eq_sub (by omega) h32]
    omega
  rw [hcR] at c4
  rw [← hl] at c3
  refine ⟨nd', l, r, e1, e2, e3, e4, e5, ?_, ?_, by omega, by omega, hr⟩
  · have hids : l.ids = l.sampleids := ids_of_length l e8
    obtain ⟨q1, q2⟩ := count_invariant_child p.training_dataset nd.ids l.sampleids hh
      (RegressionTree.RTNodeHistogram.of_samples p.training_dataset hh l.sampleids
        p.training_labels) hinv hshape rfl rfl
      (by rw [e7]; intro k hk; exact (List.mem_filter.mp hk).1)
      (fun f hf t ht => of_samples_count _ _ _ _ hshape f t hf ht)
    exact ⟨_, e11, by rw [hids]; exact q1, q2, by omega⟩
  · have hids : r.ids = r.sampleids := ids_of_length r e10
    obtain ⟨q1, q2⟩ := count_invariant_child p.training_dataset nd.ids r.sampleids hh
      (RegressionTree.RTNodeHistogram.minus hh
        (RegressionTree.RTNodeHistogram.of_samples p.training_dataset hh l.sampleids
          p.training_labels)) hinv hshape rfl rfl
      (by rw [e9]; intro k hk; exact (List.mem_filter.mp hk).1)
      (by
        intro f hf t ht
        rw [e7, e9]
        exact minus_count p.training_dataset nd.ids _ _ hR p.training_labels hh hinv hshape
          (by omega) f t hf ht)
    exact ⟨_, e12, by rw [hids]; exact q1, q2, by omega⟩

theorem top_position_lt (heap : List (ℚ × Nat)) (hne : heap ≠ []) :
    RegressionTree.top_position heap < heap.length := by
  have hpos : 0 < heap.length := List.length_pos.mpr hne
  unfold RegressionTree.top_position
  have key : ∀ (l : List Nat) (acc : Nat), acc < heap.length → (∀ i ∈ l, i < heap.length) →
      l.foldl (fun largest i =>
        if (heap.getD largest (0, 0)).1 < (heap.getD i (0, 0)).1 then i else largest) acc <
        heap.length := by
    intro l
    induction l with
    | nil => intro acc hacc _; exact hacc
    | cons a l ih =>
      intro acc hacc hl
      rw [List.foldl_cons]
      apply ih
      · split_ifs
        · exact hl a (List.mem_cons_self _ _)
        · exact hacc
      · intro i hi
        exact hl i (List.mem_cons_of_mem _ hi)
  apply key _ 0 hpos
  intro i hi
  rw [List.mem_range'_1] at hi
  omega

theorem split_dead (p : RegressionTree.Params)
    (nodes : List RegressionTree.RTNode) (root i : Nat) (rate : ℚ) (rand : Nat → Nat)
    (nth : Nat) (nd : RegressionTree.RTNode) (hnode : nodes[i]? = some nd)
    (hdead : nd.hist = none) :
    (RegressionTree.split p nodes root i rate rand nth).1 = false := by
  rw [split_false_iff_best p nodes root i rate rand nth nd hnode]
  right
  by_contra hs
  have hc := chosen_of_score (best_split_chosen
    (nd.hist.getD RegressionTree.RTNodeHistogram.null) p.minls
    (RegressionTree.scanned_features p.training_dataset.num_features rate rand) nth) hs
  rw [hdead] at hc
  have h0 := hc.2.1
  simp [RegressionTree.RTNodeHistogram.null] at h0

theorem sum_eraseIdx {β : Type} (w : β → Nat) (d : β) :
    ∀ (l : List β) (i : Nat), i < l.length →
      ((l.eraseIdx i).map w).sum + w (l.getD i d) = (l.map w).sum := by
  intro l
  induction l with
  | nil => intro i hi; exact absurd hi (by simp)
  | cons a l ih =>
    intro i hi
    cases i with
    | zero =>
      simp only [List.eraseIdx_cons_zero, List.getD_cons_zero, List.map_cons, List.sum_cons]
      omega
    | succ i =>
      have := ih i (by rw [List.length_cons] at hi; omega)
      simp only [List.eraseIdx_cons_succ, List.getD_cons_succ, List.map_cons, List.sum_cons]
      omega

theorem sum_le_with_gap {β : Type} (w1 w2 : β → Nat) (d : β) (l : List β) (i c : Nat)
    (hi : i < l.length) (hle : ∀ e ∈ l, w1 e ≤ w2 e) (hgap : w1 (l.getD i d) + c ≤ w2 (l.getD i d)) :
    (l.map w1).sum + c ≤ (l.map w2).sum := by
  have h1 := sum_eraseIdx w1 d l i hi
  have h2 := sum_eraseIdx w2 d l i hi
  have h3 : ((l.eraseIdx i).map w1).sum ≤ ((l.eraseIdx i).map w2).sum :=
    List.sum_le_sum (fun e he => hle e (List.mem_of_mem_eraseIdx he))
  omega

theorem weight_pos (p : RegressionTree.Params) (nd : RegressionTree.RTNode)
    (h : RegressionTree.Settled p nd) : 1 ≤ RegressionTree.weight nd := by
  unfold RegressionTree.weight
  rcases h with h | ⟨⟨hh, hhist, _⟩, hn⟩
  · rw [h]
    simp
  · rw [hhist]
    simp only [Option.isSome_some, if_true]
    omega

theorem weight_dead (nd : RegressionTree.RTNode) (h : nd.hist = none) :
    RegressionTree.weight nd = 1 := by
  unfold RegressionTree.weight
  rw [h]
  simp

theorem weight_fresh (p : RegressionTree.Params) (nd : RegressionTree.RTNode)
    (h : RegressionTree.Fresh p nd) :
    RegressionTree.weight nd = 2 * nd.nsampleids - 1 := by
  unfold RegressionTree.weight
  obtain ⟨hh, hhist, _⟩ := h
  rw [hhist]
  simp

theorem potential_ge_length (p : RegressionTree.Params) (nodes : List RegressionTree.RTNode)
    (heap : List (ℚ × Nat)) (hinv : RegressionTree.HeapInvariant p nodes heap) :
    heap.length ≤ RegressionTree.potential nodes heap := by
  unfold RegressionTree.potential
  have h1 : (heap.map (fun _ => 1)).sum ≤ (heap.map (fun e => RegressionTree.weight
      (nodes.getD e.2 (RegressionTree.RTNode.create [] 0 0 0 none)))).sum := by
    apply List.sum_le_sum
    intro e he
    obtain ⟨_, nd, hnd, hs⟩ := hinv e he
    rw [List.getD_eq_getElem?_getD, hnd]
    exact weight_pos p nd hs
  simpa using h1

theorem pop_step (p : RegressionTree.Params) (nodes : List RegressionTree.RTNode)
    (heap : List (ℚ × Nat)) (hinv : RegressionTree.HeapInvariant p nodes heap)
    (hne : heap ≠ []) :
    RegressionTree.HeapInvariant p (RegressionTree.pop nodes heap).1
      (RegressionTree.pop nodes heap).2 ∧
    RegressionTree.potential (RegressionTree.pop nodes heap).1
      (RegressionTree.pop nodes heap).2 + 1 ≤ RegressionTree.potential nodes heap ∧
    (RegressionTree.pop nodes heap).1.length = nodes.length ∧
    (RegressionTree.pop nodes heap).2.length + 1 = heap.length := by
  have htp := top_position_lt heap hne
  have hmem : heap.getD (RegressionTree.top_position heap) (0, 0) ∈ heap := by
    rw [List.getD_eq_getElem _ _ htp]
    exact List.getElem_mem _
  obtain ⟨_, nd, hnd, hsettled⟩ := hinv _ hmem
  have hnode : nodes[RegressionTree.top heap]? = some nd := hnd
  have hlt : RegressionTree.top heap < nodes.length := by
    by_contra hcon
    rw [List.getElem?_eq_none (by omega)] at hnode
    exact absurd hnode (by simp)
  have hpop : RegressionTree.pop nodes heap =
      (nodes.set (RegressionTree.top heap)
        { nd with sampleids := [], nsampleids := 0, hist := none },
       heap.eraseIdx (RegressionTree.top_position heap)) := by
    unfold RegressionTree.pop
    simp only []
    rw [hnode]
  rw [hpop]
  simp only []
  have hlook : ∀ j, (nodes.set (RegressionTree.top heap)
        { nd with sampleids := [], nsampleids := 0, hist := none })[j]? =
      if RegressionTree.top heap = j then
        some { nd with sampleids := [], nsampleids := 0, hist := none }
      else nodes[j]? := by
    intro j
    rw [List.getElem?_set]
    by_cases hj : RegressionTree.top heap = j
    · rw [if_pos hj, if_pos hj, if_pos (by omega)]
    · rw [if_neg hj, if_neg hj]
  refine ⟨?_, ?_, List.length_set _ _ _, ?_⟩
  · intro e he
    obtain ⟨h1, nd2, hnd2, hs2⟩ := hinv e (List.mem_of_mem_eraseIdx he)
    refine ⟨h1, ?_⟩
    rw [hlook]
    by_cases hj : RegressionTree.top heap = e.2
    · rw [if_pos hj]
      exact ⟨_, rfl, Or.inl rfl⟩
    · rw [if_neg hj]
      exact ⟨nd2, hnd2, hs2⟩
  · unfold RegressionTree.potential
    have h1 := sum_eraseIdx (fun e => RegressionTree.weight
      (nodes.getD e.2 (RegressionTree.RTNode.create [] 0 0 0 none))) ((0 : ℚ), 0) heap
      (RegressionTree.top_position heap) htp
    have h2 : ((heap.eraseIdx (RegressionTree.top_position heap)).map (fun e =>
        RegressionTree.weight ((nodes.set (RegressionTree.top heap)
          { nd with sampleids := [], nsampleids := 0, hist := none }).getD e.2
          (RegressionTree.RTNode.create [] 0 0 0 none)))).sum ≤
        ((heap.eraseIdx (RegressionTree.top_position heap)).map (fun e =>
          RegressionTree.weight
            (nodes.getD e.2 (RegressionTree.RTNode.create [] 0 0 0 none)))).sum := by
      apply List.sum_le_sum
      intro e he
      obtain ⟨_, nd2, hnd2, hs2⟩ := hinv e (List.mem_of_mem_eraseIdx he)
      rw [List.getD_eq_getElem?_getD, List.getD_eq_getElem?_getD, hlook, hnd2]
      by_cases hj : RegressionTree.top heap = e.2
      · rw [if_pos hj]
        simp only [Option.getD_some]
        rw [weight_dead _ rfl]
        exact weight_pos p nd2 hs2
      · rw [if_neg hj]
    have h3 : 1 ≤ RegressionTree.weight (nodes.getD
        (heap.getD (RegressionTree.top_position heap) (0, 0)).2
        (RegressionTree.RTNode.create [] 0 0 0 none)) := by
      rw [List.getD_eq_getElem?_getD, hnd]
      exact weight_pos p nd hsettled
    simp only [] at h1
    omega
  · rw [List.length_eraseIdx, if_pos htp]
    omega

theorem split_push_step (p : RegressionTree.Params) (nodes : List RegressionTree.RTNode)
    (heap : List (ℚ × Nat)) (rand : Nat → Nat) (nth : Nat)
    (hminls : 1 ≤ p.minls) (hinv : RegressionTree.HeapInvariant p nodes heap)
    (hne : heap ≠ [])
    (hsplit : (RegressionTree.split p nodes 0 (RegressionTree.top heap) 1 rand nth).1 = true) :
    RegressionTree.HeapInvariant p
      (RegressionTree.split p nodes 0 (RegressionTree.top heap) 1 rand nth).2
      (RegressionTree.push_chidrenof
        (RegressionTree.split p nodes 0 (RegressionTree.top heap) 1 rand nth).2 heap
        (RegressionTree.top heap)) ∧
    RegressionTree.potential
      (RegressionTree.split p nodes 0 (RegressionTree.top heap) 1 rand nth).2
      (RegressionTree.push_chidrenof
        (RegressionTree.split p nodes 0 (RegressionTree.top heap) 1 rand nth).2 heap
        (RegressionTree.top heap)) ≤ RegressionTree.potential nodes heap ∧
    (RegressionTree.split p nodes 0 (RegressionTree.top heap) 1 rand nth).2.length =
      nodes.length + 2 ∧
    (RegressionTree.push_chidrenof
      (RegressionTree.split p nodes 0 (RegressionTree.top heap) 1 rand nth).2 heap
      (RegressionTree.top heap)).length = heap.length + 2 ∧
    ∃ nd l r, nodes[RegressionTree.top heap]? = some nd ∧
      (RegressionTree.split p nodes 0 (RegressionTree.top heap) 1 rand nth).2[nodes.length]? =
        some l ∧
      (RegressionTree.split p nodes 0 (RegressionTree.top heap) 1 rand nth).2[nodes.length + 1]? =
        some r ∧
      1 ≤ l.nsampleids ∧ 1 ≤ r.nsampleids ∧ l.nsampleids + r.nsampleids = nd.nsampleids := by
  have htp := top_position_lt heap hne
  have hmem : heap.getD (RegressionTree.top_position heap) (0, 0) ∈ heap := by
    rw [List.getD_eq_getElem _ _ htp]
    exact List.getElem_mem _
  obtain ⟨hroot, nd, hnd, hsettled⟩ := hinv _ hmem
  have hnode : nodes[RegressionTree.top heap]? = some nd := hnd
  have hroot2 : 1 ≤ RegressionTree.top heap := hroot
  have hlt : RegressionTree.top heap < nodes.length := by
    by_contra hcon
    rw [List.getElem?_eq_none (by omega)] at hnode
    exact absurd hnode (by simp)
  have hfresh : RegressionTree.Fresh p nd ∧ 1 ≤ nd.nsampleids := by
    rcases hsettled with hdead | hf
    · have := split_dead p nodes 0 (RegressionTree.top heap) 1 rand nth nd hnode hdead
      rw [this] at hsplit
      exact absurd hsplit (by simp)
    · exact hf
  obtain ⟨nd', l, r, e1, e2, e3, e4, e5, fl, fr, nl, nr, hsum⟩ :=
    split_children_fresh p nodes 0 (RegressionTree.top heap) 1 rand nth nd hnode hfresh.1
      hminls hsplit
  rw [if_neg (by omega)] at e4
  rw [e1]
  have hlook : ∀ j, j < nodes.length →
      (nodes.set (RegressionTree.top heap) nd' ++ [l, r])[j]? =
        if RegressionTree.top heap = j then some nd' else nodes[j]? := by
    intro j hj
    rw [List.getElem?_append_left (by rw [List.length_set]; exact hj), List.getElem?_set]
    by_cases hjj : RegressionTree.top heap = j
    · rw [if_pos hjj, if_pos hjj, if_pos (by omega)]
    · rw [if_neg hjj, if_neg hjj]
  have hL : (nodes.set (RegressionTree.top heap) nd' ++ [l, r])[nodes.length]? = some l := by
    rw [List.getElem?_append_right (by rw [List.length_set]), List.length_set]
    simp
  have hR : (nodes.set (RegressionTree.top heap) nd' ++ [l, r])[nodes.length + 1]? =
      some r := by
    rw [List.getElem?_append_right (by rw [List.length_set]; omega), List.length_set]
    simp
  have hpush : RegressionTree.push_chidrenof
      (nodes.set (RegressionTree.top heap) nd' ++ [l, r]) heap (RegressionTree.top heap) =
      heap ++ [(l.deviance, nodes.length), (r.deviance, nodes.length + 1)] := by
    unfold RegressionTree.push_chidrenof
    rw [hlook _ hlt, if_pos rfl]
    simp only [e2, e3]
    rw [List.getD_eq_getElem?_getD, List.getD_eq_getElem?_getD, hL, hR]
    rfl
  rw [hpush]
  have hvalid : ∀ e ∈ heap, e.2 < nodes.length := by
    intro e he
    obtain ⟨_, nd2, hnd2, _⟩ := hinv e he
    by_contra hcon
    rw [List.getElem?_eq_none (by omega)] at hnd2
    exact absurd hnd2 (by simp)
  refine ⟨?_, ?_, ?_, ?_, nd, l, r, hnode, hL, hR, nl, nr, hsum⟩
  · intro e he
    rcases List.mem_append.mp he with he | he
    · obtain ⟨h1, nd2, hnd2, hs2⟩ := hinv e he
      refine ⟨h1, ?_⟩
      rw [hlook _ (hvalid e he)]
      by_cases hj : RegressionTree.top heap = e.2
      · rw [if_pos hj]
        exact ⟨nd', rfl, Or.inl e4⟩
      · rw [if_neg hj]
        exact ⟨nd2, hnd2, hs2⟩
    · simp only [List.mem_cons, List.mem_singleton, List.not_mem_nil, or_false] at he
      rcases he with he | he
      · rw [he]
        exact ⟨by show 1 ≤ nodes.length; omega, l, hL, Or.inr ⟨fl, nl⟩⟩
      · rw [he]
        exact ⟨by show 1 ≤ nodes.length + 1; omega, r, hR, Or.inr ⟨fr, nr⟩⟩
  · unfold RegressionTree.potential
    rw [List.map_append, List.sum_append]
    have hgap := sum_le_with_gap
      (fun e => RegressionTree.weight ((nodes.set (RegressionTree.top heap) nd' ++ [l, r]).getD
        e.2 (RegressionTree.RTNode.create [] 0 0 0 none)))
      (fun e => RegressionTree.weight
        (nodes.getD e.2 (RegressionTree.RTNode.create [] 0 0 0 none)))
      ((0 : ℚ), 0) heap (RegressionTree.top_position heap) (2 * nd.nsampleids - 2) htp
      (by
        intro e he
        obtain ⟨_, nd2, hnd2, hs2⟩ := hinv e he
        simp only []
        rw [List.getD_eq_getElem?_getD, List.getD_eq_getElem?_getD, hlook _ (hvalid e he)]
        by_cases hj : RegressionTree.top heap = e.2
        · rw [if_pos hj, hnd2]
          simp only [Option.getD_some]
          rw [weight_dead _ e4]
          exact weight_pos p nd2 hs2
        · rw [if_neg hj])
      (by
        show RegressionTree.weight
            ((nodes.set (RegressionTree.top heap) nd' ++ [l, r]).getD (RegressionTree.top heap)
              (RegressionTree.RTNode.create [] 0 0 0 none)) + (2 * nd.nsampleids - 2) ≤
          RegressionTree.weight (nodes.getD (RegressionTree.top heap)
            (RegressionTree.RTNode.create [] 0 0 0 none))
        rw [List.getD_eq_getElem?_getD, List.getD_eq_getElem?_getD, hlook _ hlt, hnode,
          if_pos rfl]
        simp only [Option.getD_some]
        rw [weight_dead _ e4, weight_fresh p nd hfresh.1]
        omega)
    have hl : RegressionTree.weight ((nodes.set (RegressionTree.top heap) nd' ++ [l, r]).getD
        nodes.length (RegressionTree.RTNode.create [] 0 0 0 none)) = 2 * l.nsampleids - 1 := by
      rw [List.getD_eq_getElem?_getD, hL]
      exact weight_fresh p l fl
    have hr : RegressionTree.weight ((nodes.set (RegressionTree.top heap) nd' ++ [l, r]).getD
        (nodes.length + 1) (RegressionTree.RTNode.create [] 0 0 0 none)) =
        2 * r.nsampleids - 1 := by
      rw [List.getD_eq_getElem?_getD, hR]
      exact weight_fresh p r fr
    simp only [List.map_cons, List.map_nil, List.sum_cons, List.sum_nil, hl, hr]
    omega
  · rw [List.length_append, List.length_set]
    rfl
  · rw [List.length_append]
    rfl

theorem grow_step (p : RegressionTree.Params) (rand : Nat → Nat) (nth : Nat)
    (g : RegressionTree.Growth) (hminls : 1 ≤ p.minls)
    (hinv : RegressionTree.HeapInvariant p g.nodes g.heap) (hne : g.heap ≠ []) :
    RegressionTree.HeapInvariant p (RegressionTree.grow p rand nth g).nodes
      (RegressionTree.grow p rand nth g).heap ∧
    RegressionTree.potential (RegressionTree.grow p rand nth g).nodes
      (RegressionTree.grow p rand nth g).heap + 1 ≤ RegressionTree.potential g.nodes g.heap ∧
    (RegressionTree.grow p rand nth g).nodes.length +
        RegressionTree.potential (RegressionTree.grow p rand nth g).nodes
          (RegressionTree.grow p rand nth g).heap + g.heap.length ≤
      g.nodes.length + RegressionTree.potential g.nodes g.heap +
        (RegressionTree.grow p rand nth g).heap.length ∧
    (((RegressionTree.split p g.nodes 0 (RegressionTree.top g.heap) 1 rand nth).1 = false ∧
      (RegressionTree.grow p rand nth g).nodes.length = g.nodes.length ∧
      (RegressionTree.grow p rand nth g).heap.length + 1 = g.heap.length ∧
      (RegressionTree.grow p rand nth g).taken = g.taken + 1) ∨
     ((RegressionTree.split p g.nodes 0 (RegressionTree.top g.heap) 1 rand nth).1 = true ∧
      (RegressionTree.grow p rand nth g).nodes.length = g.nodes.length + 2 ∧
      (RegressionTree.grow p rand nth g).heap.length = g.heap.length + 1 ∧
      (RegressionTree.grow p rand nth g).taken = g.taken ∧
      ∃ nd l r, g.nodes[RegressionTree.top g.heap]? = some nd ∧
        (RegressionTree.split p g.nodes 0 (RegressionTree.top g.heap) 1 rand
          nth).2[g.nodes.length]? = some l ∧
        (RegressionTree.split p g.nodes 0 (RegressionTree.top g.heap) 1 rand
          nth).2[g.nodes.length + 1]? = some r ∧
        1 ≤ l.nsampleids ∧ 1 ≤ r.nsampleids ∧
        l.nsampleids + r.nsampleids = nd.nsampleids)) := by
  by_cases hs : (RegressionTree.split p g.nodes 0 (RegressionTree.top g.heap) 1 rand nth).1 = true
  · obtain ⟨a1, a2, a3, a4, a5⟩ := split_push_step p g.nodes g.heap rand nth hminls hinv hne hs
    have hne2 : RegressionTree.push_chidrenof
        (RegressionTree.split p g.nodes 0 (RegressionTree.top g.heap) 1 rand nth).2 g.heap
        (RegressionTree.top g.heap) ≠ [] := by
      intro hcon
      rw [hcon] at a4
      simp at a4
    obtain ⟨b1, b2, b3, b4⟩ := pop_step p _ _ a1 hne2
    have hg : RegressionTree.grow p rand nth g =
        { nodes := (RegressionTree.pop
            (RegressionTree.split p g.nodes 0 (RegressionTree.top g.heap) 1 rand nth).2
            (RegressionTree.push_chidrenof
              (RegressionTree.split p g.nodes 0 (RegressionTree.top g.heap) 1 rand nth).2
              g.heap (RegressionTree.top g.heap))).1
          heap := (RegressionTree.pop
            (RegressionTree.split p g.nodes 0 (RegressionTree.top g.heap) 1 rand nth).2
            (RegressionTree.push_chidrenof
              (RegressionTree.split p g.nodes 0 (RegressionTree.top g.heap) 1 rand nth).2
              g.heap (RegressionTree.top g.heap))).2
          taken := g.taken } := by
      unfold RegressionTree.grow
      simp only []
      rw [if_pos hs]
    rw [hg]
    simp only []
    refine ⟨b1, by omega, by omega, Or.inr ⟨hs, by omega, by omega, trivial, a5⟩⟩
  · have hs2 : (RegressionTree.split p g.nodes 0 (RegressionTree.top g.heap) 1 rand nth).1 =
        false := by
      cases hh : (RegressionTree.split p g.nodes 0 (RegressionTree.top g.heap) 1 rand nth).1
      · rfl
      · exact absurd hh hs
    have hframe := split_false_frame p g.nodes 0 (RegressionTree.top g.heap) 1 rand nth hs2
    obtain ⟨b1, b2, b3, b4⟩ := pop_step p g.nodes g.heap hinv hne
    have hg : RegressionTree.grow p rand nth g =
        { nodes := (RegressionTree.pop g.nodes g.heap).1
          heap := (RegressionTree.pop g.nodes g.heap).2
          taken := g.taken + 1 } := by
      unfold RegressionTree.grow
      simp only []
      rw [if_neg hs, hframe]
    rw [hg]
    simp only []
    exact ⟨b1, b2, by omega, Or.inl ⟨hs2, b3, b4, trivial⟩⟩

theorem grow_loop_terminates (p : RegressionTree.Params) (rand : Nat → Nat) (nth : Nat)
    (hminls : 1 ≤ p.minls) :
    ∀ (fuel : Nat) (g : RegressionTree.Growth),
      RegressionTree.HeapInvariant p g.nodes g.heap →
      RegressionTree.potential g.nodes g.heap ≤ fuel →
      ∃ g', RegressionTree.grow_loop p rand nth fuel g = some g' ∧
        RegressionTree.HeapInvariant p g'.nodes g'.heap ∧
        g'.nodes.length + RegressionTree.potential g'.nodes g'.heap + g.heap.length ≤
          g.nodes.length + RegressionTree.potential g.nodes g.heap + g'.heap.length := by
  intro fuel
  induction fuel with
  | zero =>
    intro g hinv hpot
    have hlen := potential_ge_length p g.nodes g.heap hinv
    have hnil : g.heap = [] := List.length_eq_zero.mp (by omega)
    have hng : ¬ RegressionTree.growing p g := fun hg => hg.1 hnil
    exact ⟨g, grow_loop_done p rand nth 0 g hng, hinv, le_refl _⟩
  | succ fuel ih =>
    intro g hinv hpot
    by_cases hg : RegressionTree.growing p g
    · obtain ⟨a1, a2, a3, _⟩ := grow_step p rand nth g hminls hinv hg.1
      obtain ⟨g', b1, b2, b3⟩ := ih (RegressionTree.grow p rand nth g) a1 (by omega)
      refine ⟨g', ?_, b2, by omega⟩
      rw [grow_loop_step p rand nth fuel g hg]
      exact b1
    · exact ⟨g, grow_loop_done p rand nth _ g hg, hinv, le_refl _⟩

theorem root_fresh (p : RegressionTree.Params) (hist : RegressionTree.RTNodeHistogram)
    (h32 : p.training_dataset.num_instances < 2 ^ 32)
    (hinv : RegressionTree.CountInvariant p.training_dataset
      (List.range p.training_dataset.num_instances) hist)
    (hshape : RegressionTree.Shaped p.training_dataset hist) :
    RegressionTree.Fresh p
      (RegressionTree.RTNode.create (List.range p.training_dataset.num_instances)
        p.training_dataset.num_instances RegressionTree.DBL_MAX 0 (some hist)) := by
  refine ⟨hist, rfl, ?_, hshape, h32⟩
  have hids : (RegressionTree.RTNode.create (List.range p.training_dataset.num_instances)
      p.training_dataset.num_instances RegressionTree.DBL_MAX 0 (some hist)).ids =
      List.range p.training_dataset.num_instances :=
    ids_of_length _ (by simp [RegressionTree.RTNode.create])
  rw [hids]
  exact hinv

theorem fit_start (p : RegressionTree.Params) (hist : RegressionTree.RTNodeHistogram)
    (rand : Nat → Nat) (nth : Nat) (hminls : 1 ≤ p.minls)
    (h32 : p.training_dataset.num_instances < 2 ^ 32)
    (hinv : RegressionTree.CountInvariant p.training_dataset
      (List.range p.training_dataset.num_instances) hist)
    (hshape : RegressionTree.Shaped p.training_dataset hist) :
    RegressionTree.HeapInvariant p
      (RegressionTree.split p
        [RegressionTree.RTNode.create (List.range p.training_dataset.num_instances)
          p.training_dataset.num_instances RegressionTree.DBL_MAX 0 (some hist)]
        0 0 1 rand nth).2
      (if (RegressionTree.split p
        [RegressionTree.RTNode.create (List.range p.training_dataset.num_instances)
          p.training_dataset.num_instances RegressionTree.DBL_MAX 0 (some hist)]
        0 0 1 rand nth).1 then
        RegressionTree.push_chidrenof (RegressionTree.split p
          [RegressionTree.RTNode.create (List.range p.training_dataset.num_instances)
            p.training_dataset.num_instances RegressionTree.DBL_MAX 0 (some hist)]
          0 0 1 rand nth).2 [] 0
      else []) ∧
    (RegressionTree.split p
        [RegressionTree.RTNode.create (List.range p.training_dataset.num_instances)
          p.training_dataset.num_instances RegressionTree.DBL_MAX 0 (some hist)]
        0 0 1 rand nth).2.length +
      RegressionTree.potential (RegressionTree.split p
        [RegressionTree.RTNode.create (List.range p.training_dataset.num_instances)
          p.training_dataset.num_instances RegressionTree.DBL_MAX 0 (some hist)]
        0 0 1 rand nth).2
      (if (RegressionTree.split p
        [RegressionTree.RTNode.create (List.range p.training_dataset.num_instances)
          p.training_dataset.num_instances RegressionTree.DBL_MAX 0 (some hist)]
        0 0 1 rand nth).1 then
        RegressionTree.push_chidrenof (RegressionTree.split p
          [RegressionTree.RTNode.create (List.range p.training_dataset.num_instances)
            p.training_dataset.num_instances RegressionTree.DBL_MAX 0 (some hist)]
          0 0 1 rand nth).2 [] 0
      else []) ≤
      2 * (p.training_dataset.num_instances - 1) + 1 +
      (if (RegressionTree.split p
        [RegressionTree.RTNode.create (List.range p.training_dataset.num_instances)
          p.training_dataset.num_instances RegressionTree.DBL_MAX 0 (some hist)]
        0 0 1 rand nth).1 then
        RegressionTree.push_chidrenof (RegressionTree.split p
          [RegressionTree.RTNode.create (List.range p.training_dataset.num_instances)
            p.training_dataset.num_instances RegressionTree.DBL_MAX 0 (some hist)]
          0 0 1 rand nth).2 [] 0
      else []).length ∧
    RegressionTree.potential (RegressionTree.split p
        [RegressionTree.RTNode.create (List.range p.training_dataset.num_instances)
          p.training_dataset.num_instances RegressionTree.DBL_MAX 0 (some hist)]
        0 0 1 rand nth).2
      (if (RegressionTree.split p
        [RegressionTree.RTNode.create (List.range p.training_dataset.num_instances)
          p.training_dataset.num_instances RegressionTree.DBL_MAX 0 (some hist)]
        0 0 1 rand nth).1 then
        RegressionTree.push_chidrenof (RegressionTree.split p
          [RegressionTree.RTNode.create (List.range p.training_dataset.num_instances)
            p.training_dataset.num_instances RegressionTree.DBL_MAX 0 (some hist)]
          0 0 1 rand nth).2 [] 0
      else []) ≤ 2 * p.training_dataset.num_instances := by
  generalize hroot : RegressionTree.RTNode.create (List.range p.training_dataset.num_instances)
    p.training_dataset.num_instances RegressionTree.DBL_MAX 0 (some hist) = root
  have hfresh : RegressionTree.Fresh p root := by
    rw [← hroot]
    exact root_fresh p hist h32 hinv hshape
  have hn : root.nsampleids = p.training_dataset.num_instances := by
    rw [← hroot]
    rfl
  by_cases hs : (RegressionTree.split p [root] 0 0 1 rand nth).1 = true
  · rw [if_pos hs]
    obtain ⟨nd', l, r, e1, e2, e3, _, _, fl, fr, nl, nr, hsum⟩ :=
      split_children_fresh p [root] 0 0 1 rand nth root rfl hfresh hminls hs
    rw [e1]
    have harena : [root].set 0 nd' ++ [l, r] = [nd', l, r] := rfl
    rw [harena]
    have hpush : RegressionTree.push_chidrenof [nd', l, r] [] 0 =
        [(l.deviance, 1), (r.deviance, 2)] := by
      unfold RegressionTree.push_chidrenof
      have h0 : [nd', l, r][0]? = some nd' := rfl
      rw [h0]
      simp only [e2, e3]
      rfl
    rw [hpush]
    have hpot : RegressionTree.potential [nd', l, r] [(l.deviance, 1), (r.deviance, 2)] =
        (2 * l.nsampleids - 1) + (2 * r.nsampleids - 1) := by
      unfold RegressionTree.potential
      have h1 : [nd', l, r].getD 1 (RegressionTree.RTNode.create [] 0 0 0 none) = l := rfl
      have h2 : [nd', l, r].getD 2 (RegressionTree.RTNode.create [] 0 0 0 none) = r := rfl
      simp only [List.map_cons, List.map_nil, List.sum_cons, List.sum_nil, h1, h2,
        weight_fresh p l fl, weight_fresh p r fr]
      omega
    rw [hpot]
    refine ⟨?_, ?_, ?_⟩
    · intro e he
      simp only [List.mem_cons, List.mem_singleton, List.not_mem_nil, or_false] at he
      rcases he with he | he
      · rw [he]
        exact ⟨le_refl _, l, rfl, Or.inr ⟨fl, nl⟩⟩
      · rw [he]
        exact ⟨by show 1 ≤ 2; omega, r, rfl, Or.inr ⟨fr, nr⟩⟩
    · simp only [List.length_cons, List.length_nil]
      omega
    · omega
  · rw [if_neg hs]
    have hs2 : (RegressionTree.split p [root] 0 0 1 rand nth).1 = false := by
      cases hh : (RegressionTree.split p [root] 0 0 1 rand nth).1
      · rfl
      · exact absurd hh hs
    rw [split_false_frame p [root] 0 0 1 rand nth hs2]
    refine ⟨?_, ?_, ?_⟩
    · intro e he
      exact absurd he (List.not_mem_nil e)
    · simp [RegressionTree.potential]
    · simp [RegressionTree.potential]

theorem count_of_hist (d : RegressionTree.Dataset) (labels : List ℚ) (ids : List Nat)
    (h : RegressionTree.RTNodeHistogram) (hinv : RegressionTree.HistInvariant d labels ids h) :
    RegressionTree.CountInvariant d ids h := by
  intro f hf t ht
  obtain ⟨h1, h2, _⟩ := hinv f hf
  exact ⟨(h1 t ht).1, h2⟩

/-- C25.  Let `minls ≥ 1`, and let the root histogram have the shape the scan relies on and
satisfy the count part of the histogram invariant for the `N < 2 ^ 32` training samples.
Then, for every leaf budget (`nrequiredleaves = 0` included), `fit` returns whenever its loop
is allowed `2 N` iterations, and at most `N - 1` splits succeeded in the tree it returns.
Every successful `split` of a node that holds its samples and such a histogram appends two
children that are again such nodes, each with at least one sample and strictly fewer than
the parent, the two sizes adding up to the parent's size.  The heap that enters the loop
holds only such nodes or nodes without histogram, and every loop iteration keeps this, lowers
the termination measure, and either finds the top node unsplittable (the arena keeps its
size, the heap loses an entry, `taken` grows by one) or performs one of these splits (the
arena grows by the two children, the heap by one entry). -/
theorem fit_terminates (p : RegressionTree.Params) (hist : RegressionTree.RTNodeHistogram)
    (rand : Nat → Nat) (nth : Nat) (hminls : 1 ≤ p.minls)
    (h32 : p.training_dataset.num_instances < 2 ^ 32)
    (hinv : RegressionTree.CountInvariant p.training_dataset
      (List.range p.training_dataset.num_instances) hist)
    (hshape : RegressionTree.Shaped p.training_dataset hist) :
    (∀ fuel, 2 * p.training_dataset.num_instances ≤ fuel →
      ∃ t, RegressionTree.fit p hist rand nth fuel = some t ∧
        RegressionTree.splits t.nodes ≤ p.training_dataset.num_instances - 1) ∧
    (∀ (nodes : List RegressionTree.RTNode) (root i : Nat) (nd : RegressionTree.RTNode),
      nodes[i]? = some nd → RegressionTree.Fresh p nd →
      (RegressionTree.split p nodes root i 1 rand nth).1 = true →
      (RegressionTree.split p nodes root i 1 rand nth).2.length = nodes.length + 2 ∧
      ∃ l r, (RegressionTree.split p nodes root i 1 rand nth).2[nodes.length]? = some l ∧
        (RegressionTree.split p nodes root i 1 rand nth).2[nodes.length + 1]? = some r ∧
        RegressionTree.Fresh p l ∧ RegressionTree.Fresh p r ∧
        1 ≤ l.nsampleids ∧ 1 ≤ r.nsampleids ∧
        l.nsampleids < nd.nsampleids ∧ r.nsampleids < nd.nsampleids ∧
        l.nsampleids + r.nsampleids = nd.nsampleids) ∧
    RegressionTree.HeapInvariant p
      (RegressionTree.split p
        [RegressionTree.RTNode.create (List.range p.training_dataset.num_instances)
          p.training_dataset.num_instances RegressionTree.DBL_MAX 0 (some hist)]
        0 0 1 rand nth).2
      (if (RegressionTree.split p
        [RegressionTree.RTNode.create (List.range p.training_dataset.num_instances)
          p.training_dataset.num_instances RegressionTree.DBL_MAX 0 (some hist)]
        0 0 1 rand nth).1 then
        RegressionTree.push_chidrenof (RegressionTree.split p
          [RegressionTree.RTNode.create (List.range p.training_dataset.num_instances)
            p.training_dataset.num_instances RegressionTree.DBL_MAX 0 (some hist)]
          0 0 1 rand nth).2 [] 0
      else []) ∧
    (∀ g : RegressionTree.Growth, RegressionTree.HeapInvariant p g.nodes g.heap →
      RegressionTree.growing p g →
      RegressionTree.HeapInvariant p (RegressionTree.grow p rand nth g).nodes
        (RegressionTree.grow p rand nth g).heap ∧
      RegressionTree.potential (RegressionTree.grow p rand nth g).nodes
        (RegressionTree.grow p rand nth g).heap < RegressionTree.potential g.nodes g.heap ∧
      (((RegressionTree.split p g.nodes 0 (RegressionTree.top g.heap) 1 rand nth).1 = false ∧
        (RegressionTree.grow p rand nth g).nodes.length = g.nodes.length ∧
        (RegressionTree.grow p rand nth g).heap.length + 1 = g.heap.length ∧
        (RegressionTree.grow p rand nth g).taken = g.taken + 1) ∨
       ((RegressionTree.split p g.nodes 0 (RegressionTree.top g.heap) 1 rand nth).1 = true ∧
        (RegressionTree.grow p rand nth g).nodes.length = g.nodes.length + 2 ∧
        (RegressionTree.grow p rand nth g).heap.length = g.heap.length + 1 ∧
        (RegressionTree.grow p rand nth g).taken = g.taken ∧
        ∃ nd l r, g.nodes[RegressionTree.top g.heap]? = some nd ∧
          (RegressionTree.split p g.nodes 0 (RegressionTree.top g.heap) 1 rand
            nth).2[g.nodes.length]? = some l ∧
          (RegressionTree.split p g.nodes 0 (RegressionTree.top g.heap) 1 rand
            nth).2[g.nodes.length + 1]? = some r ∧
          1 ≤ l.nsampleids ∧ 1 ≤ r.nsampleids ∧
          l.nsampleids + r.nsampleids = nd.nsampleids))) := by
  obtain ⟨s1, s2, s3⟩ := fit_start p hist rand nth hminls h32 hinv hshape
  refine ⟨?_, ?_, s1, ?_⟩
  · intro fuel hfuel
    unfold RegressionTree.fit
    simp only []
    generalize RegressionTree.split p
      [RegressionTree.RTNode.create (List.range p.training_dataset.num_instances)
        p.training_dataset.num_instances RegressionTree.DBL_MAX 0 (some hist)]
      0 0 1 rand nth = s at s1 s2 s3 ⊢
    by_cases hs : s.1 = true
    · rw [if_pos hs] at s1 s2 s3 ⊢
      obtain ⟨g', hg', hinv', hbound⟩ := grow_loop_terminates p rand nth hminls fuel
        { nodes := s.2, heap := RegressionTree.push_chidrenof s.2 [] 0, taken := 0 } s1
        (by simp only []; omega)
      have hlen := potential_ge_length p g'.nodes g'.heap hinv'
      simp only [] at hbound
      rw [hg']
      refine ⟨_, rfl, ?_⟩
      unfold RegressionTree.splits
      simp only []
      omega
    · rw [if_neg hs] at s1 s2 s3 ⊢
      obtain ⟨g', hg', hinv', hbound⟩ := grow_loop_terminates p rand nth hminls fuel
        { nodes := s.2, heap := [], taken := 0 } s1 (by simp only []; omega)
      have hlen := potential_ge_length p g'.nodes g'.heap hinv'
      simp only [] at hbound
      rw [hg']
      refine ⟨_, rfl, ?_⟩
      unfold RegressionTree.splits
      simp only []
      omega
  · intro nodes root i nd hnode hfresh hsplit
    obtain ⟨nd', l, r, e1, _, _, _, _, fl, fr, nl, nr, hsum⟩ :=
      split_children_fresh p nodes root i 1 rand nth nd hnode hfresh hminls hsplit
    have hL : (nodes.set i nd' ++ [l, r])[nodes.length]? = some l := by
      rw [List.getElem?_append_right (by rw [List.length_set]), List.length_set]
      simp
    have hR : (nodes.set i nd' ++ [l, r])[nodes.length + 1]? = some r := by
      rw [List.getElem?_append_right (by rw [List.length_set]; omega), List.length_set]
      simp
    rw [e1]
    refine ⟨by rw [List.length_append, List.length_set]; rfl, l, r, hL, hR, fl, fr, nl, nr,
      by omega, by omega, hsum⟩
  · intro g hg hgrowing
    obtain ⟨a1, a2, _, a4⟩ := grow_step p rand nth g hminls hg hgrowing.1
    exact ⟨a1, by omega, a4⟩

theorem sample_shaped :
    RegressionTree.Shaped RegressionTree.sample_dataset RegressionTree.sample_hist := by
  intro f hf
  have hf' : f < 2 := hf
  interval_cases f <;> simp [RegressionTree.sample_hist]

/-- C25, a concrete run: the three-sample training set with `minls = 1`.  `fit` returns with
six loop iterations allowed, with at most two successful splits, for every leaf budget;
the same holds with the budget `0`. -/
theorem fit_terminates_witness :
    (∃ t, RegressionTree.fit RegressionTree.sample_params RegressionTree.sample_hist
        (fun _ => 0) 1 6 = some t ∧ RegressionTree.splits t.nodes ≤ 2) ∧
    (∃ t, RegressionTree.fit { RegressionTree.sample_params with nrequiredleaves := 0 }
        RegressionTree.sample_hist (fun _ => 0) 1 6 = some t ∧
      RegressionTree.splits t.nodes ≤ 2) := by
  constructor
  · exact (fit_terminates RegressionTree.sample_params RegressionTree.sample_hist (fun _ => 0) 1
      (by decide) (by decide)
      (count_of_hist _ _ _ _ sample_hist_invariant) sample_shaped).1 6 (by decide)
  · exact (fit_terminates { RegressionTree.sample_params with nrequiredleaves := 0 }
      RegressionTree.sample_hist (fun _ => 0) 1
      (by decide) (by decide)
      (count_of_hist _ _ _ _ sample_hist_invariant) sample_shaped).1 6 (by decide)

/-! ### Regression tree: the scan of `split` in `double` arithmetic -/

theorem scan_threshold_fl_exact (h : RegressionTree.RTNodeHistogram) (minls f : Nat) (s : ℚ)
    (c : Nat) (b : RegressionTree.Best) (t : Nat) :
    RegressionTree.scan_threshold_fl (fun x => x) h minls f s c b t =
      RegressionTree.scan_threshold h minls f s c b t := rfl

theorem scan_feature_fl_exact (h : RegressionTree.RTNodeHistogram) (minls : Nat)
    (b : RegressionTree.Best) (f : Nat) :
    RegressionTree.scan_feature_fl (fun x => x) h minls b f =
      RegressionTree.scan_feature h minls b f := rfl

theorem best_split_fl_exact (h : RegressionTree.RTNodeHistogram) (minls : Nat)
    (features : List Nat) (nth : Nat) :
    RegressionTree.best_split_fl (fun x => x) h minls features nth =
      RegressionTree.best_split h minls features nth := rfl

theorem computed_score_exact (h : RegressionTree.RTNodeHistogram) (f t : Nat) :
    RegressionTree.computed_score (fun x => x) h f t = RegressionTree.split_score h f t := by
  unfold RegressionTree.computed_score RegressionTree.split_score RegressionTree.s_R
  simp only [sq]

theorem scan_threshold_fl_eq (fl : ℚ → ℚ) (h : RegressionTree.RTNodeHistogram)
    (minls f t : Nat) (b : RegressionTree.Best) :
    RegressionTree.scan_threshold_fl fl h minls f (RegressionTree.s_total h f)
        (RegressionTree.c_total h f) b t =
      if minls ≤ RegressionTree.c_L h f t ∧ minls ≤ RegressionTree.c_R h f t then
        (if RegressionTree.computed_score fl h f t > b.score then
          { score := RegressionTree.computed_score fl h f t, featureidx := f, thresholdid := t }
        else b)
      else b := by
  unfold RegressionTree.scan_threshold_fl RegressionTree.computed_score RegressionTree.c_R
    RegressionTree.c_L RegressionTree.s_L
  simp only [ge_iff_le]

theorem scan_threshold_fl_invariant (fl : ℚ → ℚ) (h : RegressionTree.RTNodeHistogram)
    (minls F f t : Nat) (b : RegressionTree.Best) (hf : f < F)
    (ht : t < h.thresholds_size.getD f 0)
    (hb : RegressionTree.FirstBest fl h minls F f t b) :
    RegressionTree.FirstBest fl h minls F f (t + 1)
      (RegressionTree.scan_threshold_fl fl h minls f (RegressionTree.s_total h f)
        (RegressionTree.c_total h f) b t) := by
  rw [scan_threshold_fl_eq]
  by_cases hadm : minls ≤ RegressionTree.c_L h f t ∧ minls ≤ RegressionTree.c_R h f t
  · rw [if_pos hadm]
    have hA : RegressionTree.Admissible h minls F f t := ⟨hf, ht, hadm.1, hadm.2⟩
    by_cases hgt : RegressionTree.computed_score fl h f t > b.score
    · rw [if_pos hgt]
      right
      have hb1 : -1 ≤ b.score := by
        rcases hb with ⟨hinit, _⟩ | ⟨_, _, _, hpos, _⟩
        · rw [hinit]; exact le_refl _
        · exact hpos.le
      refine ⟨hA, before_succ.mpr (Or.inr ⟨rfl, rfl⟩), rfl, lt_of_le_of_lt hb1 hgt, ?_⟩
      intro f' t' hA' hB'
      rcases before_succ.mp hB' with hB | ⟨rfl, rfl⟩
      · have hle : RegressionTree.computed_score fl h f' t' ≤ b.score := by
          rcases hb with ⟨hinit, hnone⟩ | ⟨_, _, _, _, hall⟩
          · rw [hinit]
            exact hnone f' t' hA' hB
          · exact (hall f' t' hA' hB).1
        have hlt : RegressionTree.computed_score fl h f' t' <
            RegressionTree.computed_score fl h f t := lt_of_le_of_lt hle hgt
        exact ⟨hlt.le, fun heq => absurd heq (ne_of_lt hlt)⟩
      · exact ⟨le_refl _, fun _ => before_irrefl _ _⟩
    · rw [if_neg hgt]
      rcases hb with ⟨hinit, hnone⟩ | ⟨hbA, hbB, hbs, hpos, hall⟩
      · left
        refine ⟨hinit, ?_⟩
        intro f' t' hA' hB'
        rcases before_succ.mp hB' with hB | ⟨rfl, rfl⟩
        · exact hnone f' t' hA' hB
        · rw [hinit] at hgt
          exact not_lt.mp hgt
      · right
        refine ⟨hbA, before_succ.mpr (Or.inl hbB), hbs, hpos, ?_⟩
        intro f' t' hA' hB'
        rcases before_succ.mp hB' with hB | ⟨rfl, rfl⟩
        · exact hall f' t' hA' hB
        · exact ⟨not_lt.mp hgt, fun _ => before_asymm hbB⟩
  · rw [if_neg hadm]
    rcases hb with ⟨hinit, hnone⟩ | ⟨hbA, hbB, hbs, hpos, hall⟩
    · left
      refine ⟨hinit, ?_⟩
      intro f' t' hA' hB'
      rcases before_succ.mp hB' with hB | ⟨rfl, rfl⟩
      · exact hnone f' t' hA' hB
      · exact absurd ⟨hA'.2.2.1, hA'.2.2.2⟩ hadm
    · right
      refine ⟨hbA, before_succ.mpr (Or.inl hbB), hbs, hpos, ?_⟩
      intro f' t' hA' hB'
      rcases before_succ.mp hB' with hB | ⟨rfl, rfl⟩
      · exact hall f' t' hA' hB
      · exact absurd ⟨hA'.2.2.1, hA'.2.2.2⟩ hadm

theorem scan_feature_fl_invariant (fl : ℚ → ℚ) (h : RegressionTree.RTNodeHistogram)
    (minls F f : Nat) (b : RegressionTree.Best) (hf : f < F)
    (hb : RegressionTree.FirstBest fl h minls F f 0 b) :
    RegressionTree.FirstBest fl h minls F (f + 1) 0
      (RegressionTree.scan_feature_fl fl h minls b f) := by
  have hloop : ∀ t, t ≤ h.thresholds_size.getD f 0 →
      RegressionTree.FirstBest fl h minls F f t
        ((List.range t).foldl (RegressionTree.scan_threshold_fl fl h minls f
          (RegressionTree.s_total h f) (RegressionTree.c_total h f)) b) := by
    intro t
    induction t with
    | zero => intro _; exact hb
    | succ t ih =>
      intro ht
      rw [List.range_succ, List.foldl_append]
      exact scan_threshold_fl_invariant fl h minls F f t _ hf (by omega) (ih (by omega))
  have hend := hloop _ (le_refl _)
  have hconv : ∀ f' t', RegressionTree.Admissible h minls F f' t' →
      (RegressionTree.Before (f + 1) 0 f' t' ↔
        RegressionTree.Before f (h.thresholds_size.getD f 0) f' t') := by
    intro f' t' hA
    unfold RegressionTree.Before
    constructor
    · intro hB
      by_cases hff : f' = f
      · subst hff; exact Or.inr ⟨rfl, hA.2.1⟩
      · left; omega
    · intro hB
      left; omega
  unfold RegressionTree.scan_feature_fl
  simp only []
  change RegressionTree.FirstBest fl h minls F (f + 1) 0
    ((List.range (h.thresholds_size.getD f 0)).foldl (RegressionTree.scan_threshold_fl fl h
      minls f (RegressionTree.s_total h f) (RegressionTree.c_total h f)) b)
  rcases hend with ⟨hinit, hnone⟩ | ⟨hbA, hbB, hbs, hpos, hall⟩
  · left
    exact ⟨hinit, fun f' t' hA hB => hnone f' t' hA ((hconv f' t' hA).mp hB)⟩
  · right
    exact ⟨hbA, (hconv _ _ hbA).mpr hbB, hbs, hpos,
      fun f' t' hA hB => hall f' t' hA ((hconv f' t' hA).mp hB)⟩

theorem scan_all_fl_invariant (fl : ℚ → ℚ) (h : RegressionTree.RTNodeHistogram)
    (minls F : Nat) :
    RegressionTree.FirstBest fl h minls F F 0
      ((List.range F).foldl (RegressionTree.scan_feature_fl fl h minls)
        RegressionTree.Best.init) := by
  have hloop : ∀ f, f ≤ F → RegressionTree.FirstBest fl h minls F f 0
      ((List.range f).foldl (RegressionTree.scan_feature_fl fl h minls)
        RegressionTree.Best.init) := by
    intro f
    induction f with
    | zero =>
      intro _
      left
      refine ⟨rfl, ?_⟩
      intro f' t' _ hB
      unfold RegressionTree.Before at hB
      omega
    | succ f ih =>
      intro hf
      rw [List.range_succ, List.foldl_append]
      exact scan_feature_fl_invariant fl h minls F f _ (by omega) (ih (by omega))
  exact hloop F (le_refl _)

theorem firstBest_score_ge (fl : ℚ → ℚ) (h : RegressionTree.RTNodeHistogram)
    (minls F f t : Nat) (b : RegressionTree.Best)
    (hb : RegressionTree.FirstBest fl h minls F f t b) : -1 ≤ b.score := by
  rcases hb with ⟨hinit, _⟩ | ⟨_, _, _, hpos, _⟩
  · rw [hinit]; exact le_refl _
  · exact hpos.le

theorem best_split_fl_eq_scan (fl : ℚ → ℚ) (h : RegressionTree.RTNodeHistogram) (minls : Nat)
    (features : List Nat) (nth : Nat) (hnth : 1 ≤ nth)
    (hge : -1 ≤ (features.foldl (RegressionTree.scan_feature_fl fl h minls)
      RegressionTree.Best.init).score) :
    RegressionTree.best_split_fl fl h minls features nth =
      features.foldl (RegressionTree.scan_feature_fl fl h minls) RegressionTree.Best.init := by
  unfold RegressionTree.best_split_fl
  simp only []
  have hinit0 : (List.replicate nth RegressionTree.Best.init).getD 0 RegressionTree.Best.init =
      RegressionTree.Best.init := by
    rw [List.getD_eq_getElem _ _ (by simpa using hnth)]
    simp
  rw [hinit0]
  generalize features.foldl (RegressionTree.scan_feature_fl fl h minls)
    RegressionTree.Best.init = r at hge ⊢
  have h0 : ((List.replicate nth RegressionTree.Best.init).set 0 r).getD 0
      RegressionTree.Best.init = r := by
    rw [List.getD_eq_getElem _ _ (by simpa using hnth)]
    simp
  have hi : ∀ i, 1 ≤ i → ((List.replicate nth RegressionTree.Best.init).set 0 r).getD i
      RegressionTree.Best.init = RegressionTree.Best.init := by
    intro i hi
    by_cases hlt : i < nth
    · rw [List.getD_eq_getElem _ _ (by simpa using hlt), List.getElem_set_ne (by omega)]
      simp
    · rw [List.getD_eq_default _ _ (by simpa using hlt)]
  rw [h0]
  have hfold : ∀ (l : List Nat), (∀ i ∈ l, 1 ≤ i) →
      l.foldl (fun best i =>
        if (((List.replicate nth RegressionTree.Best.init).set 0 r).getD i
            RegressionTree.Best.init).score > best.score
        then ((List.replicate nth RegressionTree.Best.init).set 0 r).getD i
          RegressionTree.Best.init
        else best) r = r := by
    intro l
    induction l with
    | nil => intro _; rfl
    | cons a l ih =>
      intro hl
      rw [List.foldl_cons, hi a (hl a (List.mem_cons_self _ _))]
      have : ¬ (RegressionTree.Best.init.score > r.score) := by
        show ¬ ((-1 : ℚ) > r.score)
        exact not_lt.mpr hge
      rw [if_neg this]
      exact ih (fun i hi => hl i (List.mem_cons_of_mem _ hi))
  apply hfold
  intro i hi
  have := (List.mem_range'.mp hi)
  obtain ⟨k, _, rfl⟩ := this
  omega

theorem best_split_fl_all (fl : ℚ → ℚ) (h : RegressionTree.RTNodeHistogram)
    (minls F nth : Nat) (rate : ℚ) (rand : Nat → Nat) (hrate : 1 ≤ rate) (hnth : 1 ≤ nth) :
    RegressionTree.FirstBest fl h minls F F 0
      (RegressionTree.best_split_fl fl h minls
        (RegressionTree.scanned_features F rate rand) nth) := by
  have hs : RegressionTree.scanned_features F rate rand = List.range F := by
    unfold RegressionTree.scanned_features
    rw [if_neg (not_lt.mpr hrate)]
  have hinv := scan_all_fl_invariant fl h minls F
  rw [hs, best_split_fl_eq_scan fl h minls _ nth hnth
    (firstBest_score_ge fl h minls F F 0 _ hinv)]
  exact hinv

theorem split_choice_exact (p : RegressionTree.Params)
    (nodes : List RegressionTree.RTNode) (root i : Nat) (rate : ℚ) (rand : Nat → Nat)
    (nth : Nat) (nd : RegressionTree.RTNode) (hnode : nodes[i]? = some nd) :
    ((RegressionTree.split p nodes root i rate rand nth).1 = true ↔
      (RegressionTree.split_choice (fun x => x) p nd rate rand nth).isSome = true) ∧
    (∀ f t, RegressionTree.split_choice (fun x => x) p nd rate rand nth = some (f, t) →
      ((RegressionTree.split p nodes root i rate rand nth).2.getD i nd).featureidx = f ∧
      ((RegressionTree.split p nodes root i rate rand nth).2.getD i nd).threshold =
        ((nd.hist.getD RegressionTree.RTNodeHistogram.null).thresholds.getD f []).getD t 0) := by
  have hilt : i < nodes.length := by
    by_contra hcon
    rw [List.getElem?_eq_none (by omega)] at hnode
    exact absurd hnode (by simp)
  have hfalse := split_false_iff_best p nodes root i rate rand nth nd hnode
  have hch : RegressionTree.split_choice (fun x => x) p nd rate rand nth =
      if nd.deviance > 0 then
        (if (RegressionTree.best_split (nd.hist.getD RegressionTree.RTNodeHistogram.null)
            p.minls (RegressionTree.scanned_features p.training_dataset.num_features rate rand)
            nth).score = -1 then none
        else some ((RegressionTree.best_split
            (nd.hist.getD RegressionTree.RTNodeHistogram.null) p.minls
            (RegressionTree.scanned_features p.training_dataset.num_features rate rand)
            nth).featureidx,
          (RegressionTree.best_split
            (nd.hist.getD RegressionTree.RTNodeHistogram.null) p.minls
            (RegressionTree.scanned_features p.training_dataset.num_features rate rand)
            nth).thresholdid))
      else none := rfl
  constructor
  · constructor
    · intro hs
      have hnf : ¬ (nd.deviance ≤ 0 ∨ (RegressionTree.best_split
          (nd.hist.getD RegressionTree.RTNodeHistogram.null) p.minls
          (RegressionTree.scanned_features p.training_dataset.num_features rate rand)
          nth).score = -1) := by
        intro hcon
        rw [hfalse.mpr hcon] at hs
        exact absurd hs (by simp)
      rw [hch, if_pos (by linarith [not_le.mp (fun hle => hnf (Or.inl hle))]),
        if_neg (fun hb => hnf (Or.inr hb))]
      rfl
    · intro hs
      cases hb : (RegressionTree.split p nodes root i rate rand nth).1 with
      | true => rfl
      | false =>
        exfalso
        rcases hfalse.mp hb with hd | hd
        · rw [hch, if_neg (not_lt.mpr hd)] at hs
          exact absurd hs (by simp)
        · rw [hch] at hs
          split_ifs at hs
          all_goals exact absurd hs (by simp)
  · intro f t hft
    have hsome : (RegressionTree.split_choice (fun x => x) p nd rate rand nth).isSome = true := by
      rw [hft]
      rfl
    rw [hch] at hft
    split_ifs at hft with h1 h2
    have hpair := Option.some.inj hft
    have hf : (RegressionTree.best_split (nd.hist.getD RegressionTree.RTNodeHistogram.null)
        p.minls (RegressionTree.scanned_features p.training_dataset.num_features rate rand)
        nth).featureidx = f := congrArg Prod.fst hpair
    have ht : (RegressionTree.best_split (nd.hist.getD RegressionTree.RTNodeHistogram.null)
        p.minls (RegressionTree.scanned_features p.training_dataset.num_features rate rand)
        nth).thresholdid = t := congrArg Prod.snd hpair
    have hsplit : (RegressionTree.split p nodes root i rate rand nth).1 = true := by
      cases hb : (RegressionTree.split p nodes root i rate rand nth).1 with
      | true => rfl
      | false =>
        exfalso
        rcases hfalse.mp hb with hd | hd
        · exact absurd h1 (not_lt.mpr hd)
        · exact h2 hd
    obtain ⟨nd0, nd', l, r, hnode0, hres, _, _, hfeat, hthr, _⟩ :=
      split_true_shape p nodes root i rate rand nth hsplit
    rw [hnode] at hnode0
    have hnd := Option.some.inj hnode0
    subst hnd
    have hget : (RegressionTree.split p nodes root i rate rand nth).2.getD i nd = nd' := by
      rw [hres]
      exact getD_set_append_self nodes i nd' nd [l, r] hilt
    rw [hget, hfeat, hthr, hf, ht]
    exact ⟨rfl, rfl⟩

/-- C6 (as amended).  The decision of `split` with `minls ≥ 1`, sequential execution and no
feature sub-sampling (`featuresamplingrate ≥ 1`, as `fit` calls it), for every rounding `fl`
of the `double` operations of the scan: when `split` succeeds, the chosen
(feature, threshold index) is an admissible candidate of the node's histogram
(`c_L ≥ minls` and `c_R ≥ minls`), its computed score is the maximum of the computed scores
of all admissible candidates, and among the candidates of maximal computed score it is the
first seen: the one with the smallest feature index and then the smallest threshold index.
Without rounding the computed score is `s_L²/c_L + s_R²/c_R`, and the decision is the one of
the embedding `split`: it succeeds exactly when `split` returns `true`, and the node records
the chosen feature and the threshold value of the chosen index. -/
theorem split_chooses_first_best (fl : ℚ → ℚ) (p : RegressionTree.Params)
    (nd : RegressionTree.RTNode) (rate : ℚ) (rand : Nat → Nat) (nth f t : Nat)
    (hminls : 1 ≤ p.minls) (hrate : 1 ≤ rate) (hnth : 1 ≤ nth)
    (hsplit : RegressionTree.split_choice fl p nd rate rand nth = some (f, t)) :
    RegressionTree.Admissible (nd.hist.getD RegressionTree.RTNodeHistogram.null) p.minls
      p.training_dataset.num_features f t ∧
    (∀ f' t',
      RegressionTree.Admissible (nd.hist.getD RegressionTree.RTNodeHistogram.null) p.minls
        p.training_dataset.num_features f' t' →
      RegressionTree.computed_score fl (nd.hist.getD RegressionTree.RTNodeHistogram.null) f' t' ≤
        RegressionTree.computed_score fl (nd.hist.getD RegressionTree.RTNodeHistogram.null) f t ∧
      (RegressionTree.computed_score fl (nd.hist.getD RegressionTree.RTNodeHistogram.null) f' t' =
          RegressionTree.computed_score fl (nd.hist.getD RegressionTree.RTNodeHistogram.null)
            f t →
        f < f' ∨ (f = f' ∧ t ≤ t'))) ∧
    (∀ f' t', RegressionTree.computed_score (fun x => x)
        (nd.hist.getD RegressionTree.RTNodeHistogram.null) f' t' =
      RegressionTree.split_score (nd.hist.getD RegressionTree.RTNodeHistogram.null) f' t') ∧
    (∀ (nodes : List RegressionTree.RTNode) (root i : Nat), nodes[i]? = some nd →
      ((RegressionTree.split p nodes root i rate rand nth).1 = true ↔
        (RegressionTree.split_choice (fun x => x) p nd rate rand nth).isSome = true) ∧
      (∀ f0 t0, RegressionTree.split_choice (fun x => x) p nd rate rand nth = some (f0, t0) →
        ((RegressionTree.split p nodes root i rate rand nth).2.getD i nd).featureidx = f0 ∧
        ((RegressionTree.split p nodes root i rate rand nth).2.getD i nd).threshold =
          ((nd.hist.getD RegressionTree.RTNodeHistogram.null).thresholds.getD f0 []).getD
            t0 0)) := by
  have hb := best_split_fl_all fl (nd.hist.getD RegressionTree.RTNodeHistogram.null) p.minls
    p.training_dataset.num_features nth rate rand hrate hnth
  have hch : RegressionTree.split_choice fl p nd rate rand nth =
      if nd.deviance > 0 then
        (if (RegressionTree.best_split_fl fl (nd.hist.getD RegressionTree.RTNodeHistogram.null)
            p.minls (RegressionTree.scanned_features p.training_dataset.num_features rate rand)
            nth).score = -1 then none
        else some ((RegressionTree.best_split_fl fl
            (nd.hist.getD RegressionTree.RTNodeHistogram.null) p.minls
            (RegressionTree.scanned_features p.training_dataset.num_features rate rand)
            nth).featureidx,
          (RegressionTree.best_split_fl fl
            (nd.hist.getD RegressionTree.RTNodeHistogram.null) p.minls
            (RegressionTree.scanned_features p.training_dataset.num_features rate rand)
            nth).thresholdid))
      else none := rfl
  rw [hch] at hsplit
  split_ifs at hsplit with h1 h2
  have hpair := Option.some.inj hsplit
  have hf : (RegressionTree.best_split_fl fl (nd.hist.getD RegressionTree.RTNodeHistogram.null)
      p.minls (RegressionTree.scanned_features p.training_dataset.num_features rate rand)
      nth).featureidx = f := congrArg Prod.fst hpair
  have ht : (RegressionTree.best_split_fl fl (nd.hist.getD RegressionTree.RTNodeHistogram.null)
      p.minls (RegressionTree.scanned_features p.training_dataset.num_features rate rand)
      nth).thresholdid = t := congrArg Prod.snd hpair
  refine ⟨?_, ?_, fun f' t' => computed_score_exact _ f' t',
    fun nodes root i hnode => split_choice_exact p nodes root i rate rand nth nd hnode⟩
  · rcases hb with ⟨hinit, _⟩ | ⟨hbA, _, _, _, _⟩
    · exfalso
      apply h2
      rw [hinit]
      rfl
    · rw [hf, ht] at hbA
      exact hbA
  · intro f' t' hA
    rcases hb with ⟨hinit, _⟩ | ⟨_, _, hbs, _, hall⟩
    · exfalso
      apply h2
      rw [hinit]
      rfl
    · obtain ⟨c1, c2⟩ := hall f' t' hA (admissible_before_end hA)
      rw [hbs, hf, ht] at c1 c2
      refine ⟨c1, fun heq => ?_⟩
      have := c2 heq
      unfold RegressionTree.Before at this
      omega

theorem round_even_near (x : ℚ) (n : Int) (h1 : (n : ℚ) - 1 / 2 < x) (h2 : x < (n : ℚ) + 1 / 2) :
    RegressionTree.round_even x = n := by
  unfold RegressionTree.round_even
  by_cases hx : (n : ℚ) ≤ x
  · have hfl : ⌊x⌋ = n := Int.floor_eq_iff.mpr ⟨hx, by linarith⟩
    rw [hfl, if_pos (by linarith)]
  · have hfl : ⌊x⌋ = n - 1 := by
      apply Int.floor_eq_iff.mpr
      push_cast
      constructor <;> linarith
    rw [hfl]
    push_cast
    rw [if_neg (by linarith), if_pos (by linarith)]
    ring

theorem round_even_tie (x : ℚ) (n : Int) (h : x = (n : ℚ) + 1 / 2) (heven : n % 2 = 0) :
    RegressionTree.round_even x = n := by
  unfold RegressionTree.round_even
  have hfl : ⌊x⌋ = n := Int.floor_eq_iff.mpr ⟨by linarith, by linarith⟩
  rw [hfl, if_neg (by linarith), if_neg (by linarith), if_pos heven]

theorem round_double_exponent (x : ℚ) (e : Int) (hlo : (2 : ℚ) ^ e ≤ x)
    (hhi : x < (2 : ℚ) ^ (e + 1)) :
    RegressionTree.round_double x =
      (RegressionTree.round_even (x / (2 : ℚ) ^ (e - 52)) : ℚ) * (2 : ℚ) ^ (e - 52) := by
  have hpos : (0 : ℚ) < x := lt_of_lt_of_le (zpow_pos (by norm_num) e) hlo
  have habs : |x| = x := abs_of_pos hpos
  have hlog : Int.log 2 x = e := by
    apply le_antisymm
    · have := (Int.lt_zpow_iff_log_lt (b := 2) (by norm_num) hpos (x := e + 1)).mp
        (by push_cast; exact hhi)
      omega
    · exact (Int.zpow_le_iff_le_log (b := 2) (by norm_num) hpos).mp (by push_cast; exact hlo)
  unfold RegressionTree.round_double
  rw [if_neg (ne_of_gt hpos), habs, hlog]

theorem round_double_near (x : ℚ) (e n : Int) (hlo : (2 : ℚ) ^ e ≤ x)
    (hhi : x < (2 : ℚ) ^ (e + 1)) (h1 : (n : ℚ) - 1 / 2 < x / (2 : ℚ) ^ (e - 52))
    (h2 : x / (2 : ℚ) ^ (e - 52) < (n : ℚ) + 1 / 2) :
    RegressionTree.round_double x = (n : ℚ) * (2 : ℚ) ^ (e - 52) := by
  rw [round_double_exponent x e hlo hhi, round_even_near _ n h1 h2]

theorem round_double_tie (x : ℚ) (e n : Int) (hlo : (2 : ℚ) ^ e ≤ x)
    (hhi : x < (2 : ℚ) ^ (e + 1)) (h : x / (2 : ℚ) ^ (e - 52) = (n : ℚ) + 1 / 2)
    (heven : n % 2 = 0) :
    RegressionTree.round_double x = (n : ℚ) * (2 : ℚ) ^ (e - 52) := by
  rw [round_double_exponent x e hlo hhi, round_even_tie _ n h heven]

theorem round_double_one : RegressionTree.round_double 1 = 1 := by
  rw [round_double_near 1 0 4503599627370496 (by norm_num) (by norm_num) (by norm_num)
    (by norm_num)]
  norm_num

theorem round_double_four : RegressionTree.round_double 4 = 4 := by
  rw [round_double_near 4 2 4503599627370496 (by norm_num) (by norm_num) (by norm_num)
    (by norm_num)]
  norm_num

theorem round_double_sixteen : RegressionTree.round_double 16 = 16 := by
  rw [round_double_near 16 4 4503599627370496 (by norm_num) (by norm_num) (by norm_num)
    (by norm_num)]
  norm_num

theorem round_double_twentyfive : RegressionTree.round_double 25 = 25 := by
  rw [round_double_near 25 4 7036874417766400 (by norm_num) (by norm_num) (by norm_num)
    (by norm_num)]
  norm_num

theorem round_double_right_first :
    RegressionTree.round_double (16 / 3) = 6004799503160661 / 1125899906842624 := by
  rw [round_double_near (16 / 3) 2 6004799503160661 (by norm_num) (by norm_num) (by norm_num)
    (by norm_num)]
  norm_num

theorem round_double_score_first :
    RegressionTree.round_double (4 + 6004799503160661 / 1125899906842624) =
      5254199565265578 / 562949953421312 := by
  rw [round_double_tie (4 + 6004799503160661 / 1125899906842624) 3 5254199565265578
    (by norm_num) (by norm_num) (by norm_num) (by norm_num)]
  norm_num

theorem round_double_left_second :
    RegressionTree.round_double (25 / 3) = 4691249611844267 / 562949953421312 := by
  rw [round_double_near (25 / 3) 3 4691249611844267 (by norm_num) (by norm_num) (by norm_num)
    (by norm_num)]
  norm_num

theorem round_double_score_second :
    RegressionTree.round_double (4691249611844267 / 562949953421312 + 1) =
      5254199565265579 / 562949953421312 := by
  rw [round_double_near (4691249611844267 / 562949953421312 + 1) 3 5254199565265579
    (by norm_num) (by norm_num) (by norm_num) (by norm_num)]
  norm_num
theorem tie_scanned : RegressionTree.scanned_features 1 1 (fun _ => 0) = [0] := by
  unfold RegressionTree.scanned_features
  rw [if_neg (by norm_num)]
  rfl

theorem tie_best_double :
    RegressionTree.best_split_fl RegressionTree.round_double RegressionTree.tie_hist 1 [0] 1 =
      { score := 5254199565265579 / 562949953421312, featureidx := 0, thresholdid := 1 } := by
  have e1 : (2 : ℚ) * 2 = 4 := by norm_num
  have e2 : (6 : ℚ) - 2 = 4 := by norm_num
  have e3 : (4 : ℚ) * 4 = 16 := by norm_num
  have e4 : (5 : ℚ) * 5 = 25 := by norm_num
  have e5 : (6 : ℚ) - 5 = 1 := by norm_num
  have e6 : (1 : ℚ) * 1 = 1 := by norm_num
  simp [RegressionTree.best_split_fl, RegressionTree.scan_feature_fl,
    RegressionTree.scan_threshold_fl, RegressionTree.tie_hist, RegressionTree.usub,
    List.range_succ, RegressionTree.Best.init]
  simp only [e1, e2, e3, e4, e5, e6, round_double_one, round_double_four,
    round_double_sixteen, round_double_twentyfive, round_double_right_first,
    round_double_score_first, round_double_left_second, round_double_score_second]
  norm_num

theorem tie_best_exact :
    RegressionTree.best_split_fl (fun x => x) RegressionTree.tie_hist 1 [0] 1 =
      { score := 28 / 3, featureidx := 0, thresholdid := 0 } := by
  simp [RegressionTree.best_split_fl, RegressionTree.scan_feature_fl,
    RegressionTree.scan_threshold_fl, RegressionTree.tie_hist, RegressionTree.usub,
    List.range_succ, RegressionTree.Best.init]
  norm_num

theorem tie_choice_double :
    RegressionTree.split_choice RegressionTree.round_double RegressionTree.tie_params
      RegressionTree.tie_root 1 (fun _ => 0) 1 = some (0, 1) := by
  have hdev : RegressionTree.tie_root.deviance > 0 := dbl_max_pos
  have hh : RegressionTree.tie_root.hist.getD RegressionTree.RTNodeHistogram.null =
      RegressionTree.tie_hist := rfl
  have hF : RegressionTree.tie_params.training_dataset.num_features = 1 := rfl
  have hm : RegressionTree.tie_params.minls = 1 := rfl
  unfold RegressionTree.split_choice
  simp only []
  rw [if_pos hdev, hh, hF, hm, tie_scanned, tie_best_double]
  norm_num

theorem tie_choice_exact :
    RegressionTree.split_choice (fun x => x) RegressionTree.tie_params
      RegressionTree.tie_root 1 (fun _ => 0) 1 = some (0, 0) := by
  have hdev : RegressionTree.tie_root.deviance > 0 := dbl_max_pos
  have hh : RegressionTree.tie_root.hist.getD RegressionTree.RTNodeHistogram.null =
      RegressionTree.tie_hist := rfl
  have hF : RegressionTree.tie_params.training_dataset.num_features = 1 := rfl
  have hm : RegressionTree.tie_params.minls = 1 := rfl
  unfold RegressionTree.split_choice
  simp only []
  rw [if_pos hdev, hh, hF, hm, tie_scanned, tie_best_exact]
  norm_num

theorem tie_scores_exact :
    RegressionTree.split_score RegressionTree.tie_hist 0 0 = 28 / 3 ∧
    RegressionTree.split_score RegressionTree.tie_hist 0 1 = 28 / 3 := by
  constructor <;>
  · simp [RegressionTree.split_score, RegressionTree.s_L, RegressionTree.s_R,
      RegressionTree.s_total, RegressionTree.c_L, RegressionTree.c_R, RegressionTree.c_total,
      RegressionTree.usub, RegressionTree.tie_hist]
    norm_num

theorem tie_scores_double :
    RegressionTree.computed_score RegressionTree.round_double RegressionTree.tie_hist 0 0 =
      5254199565265578 / 562949953421312 ∧
    RegressionTree.computed_score RegressionTree.round_double RegressionTree.tie_hist 0 1 =
      5254199565265579 / 562949953421312 := by
  have e1 : (2 : ℚ) * 2 = 4 := by norm_num
  have e2 : (6 : ℚ) - 2 = 4 := by norm_num
  have e3 : (4 : ℚ) * 4 = 16 := by norm_num
  have e4 : (5 : ℚ) * 5 = 25 := by norm_num
  have e5 : (6 : ℚ) - 5 = 1 := by norm_num
  have e6 : (1 : ℚ) * 1 = 1 := by norm_num
  constructor <;>
  · simp [RegressionTree.computed_score, RegressionTree.s_L,
      RegressionTree.s_total, RegressionTree.c_L, RegressionTree.c_R, RegressionTree.c_total,
      RegressionTree.usub, RegressionTree.tie_hist]
    simp only [e1, e2, e3, e4, e5, e6, round_double_one, round_double_four,
      round_double_sixteen, round_double_twentyfive, round_double_right_first,
      round_double_score_first, round_double_left_second, round_double_score_second]

/-- C6, a concrete instance in `double` arithmetic: four samples with the counts `1, 3, 4`
and label sums `2, 5, 6` of the single feature, `minls = 1`.  The candidates of the thresholds
`0` and `1` have the same exact score `28/3`; rounded to `double`s the first is
`5254199565265578 / 2^49` and the second `5254199565265579 / 2^49`, one unit in the last place
larger, so the scan takes threshold `1`, which is admissible and of maximal computed score.
Without rounding the scan sees a tie and keeps threshold `0`. -/
theorem split_chooses_first_best_witness :
    1 ≤ RegressionTree.tie_params.minls ∧ (1 : ℚ) ≤ 1 ∧ 1 ≤ 1 ∧
    RegressionTree.split_choice RegressionTree.round_double RegressionTree.tie_params
      RegressionTree.tie_root 1 (fun _ => 0) 1 = some (0, 1) ∧
    RegressionTree.Admissible RegressionTree.tie_hist 1 1 0 1 ∧
    (∀ f' t', RegressionTree.Admissible RegressionTree.tie_hist 1 1 f' t' →
      RegressionTree.computed_score RegressionTree.round_double RegressionTree.tie_hist f' t' ≤
        RegressionTree.computed_score RegressionTree.round_double RegressionTree.tie_hist 0 1) ∧
    RegressionTree.computed_score RegressionTree.round_double RegressionTree.tie_hist 0 0 =
      5254199565265578 / 562949953421312 ∧
    RegressionTree.computed_score RegressionTree.round_double RegressionTree.tie_hist 0 1 =
      5254199565265579 / 562949953421312 ∧
    RegressionTree.split_score RegressionTree.tie_hist 0 0 = 28 / 3 ∧
    RegressionTree.split_score RegressionTree.tie_hist 0 1 = 28 / 3 ∧
    RegressionTree.split_choice (fun x => x) RegressionTree.tie_params
      RegressionTree.tie_root 1 (fun _ => 0) 1 = some (0, 0) := by
  have h := split_chooses_first_best RegressionTree.round_double RegressionTree.tie_params
    RegressionTree.tie_root 1 (fun _ => 0) 1 0 1 (le_refl _) (le_refl _) (le_refl _)
    tie_choice_double
  exact ⟨le_refl _, le_refl _, le_refl _, tie_choice_double, h.1,
    fun f' t' hA => (h.2.1 f' t' hA).1, tie_scores_double.1, tie_scores_double.2,
    tie_scores_exact.1, tie_scores_exact.2, tie_choice_exact⟩
